import Mathlib

/-!
# BaseDefenseGame: `ARandomMapGenerator`

A shallow embedding of the block store, the coordinate transforms, the per-chunk
instance registry and the damage pipeline of `src/ARandomMapGenerator.cpp`.

Conventions of the embedding
* `int32` values are unbounded `Int`; C++ `/` and `%` on integers are `Int.tdiv` and
  `Int.tmod` (truncation towards zero).
* `float` values are exact rationals `ℚ`; `FMath::FloorToInt` is `Int.floor`.
* `TMap<K,V>` is an association list in iteration order: `Add` overwrites the value of
  an existing key in place and appends a new key, `Remove` deletes the key, and a
  range-based `for` visits the pairs front to back.
* A failed `check` (`TMap::operator[]` on a missing key) is the result `none`.
-/

namespace BaseDefense

/-! ## Engine containers -/

namespace TMap

/-- `TMap::Find`: the value stored under `k`, if any. -/
def Find {K V : Type} [DecidableEq K] : List (K × V) → K → Option V
  | [], _ => none
  | (k1, v) :: m, k => if k1 = k then some v else Find m k

/-- `TMap::Contains`. -/
def Contains {K V : Type} [DecidableEq K] (m : List (K × V)) (k : K) : Bool :=
  (Find m k).isSome

/-- `TMap::Add`: overwrite in place when the key exists, append otherwise. -/
def Add {K V : Type} [DecidableEq K] : List (K × V) → K → V → List (K × V)
  | [], k, v => [(k, v)]
  | (k1, v1) :: m, k, v => if k1 = k then (k, v) :: m else (k1, v1) :: Add m k v

/-- `TMap::Remove`: drop every pair stored under `k`. -/
def Remove {K V : Type} [DecidableEq K] (m : List (K × V)) (k : K) : List (K × V) :=
  m.filter (fun p => decide (p.1 ≠ k))

end TMap

/-! ## Data model -/

/-- Block kinds, in the order of `enum class EBlockType : uint8`. -/
inductive EBlockType where
  | Air
  | Grass
  | Dirt
  | Stone
  | Wood
  | Leaves
  | Turret
  | Trap
  | Production
  | Storage
  | InvisibleWall
  | MAX
deriving DecidableEq

/-- World position or instance location (`FVector`). -/
structure FVector where
  X : ℚ
  Y : ℚ
  Z : ℚ
deriving DecidableEq

/-- Modelled from the spec: `FChunkCoord`, the integer pair (X,Y) identifying a chunk;
its declaration is not part of the sources. -/
structure FChunkCoord where
  X : Int
  Y : Int
deriving DecidableEq

/-- Modelled from the spec: `FBlockPosition`, the integer triple (X,Y,Z) relative to the
owning chunk; its declaration is not part of the sources. -/
structure FBlockPosition where
  X : Int
  Y : Int
  Z : Int
deriving DecidableEq

/-- Modelled from the spec: `FWorldBlockKey`, the composite of chunk coordinate and local
block position that keys the block store and the damage table. -/
structure FWorldBlockKey where
  ChunkCoord : FChunkCoord
  BlockPos : FBlockPosition
deriving DecidableEq

/-- Modelled from the spec: `FBlockTypePositionKey`, the (block type, local position)
key of the per-chunk instance-index mapping. -/
structure FBlockTypePositionKey where
  BlockType : EBlockType
  BlockPos : FBlockPosition
deriving DecidableEq

/-- The value of a default-constructed `FBlockTypePositionKey` (its constructor is not
part of the sources; assumed to be Air at the origin). -/
def FBlockTypePositionKey.Default : FBlockTypePositionKey :=
  ⟨EBlockType.Air, ⟨0, 0, 0⟩⟩

/-- Damage record of `struct FBlockDamageData`; the instigator, causer and damage-type
pointers carry no behaviour and are left out. -/
structure FBlockDamageData where
  CurrentHealth : ℚ
  MaxHealth : ℚ
deriving DecidableEq

/-- Constructor `FBlockDamageData(float InMax)`. -/
def FBlockDamageData.ofMax (InMax : ℚ) : FBlockDamageData :=
  ⟨InMax, InMax⟩

/-- Modelled from the spec: `FChunkInfo`, the per-chunk generation-completion flag. -/
structure FChunkInfo where
  bIsGenerated : Bool
deriving DecidableEq

/-- Modelled from the spec: `FChunkISMData`, the registry entry of one chunk. One
instance batch per block type (the list of instance locations of the instanced mesh
component, rotation always zero), the (type,pos) to instance-index mapping and the
per-type instance count. -/
structure FChunkISMData where
  ChunkISMs : List (EBlockType × List FVector)
  InstanceIndexMapping : List (FBlockTypePositionKey × Int)
  InstanceCounts : List (EBlockType × Int)
deriving DecidableEq

/-- Modelled from the spec: `FCaveLocation`, a cave registry entry. -/
structure FCaveLocation where
  CaveEntranceLocation : FVector
  CaveSpawnLocation : FVector
  EdgeIndex : Int
  EdgePosition : ℚ
deriving DecidableEq

/-! ## Instance batch primitive -/

namespace ISM

/-- `GetInstanceCount`. -/
def GetInstanceCount (b : List FVector) : Int := (b.length : Int)

/-- `IsValidInstance`: the index addresses a slot of the batch. -/
def IsValidIndex (b : List FVector) (i : Int) : Bool :=
  decide (0 ≤ i) && decide (i < (b.length : Int))

/-- `GetInstanceTransform(i, Out)`: `Out` keeps its previous value on an invalid index. -/
def GetInstanceTransform (b : List FVector) (i : Int) (Out : FVector) : FVector :=
  if IsValidIndex b i then b.getD i.toNat Out else Out

/-- `UpdateInstanceTransform(i, T)`: no effect on an invalid index. -/
def UpdateInstanceTransform (b : List FVector) (i : Int) (T : FVector) : List FVector :=
  if IsValidIndex b i then b.set i.toNat T else b

/-- `AddInstance(T)`: append; the returned index is the previous count. -/
def AddInstance (b : List FVector) (T : FVector) : List FVector × Int :=
  (b ++ [T], (b.length : Int))

/-- `RemoveInstance(i)`: no effect on an invalid index. -/
def RemoveInstance (b : List FVector) (i : Int) : List FVector :=
  if IsValidIndex b i then b.eraseIdx i.toNat else b

end ISM

/-- Location of a default-constructed `FTransform`. -/
def FVector.Zero : FVector := ⟨0, 0, 0⟩

/-! ## Engine functions -/

/-- The engine functions the generator calls and whose code is not part of the
repository: Perlin noise, sine, square root, power, the constant PI, the seeded random
stream (`StreamInitialize` is the state after `Initialize(Seed)`; `StreamGetFraction`
and `StreamRandRange` return the drawn value and the next state) and the actor spawn
(the location of the spawned actor, if it was spawned). -/
structure FEngine where
  PerlinNoise2D : ℚ → ℚ → ℚ
  Sin : ℚ → ℚ
  Sqrt : ℚ → ℚ
  Pow : ℚ → ℚ → ℚ
  PI : ℚ
  StreamInitialize : Int → Int
  StreamGetFraction : Int → ℚ × Int
  StreamRandRange : Int → Int → Int → Int × Int
  SpawnActor : FVector → Option FVector

namespace FMath

/-- `FMath::RoundToInt(F)`, which is `FloorToInt(F + 0.5f)`. -/
def RoundToInt (F : ℚ) : Int := Int.floor (F + 1 / 2)

/-- `FMath::Clamp(X, Min, Max)`: `X < Min ? Min : (X < Max ? X : Max)`. -/
def Clamp {α : Type} [LinearOrder α] (X Min Max : α) : α :=
  if X < Min then Min else if X < Max then X else Max

/-- `FMath::Max(A, B)`: `A >= B ? A : B`. -/
def Max {α : Type} [LinearOrder α] (A B : α) : α :=
  if A ≥ B then A else B

end FMath

/-! ## Single-precision arithmetic

The coordinate transforms, the damage arithmetic and the nearest-block search compute in
C++ `float`. Their model rounds the exact value of every such operation to binary32.
Vector components are single precision as well. The arithmetic of the generation passes
on noise values stays exact, the noise functions being parameters of the model. -/

namespace F32

/-- `2 ^ e` for an integer exponent. -/
def Pow2 (e : Int) : ℚ := (2 : ℚ) ^ e

/-- The position of the leading binary digit of `n` (`⌊log₂ n⌋`, 0 for `n < 2`), computed
by halving at most `Fuel` times. -/
def Log2Nat : Nat → Nat → Nat
  | 0, _ => 0
  | Fuel + 1, n => if n < 2 then 0 else Log2Nat Fuel (n / 2) + 1

/-- The integer `⌊log₂ a⌋` of a positive rational. -/
def Log2 (a : ℚ) : Int :=
  let k : Int := (Log2Nat a.num.natAbs a.num.natAbs : Int) - (Log2Nat a.den a.den : Int)
  if Pow2 k ≤ a then k else k - 1

/-- Rounding to the nearest integer, ties to the even one. -/
def RoundHalfEven (s : ℚ) : Int :=
  let f := Int.floor s
  if s - f < 1 / 2 then f
  else if 1 / 2 < s - f then f + 1
  else if f % 2 = 0 then f else f + 1

/-- The exponent of the unit in the last place of the binary32 format at `q`: 24
significant bits, least exponent -149 (subnormal numbers included). -/
def Exponent (q : ℚ) : Int := max (Log2 |q| - 23) (-149)

/-- The value of a C++ `float` expression whose exact value is `q`: rounding to the
nearest binary32 number, ties to even. Overflow to infinity is not modelled (values of
magnitude `2 ^ 128` and more do not occur in the statements below). -/
def Round (q : ℚ) : ℚ :=
  if q = 0 then 0 else (RoundHalfEven (q / Pow2 (Exponent q)) : ℚ) * Pow2 (Exponent q)

end F32

/-- The values taken by `i` in `for (int32 i = Lo; i < Hi; i++)`. -/
def ForRange (Lo Hi : Int) : List Int :=
  (List.range (Hi - Lo).toNat).map (fun i => Lo + (i : Int))

/-- A loop over `Items` that threads the state through `Body`; a failed check inside
the body ends the run. -/
def ForEach {σ α : Type} (Body : σ → α → Option σ) : List α → σ → Option σ
  | [], s => some s
  | a :: Items, s =>
    match Body s a with
    | none => none
    | some s1 => ForEach Body Items s1

/-! ## The generator actor -/

/-- The fields of `class ARandomMapGenerator` that the embedded functions read or
write. Settings whose declarations are missing from the header are typed after their
use in the `.cpp` file. `Authority` is the value of `HasAuthority()`; `BlockDataTable`
holds the `Durability` of each row, keyed by block type; `SpawnedBaseCore` holds the
location of the spawned actor; `RandomStream` is the state of the seeded stream and
`OnWorldGenerationCompleteCount` counts the broadcasts of the generic completion
event. -/
structure ARandomMapGenerator where
  Authority : Bool
  WorldSizeInChunks : Int
  ChunkSize : Int
  ChunkHeight : Int
  BlockSize : ℚ
  BlockSpacing : ℚ
  MapFlatness : ℚ
  TreeDensity : ℚ
  BaseHeight : Int
  HeightVariation : ℚ
  NoiseScale : ℚ
  Seed : Int
  BlockDataTable : Option (List (EBlockType × ℚ))
  BaseCoreCenter : ℚ
  BaseCoreSize : Int
  BaseCoreBP : Bool
  SpawnedBaseCore : Option FVector
  bCreateMountainBorders : Bool
  MountainBorderWidth : Int
  MountainMinHeight : Int
  MountainMaxHeight : Int
  MountainNoiseScale : ℚ
  CavesPerEdge : Int
  CaveWidth : Int
  CaveHeight : Int
  CaveDepth : Int
  bSealCaves : Bool
  CaveRockyFormationRadius : Int
  MaxExtraRockHeight : Int
  RockFormationDensity : ℚ
  bCreateRockyFormations : Bool
  bNaturalCaveTunnels : Bool
  CaveTunnelDeviation : Int
  CaveHeightVariation : Int
  CaveFloorVariation : Int
  CaveSpawnDepthRatio : ℚ
  bAIDebugMode : Bool
  DebugWallDistance : Int
  DebugWallHeight : Int
  DebugWallThickness : Int
  EnemySpawnDistanceFromEdge : ℚ
  BlocksData : List (FWorldBlockKey × EBlockType)
  ChunksInfo : List (FChunkCoord × FChunkInfo)
  BlockDamageData : List (FWorldBlockKey × FBlockDamageData)
  ChunkISMSystem : List (FChunkCoord × FChunkISMData)
  CaveLocations : List FCaveLocation
  RandomStream : Int
  bIsGeneratingWorld : Bool
  bHasGeneratedWorld : Bool
  bWorldGenerationComplete : Bool
  bServerGenerationComplete : Bool
  bClientGenerationComplete : Bool
  bEventAlreadyBroadcast : Bool
  ChunksToGenerate : Int
  ChunksGenerated : Int
  OnWorldGenerationCompleteCount : Nat
deriving DecidableEq

namespace ARandomMapGenerator

/-! ### Coordinate transforms -/

/-- `ARandomMapGenerator::WorldToChunkCoord`. Every `float` operation rounds to binary32;
`ChunkSize * EffectiveBlockSize` converts the integer first. -/
def WorldToChunkCoord (g : ARandomMapGenerator) (WorldLocation : FVector) : FChunkCoord :=
  let EffectiveBlockSize : ℚ := F32.Round (g.BlockSize + g.BlockSpacing)
  let Epsilon : ℚ := F32.Round (1 / 1000)
  let ChunkX : Int := Int.floor (F32.Round (F32.Round (WorldLocation.X + Epsilon)
    / F32.Round (F32.Round (g.ChunkSize : ℚ) * EffectiveBlockSize)))
  let ChunkY : Int := Int.floor (F32.Round (F32.Round (WorldLocation.Y + Epsilon)
    / F32.Round (F32.Round (g.ChunkSize : ℚ) * EffectiveBlockSize)))
  ⟨ChunkX, ChunkY⟩

/-- The absolute block index `FloorToInt((World + Epsilon) / EffectiveBlockSize)` that
`WorldToBlockPosition` computes for one coordinate of the world location. -/
def AbsBlockOf (g : ARandomMapGenerator) (World : ℚ) : Int :=
  let EffectiveBlockSize : ℚ := F32.Round (g.BlockSize + g.BlockSpacing)
  let Epsilon : ℚ := F32.Round (1 / 1000)
  Int.floor (F32.Round (F32.Round (World + Epsilon) / EffectiveBlockSize))

/-- `ARandomMapGenerator::WorldToBlockPosition`. -/
def WorldToBlockPosition (g : ARandomMapGenerator) (WorldLocation : FVector) : FBlockPosition :=
  let AbsBlockX : Int := g.AbsBlockOf WorldLocation.X
  let AbsBlockY : Int := g.AbsBlockOf WorldLocation.Y
  let BlockZ : Int := g.AbsBlockOf WorldLocation.Z
  let ChunkX : Int :=
    Int.floor (F32.Round (F32.Round (AbsBlockX : ℚ) / F32.Round (g.ChunkSize : ℚ)))
  let ChunkY : Int :=
    Int.floor (F32.Round (F32.Round (AbsBlockY : ℚ) / F32.Round (g.ChunkSize : ℚ)))
  let LocalBlockX : Int := AbsBlockX - ChunkX * g.ChunkSize
  let LocalBlockY : Int := AbsBlockY - ChunkY * g.ChunkSize
  ⟨LocalBlockX, LocalBlockY, BlockZ⟩

/-- The world coordinate `AbsBlock * EffectiveBlockSize + (BlockSize / 2.0f)` that
`BlockToWorldPosition` computes for one absolute block index. -/
def BlockCentreOf (g : ARandomMapGenerator) (AbsBlock : Int) : ℚ :=
  let EffectiveBlockSize : ℚ := F32.Round (g.BlockSize + g.BlockSpacing)
  F32.Round (F32.Round (F32.Round (AbsBlock : ℚ) * EffectiveBlockSize)
    + F32.Round (g.BlockSize / 2))

/-- `ARandomMapGenerator::BlockToWorldPosition`. -/
def BlockToWorldPosition (g : ARandomMapGenerator) (ChunkCoord : FChunkCoord)
    (BlockPos : FBlockPosition) : FVector :=
  let AbsBlockX : Int := ChunkCoord.X * g.ChunkSize + BlockPos.X
  let AbsBlockY : Int := ChunkCoord.Y * g.ChunkSize + BlockPos.Y
  ⟨g.BlockCentreOf AbsBlockX, g.BlockCentreOf AbsBlockY, g.BlockCentreOf BlockPos.Z⟩

/-! ### Block store -/

/-- `ARandomMapGenerator::SetBlockInternalWithoutReplication`. -/
def SetBlockInternalWithoutReplication (g : ARandomMapGenerator) (ChunkCoord : FChunkCoord)
    (BlockPos : FBlockPosition) (BlockType : EBlockType) : ARandomMapGenerator :=
  let Key : FWorldBlockKey := ⟨ChunkCoord, BlockPos⟩
  if BlockType = EBlockType.Air then
    { g with BlocksData := TMap.Remove g.BlocksData Key }
  else
    { g with BlocksData := TMap.Add g.BlocksData Key BlockType }

/-- `ARandomMapGenerator::GetBlockInternal`. -/
def GetBlockInternal (g : ARandomMapGenerator) (ChunkCoord : FChunkCoord)
    (BlockPos : FBlockPosition) : EBlockType :=
  let Key : FWorldBlockKey := ⟨ChunkCoord, BlockPos⟩
  match TMap.Find g.BlocksData Key with
  | some BlockType => BlockType
  | none => EBlockType.Air

/-- A run of `SetBlockInternalWithoutReplication` calls, first pair first. -/
def SetBlocks (g : ARandomMapGenerator) : List (FWorldBlockKey × EBlockType) → ARandomMapGenerator
  | [] => g
  | w :: ws => SetBlocks (g.SetBlockInternalWithoutReplication w.1.ChunkCoord w.1.BlockPos w.2) ws

/-- `ARandomMapGenerator::IsChunkGenerated`. -/
def IsChunkGenerated (g : ARandomMapGenerator) (ChunkCoord : FChunkCoord) : Bool :=
  match TMap.Find g.ChunksInfo ChunkCoord with
  | some ChunkInfo => ChunkInfo.bIsGenerated
  | none => false

/-! ### Instance registry -/

/-- The block types `static_cast<EBlockType>(TypeIdx)` for `1 ≤ TypeIdx < MAX`, in
loop order. -/
def InstancedBlockTypes : List EBlockType :=
  [EBlockType.Grass, EBlockType.Dirt, EBlockType.Stone, EBlockType.Wood, EBlockType.Leaves,
   EBlockType.Turret, EBlockType.Trap, EBlockType.Production, EBlockType.Storage,
   EBlockType.InvisibleWall]

/-- The chunk data built by the loop of `InitializeChunkISMs`: an empty batch and a
zero count for every block type from Grass to InvisibleWall. -/
def NewChunkData : FChunkISMData :=
  { ChunkISMs := InstancedBlockTypes.foldl (fun m t => TMap.Add m t []) []
    InstanceIndexMapping := []
    InstanceCounts := InstancedBlockTypes.foldl (fun m t => TMap.Add m t 0) [] }

/-- `ARandomMapGenerator::InitializeChunkISMs`. -/
def InitializeChunkISMs (g : ARandomMapGenerator) (ChunkCoord : FChunkCoord) :
    ARandomMapGenerator :=
  if TMap.Contains g.ChunkISMSystem ChunkCoord then g
  else { g with ChunkISMSystem := TMap.Add g.ChunkISMSystem ChunkCoord NewChunkData }

/-- The first key, in iteration order, whose value is `LastIndex`; the
default-constructed key when the loop finds none. -/
def FindLastKey (m : List (FBlockTypePositionKey × Int)) (LastIndex : Int) :
    FBlockTypePositionKey :=
  match m.find? (fun Pair => decide (Pair.2 = LastIndex)) with
  | some Pair => Pair.1
  | none => FBlockTypePositionKey.Default

/-- `ARandomMapGenerator::SwapRemoveInstance` on the batch `ChunkISM` and the mapping of
`ChunkData`. The result holds the batch, the mapping and the returned flag; it is
`none` when `InstanceIndexMapping[LastKey]` addresses a missing key. -/
def SwapRemoveInstance (ChunkISM : List FVector) (Mapping : List (FBlockTypePositionKey × Int))
    (KeyToRemove : FBlockTypePositionKey) :
    Option (List FVector × List (FBlockTypePositionKey × Int) × Bool) :=
  match TMap.Find Mapping KeyToRemove with
  | none => some (ChunkISM, Mapping, false)
  | some RemoveIndex =>
    let LastIndex : Int := ISM.GetInstanceCount ChunkISM - 1
    if RemoveIndex ≠ LastIndex then
      let LastTransform := ISM.GetInstanceTransform ChunkISM LastIndex FVector.Zero
      let ChunkISM1 := ISM.UpdateInstanceTransform ChunkISM RemoveIndex LastTransform
      let LastKey := FindLastKey Mapping LastIndex
      if TMap.Contains Mapping LastKey then
        let Mapping1 := TMap.Add Mapping LastKey RemoveIndex
        some (ISM.RemoveInstance ChunkISM1 LastIndex, TMap.Remove Mapping1 KeyToRemove, true)
      else none
    else
      some (ISM.RemoveInstance ChunkISM LastIndex, TMap.Remove Mapping KeyToRemove, true)

/-- `ARandomMapGenerator::UpdateBlockInstance` (the spec's addInstance). -/
def UpdateBlockInstance (g : ARandomMapGenerator) (ChunkCoord : FChunkCoord)
    (BlockPos : FBlockPosition) (BlockType : EBlockType) : Option ARandomMapGenerator :=
  if BlockType = EBlockType.Air then some g
  else
    let g1 := if TMap.Contains g.ChunkISMSystem ChunkCoord then g
      else InitializeChunkISMs g ChunkCoord
    match TMap.Find g1.ChunkISMSystem ChunkCoord with
    | none => none
    | some ChunkData =>
      match TMap.Find ChunkData.ChunkISMs BlockType with
      | none => some g1
      | some ChunkISM =>
        let WorldPosition := g1.BlockToWorldPosition ChunkCoord BlockPos
        let Added := ISM.AddInstance ChunkISM WorldPosition
        let MappingKey : FBlockTypePositionKey := ⟨BlockType, BlockPos⟩
        match TMap.Find ChunkData.InstanceCounts BlockType with
        | none => none
        | some Count =>
          let ChunkData1 : FChunkISMData :=
            { ChunkISMs := TMap.Add ChunkData.ChunkISMs BlockType Added.1
              InstanceIndexMapping := TMap.Add ChunkData.InstanceIndexMapping MappingKey Added.2
              InstanceCounts := TMap.Add ChunkData.InstanceCounts BlockType (Count + 1) }
          some { g1 with ChunkISMSystem := TMap.Add g1.ChunkISMSystem ChunkCoord ChunkData1 }

/-- `ARandomMapGenerator::RemoveBlockInstance` (the spec's removeInstance). -/
def RemoveBlockInstance (g : ARandomMapGenerator) (ChunkCoord : FChunkCoord)
    (BlockPos : FBlockPosition) (BlockType : EBlockType) : Option ARandomMapGenerator :=
  if BlockType = EBlockType.Air then some g
  else
    match TMap.Find g.ChunkISMSystem ChunkCoord with
    | none => some g
    | some ChunkData =>
      match TMap.Find ChunkData.ChunkISMs BlockType with
      | none => some g
      | some ChunkISM =>
        let MappingKey : FBlockTypePositionKey := ⟨BlockType, BlockPos⟩
        match TMap.Find ChunkData.InstanceIndexMapping MappingKey with
        | none => some g
        | some _ =>
          match SwapRemoveInstance ChunkISM ChunkData.InstanceIndexMapping MappingKey with
          | none => none
          | some (ChunkISM1, Mapping1, Removed) =>
            let Counts1 : Option (List (EBlockType × Int)) :=
              if Removed then
                match TMap.Find ChunkData.InstanceCounts BlockType with
                | none => none
                | some Count => some (TMap.Add ChunkData.InstanceCounts BlockType (Count - 1))
              else some ChunkData.InstanceCounts
            match Counts1 with
            | none => none
            | some Counts =>
              let ChunkData1 : FChunkISMData :=
                { ChunkISMs := TMap.Add ChunkData.ChunkISMs BlockType ChunkISM1
                  InstanceIndexMapping := Mapping1
                  InstanceCounts := Counts }
              some { g with ChunkISMSystem := TMap.Add g.ChunkISMSystem ChunkCoord ChunkData1 }

/-! ### Mutation and damage pipeline -/

/-- The local bounds test shared by the position-based entry points:
`BlockPos.X < 0 || BlockPos.X >= ChunkSize || ... || BlockPos.Z >= ChunkHeight`. -/
def IsOutsideChunk (g : ARandomMapGenerator) (BlockPos : FBlockPosition) : Bool :=
  decide (BlockPos.X < 0) || decide (BlockPos.X ≥ g.ChunkSize) ||
  decide (BlockPos.Y < 0) || decide (BlockPos.Y ≥ g.ChunkSize) ||
  decide (BlockPos.Z < 0) || decide (BlockPos.Z ≥ g.ChunkHeight)

/-- The max-health lookup of the damage functions: 100 unless the data table exists and
has a row for the block type, whose `Durability` is then used. -/
def LookupMaxHealth (g : ARandomMapGenerator) (BlockType : EBlockType) : ℚ :=
  match g.BlockDataTable with
  | none => 100
  | some Table =>
    match TMap.Find Table BlockType with
    | some Durability => Durability
    | none => 100

/-- The health of a block of type `BlockType` before a hit: the health of its damage
record, or the max health looked up for its type when it has no record yet. -/
def CurrentHealthOf (g : ARandomMapGenerator) (Key : FWorldBlockKey) (BlockType : EBlockType) : ℚ :=
  match TMap.Find g.BlockDamageData Key with
  | some Data => Data.CurrentHealth
  | none => g.LookupMaxHealth BlockType

/-- `ARandomMapGenerator::MulticastUpdateBlock_Implementation`, the body that runs on
every peer that receives the update (on the authority it runs inside the call). -/
def MulticastUpdateBlock_Implementation (g : ARandomMapGenerator) (ChunkCoord : FChunkCoord)
    (BlockPos : FBlockPosition) (BlockType : EBlockType) : Option ARandomMapGenerator :=
  let OldBlockType := g.GetBlockInternal ChunkCoord BlockPos
  let g1 := g.SetBlockInternalWithoutReplication ChunkCoord BlockPos BlockType
  if !g1.Authority then
    let Removed : Option ARandomMapGenerator :=
      if OldBlockType ≠ EBlockType.Air ∧ OldBlockType ≠ BlockType then
        g1.RemoveBlockInstance ChunkCoord BlockPos OldBlockType
      else some g1
    match Removed with
    | none => none
    | some g2 =>
      if BlockType ≠ EBlockType.Air then g2.UpdateBlockInstance ChunkCoord BlockPos BlockType
      else some g2
  else some g1

/-- `ARandomMapGenerator::SetBlockTypeAtPosition`. The bookkeeping maps
`DestroyedBlocksProcessed` and `ProcessedDestroyedBlocks` are only ever cleared in the
sources and are left out. -/
def SetBlockTypeAtPosition (g : ARandomMapGenerator) (WorldLocation : FVector)
    (BlockType : EBlockType) : Option ARandomMapGenerator :=
  if !g.Authority then some g
  else
    let ChunkCoord := g.WorldToChunkCoord WorldLocation
    let BlockPos := g.WorldToBlockPosition WorldLocation
    if g.IsOutsideChunk BlockPos then some g
    else
      let g1 : ARandomMapGenerator :=
        if !TMap.Contains g.ChunksInfo ChunkCoord then
          { g with ChunksInfo := TMap.Add g.ChunksInfo ChunkCoord ⟨true⟩ }
        else g
      let OldBlockType := g1.GetBlockInternal ChunkCoord BlockPos
      if OldBlockType = BlockType then some g1
      else
        let g2 := g1.SetBlockInternalWithoutReplication ChunkCoord BlockPos BlockType
        let Key : FWorldBlockKey := ⟨ChunkCoord, BlockPos⟩
        let g3 : ARandomMapGenerator :=
          if BlockType = EBlockType.Air ∨ OldBlockType ≠ BlockType then
            { g2 with BlockDamageData := TMap.Remove g2.BlockDamageData Key }
          else g2
        let Removed : Option ARandomMapGenerator :=
          if OldBlockType ≠ EBlockType.Air then
            g3.RemoveBlockInstance ChunkCoord BlockPos OldBlockType
          else some g3
        match Removed with
        | none => none
        | some g4 =>
          let Added : Option ARandomMapGenerator :=
            if BlockType ≠ EBlockType.Air then
              g4.UpdateBlockInstance ChunkCoord BlockPos BlockType
            else some g4
          match Added with
          | none => none
          | some g5 => g5.MulticastUpdateBlock_Implementation ChunkCoord BlockPos BlockType

/-- `ARandomMapGenerator::GetBlockTypeAtPosition`. -/
def GetBlockTypeAtPosition (g : ARandomMapGenerator) (WorldLocation : FVector) : EBlockType :=
  let ChunkCoord := g.WorldToChunkCoord WorldLocation
  let BlockPos := g.WorldToBlockPosition WorldLocation
  if g.IsOutsideChunk BlockPos then EBlockType.Air
  else g.GetBlockInternal ChunkCoord BlockPos

/-- `ARandomMapGenerator::MulticastBlockDamaged_Implementation`, the body that runs on
every peer that receives the damage update. -/
def MulticastBlockDamaged_Implementation (g : ARandomMapGenerator) (ChunkCoord : FChunkCoord)
    (BlockPos : FBlockPosition) (NewHealth : ℚ) : ARandomMapGenerator :=
  let Key : FWorldBlockKey := ⟨ChunkCoord, BlockPos⟩
  let BlockType := g.GetBlockInternal ChunkCoord BlockPos
  if BlockType = EBlockType.Air then g
  else
    let DamageData : FBlockDamageData :=
      match TMap.Find g.BlockDamageData Key with
      | some Data => Data
      | none => FBlockDamageData.ofMax (g.LookupMaxHealth BlockType)
    let DamageData1 : FBlockDamageData := { DamageData with CurrentHealth := NewHealth }
    let g1 : ARandomMapGenerator :=
      { g with BlockDamageData := TMap.Add g.BlockDamageData Key DamageData1 }
    if DamageData1.CurrentHealth ≤ 0 ∧ g1.Authority = false then
      { g1 with BlockDamageData := TMap.Remove g1.BlockDamageData Key }
    else g1

/-- The record `*DamageData` of `ApplyDamageToBlock` after `CurrentHealth -= Damage`: the
found record, or a new one at the looked-up max health, less the damage (a `float`
subtraction). -/
def DamagedRecord (g : ARandomMapGenerator) (Key : FWorldBlockKey) (BlockType : EBlockType)
    (Damage : ℚ) : FBlockDamageData :=
  let DamageData : FBlockDamageData :=
    match TMap.Find g.BlockDamageData Key with
    | some Data => Data
    | none => FBlockDamageData.ofMax (g.LookupMaxHealth BlockType)
  { DamageData with CurrentHealth := F32.Round (DamageData.CurrentHealth - Damage) }

/-- The actor after `ApplyDamageToBlock` stored the record of the hit in the damage
table. -/
def RecordHit (g : ARandomMapGenerator) (Key : FWorldBlockKey) (BlockType : EBlockType)
    (Damage : ℚ) : ARandomMapGenerator :=
  { g with BlockDamageData := TMap.Add g.BlockDamageData Key (g.DamagedRecord Key BlockType Damage) }

/-- The branch `if (DamageData->CurrentHealth <= 0.0f)` of `ApplyDamageToBlock`: remove
the instance, set the cell to Air, delete the damage record, run the block-update
multicast, and return true. -/
def DestroyBlock (g : ARandomMapGenerator) (ChunkCoord : FChunkCoord) (BlockPos : FBlockPosition)
    (BlockType : EBlockType) : Option (Bool × ARandomMapGenerator) :=
  match g.RemoveBlockInstance ChunkCoord BlockPos BlockType with
  | none => none
  | some g1 =>
    let g2 := g1.SetBlockInternalWithoutReplication ChunkCoord BlockPos EBlockType.Air
    let g3 : ARandomMapGenerator :=
      { g2 with BlockDamageData := TMap.Remove g2.BlockDamageData ⟨ChunkCoord, BlockPos⟩ }
    match g3.MulticastUpdateBlock_Implementation ChunkCoord BlockPos EBlockType.Air with
    | none => none
    | some g4 => some (true, g4)

/-- The part of `ApplyDamageToBlock` after the rejections, for the block of type
`BlockType` at `(ChunkCoord, BlockPos)`: record the hit, run the damage multicast, and
destroy the block when its health is used up. -/
def DamageBlock (g : ARandomMapGenerator) (ChunkCoord : FChunkCoord) (BlockPos : FBlockPosition)
    (BlockType : EBlockType) (Damage : ℚ) : Option (Bool × ARandomMapGenerator) :=
  let Key : FWorldBlockKey := ⟨ChunkCoord, BlockPos⟩
  let DamageData := g.DamagedRecord Key BlockType Damage
  let g1 := g.RecordHit Key BlockType Damage
  let g2 := g1.MulticastBlockDamaged_Implementation ChunkCoord BlockPos DamageData.CurrentHealth
  if DamageData.CurrentHealth ≤ 0 then g2.DestroyBlock ChunkCoord BlockPos BlockType
  else some (false, g2)

/-- `ARandomMapGenerator::ApplyDamageToBlock`: the returned flag and the state after the
call. The delegates and debug drawing have no effect on the state. -/
def ApplyDamageToBlock (g : ARandomMapGenerator) (WorldLocation : FVector) (Damage : ℚ) :
    Option (Bool × ARandomMapGenerator) :=
  if !g.Authority then some (false, g)
  else
    let ChunkCoord := g.WorldToChunkCoord WorldLocation
    let ChunkX := ChunkCoord.X
    let ChunkY := ChunkCoord.Y
    if ChunkX < 0 ∨ ChunkY < 0 ∨ ChunkX ≥ g.WorldSizeInChunks ∨ ChunkY ≥ g.WorldSizeInChunks then
      some (false, g)
    else
      let BlockPos := g.WorldToBlockPosition WorldLocation
      if g.IsOutsideChunk BlockPos then some (false, g)
      else
        let BlockType := g.GetBlockInternal ChunkCoord BlockPos
        if BlockType = EBlockType.Air then some (false, g)
        else if BlockType = EBlockType.InvisibleWall then some (false, g)
        else g.DamageBlock ChunkCoord BlockPos BlockType Damage

/-! ### Terrain and chunk generation -/

/-- `FMath::FloorToInt(static_cast<float>(World) / ChunkSize)`, the chunk index of an
absolute block index. -/
def ChunkIndexOf (g : ARandomMapGenerator) (World : Int) : Int :=
  Int.floor ((World : ℚ) / (g.ChunkSize : ℚ))

/-- `World % ChunkSize` followed by `if (Local < 0) Local += ChunkSize`. -/
def LocalIndexOf (g : ARandomMapGenerator) (World : Int) : Int :=
  let Local := Int.tmod World g.ChunkSize
  if Local < 0 then Local + g.ChunkSize else Local

/-- `SetBlockInternalWithoutReplication` followed by `UpdateBlockInstance`, the write
used by every generation pass. -/
def WriteBlock (g : ARandomMapGenerator) (ChunkCoord : FChunkCoord) (BlockPos : FBlockPosition)
    (BlockType : EBlockType) : Option ARandomMapGenerator :=
  (g.SetBlockInternalWithoutReplication ChunkCoord BlockPos BlockType).UpdateBlockInstance
    ChunkCoord BlockPos BlockType

/-- `ARandomMapGenerator::GetPerlinNoise`. -/
def GetPerlinNoise (E : FEngine) (g : ARandomMapGenerator) (X Y : ℚ) : ℚ :=
  let XOffset : ℚ := (Int.tmod g.Seed 10000 : ℚ) * (1 / 100)
  let YOffset : ℚ := (Int.tmod g.Seed 7919 : ℚ) * (1 / 100)
  let SeedFactor : ℚ := 1 + (Int.tmod g.Seed 1000 : ℚ) / 10000
  let ScaledX : ℚ := X * g.NoiseScale * SeedFactor + XOffset
  let ScaledY : ℚ := Y * g.NoiseScale * SeedFactor + YOffset
  let Noise1 : ℚ := E.PerlinNoise2D ScaledX ScaledY
  let ScaleModifier : ℚ := 1 / 2 + (Int.tmod g.Seed 5000 : ℚ) / 10000
  let Noise2 : ℚ := E.PerlinNoise2D (ScaledX * 2 * ScaleModifier) (ScaledY * 2 * ScaleModifier)
    * (1 / 2)
  let Noise3 : ℚ := E.PerlinNoise2D (ScaledX * 4 * (1 - ScaleModifier))
    (ScaledY * 4 * (1 - ScaleModifier)) * (1 / 4)
  let FinalNoise : ℚ := (Noise1 + Noise2 + Noise3) / (7 / 4)
  FMath.Clamp FinalNoise (-1) 1

/-- `ARandomMapGenerator::GetTerrainHeight`. -/
def GetTerrainHeight (E : FEngine) (g : ARandomMapGenerator) (WorldX WorldY : Int)
    (ChunkSeedModifier : Int) : Int :=
  let CenterWorldX : Int := Int.tdiv (g.WorldSizeInChunks * g.ChunkSize) 2
  let CenterWorldY : Int := Int.tdiv (g.WorldSizeInChunks * g.ChunkSize) 2
  let DistanceX : Int := |WorldX - CenterWorldX|
  let DistanceY : Int := |WorldY - CenterWorldY|
  let Distance : ℚ := E.Sqrt ((DistanceX * DistanceX + DistanceY * DistanceY : Int) : ℚ)
  let FlatnessFactor : ℚ :=
    if Distance < g.BaseCoreCenter * (g.ChunkSize : ℚ) then
      FMath.Clamp (Distance / (g.BaseCoreCenter * (g.ChunkSize : ℚ))) (1 / 10) 1
    else 1
  let Noise : ℚ := GetPerlinNoise E g (WorldX : ℚ) (WorldY : ℚ)
  let ChunkModifier : ℚ := (ChunkSeedModifier : ℚ) / 2000
  let HeightOffset0 : ℚ := Noise * g.HeightVariation
  let HeightOffset1 : ℚ := HeightOffset0 * FlatnessFactor
  let HeightOffset2 : ℚ := HeightOffset1 + ChunkModifier * g.HeightVariation * FlatnessFactor
  let SecondaryNoise : ℚ :=
    E.PerlinNoise2D ((WorldX : ℚ) * (1 / 10) + (g.Seed : ℚ) * (1 / 100)) ((WorldY : ℚ) * (1 / 10)) * 2
  let HeightOffset3 : ℚ := HeightOffset2 + SecondaryNoise * FlatnessFactor
  let MapFlatnessFactor : ℚ := 1 - g.MapFlatness
  let HeightOffset : ℚ := HeightOffset3 * MapFlatnessFactor
  let SeedHeightModifier : ℚ := (Int.tmod g.Seed 50 : ℚ) / 10 - 5 / 2
  let Height : Int := g.BaseHeight + FMath.RoundToInt HeightOffset
    + FMath.RoundToInt (SeedHeightModifier * FlatnessFactor)
  FMath.Clamp Height 1 (g.ChunkHeight - 1)

/-- `RandomStream.GetFraction()`: the drawn value and the actor with the advanced
stream. -/
def DrawFraction (E : FEngine) (g : ARandomMapGenerator) : ℚ × ARandomMapGenerator :=
  let Drawn := E.StreamGetFraction g.RandomStream
  (Drawn.1, { g with RandomStream := Drawn.2 })

/-- `RandomStream.RandRange(Min, Max)`: the drawn value and the actor with the advanced
stream. -/
def DrawRange (E : FEngine) (g : ARandomMapGenerator) (Min Max : Int) :
    Int × ARandomMapGenerator :=
  let Drawn := E.StreamRandRange Min Max g.RandomStream
  (Drawn.1, { g with RandomStream := Drawn.2 })

/-- The body of the innermost leaf loop of `GenerateTree` for one `(LX, LY, LZ)`. -/
def GenerateLeaf (E : FEngine) (ChunkCoord : FChunkCoord) (LocalX LocalY WorldZ TreeHeight : Int)
    (LeafSize LX LY LeafHeight : Int) (g : ARandomMapGenerator) (LZ : Int) :
    Option ARandomMapGenerator :=
  if LX = 0 ∧ LY = 0 ∧ LZ < LeafHeight then some g
  else
    let Edge : Bool := decide (|LX| = LeafSize ∨ |LY| = LeafSize)
    let Drawn : ℚ × ARandomMapGenerator := if Edge then DrawFraction E g else (0, g)
    if Edge ∧ Drawn.1 > 2 / 5 then some Drawn.2
    else
      let g1 := Drawn.2
      let LeafX : Int := LocalX + LX
      let LeafY : Int := LocalY + LY
      let LeafZ : Int := WorldZ + TreeHeight - 1 + LZ
      if LeafX ≥ 0 ∧ LeafX < g1.ChunkSize ∧ LeafY ≥ 0 ∧ LeafY < g1.ChunkSize ∧
          LeafZ ≥ 0 ∧ LeafZ < g1.ChunkHeight then
        g1.WriteBlock ChunkCoord ⟨LeafX, LeafY, LeafZ⟩ EBlockType.Leaves
      else some g1

/-- `ARandomMapGenerator::GenerateTree`. -/
def GenerateTree (E : FEngine) (g : ARandomMapGenerator) (WorldX WorldY WorldZ : Int) :
    Option ARandomMapGenerator :=
  let ChunkCoord : FChunkCoord := ⟨g.ChunkIndexOf WorldX, g.ChunkIndexOf WorldY⟩
  let LocalX : Int := Int.tmod WorldX g.ChunkSize
  let LocalY : Int := Int.tmod WorldY g.ChunkSize
  let Base := DrawRange E g 3 6
  let BaseTreeHeight : Int := Base.1
  let TreeHeightOffset : Int := Int.tmod (WorldX * 31 + WorldY * 17 + g.Seed) 3 - 1
  let TreeHeight : Int := FMath.Clamp (BaseTreeHeight + TreeHeightOffset) 3 8
  let Trunk := ForEach (fun (s : ARandomMapGenerator) (Z : Int) =>
      if WorldZ + Z < s.ChunkHeight then
        s.WriteBlock ChunkCoord ⟨LocalX, LocalY, WorldZ + Z⟩ EBlockType.Wood
      else some s) (ForRange 0 TreeHeight) Base.2
  match Trunk with
  | none => none
  | some g1 =>
    let Leaf := DrawRange E g1 2 3
    let LeafSize : Int := Leaf.1
    ForEach (fun (s : ARandomMapGenerator) (LX : Int) =>
      ForEach (fun (s1 : ARandomMapGenerator) (LY : Int) =>
        let Height := DrawRange E s1 2 3
        ForEach (GenerateLeaf E ChunkCoord LocalX LocalY WorldZ TreeHeight LeafSize LX LY Height.1)
          (ForRange 0 (Height.1 + 1)) Height.2)
        (ForRange (-LeafSize) (LeafSize + 1)) s)
      (ForRange (-LeafSize) (LeafSize + 1)) Leaf.2

/-- The layering rule of the column fill of `GenerateChunk`. -/
def ColumnBlockType (TerrainHeight Z : Int) : EBlockType :=
  if Z = TerrainHeight - 1 then EBlockType.Grass
  else if Z < TerrainHeight - 4 then EBlockType.Stone
  else EBlockType.Dirt

/-- The body of the `(X, Y)` loops of `GenerateChunk`: the column fill and the tree
roll. -/
def GenerateColumn (E : FEngine) (ChunkCoord : FChunkCoord) (ChunkSpecificSeedModifier : Int)
    (X : Int) (g : ARandomMapGenerator) (Y : Int) : Option ARandomMapGenerator :=
  let WorldX : Int := ChunkCoord.X * g.ChunkSize + X
  let WorldY : Int := ChunkCoord.Y * g.ChunkSize + Y
  let TerrainHeight : Int := GetTerrainHeight E g WorldX WorldY ChunkSpecificSeedModifier
  let Filled := ForEach (fun (s : ARandomMapGenerator) (Z : Int) =>
      s.WriteBlock ChunkCoord ⟨X, Y, Z⟩ (ColumnBlockType TerrainHeight Z))
    (ForRange 0 TerrainHeight) g
  match Filled with
  | none => none
  | some g1 =>
    let LocalTreeDensity0 : ℚ := g1.TreeDensity * (1 / 20) *
      (1 + E.Sin ((WorldX : ℚ) * (1 / 50) + (WorldY : ℚ) * (1 / 25) + (g1.Seed : ℚ) * (1 / 100)))
    let LocalTreeDensity : ℚ := FMath.Clamp LocalTreeDensity0 0 (1 / 10)
    let Roll := DrawFraction E g1
    if Roll.1 < LocalTreeDensity then GenerateTree E Roll.2 WorldX WorldY TerrainHeight
    else some Roll.2

/-- `ARandomMapGenerator::GenerateChunk`. -/
def GenerateChunk (E : FEngine) (g : ARandomMapGenerator) (ChunkCoord : FChunkCoord) :
    Option ARandomMapGenerator :=
  let g1 := g.InitializeChunkISMs ChunkCoord
  let g2 : ARandomMapGenerator :=
    { g1 with ChunksInfo := TMap.Add g1.ChunksInfo ChunkCoord ⟨true⟩ }
  let ChunkSpecificSeedModifier : Int :=
    Int.tmod (ChunkCoord.X * 73 + ChunkCoord.Y * 31 + g2.Seed) 1000
  ForEach (fun (s : ARandomMapGenerator) (X : Int) =>
      ForEach (GenerateColumn E ChunkCoord ChunkSpecificSeedModifier X) (ForRange 0 s.ChunkSize) s)
    (ForRange 0 g2.ChunkSize) g2

/-! ### Mountain border -/

/-- `ARandomMapGenerator::GetMountainHeight`. -/
def GetMountainHeight (E : FEngine) (g : ARandomMapGenerator) (WorldX WorldY : Int)
    (DistanceFromEdge : Int) : Int :=
  let XOffset : ℚ := (g.Seed : ℚ) * (7 / 1000)
  let YOffset : ℚ := ((g.Seed * 7919 : Int) : ℚ) * (7 / 1000)
  let Noise1 : ℚ := E.PerlinNoise2D ((WorldX : ℚ) * g.MountainNoiseScale + XOffset)
    ((WorldY : ℚ) * g.MountainNoiseScale + YOffset)
  let Noise2 : ℚ := E.PerlinNoise2D ((WorldX : ℚ) * (g.MountainNoiseScale * 2) + XOffset)
    ((WorldY : ℚ) * (g.MountainNoiseScale * 2) + YOffset) * (1 / 2)
  let CombinedNoise : ℚ := (Noise1 + Noise2) / (3 / 2)
  let DistanceFactor0 : ℚ := 1 - (DistanceFromEdge : ℚ) / (g.MountainBorderWidth : ℚ)
  let DistanceFactor : ℚ := E.Pow DistanceFactor0 (3 / 5)
  let HeightRange : Int := g.MountainMaxHeight - g.MountainMinHeight
  let NoiseHeight : Int := FMath.RoundToInt ((HeightRange : ℚ) * (CombinedNoise + 1) * (1 / 2))
  let FinalHeight : Int := g.MountainMinHeight + FMath.RoundToInt ((NoiseHeight : ℚ) * DistanceFactor)
  FMath.Clamp FinalHeight g.MountainMinHeight g.MountainMaxHeight

/-- `ARandomMapGenerator::GetMountainBlockType`. -/
def GetMountainBlockType (E : FEngine) (HeightLayer TotalHeight LocalX LocalY : Int) :
    EBlockType :=
  let HeightPercent : ℚ := (HeightLayer : ℚ) / (TotalHeight : ℚ)
  let PositionNoise : ℚ := E.PerlinNoise2D ((LocalX : ℚ) * (3 / 20)) ((LocalY : ℚ) * (3 / 20))
  if HeightPercent < 3 / 10 then EBlockType.Stone
  else if HeightPercent < 7 / 10 then
    (if PositionNoise > 0 then EBlockType.Stone else EBlockType.Dirt)
  else if HeightPercent < 9 / 10 then
    (if PositionNoise > 3 / 10 then EBlockType.Dirt else EBlockType.Stone)
  else (if PositionNoise > -(1 / 5) then EBlockType.Grass else EBlockType.Dirt)

/-- The body shared by the four cases of `GenerateMountainRange`: the mountain column at
the absolute block index `(X, Y)` with depth `Depth` into the border, stacked on
`BaseGroundHeight`. -/
def GenerateMountainColumn (E : FEngine) (g : ARandomMapGenerator) (X Y Depth : Int)
    (BaseGroundHeight : Int) : Option ARandomMapGenerator :=
  let ChunkCoord : FChunkCoord := ⟨g.ChunkIndexOf X, g.ChunkIndexOf Y⟩
  let LocalX : Int := g.LocalIndexOf X
  let LocalY : Int := g.LocalIndexOf Y
  let MountainHeight : Int := GetMountainHeight E g X Y Depth
  ForEach (fun (s : ARandomMapGenerator) (Z : Int) =>
      s.WriteBlock ChunkCoord ⟨LocalX, LocalY, BaseGroundHeight + Z⟩
        (GetMountainBlockType E Z MountainHeight LocalX LocalY))
    (ForRange 0 MountainHeight) g

/-- `ARandomMapGenerator::GenerateMountainRange`. -/
def GenerateMountainRange (E : FEngine) (g : ARandomMapGenerator) (EdgeIndex : Int) :
    Option ARandomMapGenerator :=
  let MapMinX : Int := 0
  let MapMinY : Int := 0
  let MapMaxX : Int := g.WorldSizeInChunks * g.ChunkSize - 1
  let MapMaxY : Int := g.WorldSizeInChunks * g.ChunkSize - 1
  let Width : Int := g.MountainBorderWidth
  if EdgeIndex = 0 then
    ForEach (fun (s : ARandomMapGenerator) (X : Int) =>
        ForEach (fun (s1 : ARandomMapGenerator) (Depth : Int) =>
          GenerateMountainColumn E s1 X (MapMinY - Depth - 1) Depth
            (GetTerrainHeight E s1 (FMath.Clamp X MapMinX MapMaxX) MapMinY 0))
          (ForRange 0 Width) s)
      (ForRange (MapMinX - Width) (MapMaxX + Width + 1)) g
  else if EdgeIndex = 1 then
    ForEach (fun (s : ARandomMapGenerator) (X : Int) =>
        ForEach (fun (s1 : ARandomMapGenerator) (Depth : Int) =>
          GenerateMountainColumn E s1 X (MapMaxY + Depth + 1) Depth
            (GetTerrainHeight E s1 (FMath.Clamp X MapMinX MapMaxX) MapMaxY 0))
          (ForRange 0 Width) s)
      (ForRange (MapMinX - Width) (MapMaxX + Width + 1)) g
  else if EdgeIndex = 2 then
    ForEach (fun (s : ARandomMapGenerator) (Y : Int) =>
        ForEach (fun (s1 : ARandomMapGenerator) (Depth : Int) =>
          GenerateMountainColumn E s1 (MapMinX - Depth - 1) Y Depth
            (GetTerrainHeight E s1 MapMinX (FMath.Clamp Y MapMinY MapMaxY) 0))
          (ForRange 0 Width) s)
      (ForRange MapMinY (MapMaxY + 1)) g
  else if EdgeIndex = 3 then
    ForEach (fun (s : ARandomMapGenerator) (Y : Int) =>
        ForEach (fun (s1 : ARandomMapGenerator) (Depth : Int) =>
          GenerateMountainColumn E s1 (MapMaxX + Depth + 1) Y Depth
            (GetTerrainHeight E s1 MapMaxX (FMath.Clamp Y MapMinY MapMaxY) 0))
          (ForRange 0 Width) s)
      (ForRange MapMinY (MapMaxY + 1)) g
  else some g

/-! ### Cave system -/

/-- The vertical banding of the rock column in `GenerateCaveRockyFormations`. -/
def RockBlockType (CombinedNoise : ℚ) (CaveBaseHeight ExtraHeight Z : Int) : EBlockType :=
  let HeightPercent : ℚ := ((Z - CaveBaseHeight : Int) : ℚ) / (ExtraHeight : ℚ)
  if HeightPercent < 3 / 5 then EBlockType.Stone
  else if HeightPercent < 9 / 10 then
    (if CombinedNoise > 0 then EBlockType.Stone else EBlockType.Dirt)
  else EBlockType.Dirt

/-- The body of the `(OffsetX, OffsetY)` loops of `GenerateCaveRockyFormations`. -/
def GenerateRockColumn (E : FEngine) (CaveX CaveY CaveBaseHeight : Int) (OffsetX : Int)
    (g : ARandomMapGenerator) (OffsetY : Int) : Option ARandomMapGenerator :=
  let FormationRadius : Int := g.CaveRockyFormationRadius
  let NoiseOffsetX : ℚ := (g.Seed : ℚ) * (13 / 1000)
  let NoiseOffsetY : ℚ := ((g.Seed * 7919 : Int) : ℚ) * (9 / 1000)
  let WorldX : Int := CaveX + OffsetX
  let WorldY : Int := CaveY + OffsetY
  if |OffsetX| ≤ Int.tdiv g.CaveWidth 2 ∧ |OffsetY| ≤ Int.tdiv g.CaveWidth 2 then some g
  else
    let ChunkCoord : FChunkCoord := ⟨g.ChunkIndexOf WorldX, g.ChunkIndexOf WorldY⟩
    let LocalX : Int := g.LocalIndexOf WorldX
    let LocalY : Int := g.LocalIndexOf WorldY
    let DistanceFromCave : ℚ := E.Sqrt ((OffsetX * OffsetX + OffsetY * OffsetY : Int) : ℚ)
    let DistanceFactor : ℚ := FMath.Clamp (1 - DistanceFromCave / (FormationRadius : ℚ)) 0 1
    let Noise1 : ℚ := E.PerlinNoise2D ((WorldX : ℚ) * (1 / 10) + NoiseOffsetX)
      ((WorldY : ℚ) * (1 / 10) + NoiseOffsetY)
    let Noise2 : ℚ := E.PerlinNoise2D ((WorldX : ℚ) * (3 / 10) + NoiseOffsetX)
      ((WorldY : ℚ) * (3 / 10) + NoiseOffsetY) * (1 / 2)
    let CombinedNoise : ℚ := (Noise1 + Noise2) / (3 / 2)
    let RockFormationChance : ℚ :=
      DistanceFactor * (CombinedNoise + 1) * (1 / 2) * g.RockFormationDensity
    if RockFormationChance < 1 / 5 then some g
    else
      let ExtraHeight : Int := FMath.RoundToInt (RockFormationChance * (g.MaxExtraRockHeight : ℚ))
      let TotalHeight : Int := CaveBaseHeight + ExtraHeight
      ForEach (fun (s : ARandomMapGenerator) (Z : Int) =>
          s.WriteBlock ChunkCoord ⟨LocalX, LocalY, Z⟩
            (RockBlockType CombinedNoise CaveBaseHeight ExtraHeight Z))
        (ForRange CaveBaseHeight (min TotalHeight g.ChunkHeight)) g

/-- `ARandomMapGenerator::GenerateCaveRockyFormations`. -/
def GenerateCaveRockyFormations (E : FEngine) (g : ARandomMapGenerator)
    (CaveX CaveY _DirX _DirY CaveBaseHeight : Int) : Option ARandomMapGenerator :=
  if !g.bCreateRockyFormations then some g
  else
    let FormationRadius : Int := g.CaveRockyFormationRadius
    ForEach (fun (s : ARandomMapGenerator) (OffsetX : Int) =>
        ForEach (GenerateRockColumn E CaveX CaveY CaveBaseHeight OffsetX)
          (ForRange (-FormationRadius) (FormationRadius + 1)) s)
      (ForRange (-FormationRadius) (FormationRadius + 1)) g

/-- The floor block chosen by the backfill loop of `GenerateNaturalCaveTunnel`. -/
def FloorBlockTypeAt (TunnelFloor FloorZ : Int) : EBlockType :=
  if FloorZ = TunnelFloor then EBlockType.Grass
  else if FloorZ ≥ TunnelFloor - 2 then EBlockType.Dirt
  else EBlockType.Stone

/-- The tunnel floor computed for the column `(TunnelX, TunnelY)`. -/
def TunnelFloorOf (E : FEngine) (g : ARandomMapGenerator) (TunnelX TunnelY CaveBaseHeight : Int) :
    Int :=
  let FloorOffset : Int :=
    if g.bNaturalCaveTunnels ∧ g.CaveFloorVariation > 0 then
      let FloorNoise : ℚ := E.PerlinNoise2D ((TunnelX : ℚ) * (3 / 20)) ((TunnelY : ℚ) * (3 / 20))
      FMath.Clamp (FMath.RoundToInt (FloorNoise * (g.CaveFloorVariation : ℚ))) (-1)
        g.CaveFloorVariation
    else 0
  FMath.Max (CaveBaseHeight + FloorOffset) (CaveBaseHeight - 1)

/-- The tunnel ceiling computed for the column `(TunnelX, TunnelY)`. -/
def TunnelCeilingOf (E : FEngine) (g : ARandomMapGenerator) (TunnelX TunnelY CaveBaseHeight : Int) :
    Int :=
  let ExtraHeight : Int :=
    if g.bNaturalCaveTunnels ∧ g.CaveHeightVariation > 0 then
      let HeightNoise : ℚ := E.PerlinNoise2D ((TunnelX : ℚ) * (1 / 5)) ((TunnelY : ℚ) * (1 / 5))
      FMath.RoundToInt (HeightNoise * (g.CaveHeightVariation : ℚ))
    else 0
  let CurrentHeight : Int := g.CaveHeight + ExtraHeight
  TunnelFloorOf E g TunnelX TunnelY CaveBaseHeight + CurrentHeight

/-- The body of the width loop of `GenerateNaturalCaveTunnel` for the tunnel column
`(TunnelX, TunnelY)`: backfill the floor, then clear up to the ceiling. -/
def CarveTunnelColumn (E : FEngine) (g : ARandomMapGenerator) (TunnelX TunnelY : Int)
    (CaveBaseHeight : Int) : Option ARandomMapGenerator :=
  let ChunkCoord : FChunkCoord := ⟨g.ChunkIndexOf TunnelX, g.ChunkIndexOf TunnelY⟩
  let LocalX : Int := g.LocalIndexOf TunnelX
  let LocalY : Int := g.LocalIndexOf TunnelY
  let TunnelFloor : Int := TunnelFloorOf E g TunnelX TunnelY CaveBaseHeight
  let TunnelCeiling : Int := TunnelCeilingOf E g TunnelX TunnelY CaveBaseHeight
  let Floored := ForEach (fun (s : ARandomMapGenerator) (FloorZ : Int) =>
      if s.GetBlockInternal ChunkCoord ⟨LocalX, LocalY, FloorZ⟩ = EBlockType.Air then
        s.WriteBlock ChunkCoord ⟨LocalX, LocalY, FloorZ⟩ (FloorBlockTypeAt TunnelFloor FloorZ)
      else some s)
    (ForRange 0 (TunnelFloor + 1)) g
  match Floored with
  | none => none
  | some g1 =>
    ForEach (fun (s : ARandomMapGenerator) (Z : Int) =>
        let ExistingBlockType := s.GetBlockInternal ChunkCoord ⟨LocalX, LocalY, Z⟩
        if ExistingBlockType ≠ EBlockType.Air then
          match s.RemoveBlockInstance ChunkCoord ⟨LocalX, LocalY, Z⟩ ExistingBlockType with
          | none => none
          | some s1 =>
            some (s1.SetBlockInternalWithoutReplication ChunkCoord ⟨LocalX, LocalY, Z⟩
              EBlockType.Air)
        else some s)
      (ForRange (TunnelFloor + 1) (min TunnelCeiling g1.ChunkHeight)) g1

/-- The body of the depth loop of `GenerateNaturalCaveTunnel`. -/
def CarveTunnelSection (E : FEngine) (StartX StartY DirX DirY CaveBaseHeight : Int)
    (g : ARandomMapGenerator) (Depth : Int) : Option ARandomMapGenerator :=
  let TunnelNoiseOffsetX : ℚ := (g.Seed : ℚ) * (17 / 1000)
  let TunnelNoiseOffsetY : ℚ := ((g.Seed * 3571 : Int) : ℚ) * (19 / 1000)
  let CurrentX0 : Int := StartX + DirX * Depth
  let CurrentY0 : Int := StartY + DirY * Depth
  let DepthPercent : ℚ := (Depth : ℚ) / (g.CaveDepth : ℚ)
  let WidthMultiplier : ℚ := E.Sin (DepthPercent * E.PI)
  let CurrentWidth : Int :=
    FMath.Max 2 (FMath.RoundToInt ((g.CaveWidth : ℚ) * (1 / 2 + 1 / 2 * WidthMultiplier)))
  let Deviation : Int :=
    if g.bNaturalCaveTunnels ∧ g.CaveTunnelDeviation > 0 then
      let DeviationNoise : ℚ := E.PerlinNoise2D ((Depth : ℚ) * (3 / 10) + TunnelNoiseOffsetX)
        ((Depth : ℚ) * (1 / 5) + TunnelNoiseOffsetY)
      FMath.RoundToInt (DeviationNoise * (g.CaveTunnelDeviation : ℚ))
    else 0
  let DeviationX : Int := if DirX ≠ 0 then 0 else Deviation
  let DeviationY : Int := if DirX ≠ 0 then Deviation else 0
  let CurrentX : Int := CurrentX0 + DeviationX
  let CurrentY : Int := CurrentY0 + DeviationY
  ForEach (fun (s : ARandomMapGenerator) (WidthOffset : Int) =>
      let TunnelX : Int := if DirX ≠ 0 then CurrentX else CurrentX + WidthOffset
      let TunnelY : Int := if DirX ≠ 0 then CurrentY + WidthOffset else CurrentY
      CarveTunnelColumn E s TunnelX TunnelY CaveBaseHeight)
    (ForRange (Int.tdiv (-CurrentWidth) 2) (Int.tdiv CurrentWidth 2 + 1)) g

/-- `ARandomMapGenerator::GenerateNaturalCaveTunnel`. -/
def GenerateNaturalCaveTunnel (E : FEngine) (g : ARandomMapGenerator)
    (StartX StartY DirX DirY CaveBaseHeight : Int) : Option ARandomMapGenerator :=
  ForEach (CarveTunnelSection E StartX StartY DirX DirY CaveBaseHeight) (ForRange 0 g.CaveDepth) g

/-! ### Entrance sealing -/

/-- `ARandomMapGenerator::PlaceInvisibleWall`. -/
def PlaceInvisibleWall (g : ARandomMapGenerator) (ChunkCoord : FChunkCoord)
    (BlockPos : FBlockPosition) : Option ARandomMapGenerator :=
  (g.SetBlockInternalWithoutReplication ChunkCoord BlockPos EBlockType.InvisibleWall).UpdateBlockInstance
    ChunkCoord BlockPos EBlockType.InvisibleWall

/-- `ARandomMapGenerator::SealCaveEntrance`. -/
def SealCaveEntrance (g : ARandomMapGenerator) (CaveX CaveY DirX _DirY CaveBaseHeight : Int) :
    Option ARandomMapGenerator :=
  ForEach (fun (s : ARandomMapGenerator) (WidthOffset : Int) =>
      let SealX : Int := if DirX ≠ 0 then CaveX else CaveX + WidthOffset
      let SealY : Int := if DirX ≠ 0 then CaveY + WidthOffset else CaveY
      let SealChunkCoord : FChunkCoord := ⟨s.ChunkIndexOf SealX, s.ChunkIndexOf SealY⟩
      let SealLocalX : Int := s.LocalIndexOf SealX
      let SealLocalY : Int := s.LocalIndexOf SealY
      let SealHeight : Int := FMath.Max 1 (s.CaveHeight - 2)
      ForEach (fun (s1 : ARandomMapGenerator) (Z : Int) =>
          s1.PlaceInvisibleWall SealChunkCoord ⟨SealLocalX, SealLocalY, Z⟩)
        (ForRange CaveBaseHeight (min (CaveBaseHeight + SealHeight) s.ChunkHeight)) s)
    (ForRange (Int.tdiv (-g.CaveWidth) 2) (Int.tdiv g.CaveWidth 2 + 1)) g

/-- `ARandomMapGenerator::RegisterCaveLocation`. -/
def RegisterCaveLocation (g : ARandomMapGenerator) (EntranceLocation SpawnLocation : FVector)
    (EdgeIndex : Int) (EdgePosition : ℚ) : ARandomMapGenerator :=
  { g with CaveLocations :=
      g.CaveLocations ++ [⟨EntranceLocation, SpawnLocation, EdgeIndex, EdgePosition⟩] }

/-- `ARandomMapGenerator::GenerateEnhancedCave`. -/
def GenerateEnhancedCave (E : FEngine) (g : ARandomMapGenerator) (EdgeIndex : Int)
    (EdgePosition : ℚ) : Option ARandomMapGenerator :=
  let MapMinX : Int := 0
  let MapMinY : Int := 0
  let MapMaxX : Int := g.WorldSizeInChunks * g.ChunkSize - 1
  let MapMaxY : Int := g.WorldSizeInChunks * g.ChunkSize - 1
  let AlongX : Int := Int.floor ((MapMinX : ℚ) + ((MapMaxX - MapMinX : Int) : ℚ) * EdgePosition)
  let AlongY : Int := Int.floor ((MapMinY : ℚ) + ((MapMaxY - MapMinY : Int) : ℚ) * EdgePosition)
  let Start : Option (Int × Int × Int × Int) :=
    if EdgeIndex = 0 then some (AlongX, MapMinY - 1, 0, -1)
    else if EdgeIndex = 1 then some (AlongX, MapMaxY + 1, 0, 1)
    else if EdgeIndex = 2 then some (MapMinX - 1, AlongY, -1, 0)
    else if EdgeIndex = 3 then some (MapMaxX + 1, AlongY, 1, 0)
    else none
  match Start with
  | none => some g
  | some (CaveStartX, CaveStartY, CaveDirectionX, CaveDirectionY) =>
    let CaveBaseHeight : Int := GetTerrainHeight E g (FMath.Clamp CaveStartX MapMinX MapMaxX)
      (FMath.Clamp CaveStartY MapMinY MapMaxY) 0
    match GenerateCaveRockyFormations E g CaveStartX CaveStartY CaveDirectionX CaveDirectionY
        CaveBaseHeight with
    | none => none
    | some g1 =>
      match GenerateNaturalCaveTunnel E g1 CaveStartX CaveStartY CaveDirectionX CaveDirectionY
          CaveBaseHeight with
      | none => none
      | some g2 =>
        let Sealed : Option ARandomMapGenerator :=
          if g2.bSealCaves then
            g2.SealCaveEntrance CaveStartX CaveStartY CaveDirectionX CaveDirectionY CaveBaseHeight
          else some g2
        match Sealed with
        | none => none
        | some g3 =>
          let Effective : ℚ := g3.BlockSize + g3.BlockSpacing
          let CaveEntranceWorldLocation : FVector :=
            ⟨(CaveStartX : ℚ) * Effective + g3.BlockSize / 2,
             (CaveStartY : ℚ) * Effective + g3.BlockSize / 2,
             (CaveBaseHeight : ℚ) * Effective + g3.BlockSize / 2⟩
          let SpawnDepth : ℚ := (g3.CaveDepth : ℚ) * g3.CaveSpawnDepthRatio
          let SpawnX : Int := CaveStartX + CaveDirectionX * FMath.RoundToInt SpawnDepth
          let SpawnY : Int := CaveStartY + CaveDirectionY * FMath.RoundToInt SpawnDepth
          let CaveSpawnWorldLocation : FVector :=
            ⟨(SpawnX : ℚ) * Effective + g3.BlockSize / 2,
             (SpawnY : ℚ) * Effective + g3.BlockSize / 2,
             ((CaveBaseHeight + 1 : Int) : ℚ) * Effective + g3.BlockSize / 2⟩
          some (g3.RegisterCaveLocation CaveEntranceWorldLocation CaveSpawnWorldLocation EdgeIndex
            EdgePosition)

/-- `ARandomMapGenerator::GenerateCaveSystem`. -/
def GenerateCaveSystem (E : FEngine) (g : ARandomMapGenerator) : Option ARandomMapGenerator :=
  let g0 : ARandomMapGenerator := { g with CaveLocations := [] }
  ForEach (fun (s : ARandomMapGenerator) (EdgeIndex : Int) =>
      if s.CavesPerEdge = 1 then GenerateEnhancedCave E s EdgeIndex (1 / 2)
      else
        ForEach (fun (s1 : ARandomMapGenerator) (CaveIndex : Int) =>
            let EdgePosition : ℚ := F32.Round (F32.Round (F32.Round (CaveIndex : ℚ) + 1)
              / F32.Round (F32.Round (s1.CavesPerEdge : ℚ) + 1))
            GenerateEnhancedCave E s1 EdgeIndex EdgePosition)
          (ForRange 0 s.CavesPerEdge) s)
    (ForRange 0 4) g0

/-- `ARandomMapGenerator::GenerateMountainBorderSystem`. -/
def GenerateMountainBorderSystem (E : FEngine) (g : ARandomMapGenerator) :
    Option ARandomMapGenerator :=
  match ForEach (GenerateMountainRange E) (ForRange 0 4) g with
  | none => none
  | some g1 => GenerateCaveSystem E g1

/-! ### Base core and debug walls -/

/-- The block chosen by the fill loop of `SpawnBaseCore`. -/
def BaseCoreBlockType (TerrainHeight Z : Int) : EBlockType :=
  if Z = TerrainHeight - 1 then EBlockType.Grass
  else if Z ≥ TerrainHeight - 3 then EBlockType.Dirt
  else EBlockType.Stone

/-- The body of the `(OffsetX, OffsetY)` loops of `SpawnBaseCore`: clear the column above
`TerrainHeight`, then fill the missing blocks below it. -/
def FlattenBaseCoreColumn (CenterWorldX CenterWorldY TerrainHeight : Int) (OffsetX : Int)
    (g : ARandomMapGenerator) (OffsetY : Int) : Option ARandomMapGenerator :=
  let WorldX : Int := CenterWorldX + OffsetX
  let WorldY : Int := CenterWorldY + OffsetY
  let BlockChunk : FChunkCoord := ⟨g.ChunkIndexOf WorldX, g.ChunkIndexOf WorldY⟩
  let LocalBlockX : Int := g.LocalIndexOf WorldX
  let LocalBlockY : Int := g.LocalIndexOf WorldY
  let Cleared := ForEach (fun (s : ARandomMapGenerator) (Z : Int) =>
      let OldBlockType := s.GetBlockInternal BlockChunk ⟨LocalBlockX, LocalBlockY, Z⟩
      if OldBlockType ≠ EBlockType.Air then
        match s.RemoveBlockInstance BlockChunk ⟨LocalBlockX, LocalBlockY, Z⟩ OldBlockType with
        | none => none
        | some s1 =>
          some (s1.SetBlockInternalWithoutReplication BlockChunk ⟨LocalBlockX, LocalBlockY, Z⟩
            EBlockType.Air)
      else some s)
    (ForRange TerrainHeight g.ChunkHeight) g
  match Cleared with
  | none => none
  | some g1 =>
    ForEach (fun (s : ARandomMapGenerator) (Z : Int) =>
        if s.GetBlockInternal BlockChunk ⟨LocalBlockX, LocalBlockY, Z⟩ = EBlockType.Air then
          s.WriteBlock BlockChunk ⟨LocalBlockX, LocalBlockY, Z⟩ (BaseCoreBlockType TerrainHeight Z)
        else some s)
      (ForRange 0 TerrainHeight) g1

/-- `ARandomMapGenerator::SpawnBaseCore`. -/
def SpawnBaseCore (E : FEngine) (g : ARandomMapGenerator) : Option ARandomMapGenerator :=
  if !g.Authority then some g
  else if g.SpawnedBaseCore.isSome then some g
  else if !g.BaseCoreBP then some g
  else
    let CenterChunkX : Int := Int.tdiv g.WorldSizeInChunks 2
    let CenterChunkY : Int := Int.tdiv g.WorldSizeInChunks 2
    let CenterChunk : FChunkCoord := ⟨CenterChunkX, CenterChunkY⟩
    let CenterBlockX : Int := Int.tdiv g.ChunkSize 2
    let CenterBlockY : Int := Int.tdiv g.ChunkSize 2
    let CenterWorldX : Int := CenterChunkX * g.ChunkSize + CenterBlockX
    let CenterWorldY : Int := CenterChunkY * g.ChunkSize + CenterBlockY
    let TerrainHeight : Int := GetTerrainHeight E g CenterWorldX CenterWorldY 0
    let Flattened := ForEach (fun (s : ARandomMapGenerator) (OffsetX : Int) =>
        ForEach (FlattenBaseCoreColumn CenterWorldX CenterWorldY TerrainHeight OffsetX)
          (ForRange (-s.BaseCoreSize) (s.BaseCoreSize + 1)) s)
      (ForRange (-g.BaseCoreSize) (g.BaseCoreSize + 1)) g
    match Flattened with
    | none => none
    | some g1 =>
      let SpawnLocation0 : FVector :=
        g1.BlockToWorldPosition CenterChunk ⟨CenterBlockX, CenterBlockY, TerrainHeight - 1⟩
      let SpawnLocation : FVector :=
        { SpawnLocation0 with Z := SpawnLocation0.Z + (g1.BlockSize / 2 + g1.BlockSize * (1 / 5)) }
      some { g1 with SpawnedBaseCore := E.SpawnActor SpawnLocation }

/-- The body of the `Z` loop of `GenerateDebugWalls` for the frame cell `(WorldX, WorldY)`
reached with the offsets `(OffsetX, OffsetY)`. -/
def GenerateDebugWallBlock (WorldX WorldY OffsetX OffsetY LocalBaseHeight : Int)
    (g : ARandomMapGenerator) (Z : Int) : Option ARandomMapGenerator :=
  let BlockChunk : FChunkCoord := ⟨g.ChunkIndexOf WorldX, g.ChunkIndexOf WorldY⟩
  let BlockPos : FBlockPosition := ⟨g.LocalIndexOf WorldX, g.LocalIndexOf WorldY, LocalBaseHeight + Z⟩
  let g1 := g.SetBlockInternalWithoutReplication BlockChunk BlockPos EBlockType.Stone
  let Inner : Option ARandomMapGenerator :=
    if g1.DebugWallThickness > 1 then
      let InnerOffsetX : Int := if OffsetX < 0 then 1 else if OffsetX > 0 then -1 else 0
      let InnerOffsetY : Int := if OffsetY < 0 then 1 else if OffsetY > 0 then -1 else 0
      let InnerWorldX : Int := WorldX + InnerOffsetX
      let InnerWorldY : Int := WorldY + InnerOffsetY
      g1.WriteBlock ⟨g1.ChunkIndexOf InnerWorldX, g1.ChunkIndexOf InnerWorldY⟩
        ⟨g1.LocalIndexOf InnerWorldX, g1.LocalIndexOf InnerWorldY, LocalBaseHeight + Z⟩
        EBlockType.Stone
    else some g1
  match Inner with
  | none => none
  | some g2 => g2.UpdateBlockInstance BlockChunk BlockPos EBlockType.Stone

/-- `ARandomMapGenerator::GenerateDebugWalls`. -/
def GenerateDebugWalls (g : ARandomMapGenerator) : Option ARandomMapGenerator :=
  match g.SpawnedBaseCore with
  | none => some g
  | some BaseCoreLocation =>
    let CenterChunk := g.WorldToChunkCoord BaseCoreLocation
    let CenterBlock := g.WorldToBlockPosition BaseCoreLocation
    let CenterWorldX : Int := CenterChunk.X * g.ChunkSize + CenterBlock.X
    let CenterWorldY : Int := CenterChunk.Y * g.ChunkSize + CenterBlock.Y
    let LocalBaseHeight : Int := (g.WorldToBlockPosition BaseCoreLocation).Z
    let WallSize : Int := g.BaseCoreSize + g.DebugWallDistance
    ForEach (fun (s : ARandomMapGenerator) (OffsetX : Int) =>
        ForEach (fun (s1 : ARandomMapGenerator) (OffsetY : Int) =>
            if |OffsetX| = WallSize ∨ |OffsetY| = WallSize then
              ForEach (GenerateDebugWallBlock (CenterWorldX + OffsetX) (CenterWorldY + OffsetY)
                  OffsetX OffsetY LocalBaseHeight)
                (ForRange 0 s1.DebugWallHeight) s1
            else some s1)
          (ForRange (-WallSize) (WallSize + 1)) s)
      (ForRange (-WallSize) (WallSize + 1)) g

/-! ### Generation pipelines -/

/-- `ARandomMapGenerator::ClearGeneratorState`. -/
def ClearGeneratorState (g : ARandomMapGenerator) : ARandomMapGenerator :=
  { g with
    BlocksData := []
    ChunksInfo := []
    BlockDamageData := []
    CaveLocations := []
    ChunkISMSystem := []
    bServerGenerationComplete := false
    bClientGenerationComplete := false }

/-- The nested chunk loops shared by both pipelines: `GenerateChunk` for every chunk
coordinate of the world, X outermost, counting the generated chunks. -/
def GenerateAllChunks (E : FEngine) (g : ARandomMapGenerator) : Option ARandomMapGenerator :=
  ForEach (fun (s : ARandomMapGenerator) (X : Int) =>
      ForEach (fun (s1 : ARandomMapGenerator) (Y : Int) =>
          match GenerateChunk E s1 ⟨X, Y⟩ with
          | none => none
          | some s2 => some { s2 with ChunksGenerated := s2.ChunksGenerated + 1 })
        (ForRange 0 s.WorldSizeInChunks) s)
    (ForRange 0 g.WorldSizeInChunks) g

/-- The guarded broadcast of `OnWorldGenerationComplete` at the end of both pipelines. -/
def BroadcastWorldGenerationComplete (g : ARandomMapGenerator) : ARandomMapGenerator :=
  if !g.bEventAlreadyBroadcast then
    { g with
      bEventAlreadyBroadcast := true
      OnWorldGenerationCompleteCount := g.OnWorldGenerationCompleteCount + 1 }
  else g

/-- `ARandomMapGenerator::ServerGenerateWorld_Implementation`. `GenerateSpawnPoints` only
draws debug shapes and is left out. -/
def ServerGenerateWorld_Implementation (E : FEngine) (g : ARandomMapGenerator) :
    Option ARandomMapGenerator :=
  if !g.Authority ∨ g.bIsGeneratingWorld then some g
  else
    let g1 := g.ClearGeneratorState
    let g2 : ARandomMapGenerator :=
      { g1 with
        bIsGeneratingWorld := true
        bHasGeneratedWorld := false
        bWorldGenerationComplete := false
        ChunksToGenerate := g1.WorldSizeInChunks * g1.WorldSizeInChunks
        ChunksGenerated := 0
        RandomStream := E.StreamInitialize g1.Seed }
    match GenerateAllChunks E g2 with
    | none => none
    | some g3 =>
      match SpawnBaseCore E g3 with
      | none => none
      | some g4 =>
        let Bordered : Option ARandomMapGenerator :=
          if g4.bCreateMountainBorders then GenerateMountainBorderSystem E g4 else some g4
        match Bordered with
        | none => none
        | some g5 =>
          let Walled : Option ARandomMapGenerator :=
            if g5.bAIDebugMode then g5.GenerateDebugWalls else some g5
          match Walled with
          | none => none
          | some g6 =>
            let g7 : ARandomMapGenerator :=
              { g6 with
                bIsGeneratingWorld := false
                bHasGeneratedWorld := true
                bWorldGenerationComplete := true
                bServerGenerationComplete := true }
            some g7.BroadcastWorldGenerationComplete

/-- `ARandomMapGenerator::ClientGenerateWorld`. -/
def ClientGenerateWorld (E : FEngine) (g : ARandomMapGenerator) : Option ARandomMapGenerator :=
  if g.Authority ∨ g.bIsGeneratingWorld ∨ g.bHasGeneratedWorld then some g
  else
    let g1 := g.ClearGeneratorState
    let g2 : ARandomMapGenerator :=
      { g1 with
        bIsGeneratingWorld := true
        ChunksToGenerate := g1.WorldSizeInChunks * g1.WorldSizeInChunks
        ChunksGenerated := 0
        RandomStream := E.StreamInitialize g1.Seed }
    match GenerateAllChunks E g2 with
    | none => none
    | some g3 =>
      let Walled : Option ARandomMapGenerator :=
        if g3.bAIDebugMode then g3.GenerateDebugWalls else some g3
      match Walled with
      | none => none
      | some g4 =>
        let Bordered : Option ARandomMapGenerator :=
          if g4.bCreateMountainBorders then GenerateMountainBorderSystem E g4 else some g4
        match Bordered with
        | none => none
        | some g5 =>
          let g6 : ARandomMapGenerator :=
            { g5 with
              bIsGeneratingWorld := false
              bHasGeneratedWorld := true
              bClientGenerationComplete := true }
          some g6.BroadcastWorldGenerationComplete

/-- One call on the instance registry of a chunk: the spec's addInstance
(`UpdateBlockInstance`) or removeInstance (`RemoveBlockInstance`). -/
inductive RegistryCall where
  | addInstance (BlockPos : FBlockPosition) (BlockType : EBlockType)
  | removeInstance (BlockPos : FBlockPosition) (BlockType : EBlockType)
deriving DecidableEq

/-- A run of registry calls on one chunk, first call first. -/
def RunRegistryCalls (g : ARandomMapGenerator) (ChunkCoord : FChunkCoord) :
    List RegistryCall → Option ARandomMapGenerator
  | [] => some g
  | RegistryCall.addInstance BlockPos BlockType :: Calls =>
    match g.UpdateBlockInstance ChunkCoord BlockPos BlockType with
    | none => none
    | some g1 => RunRegistryCalls g1 ChunkCoord Calls
  | RegistryCall.removeInstance BlockPos BlockType :: Calls =>
    match g.RemoveBlockInstance ChunkCoord BlockPos BlockType with
    | none => none
    | some g1 => RunRegistryCalls g1 ChunkCoord Calls

/-- The instance location stored in the batch of `BlockType` at `Index`; `none` when
the chunk has no such batch or the index is not valid in it. -/
def InstanceAt (ChunkData : FChunkISMData) (BlockType : EBlockType) (Index : Int) :
    Option FVector :=
  match TMap.Find ChunkData.ChunkISMs BlockType with
  | none => none
  | some ChunkISM => if ISM.IsValidIndex ChunkISM Index then ChunkISM[Index.toNat]? else none

/-- The registry invariant of the spec for one chunk: every key of the instance-index
mapping maps to a valid index of the batch of its type, and the location stored there
is the world position of the key. -/
def MappingSound (g : ARandomMapGenerator) (ChunkCoord : FChunkCoord) : Prop :=
  ∀ ChunkData, TMap.Find g.ChunkISMSystem ChunkCoord = some ChunkData →
    ∀ Pair ∈ ChunkData.InstanceIndexMapping,
      InstanceAt ChunkData Pair.1.BlockType Pair.2
        = some (g.BlockToWorldPosition ChunkCoord Pair.1.BlockPos)

instance (g : ARandomMapGenerator) (ChunkCoord : FChunkCoord) :
    Decidable (MappingSound g ChunkCoord) := by
  unfold MappingSound
  cases h : TMap.Find g.ChunkISMSystem ChunkCoord with
  | none => exact isTrue (by intro d hd; cases hd)
  | some d =>
    exact decidable_of_iff (∀ Pair ∈ d.InstanceIndexMapping,
      InstanceAt d Pair.1.BlockType Pair.2
        = some (g.BlockToWorldPosition ChunkCoord Pair.1.BlockPos))
      ⟨fun hall d2 hd2 => by cases hd2; exact hall, fun hall => hall d rfl⟩

/-- The actor as constructed: the defaults of the header and of the constructor, with
empty containers and authority. Settings whose defaults are not part of the sources
(border, cave size, base core and debug-wall settings) are given fixed sample values. -/
def Constructed : ARandomMapGenerator :=
  { Authority := true
    WorldSizeInChunks := 8
    ChunkSize := 16
    ChunkHeight := 64
    BlockSize := 100
    BlockSpacing := 0
    MapFlatness := 1 / 2
    TreeDensity := 1 / 2
    BaseHeight := 10
    HeightVariation := 5
    NoiseScale := 1 / 10
    Seed := 0
    BlockDataTable := none
    BaseCoreCenter := 2
    BaseCoreSize := 2
    BaseCoreBP := false
    SpawnedBaseCore := none
    bCreateMountainBorders := false
    MountainBorderWidth := 8
    MountainMinHeight := 8
    MountainMaxHeight := 20
    MountainNoiseScale := 1 / 20
    CavesPerEdge := 1
    CaveWidth := 4
    CaveHeight := 4
    CaveDepth := 8
    bSealCaves := false
    CaveRockyFormationRadius := 6
    MaxExtraRockHeight := 6
    RockFormationDensity := 2 / 5
    bCreateRockyFormations := true
    bNaturalCaveTunnels := true
    CaveTunnelDeviation := 2
    CaveHeightVariation := 2
    CaveFloorVariation := 1
    CaveSpawnDepthRatio := 1 / 2
    bAIDebugMode := false
    DebugWallDistance := 3
    DebugWallHeight := 3
    DebugWallThickness := 1
    EnemySpawnDistanceFromEdge := 3
    BlocksData := []
    ChunksInfo := []
    BlockDamageData := []
    ChunkISMSystem := []
    CaveLocations := []
    RandomStream := 0
    bIsGeneratingWorld := false
    bHasGeneratedWorld := false
    bWorldGenerationComplete := false
    bServerGenerationComplete := false
    bClientGenerationComplete := false
    bEventAlreadyBroadcast := false
    ChunksToGenerate := 0
    ChunksGenerated := 0
    OnWorldGenerationCompleteCount := 0 }

/-- The number of pairs of the chunk's instance-index mapping stored under
`(BlockType, BlockPos)`; zero when the chunk has no registry entry. -/
def MappingEntryCount (g : ARandomMapGenerator) (ChunkCoord : FChunkCoord)
    (BlockType : EBlockType) (BlockPos : FBlockPosition) : Nat :=
  match TMap.Find g.ChunkISMSystem ChunkCoord with
  | none => 0
  | some ChunkData =>
    (ChunkData.InstanceIndexMapping.filter
      (fun Pair => decide (Pair.1 = ⟨BlockType, BlockPos⟩))).length

/-- The store/registry correspondence of the spec: every non-Air entry of the block
store has exactly one mapping entry `(type,pos)` in its chunk's registry, and every
mapping entry `(type,pos)` of a chunk is the type the store holds at that position. -/
def StoreRegistryBijection (g : ARandomMapGenerator) : Prop :=
  (∀ Entry ∈ g.BlocksData, Entry.2 ≠ EBlockType.Air →
    g.MappingEntryCount Entry.1.ChunkCoord Entry.2 Entry.1.BlockPos = 1) ∧
  (∀ Chunk ∈ g.ChunkISMSystem, ∀ Pair ∈ Chunk.2.InstanceIndexMapping,
    g.GetBlockInternal Chunk.1 Pair.1.BlockPos = Pair.1.BlockType)

instance (g : ARandomMapGenerator) : Decidable (StoreRegistryBijection g) := by
  unfold StoreRegistryBijection
  infer_instance

/-- An engine instance for evaluating the pipelines on concrete worlds: noise, sine
identically zero, the integer square root, a random stream whose fractions are all 1/2
and whose ranges all return their minimum, and a spawn that always succeeds. -/
def SampleEngine : FEngine :=
  { PerlinNoise2D := fun _ _ => 0
    Sin := fun _ => 0
    Sqrt := fun X => (Nat.sqrt (Int.toNat (Int.floor X)) : ℚ)
    Pow := fun X _ => X
    PI := 355 / 113
    StreamInitialize := fun Seed => Seed
    StreamGetFraction := fun State => (1 / 2, State + 1)
    StreamRandRange := fun Min _ State => (Min, State + 1)
    SpawnActor := fun Location => some Location }

/-- A world of one chunk of 2 x 2 columns with seed 999, a base core blueprint, a base
core footprint of a single column (`BaseCoreSize` 0) and no flatness zone around the
centre (`BaseCoreCenter` 0); every other setting as constructed. -/
def SmallWorld : ARandomMapGenerator :=
  { Constructed with
    WorldSizeInChunks := 1
    ChunkSize := 2
    Seed := 999
    BaseCoreCenter := 0
    BaseCoreSize := 0
    BaseCoreBP := true }

/-- Sample registry state: three Stone instances added, in this order, at the local
positions (0,0,0), (1,0,0), (2,0,0) of chunk (0,0) of the constructed actor. -/
def ThreeStones : ARandomMapGenerator :=
  (RunRegistryCalls Constructed ⟨0, 0⟩
    [RegistryCall.addInstance ⟨0, 0, 0⟩ EBlockType.Stone,
     RegistryCall.addInstance ⟨1, 0, 0⟩ EBlockType.Stone,
     RegistryCall.addInstance ⟨2, 0, 0⟩ EBlockType.Stone]).getD Constructed

/-- The registry entry of chunk (0,0) in `ThreeStones`. -/
def ThreeStonesData : FChunkISMData :=
  (TMap.Find ThreeStones.ChunkISMSystem ⟨0, 0⟩).getD NewChunkData

/-- Sample damage state: the constructed actor with a data table giving Stone durability
100, and a Stone block placed at the world location (150,150,150), which is the cell
(1,1,1) of chunk (0,0). -/
def StoneBlockWorld : ARandomMapGenerator :=
  (({ Constructed with BlockDataTable := some [(EBlockType.Stone, 100)] }).SetBlockTypeAtPosition
    ⟨150, 150, 150⟩ EBlockType.Stone).getD Constructed

/-- The state `StoneBlockWorld` after one hit of 60 on its Stone block. -/
def DamagedStoneWorld : ARandomMapGenerator :=
  ((StoneBlockWorld.ApplyDamageToBlock ⟨150, 150, 150⟩ 60).map Prod.snd).getD Constructed

/-! ### Generation requests and completion -/

/-- `ARandomMapGenerator::GenerateWorld`. On the authority the call of the
`ServerGenerateWorld` RPC runs `ServerGenerateWorld_Implementation` (its validation
always passes); elsewhere nothing more happens. -/
def GenerateWorld (E : FEngine) (g : ARandomMapGenerator) : Option ARandomMapGenerator :=
  let g1 : ARandomMapGenerator := { g with bHasGeneratedWorld := false }
  if g1.Authority then ServerGenerateWorld_Implementation E g1 else some g1

/-- `ARandomMapGenerator::SetNewSeed`. `NowTicks` is the value of
`FDateTime::Now().GetTicks()`, read only when the new seed equals the current one. The
global `FMath::RandInit` and the two cleared bookkeeping maps are left out. -/
def SetNewSeed (E : FEngine) (g : ARandomMapGenerator) (NewSeed NowTicks : Int) :
    Option ARandomMapGenerator :=
  if g.Authority then
    let NewSeed1 : Int := if NewSeed = g.Seed then |Int.tmod NowTicks 2147483647| else NewSeed
    let g1 : ARandomMapGenerator :=
      { g with
        bServerGenerationComplete := false
        bClientGenerationComplete := false
        Seed := NewSeed1
        bHasGeneratedWorld := false
        bWorldGenerationComplete := false
        bEventAlreadyBroadcast := false
        RandomStream := E.StreamInitialize NewSeed1 }
    ServerGenerateWorld_Implementation E g1
  else some g

/-- The statements of `ServerGenerateWorld_Implementation` after its generation passes:
the flags of a finished server run, then the guarded broadcast. -/
def ServerCompletion (g : ARandomMapGenerator) : ARandomMapGenerator :=
  let g1 : ARandomMapGenerator :=
    { g with
      bIsGeneratingWorld := false
      bHasGeneratedWorld := true
      bWorldGenerationComplete := true
      bServerGenerationComplete := true }
  g1.BroadcastWorldGenerationComplete

/-- The statements of `ClientGenerateWorld` after its generation passes: the flags of a
finished client run, then the guarded broadcast. -/
def ClientCompletion (g : ARandomMapGenerator) : ARandomMapGenerator :=
  let g1 : ARandomMapGenerator :=
    { g with
      bIsGeneratingWorld := false
      bHasGeneratedWorld := true
      bClientGenerationComplete := true }
  g1.BroadcastWorldGenerationComplete

/-- The column fill loop of `GenerateChunk` for the column `(X, Y)` of `ChunkCoord`:
`for (Z = 0; Z < TerrainHeight; Z++)` write the layer's block type. -/
def FillColumn (g : ARandomMapGenerator) (ChunkCoord : FChunkCoord) (X Y TerrainHeight : Int) :
    Option ARandomMapGenerator :=
  ForEach (fun (s : ARandomMapGenerator) (Z : Int) =>
      s.WriteBlock ChunkCoord ⟨X, Y, Z⟩ (ColumnBlockType TerrainHeight Z))
    (ForRange 0 TerrainHeight) g

/-- The registry entry of the chunk, when there is one, has a per-type count for every
block type it has a batch for (as built by `InitializeChunkISMs`). -/
def CountsCoverBatches (g : ARandomMapGenerator) (ChunkCoord : FChunkCoord) : Prop :=
  ∀ ChunkData, TMap.Find g.ChunkISMSystem ChunkCoord = some ChunkData →
    ∀ BlockType, (TMap.Find ChunkData.ChunkISMs BlockType).isSome →
      (TMap.Find ChunkData.InstanceCounts BlockType).isSome

instance (g : ARandomMapGenerator) (ChunkCoord : FChunkCoord) :
    Decidable (CountsCoverBatches g ChunkCoord) := by
  unfold CountsCoverBatches
  cases h : TMap.Find g.ChunkISMSystem ChunkCoord with
  | none => exact isTrue (by intro d hd; cases hd)
  | some d =>
    exact decidable_of_iff
      (∀ BlockType ∈ [EBlockType.Air, EBlockType.Grass, EBlockType.Dirt, EBlockType.Stone,
          EBlockType.Wood, EBlockType.Leaves, EBlockType.Turret, EBlockType.Trap,
          EBlockType.Production, EBlockType.Storage, EBlockType.InvisibleWall, EBlockType.MAX],
        (TMap.Find d.ChunkISMs BlockType).isSome → (TMap.Find d.InstanceCounts BlockType).isSome)
      ⟨fun hall d2 hd2 t => by
          cases hd2
          exact hall t (by cases t <;> simp),
        fun hall t _ => hall d rfl t⟩

/-- The state `Final` differs from `Start` at most in the block store and the instance
registry: the two states agree once both containers are emptied. -/
def StoreFrame (Start Final : ARandomMapGenerator) : Prop :=
  ({ Final with BlocksData := [], ChunkISMSystem := [] } : ARandomMapGenerator)
    = { Start with BlocksData := [], ChunkISMSystem := [] }

/-- The state `Final` differs from `Start` at most in the block store, the chunk
tracking map, the damage table and the instance registry. -/
def MutationFrame (Start Final : ARandomMapGenerator) : Prop :=
  ({ Final with BlocksData := [], ChunksInfo := [], BlockDamageData := [],
                ChunkISMSystem := [] } : ARandomMapGenerator)
    = { Start with BlocksData := [], ChunksInfo := [], BlockDamageData := [],
                   ChunkISMSystem := [] }

/-- Sample state in the middle of a generation run: the constructed actor on the
authority with seed 0, the generating flag set and the random stream advanced to 7. -/
def MidGeneration : ARandomMapGenerator :=
  { Constructed with bIsGeneratingWorld := true, RandomStream := 7 }

/-- Sample state for tunnel carving: on the constructed actor, column (1,2) of chunk (0,0)
filled to terrain height 8, and a Stone block written above it at Z = 12. -/
def TunnelSample : ARandomMapGenerator :=
  ((Constructed.FillColumn ⟨0, 0⟩ 1 2 8).bind
    (fun g => g.WriteBlock ⟨0, 0⟩ ⟨1, 2, 12⟩ EBlockType.Stone)).getD Constructed

/-- The world `SmallWorld` with base height 2, two caves per edge, caves two blocks deep
and wide and three blocks high, and rocky formations of radius 2. -/
def CaveWorld : ARandomMapGenerator :=
  { SmallWorld with BaseHeight := 2, CavesPerEdge := 2, CaveDepth := 2, CaveWidth := 2,
                    CaveHeight := 3, CaveRockyFormationRadius := 2 }

/-! ### Definitions for the behaviour claims -/

/-- The deterministic trunk-height offset of `GenerateTree`:
`((WorldX * 31) + (WorldY * 17) + Seed) % 3 - 1`. -/
def TreeHeightOffsetOf (g : ARandomMapGenerator) (WorldX WorldY : Int) : Int :=
  Int.tmod (WorldX * 31 + WorldY * 17 + g.Seed) 3 - 1

/-- The trunk height of `GenerateTree` for the drawn base height:
`FMath::Clamp(BaseTreeHeight + TreeHeightOffset, 3, 8)`. -/
def TreeHeightOf (g : ARandomMapGenerator) (WorldX WorldY BaseTreeHeight : Int) : Int :=
  FMath.Clamp (BaseTreeHeight + TreeHeightOffsetOf g WorldX WorldY) 3 8

/-- The constructed actor as a replica: every setting as constructed, without authority. -/
def ReplicaWorld : ARandomMapGenerator :=
  { Constructed with Authority := false }

/-- Sample replica state: the replica has handled the block update (chunk (0,0), cell
(1,1,1), Stone) and then the damage update that sets the health of that block to 40. -/
def DamagedReplica : ARandomMapGenerator :=
  ((ReplicaWorld.MulticastUpdateBlock_Implementation ⟨0, 0⟩ ⟨1, 1, 1⟩ EBlockType.Stone).map
    (fun g => g.MulticastBlockDamaged_Implementation ⟨0, 0⟩ ⟨1, 1, 1⟩ 40)).getD ReplicaWorld

/-- The world `SmallWorld` with chunk height 8, no base core blueprint, and a mountain
border of width 1 and heights 3 to 4 with caves one block deep. -/
def TallBorderWorld : ARandomMapGenerator :=
  { SmallWorld with ChunkHeight := 8, BaseCoreBP := false, bCreateMountainBorders := true,
                    MountainBorderWidth := 1, MountainMinHeight := 3, MountainMaxHeight := 4,
                    CaveDepth := 1, CaveHeight := 2, CaveWidth := 2,
                    CaveRockyFormationRadius := 1 }

/-- The value `CombinedNoise` of `GenerateCaveRockyFormations` for the column
`(WorldX, WorldY)`. -/
def RockCombinedNoiseOf (E : FEngine) (g : ARandomMapGenerator) (WorldX WorldY : Int) : ℚ :=
  let NoiseOffsetX : ℚ := (g.Seed : ℚ) * (13 / 1000)
  let NoiseOffsetY : ℚ := ((g.Seed * 7919 : Int) : ℚ) * (9 / 1000)
  let Noise1 : ℚ := E.PerlinNoise2D ((WorldX : ℚ) * (1 / 10) + NoiseOffsetX)
    ((WorldY : ℚ) * (1 / 10) + NoiseOffsetY)
  let Noise2 : ℚ := E.PerlinNoise2D ((WorldX : ℚ) * (3 / 10) + NoiseOffsetX)
    ((WorldY : ℚ) * (3 / 10) + NoiseOffsetY) * (1 / 2)
  (Noise1 + Noise2) / (3 / 2)

/-- The value `RockFormationChance` of `GenerateCaveRockyFormations` for the column at
offset `(OffsetX, OffsetY)` from the cave start `(CaveX, CaveY)`. -/
def RockFormationChanceOf (E : FEngine) (g : ARandomMapGenerator)
    (CaveX CaveY OffsetX OffsetY : Int) : ℚ :=
  let DistanceFromCave : ℚ := E.Sqrt ((OffsetX * OffsetX + OffsetY * OffsetY : Int) : ℚ)
  let DistanceFactor : ℚ :=
    FMath.Clamp (1 - DistanceFromCave / (g.CaveRockyFormationRadius : ℚ)) 0 1
  DistanceFactor * (RockCombinedNoiseOf E g (CaveX + OffsetX) (CaveY + OffsetY) + 1) * (1 / 2)
    * g.RockFormationDensity

/-- The value `ExtraHeight = RoundToInt(RockFormationChance * MaxExtraRockHeight)` of
`GenerateCaveRockyFormations`. -/
def RockExtraHeightOf (E : FEngine) (g : ARandomMapGenerator)
    (CaveX CaveY OffsetX OffsetY : Int) : Int :=
  FMath.RoundToInt (RockFormationChanceOf E g CaveX CaveY OffsetX OffsetY
    * (g.MaxExtraRockHeight : ℚ))

/-- The values of `Z` for which the body of the block loop of
`GenerateCaveRockyFormations` runs at one offset, so for which `HeightPercent` is
evaluated: none when the offset is skipped (centre area, or chance below the threshold),
else `CaveBaseHeight <= Z < TotalHeight && Z < ChunkHeight`. -/
def RockColumnHeights (E : FEngine) (g : ARandomMapGenerator)
    (CaveX CaveY CaveBaseHeight OffsetX OffsetY : Int) : List Int :=
  if |OffsetX| ≤ Int.tdiv g.CaveWidth 2 ∧ |OffsetY| ≤ Int.tdiv g.CaveWidth 2 then []
  else if RockFormationChanceOf E g CaveX CaveY OffsetX OffsetY < 1 / 5 then []
  else ForRange CaveBaseHeight
    (min (CaveBaseHeight + RockExtraHeightOf E g CaveX CaveY OffsetX OffsetY) g.ChunkHeight)

/-- Sample world for rocky formations: the constructed actor with rock formation density
1 (formation radius 6, cave width 4, at most 6 extra rock blocks). -/
def RockyWorld : ARandomMapGenerator :=
  { Constructed with RockFormationDensity := 1 }

/-- The start column and direction `(CaveStartX, CaveStartY, CaveDirectionX,
CaveDirectionY)` that the switch on `EdgeIndex` of `GenerateEnhancedCave` computes;
`none` on its default branch. -/
def CaveStartOf (g : ARandomMapGenerator) (EdgeIndex : Int) (EdgePosition : ℚ) :
    Option (Int × Int × Int × Int) :=
  let MapMinX : Int := 0
  let MapMinY : Int := 0
  let MapMaxX : Int := g.WorldSizeInChunks * g.ChunkSize - 1
  let MapMaxY : Int := g.WorldSizeInChunks * g.ChunkSize - 1
  let AlongX : Int := Int.floor ((MapMinX : ℚ) + ((MapMaxX - MapMinX : Int) : ℚ) * EdgePosition)
  let AlongY : Int := Int.floor ((MapMinY : ℚ) + ((MapMaxY - MapMinY : Int) : ℚ) * EdgePosition)
  if EdgeIndex = 0 then some (AlongX, MapMinY - 1, 0, -1)
  else if EdgeIndex = 1 then some (AlongX, MapMaxY + 1, 0, 1)
  else if EdgeIndex = 2 then some (MapMinX - 1, AlongY, -1, 0)
  else if EdgeIndex = 3 then some (MapMaxX + 1, AlongY, 1, 0)
  else none

/-- The value `CurrentWidth` of `GenerateNaturalCaveTunnel` at one depth. -/
def TunnelWidthOf (E : FEngine) (g : ARandomMapGenerator) (Depth : Int) : Int :=
  let DepthPercent : ℚ := (Depth : ℚ) / (g.CaveDepth : ℚ)
  let WidthMultiplier : ℚ := E.Sin (DepthPercent * E.PI)
  FMath.Max 2 (FMath.RoundToInt ((g.CaveWidth : ℚ) * (1 / 2 + 1 / 2 * WidthMultiplier)))

/-- The value `Deviation` of `GenerateNaturalCaveTunnel` at one depth. -/
def TunnelDeviationOf (E : FEngine) (g : ARandomMapGenerator) (Depth : Int) : Int :=
  let TunnelNoiseOffsetX : ℚ := (g.Seed : ℚ) * (17 / 1000)
  let TunnelNoiseOffsetY : ℚ := ((g.Seed * 3571 : Int) : ℚ) * (19 / 1000)
  if g.bNaturalCaveTunnels ∧ g.CaveTunnelDeviation > 0 then
    let DeviationNoise : ℚ := E.PerlinNoise2D ((Depth : ℚ) * (3 / 10) + TunnelNoiseOffsetX)
      ((Depth : ℚ) * (1 / 5) + TunnelNoiseOffsetY)
    FMath.RoundToInt (DeviationNoise * (g.CaveTunnelDeviation : ℚ))
  else 0

/-- The tunnel column `(TunnelX, TunnelY)` of `GenerateNaturalCaveTunnel` at one depth and
width offset, for the deviation computed at that depth. -/
def TunnelColumnAt (StartX StartY DirX DirY Depth Deviation WidthOffset : Int) : Int × Int :=
  let DeviationX : Int := if DirX ≠ 0 then 0 else Deviation
  let DeviationY : Int := if DirX ≠ 0 then Deviation else 0
  let CurrentX : Int := StartX + DirX * Depth + DeviationX
  let CurrentY : Int := StartY + DirY * Depth + DeviationY
  (if DirX ≠ 0 then CurrentX else CurrentX + WidthOffset,
   if DirX ≠ 0 then CurrentY + WidthOffset else CurrentY)

/-- The chunk coordinate lies inside `[0, WorldSizeInChunks)²`, the playable area. -/
def IsPlayableChunk (g : ARandomMapGenerator) (ChunkCoord : FChunkCoord) : Prop :=
  0 ≤ ChunkCoord.X ∧ ChunkCoord.X < g.WorldSizeInChunks ∧
  0 ≤ ChunkCoord.Y ∧ ChunkCoord.Y < g.WorldSizeInChunks

instance (g : ARandomMapGenerator) (ChunkCoord : FChunkCoord) :
    Decidable (IsPlayableChunk g ChunkCoord) := by
  unfold IsPlayableChunk
  infer_instance

/-- The number of keys of the (type,pos) mapping whose block type is `BlockType`. -/
def MappingKeysOfType (Mapping : List (FBlockTypePositionKey × Int)) (BlockType : EBlockType) :
    Nat :=
  (Mapping.filter (fun Pair => decide (Pair.1.BlockType = BlockType))).length

/-- The counting invariant of one registry entry: every block type from Grass to
InvisibleWall has a batch; for every batch the per-type count is the number of its
instances and the mapping has at most that many keys of the type; every mapping key is
of a type that has a batch. -/
def BatchesCounted (ChunkData : FChunkISMData) : Prop :=
  (∀ BlockType ∈ InstancedBlockTypes, (TMap.Find ChunkData.ChunkISMs BlockType).isSome) ∧
  (∀ BlockType ChunkISM, TMap.Find ChunkData.ChunkISMs BlockType = some ChunkISM →
    TMap.Find ChunkData.InstanceCounts BlockType = some (ISM.GetInstanceCount ChunkISM) ∧
    (MappingKeysOfType ChunkData.InstanceIndexMapping BlockType : Int)
      ≤ ISM.GetInstanceCount ChunkISM) ∧
  (∀ Pair ∈ ChunkData.InstanceIndexMapping,
    (TMap.Find ChunkData.ChunkISMs Pair.1.BlockType).isSome)

/-- The registry entry of the chunk, when there is one, satisfies `BatchesCounted`. -/
def RegistryCounted (g : ARandomMapGenerator) (ChunkCoord : FChunkCoord) : Prop :=
  ∀ ChunkData, TMap.Find g.ChunkISMSystem ChunkCoord = some ChunkData → BatchesCounted ChunkData

/-! ### Nearest-block search -/

end ARandomMapGenerator

/-- Modelled from the spec: the block type argument of findNearestBlock, either a block
type or the wildcard `EBlockType::ALL` (the enumeration header of the sources does not
list the wildcard, the function compares against it). -/
inductive EBlockQuery where
  | ALL
  | Is (BlockType : EBlockType)
deriving DecidableEq

/-- `FVector::DistSquared`, computed in single precision. -/
def FVector.DistSquared (V1 V2 : FVector) : ℚ :=
  F32.Round (F32.Round
      (F32.Round (F32.Round (V2.X - V1.X) * F32.Round (V2.X - V1.X))
        + F32.Round (F32.Round (V2.Y - V1.Y) * F32.Round (V2.Y - V1.Y)))
    + F32.Round (F32.Round (V2.Z - V1.Z) * F32.Round (V2.Z - V1.Z)))

/-- The squared distance of two points in exact arithmetic. -/
def FVector.ExactDistSquared (V1 V2 : FVector) : ℚ :=
  (V2.X - V1.X) * (V2.X - V1.X) + (V2.Y - V1.Y) * (V2.Y - V1.Y) + (V2.Z - V1.Z) * (V2.Z - V1.Z)

/-- `FMath::CeilToInt`. -/
def FMath.CeilToInt (F : ℚ) : Int := Int.ceil F

namespace ARandomMapGenerator

/-- The test of `FindNearestBlock` on the type of a visited cell:
`(BlockType == ALL || CurrBlockType == BlockType) && CurrBlockType != Air`. -/
def QueryMatches (BlockType : EBlockQuery) (CurrBlockType : EBlockType) : Bool :=
  (decide (BlockType = EBlockQuery.ALL) || decide (EBlockQuery.Is CurrBlockType = BlockType))
    && decide (CurrBlockType ≠ EBlockType.Air)

/-- `ChunkSearchRadius` of `FindNearestBlock`. -/
def ChunkSearchRadius (g : ARandomMapGenerator) (MaxDistance : ℚ) : Int :=
  FMath.CeilToInt (F32.Round (MaxDistance
    / F32.Round (F32.Round (g.ChunkSize : ℚ) * g.BlockSize))) + 1

/-- The cells `(SearchChunkCoord, BlockPos)` visited by the loop nest of `FindNearestBlock`,
in loop order: chunks within the search radius of the centre chunk that are tracked as
generated, and in each of them every local position of the chunk. -/
def FindNearestCells (g : ARandomMapGenerator) (StartLocation : FVector) (MaxDistance : ℚ) :
    List (FChunkCoord × FBlockPosition) :=
  let CenterChunkCoord := g.WorldToChunkCoord StartLocation
  let Radius := g.ChunkSearchRadius MaxDistance
  (ForRange (CenterChunkCoord.X - Radius) (CenterChunkCoord.X + Radius + 1)).flatMap
    (fun (ChunkX : Int) =>
      (ForRange (CenterChunkCoord.Y - Radius) (CenterChunkCoord.Y + Radius + 1)).flatMap
        (fun (ChunkY : Int) =>
          if g.IsChunkGenerated ⟨ChunkX, ChunkY⟩ then
            (ForRange 0 g.ChunkSize).flatMap (fun (X : Int) =>
              (ForRange 0 g.ChunkSize).flatMap (fun (Y : Int) =>
                (ForRange 0 g.ChunkHeight).map (fun (Z : Int) =>
                  ((⟨ChunkX, ChunkY⟩ : FChunkCoord), (⟨X, Y, Z⟩ : FBlockPosition)))))
          else []))

/-- The body of the innermost loop of `FindNearestBlock` on the running
`(MinDistanceSquared, OutBlockLocation, bFoundBlock)`. -/
def FindNearestStep (g : ARandomMapGenerator) (StartLocation : FVector)
    (BlockType : EBlockQuery) (Best : ℚ × FVector × Bool)
    (Cell : FChunkCoord × FBlockPosition) : ℚ × FVector × Bool :=
  let CurrBlockType := g.GetBlockInternal Cell.1 Cell.2
  if QueryMatches BlockType CurrBlockType then
    let BlockPosition := g.BlockToWorldPosition Cell.1 Cell.2
    let DistanceSquared := FVector.DistSquared StartLocation BlockPosition
    if DistanceSquared < Best.1 then (DistanceSquared, BlockPosition, true) else Best
  else Best

/-- `ARandomMapGenerator::FindNearestBlock`: the returned flag and the value of the
output parameter `OutBlockLocation` after the call. Logging and debug drawing are left
out. -/
def FindNearestBlock (g : ARandomMapGenerator) (StartLocation : FVector)
    (BlockType : EBlockQuery) (MaxDistance : ℚ) (OutBlockLocation : FVector) : Bool × FVector :=
  let Best := (g.FindNearestCells StartLocation MaxDistance).foldl
    (g.FindNearestStep StartLocation BlockType)
    (F32.Round (MaxDistance * MaxDistance), OutBlockLocation, false)
  (Best.2.2, Best.2.1)

/-- The cell holds a block the query asks for, in the words of the interface: the chunk
is generated, the local position is within chunk bounds, and the block is not Air and
matches the type (any type for the wildcard). -/
def IsQueryCandidate (g : ARandomMapGenerator) (BlockType : EBlockQuery)
    (ChunkCoord : FChunkCoord) (BlockPos : FBlockPosition) : Prop :=
  g.IsChunkGenerated ChunkCoord = true ∧
  0 ≤ BlockPos.X ∧ BlockPos.X < g.ChunkSize ∧ 0 ≤ BlockPos.Y ∧ BlockPos.Y < g.ChunkSize ∧
  0 ≤ BlockPos.Z ∧ BlockPos.Z < g.ChunkHeight ∧
  g.GetBlockInternal ChunkCoord BlockPos ≠ EBlockType.Air ∧
  (BlockType = EBlockQuery.ALL ∨ BlockType = EBlockQuery.Is (g.GetBlockInternal ChunkCoord BlockPos))

instance (g : ARandomMapGenerator) (BlockType : EBlockQuery) (ChunkCoord : FChunkCoord)
    (BlockPos : FBlockPosition) : Decidable (IsQueryCandidate g BlockType ChunkCoord BlockPos) := by
  unfold IsQueryCandidate
  infer_instance

/-- The constructed actor with blocks of size 0.0001 (as a binary32 value) in chunks of a
single column, and a Stone block placed at the world location (0,0,0): the cell (0,0,10)
of chunk (10,10). -/
def TinyBlockWorld : ARandomMapGenerator :=
  (({ Constructed with
      BlockSize := 13743895 / 137438953472
      ChunkSize := 1 }).SetBlockTypeAtPosition
    ⟨0, 0, 0⟩ EBlockType.Stone).getD Constructed

/-! ### Calls in a row and samples of generated worlds -/

/-- Successive calls of `ApplyDamageToBlock` with the same damage, one per listed location:
the returned flags and the final state. -/
def ApplyDamageToBlocks (g : ARandomMapGenerator) (Damage : ℚ) :
    List FVector → Option (List Bool × ARandomMapGenerator)
  | [] => some ([], g)
  | WorldLocation :: Rest =>
    match g.ApplyDamageToBlock WorldLocation Damage with
    | none => none
    | some (Destroyed, g1) =>
      match ApplyDamageToBlocks g1 Damage Rest with
      | none => none
      | some (Flags, g2) => some (Destroyed :: Flags, g2)

/-- Engine whose random stream returns the fraction 0 on every draw: every tree roll of a
positive tree density plants a tree. -/
def TreeEngine : FEngine :=
  { SampleEngine with StreamGetFraction := fun State => (0, State + 1) }

/-- Sample world of one chunk of 2 x 2 columns, six blocks high, with terrain height 2 and
tree density 1: the four trees of its columns overlap. -/
def TreeWorld : ARandomMapGenerator :=
  { Constructed with
    WorldSizeInChunks := 1
    ChunkSize := 2
    Seed := 2
    BaseHeight := 2
    ChunkHeight := 6
    TreeDensity := 1 }

/-- The centres of six Leaves blocks of the generated `TreeWorld`, chunk (0,0): the cells
(1,0,5), (0,1,5), (0,0,5), (0,1,4), (0,1,3) and (0,0,4). -/
def TreeLeafHits : List FVector :=
  [⟨150, 50, 550⟩, ⟨50, 150, 550⟩, ⟨50, 50, 550⟩, ⟨50, 150, 450⟩, ⟨50, 150, 350⟩, ⟨50, 50, 450⟩]

/-! ### Stages of the border generation -/

/-- The state in which `ServerGenerateWorld_Implementation` reaches the `GenerateCaveSystem`
call of `GenerateMountainBorderSystem`: after the reset of the generator state,
`GenerateAllChunks`, `SpawnBaseCore` and the four mountain ranges. -/
def MountainRangesStage (E : FEngine) (g : ARandomMapGenerator) : Option ARandomMapGenerator :=
  let g1 := g.ClearGeneratorState
  let g2 : ARandomMapGenerator :=
    { g1 with
      bIsGeneratingWorld := true
      bHasGeneratedWorld := false
      bWorldGenerationComplete := false
      ChunksToGenerate := g1.WorldSizeInChunks * g1.WorldSizeInChunks
      ChunksGenerated := 0
      RandomStream := E.StreamInitialize g1.Seed }
  match GenerateAllChunks E g2 with
  | none => none
  | some g3 =>
    match SpawnBaseCore E g3 with
    | none => none
    | some g4 => ForEach (GenerateMountainRange E) (ForRange 0 4) g4

/-- Engine whose noise function takes the values -1, 0, 1, 2 in steps:
`floor(2 X + 23 Y) mod 4 - 1`. -/
def StepNoiseEngine : FEngine :=
  { SampleEngine with PerlinNoise2D := fun X Y =>
      ((Int.emod (Int.floor (2 * X + 23 * Y)) 4 - 1 : Int) : ℚ) }

/-- Sample world of one chunk of a single column with a mountain border of width 1, one
cave per edge of width 1 and depth 1, and rocky formations of radius 2 and density 1. -/
def BorderCaveWorld : ARandomMapGenerator :=
  { Constructed with
    WorldSizeInChunks := 1
    ChunkSize := 1
    Seed := 999
    BaseHeight := 1
    ChunkHeight := 12
    bCreateMountainBorders := true
    MountainBorderWidth := 1
    MountainMinHeight := 3
    MountainMaxHeight := 5
    CaveWidth := 1
    CaveHeight := 5
    CaveDepth := 1
    CaveRockyFormationRadius := 2
    RockFormationDensity := 1 }

/-- The state in which the generation of `BorderCaveWorld` begins the cave of the east
edge: after `MountainRangesStage` and the caves of the north, south and west edges. -/
def ThreeCavesStage : Option ARandomMapGenerator :=
  match MountainRangesStage StepNoiseEngine BorderCaveWorld with
  | none => none
  | some g =>
    ForEach (fun (s : ARandomMapGenerator) (EdgeIndex : Int) =>
      GenerateEnhancedCave StepNoiseEngine s EdgeIndex (1 / 2)) [0, 1, 2]
      { g with CaveLocations := [] }

/-- Sample settings with a negative floor variation. -/
def NegativeVariationWorld : ARandomMapGenerator :=
  { Constructed with CaveFloorVariation := -2 }

/-! ### Damage records in single precision -/

/-- Every record of the damage table has a health above 0 and at most its max health, and
a max health that is a binary32 value. -/
def DamageRecordsWithinMax (g : ARandomMapGenerator) : Prop :=
  ∀ Pair ∈ g.BlockDamageData,
    0 < Pair.2.CurrentHealth ∧ Pair.2.CurrentHealth ≤ Pair.2.MaxHealth ∧
      F32.Round Pair.2.MaxHealth = Pair.2.MaxHealth

instance (g : ARandomMapGenerator) : Decidable (DamageRecordsWithinMax g) := by
  unfold DamageRecordsWithinMax
  infer_instance

/-- The `Durability` of every row of the block data table, a `float` field, is a binary32
value. -/
def DurabilitiesSingle (g : ARandomMapGenerator) : Prop :=
  ∀ Table, g.BlockDataTable = some Table → ∀ Row ∈ Table, F32.Round Row.2 = Row.2

instance (g : ARandomMapGenerator) : Decidable (DurabilitiesSingle g) := by
  unfold DurabilitiesSingle
  cases h : g.BlockDataTable with
  | none => exact isTrue (by intro T hT; cases hT)
  | some T0 =>
    exact decidable_of_iff (∀ Row ∈ T0, F32.Round Row.2 = Row.2)
      ⟨fun hall T hT => by cases hT; exact hall, fun hall => hall T0 rfl⟩

/-! ### The columns of a chunk -/

/-- The value `ChunkSpecificSeedModifier` of `GenerateChunk`. -/
def ChunkSeedModifierOf (g : ARandomMapGenerator) (ChunkCoord : FChunkCoord) : Int :=
  Int.tmod (ChunkCoord.X * 73 + ChunkCoord.Y * 31 + g.Seed) 1000

/-- The value `TerrainHeight` of the column `(X, Y)` of `GenerateChunk`. -/
def ColumnHeightOf (E : FEngine) (g : ARandomMapGenerator) (ChunkCoord : FChunkCoord)
    (X Y : Int) : Int :=
  GetTerrainHeight E g (ChunkCoord.X * g.ChunkSize + X) (ChunkCoord.Y * g.ChunkSize + Y)
    (g.ChunkSeedModifierOf ChunkCoord)

/-- The tree roll of the column `(X, Y)` of `GenerateChunk`, the part of the loop body
after the column fill, on the state `g1` left by the fill. -/
def RollTree (E : FEngine) (ChunkCoord : FChunkCoord) (TerrainHeight X Y : Int)
    (g1 : ARandomMapGenerator) : Option ARandomMapGenerator :=
  let WorldX : Int := ChunkCoord.X * g1.ChunkSize + X
  let WorldY : Int := ChunkCoord.Y * g1.ChunkSize + Y
  let LocalTreeDensity0 : ℚ := g1.TreeDensity * (1 / 20) *
    (1 + E.Sin ((WorldX : ℚ) * (1 / 50) + (WorldY : ℚ) * (1 / 25) + (g1.Seed : ℚ) * (1 / 100)))
  let LocalTreeDensity : ℚ := FMath.Clamp LocalTreeDensity0 0 (1 / 10)
  let Roll := DrawFraction E g1
  if Roll.1 < LocalTreeDensity then GenerateTree E Roll.2 WorldX WorldY TerrainHeight
  else some Roll.2

/-- The part of the loops of `GenerateChunk` that runs before the column `(X, Y)`: the
initialisation of the chunk, the columns of every `X2 < X` and the columns `(X, Y2)` with
`Y2 < Y`. -/
def ColumnsBefore (E : FEngine) (g : ARandomMapGenerator) (ChunkCoord : FChunkCoord)
    (X Y : Int) : Option ARandomMapGenerator :=
  let g1 := g.InitializeChunkISMs ChunkCoord
  let g2 : ARandomMapGenerator :=
    { g1 with ChunksInfo := TMap.Add g1.ChunksInfo ChunkCoord ⟨true⟩ }
  let ChunkSpecificSeedModifier : Int :=
    Int.tmod (ChunkCoord.X * 73 + ChunkCoord.Y * 31 + g2.Seed) 1000
  match ForEach (fun (s : ARandomMapGenerator) (X2 : Int) =>
      ForEach (GenerateColumn E ChunkCoord ChunkSpecificSeedModifier X2)
        (ForRange 0 s.ChunkSize) s)
    (ForRange 0 X) g2 with
  | none => none
  | some s => ForEach (GenerateColumn E ChunkCoord ChunkSpecificSeedModifier X) (ForRange 0 Y) s

/-- The part of the loops of `GenerateChunk` that runs after the column `(X, Y)`: the
columns `(X, Y2)` with `Y2 > Y` and the columns of every `X2 > X`. -/
def ColumnsAfter (E : FEngine) (ChunkCoord : FChunkCoord) (ChunkSpecificSeedModifier : Int)
    (X Y : Int) (g : ARandomMapGenerator) : Option ARandomMapGenerator :=
  match ForEach (GenerateColumn E ChunkCoord ChunkSpecificSeedModifier X)
      (ForRange (Y + 1) g.ChunkSize) g with
  | none => none
  | some s =>
    ForEach (fun (s1 : ARandomMapGenerator) (X2 : Int) =>
        ForEach (GenerateColumn E ChunkCoord ChunkSpecificSeedModifier X2)
          (ForRange 0 s1.ChunkSize) s1)
      (ForRange (X + 1) s.ChunkSize) s

/-- The body of the chunk loops of `GenerateAllChunks` for the chunk `(X, Y)`:
`GenerateChunk`, then the count of the generated chunks. -/
def GenerateCountedChunk (E : FEngine) (X : Int) (g : ARandomMapGenerator) (Y : Int) :
    Option ARandomMapGenerator :=
  match GenerateChunk E g ⟨X, Y⟩ with
  | none => none
  | some s2 => some { s2 with ChunksGenerated := s2.ChunksGenerated + 1 }

/-- The part of the chunk loops of `GenerateAllChunks` that runs before the chunk
`(CX, CY)`: the chunks of every `X < CX` and the chunks `(CX, Y)` with `Y < CY`. -/
def ChunksBefore (E : FEngine) (g : ARandomMapGenerator) (CX CY : Int) :
    Option ARandomMapGenerator :=
  match ForEach (fun (s : ARandomMapGenerator) (X : Int) =>
      ForEach (GenerateCountedChunk E X) (ForRange 0 s.WorldSizeInChunks) s)
    (ForRange 0 CX) g with
  | none => none
  | some s => ForEach (GenerateCountedChunk E CX) (ForRange 0 CY) s

/-- The part of the chunk loops of `GenerateAllChunks` that runs after `GenerateChunk` has
returned `g` for the chunk `(CX, CY)`: the count of that chunk, the chunks `(CX, Y)` with
`Y > CY` and the chunks of every `X > CX`. -/
def ChunksAfter (E : FEngine) (CX CY : Int) (g : ARandomMapGenerator) :
    Option ARandomMapGenerator :=
  let g1 : ARandomMapGenerator := { g with ChunksGenerated := g.ChunksGenerated + 1 }
  match ForEach (GenerateCountedChunk E CX) (ForRange (CY + 1) g1.WorldSizeInChunks) g1 with
  | none => none
  | some s =>
    ForEach (fun (s1 : ARandomMapGenerator) (X : Int) =>
        ForEach (GenerateCountedChunk E X) (ForRange 0 s1.WorldSizeInChunks) s1)
      (ForRange (CX + 1) s.WorldSizeInChunks) s

/-! ### Round-trip margin -/

/-- The absolute block index lies within the round-trip margin of the settings: sixteen
single-precision error units `2 ^ -24` of the world coordinates involved,
`(|AbsBlock| + ChunkSize + 2) * (BlockSize + BlockSpacing)`, fit between the `0.001f`
epsilon and half a block. -/
def WithinCentreMargin (g : ARandomMapGenerator) (AbsBlock : Int) : Prop :=
  ((|AbsBlock| + g.ChunkSize + 2 : Int) : ℚ) * (g.BlockSize + g.BlockSpacing)
    ≤ 1048576 * (g.BlockSize / 2 - F32.Round (1 / 1000))

instance (g : ARandomMapGenerator) (AbsBlock : Int) :
    Decidable (WithinCentreMargin g AbsBlock) := by
  unfold WithinCentreMargin
  infer_instance

/-- The world coordinate lies well inside the block of index `AbsBlock`: shifted by the
epsilon in single precision, it is at least ten error units
`(|AbsBlock| + ChunkSize + 2) * (BlockSize + BlockSpacing) / 2 ^ 24` away from the two
faces of the block, `AbsBlock` and `AbsBlock + 1` single-precision effective block
sizes. -/
def WellInsideBlock (g : ARandomMapGenerator) (World : ℚ) (AbsBlock : Int) : Prop :=
  (AbsBlock : ℚ) * F32.Round (g.BlockSize + g.BlockSpacing)
      + 10 * (((|AbsBlock| + g.ChunkSize + 2 : Int) : ℚ)
          * (g.BlockSize + g.BlockSpacing) / 16777216)
    ≤ F32.Round (World + F32.Round (1 / 1000)) ∧
  F32.Round (World + F32.Round (1 / 1000))
    ≤ ((AbsBlock : ℚ) + 1) * F32.Round (g.BlockSize + g.BlockSpacing)
      - 10 * (((|AbsBlock| + g.ChunkSize + 2 : Int) : ℚ)
          * (g.BlockSize + g.BlockSpacing) / 16777216)

instance (g : ARandomMapGenerator) (World : ℚ) (AbsBlock : Int) :
    Decidable (WellInsideBlock g World AbsBlock) := by
  unfold WellInsideBlock
  infer_instance

/-- Sample settings with thin blocks: the constructed actor with BlockSize 0.0020001 as a
binary32 value, above the 0.002 that the round trips ask for. -/
def ThinBlockWorld : ARandomMapGenerator :=
  { Constructed with BlockSize := 2147591 / 1073741824 }

/-- Sample settings with spaced blocks: BlockSize 100, BlockSpacing `0.1f` (the binary32
value 13421773 / 2^27) and chunks of 10 columns. -/
def SpacedBlockWorld : ARandomMapGenerator :=
  { Constructed with
    BlockSize := 100
    BlockSpacing := 13421773 / 134217728
    ChunkSize := 10 }

/-! ### Searched chunks -/

/-- The chunk lies in the square of chunks that `FindNearestBlock` visits: within the
chunk search radius of the chunk of the start location, in X and in Y. -/
def IsSearchedChunk (g : ARandomMapGenerator) (StartLocation : FVector) (MaxDistance : ℚ)
    (ChunkCoord : FChunkCoord) : Prop :=
  ((g.WorldToChunkCoord StartLocation).X - g.ChunkSearchRadius MaxDistance ≤ ChunkCoord.X ∧
    ChunkCoord.X ≤ (g.WorldToChunkCoord StartLocation).X + g.ChunkSearchRadius MaxDistance) ∧
  ((g.WorldToChunkCoord StartLocation).Y - g.ChunkSearchRadius MaxDistance ≤ ChunkCoord.Y ∧
    ChunkCoord.Y ≤ (g.WorldToChunkCoord StartLocation).Y + g.ChunkSearchRadius MaxDistance)

instance (g : ARandomMapGenerator) (StartLocation : FVector) (MaxDistance : ℚ)
    (ChunkCoord : FChunkCoord) :
    Decidable (IsSearchedChunk g StartLocation MaxDistance ChunkCoord) := by
  unfold IsSearchedChunk
  infer_instance

/-- The constructed actor with a Stone block placed at the world location (150,50,150):
the cell (1,0,1) of chunk (0,0), whose centre is that location. -/
def EdgeStoneWorld : ARandomMapGenerator :=
  (Constructed.SetBlockTypeAtPosition ⟨150, 50, 150⟩ EBlockType.Stone).getD Constructed

/-- The world coordinate lies within `2 ^ 18` chunk extents of the world origin. -/
def WithinSearchRange (g : ARandomMapGenerator) (World : ℚ) : Prop :=
  |World| ≤ 262144 * ((g.ChunkSize : ℚ) * (g.BlockSize + g.BlockSpacing))

instance (g : ARandomMapGenerator) (World : ℚ) : Decidable (WithinSearchRange g World) := by
  unfold WithinSearchRange
  infer_instance

/-- The constructed actor with chunks of a single column, after `GenerateChunk` of the
chunk (67108868, 0) with the zero-noise engine (its square root replaced by the identity):
a generated chunk far from the world origin, whose index 2^26 + 4 is not a binary32
value. -/
def FarChunkWorld : ARandomMapGenerator :=
  (GenerateChunk { SampleEngine with Sqrt := fun X => X } { Constructed with ChunkSize := 1 }
    ⟨67108868, 0⟩).getD Constructed

end ARandomMapGenerator
/-! ## Theorems -/

open ARandomMapGenerator EBlockType

/-! ### Single-precision rounding -/

theorem F32.Pow2_pos (e : Int) : 0 < F32.Pow2 e := by
  unfold F32.Pow2; positivity

theorem F32.Pow2_add (a b : Int) : F32.Pow2 (a + b) = F32.Pow2 a * F32.Pow2 b := by
  unfold F32.Pow2
  exact zpow_add₀ (by norm_num) a b

theorem F32.Pow2_sub (a b : Int) : F32.Pow2 (a - b) = F32.Pow2 a / F32.Pow2 b := by
  unfold F32.Pow2
  exact zpow_sub₀ (by norm_num) a b

theorem F32.Pow2_natCast (n : Nat) : F32.Pow2 (n : Int) = ((2 ^ n : Nat) : ℚ) := by
  unfold F32.Pow2
  rw [zpow_natCast]; push_cast; rfl

theorem F32.Pow2_le_iff (a b : Int) : F32.Pow2 a ≤ F32.Pow2 b ↔ a ≤ b := by
  unfold F32.Pow2
  exact zpow_le_zpow_iff_right₀ (by norm_num)

theorem F32.Pow2_lt_iff (a b : Int) : F32.Pow2 a < F32.Pow2 b ↔ a < b := by
  unfold F32.Pow2
  exact zpow_lt_zpow_iff_right₀ (by norm_num)

theorem F32.Log2Nat_spec : ∀ (Fuel n : Nat), n ≤ Fuel → 0 < n →
    2 ^ F32.Log2Nat Fuel n ≤ n ∧ n < 2 ^ (F32.Log2Nat Fuel n + 1) := by
  intro Fuel
  induction Fuel with
  | zero => intro n h1 h2; omega
  | succ f ih =>
    intro n h1 h2
    unfold F32.Log2Nat
    by_cases h : n < 2
    · rw [if_pos h]
      simp
      omega
    · rw [if_neg h]
      obtain ⟨i1, i2⟩ := ih (n / 2) (by omega) (by omega)
      rw [pow_succ, pow_succ]
      rw [pow_succ] at i2
      constructor <;> omega

theorem F32.Log2_spec (a : ℚ) (ha : 0 < a) :
    F32.Pow2 (F32.Log2 a) ≤ a ∧ a < F32.Pow2 (F32.Log2 a + 1) := by
  have hnum : 0 < a.num := Rat.num_pos.2 ha
  have hden : 0 < a.den := a.den_pos
  obtain ⟨n1, n2⟩ := F32.Log2Nat_spec a.num.natAbs a.num.natAbs le_rfl (by omega)
  obtain ⟨d1, d2⟩ := F32.Log2Nat_spec a.den a.den le_rfl hden
  have hq : a = (a.num.natAbs : ℚ) / (a.den : ℚ) := by
    have e : ((a.num.natAbs : Nat) : ℚ) = ((a.num : Int) : ℚ) := by
      rw [Nat.cast_natAbs, abs_of_pos hnum]
    rw [e]
    exact (Rat.num_div_den a).symm
  have hdq : (0 : ℚ) < (a.den : ℚ) := by exact_mod_cast hden
  have n1q : ((2 ^ F32.Log2Nat a.num.natAbs a.num.natAbs : Nat) : ℚ) ≤ (a.num.natAbs : ℚ) := by
    exact_mod_cast n1
  have n2q : (a.num.natAbs : ℚ) < ((2 ^ (F32.Log2Nat a.num.natAbs a.num.natAbs + 1) : Nat) : ℚ) := by
    exact_mod_cast n2
  have d1q : ((2 ^ F32.Log2Nat a.den a.den : Nat) : ℚ) ≤ (a.den : ℚ) := by exact_mod_cast d1
  have d2q : (a.den : ℚ) < ((2 ^ (F32.Log2Nat a.den a.den + 1) : Nat) : ℚ) := by exact_mod_cast d2
  rw [← F32.Pow2_natCast] at n1q n2q d1q d2q
  unfold F32.Log2
  simp only []
  generalize F32.Log2Nat a.num.natAbs a.num.natAbs = ln at n1q n2q ⊢
  generalize F32.Log2Nat a.den a.den = ld at d1q d2q ⊢
  push_cast at n2q d2q
  rw [F32.Pow2_add] at n2q d2q
  have p1 : F32.Pow2 1 = 2 := by unfold F32.Pow2; norm_num
  rw [p1] at n2q d2q
  have hln := F32.Pow2_pos (ln : Int)
  have hld := F32.Pow2_pos (ld : Int)
  have hk : F32.Pow2 ((ln : Int) - (ld : Int)) = F32.Pow2 ln / F32.Pow2 ld := F32.Pow2_sub _ _
  -- a < 2^(k+1) and 2^(k-1) < a
  have up : a < F32.Pow2 ((ln : Int) - (ld : Int)) * 2 := by
    rw [hk, hq, div_mul_eq_mul_div, div_lt_div_iff₀ hdq hld]
    nlinarith
  have lo : F32.Pow2 ((ln : Int) - (ld : Int)) / 2 < a := by
    rw [hk, hq, div_div, div_lt_div_iff₀ (by positivity) hdq]
    nlinarith
  split
  · rename_i h
    refine ⟨h, ?_⟩
    rw [F32.Pow2_add, p1]
    exact up
  · rename_i h
    have e1 : F32.Pow2 ((ln : Int) - (ld : Int) - 1) = F32.Pow2 ((ln : Int) - (ld : Int)) / 2 := by
      rw [F32.Pow2_sub _ 1, p1]
    refine ⟨by rw [e1]; exact le_of_lt lo, ?_⟩
    rw [sub_add_cancel]
    exact not_le.1 h


theorem F32.Log2_lt_of_lt (a : ℚ) (ha : 0 < a) (k : Int) (h : a < F32.Pow2 k) :
    F32.Log2 a < k := by
  have := (F32.Log2_spec a ha).1
  exact (F32.Pow2_lt_iff _ _).1 (lt_of_le_of_lt this h)

theorem F32.Log2_mono (a b : ℚ) (ha : 0 < a) (hab : a ≤ b) : F32.Log2 a ≤ F32.Log2 b := by
  have h1 := (F32.Log2_spec a ha).1
  have h2 := (F32.Log2_spec b (lt_of_lt_of_le ha hab)).2
  have := (F32.Pow2_lt_iff _ _).1 (lt_of_le_of_lt (le_trans h1 hab) h2)
  omega

theorem F32.RoundHalfEven_cases (s : ℚ) :
    (F32.RoundHalfEven s = Int.floor s ∧ s - Int.floor s ≤ 1 / 2) ∨
    (F32.RoundHalfEven s = Int.floor s + 1 ∧ 1 / 2 ≤ s - Int.floor s) := by
  unfold F32.RoundHalfEven
  simp only []
  split
  · exact Or.inl ⟨rfl, by linarith⟩
  · rename_i h1
    split
    · exact Or.inr ⟨rfl, by linarith⟩
    · rename_i h2
      have e : s - Int.floor s = 1 / 2 := le_antisymm (not_lt.1 h2) (not_lt.1 h1)
      split
      · exact Or.inl ⟨rfl, by linarith⟩
      · exact Or.inr ⟨rfl, by linarith⟩

theorem F32.RoundHalfEven_err (s : ℚ) :
    (F32.RoundHalfEven s : ℚ) - s ≤ 1 / 2 ∧ s - (F32.RoundHalfEven s : ℚ) ≤ 1 / 2 := by
  have h1 := Int.floor_le s
  have h2 := Int.lt_floor_add_one s
  rcases F32.RoundHalfEven_cases s with ⟨e, h⟩ | ⟨e, h⟩
  · rw [e]; constructor <;> linarith
  · rw [e]; push_cast; constructor <;> linarith

theorem F32.RoundHalfEven_intCast (n : Int) : F32.RoundHalfEven (n : ℚ) = n := by
  unfold F32.RoundHalfEven
  simp

theorem F32.RoundHalfEven_mono (s t : ℚ) (h : s ≤ t) :
    F32.RoundHalfEven s ≤ F32.RoundHalfEven t := by
  have hf : Int.floor s ≤ Int.floor t := Int.floor_le_floor h
  by_cases hlt : Int.floor s < Int.floor t
  · rcases F32.RoundHalfEven_cases s with ⟨e, _⟩ | ⟨e, _⟩ <;>
      rcases F32.RoundHalfEven_cases t with ⟨e2, _⟩ | ⟨e2, _⟩ <;> omega
  · have he : Int.floor s = Int.floor t := by omega
    unfold F32.RoundHalfEven
    simp only []
    rw [he]
    have hst : s - Int.floor t ≤ t - Int.floor t := by linarith
    split_ifs <;> first | omega | (exfalso; linarith)

theorem F32.RoundHalfEven_ge (s : ℚ) (n : Int) (h : (n : ℚ) ≤ s) : n ≤ F32.RoundHalfEven s := by
  have := F32.RoundHalfEven_mono _ _ h
  rwa [F32.RoundHalfEven_intCast] at this

theorem F32.RoundHalfEven_le (s : ℚ) (n : Int) (h : s ≤ (n : ℚ)) : F32.RoundHalfEven s ≤ n := by
  have := F32.RoundHalfEven_mono _ _ h
  rwa [F32.RoundHalfEven_intCast] at this

theorem F32.Round_zero : F32.Round 0 = 0 := by
  unfold F32.Round; simp

theorem F32.Round_eq (q : ℚ) (h : q ≠ 0) :
    F32.Round q = (F32.RoundHalfEven (q / F32.Pow2 (F32.Exponent q)) : ℚ) * F32.Pow2 (F32.Exponent q) := by
  unfold F32.Round
  rw [if_neg h]

/-- On the grid of the exponent `e`, rounding stays above every grid point below the
value and below every grid point above it. -/
theorem F32.Round_ge_grid (q : ℚ) (h : q ≠ 0) (n : Int)
    (hn : (n : ℚ) * F32.Pow2 (F32.Exponent q) ≤ q) :
    (n : ℚ) * F32.Pow2 (F32.Exponent q) ≤ F32.Round q := by
  rw [F32.Round_eq q h]
  have hp := F32.Pow2_pos (F32.Exponent q)
  have : (n : ℚ) ≤ q / F32.Pow2 (F32.Exponent q) := by rwa [le_div_iff₀ hp]
  have := F32.RoundHalfEven_ge _ n this
  have : (n : ℚ) ≤ (F32.RoundHalfEven (q / F32.Pow2 (F32.Exponent q)) : ℚ) := by exact_mod_cast this
  exact mul_le_mul_of_nonneg_right this (le_of_lt hp)

theorem F32.Round_le_grid (q : ℚ) (h : q ≠ 0) (n : Int)
    (hn : q ≤ (n : ℚ) * F32.Pow2 (F32.Exponent q)) :
    F32.Round q ≤ (n : ℚ) * F32.Pow2 (F32.Exponent q) := by
  rw [F32.Round_eq q h]
  have hp := F32.Pow2_pos (F32.Exponent q)
  have : q / F32.Pow2 (F32.Exponent q) ≤ (n : ℚ) := by rwa [div_le_iff₀ hp]
  have := F32.RoundHalfEven_le _ n this
  have : (F32.RoundHalfEven (q / F32.Pow2 (F32.Exponent q)) : ℚ) ≤ (n : ℚ) := by exact_mod_cast this
  exact mul_le_mul_of_nonneg_right this (le_of_lt hp)

theorem F32.Round_nonneg (q : ℚ) (h : 0 ≤ q) : 0 ≤ F32.Round q := by
  by_cases h0 : q = 0
  · rw [h0, F32.Round_zero]
  · have := F32.Round_ge_grid q h0 0 (by simpa using h)
    simpa using this

theorem F32.Round_nonpos (q : ℚ) (h : q ≤ 0) : F32.Round q ≤ 0 := by
  by_cases h0 : q = 0
  · rw [h0, F32.Round_zero]
  · have := F32.Round_le_grid q h0 0 (by simpa using h)
    simpa using this

theorem F32.Exponent_ge (q : ℚ) : -149 ≤ F32.Exponent q := by
  unfold F32.Exponent; exact le_max_right _ _

theorem F32.Exponent_ge_log (q : ℚ) : F32.Log2 |q| - 23 ≤ F32.Exponent q := by
  unfold F32.Exponent; exact le_max_left _ _

/-- The value is below `2 ^ 24` units of its exponent. -/
theorem F32.abs_lt_grid (q : ℚ) (h : q ≠ 0) : |q| < F32.Pow2 24 * F32.Pow2 (F32.Exponent q) := by
  have h1 := (F32.Log2_spec |q| (abs_pos.2 h)).2
  have h2 := F32.Exponent_ge_log q
  rw [← F32.Pow2_add]
  exact lt_of_lt_of_le h1 ((F32.Pow2_le_iff _ _).2 (by omega))

/-- Above the least exponent the value is at least `2 ^ 23` units of its exponent. -/
theorem F32.abs_ge_grid (q : ℚ) (h : q ≠ 0) (he : -149 < F32.Exponent q) :
    F32.Pow2 23 * F32.Pow2 (F32.Exponent q) ≤ |q| := by
  have h1 := (F32.Log2_spec |q| (abs_pos.2 h)).1
  have h2 : F32.Exponent q = F32.Log2 |q| - 23 := by
    unfold F32.Exponent at he ⊢
    rcases max_cases (F32.Log2 |q| - 23) (-149) with ⟨e, _⟩ | ⟨e, _⟩
    · exact e
    · rw [e] at he; omega
  rw [← F32.Pow2_add, h2]
  have : (23 : Int) + (F32.Log2 |q| - 23) = F32.Log2 |q| := by ring
  rw [this]
  exact h1


theorem F32.Pow2_24 : F32.Pow2 24 = ((16777216 : Int) : ℚ) := by
  unfold F32.Pow2; norm_num

theorem F32.Pow2_23 : F32.Pow2 23 = ((8388608 : Int) : ℚ) := by
  unfold F32.Pow2; norm_num

theorem F32.Exponent_mono (a b : ℚ) (ha : a ≠ 0) (h : |a| ≤ |b|) :
    F32.Exponent a ≤ F32.Exponent b := by
  unfold F32.Exponent
  have := F32.Log2_mono |a| |b| (abs_pos.2 ha) h
  exact max_le_max (by omega) le_rfl

/-- Rounding to binary32 is monotone. -/
theorem F32.Round_mono (x y : ℚ) (h : x ≤ y) : F32.Round x ≤ F32.Round y := by
  rcases le_or_lt x 0 with hx | hx
  · rcases le_or_lt 0 y with hy | hy
    · exact le_trans (F32.Round_nonpos x hx) (F32.Round_nonneg y hy)
    · -- x ≤ y < 0
      have hx0 : x ≠ 0 := by intro e; rw [e] at h; linarith
      have hy0 : y ≠ 0 := ne_of_lt hy
      have hab : |y| ≤ |x| := by
        rw [abs_of_neg hy, abs_of_neg (lt_of_le_of_lt h hy)]; linarith
      have hE := F32.Exponent_mono y x hy0 hab
      rcases lt_or_eq_of_le hE with hlt | heq
      · have g1 := F32.abs_ge_grid x hx0 (lt_of_le_of_lt (F32.Exponent_ge y) hlt)
        have g2 := F32.abs_lt_grid y hy0
        rw [abs_of_neg (lt_of_le_of_lt h hy), F32.Pow2_23] at g1
        rw [abs_of_neg hy, F32.Pow2_24] at g2
        have r1 := F32.Round_le_grid x hx0 (-8388608) (by push_cast at g1 ⊢; linarith)
        have r2 := F32.Round_ge_grid y hy0 (-16777216) (by push_cast at g2 ⊢; linarith)
        have hp : F32.Pow2 (F32.Exponent y) * 2 ≤ F32.Pow2 (F32.Exponent x) := by
          have : F32.Pow2 (F32.Exponent y + 1) ≤ F32.Pow2 (F32.Exponent x) :=
            (F32.Pow2_le_iff _ _).2 (by omega)
          rw [F32.Pow2_add] at this
          have p1 : F32.Pow2 1 = 2 := by unfold F32.Pow2; norm_num
          rwa [p1] at this
        push_cast at r1 r2
        linarith
      · rw [F32.Round_eq x hx0, F32.Round_eq y hy0, heq]
        have hp := F32.Pow2_pos (F32.Exponent x)
        have : x / F32.Pow2 (F32.Exponent x) ≤ y / F32.Pow2 (F32.Exponent x) :=
          div_le_div_of_nonneg_right h (le_of_lt hp)
        have := F32.RoundHalfEven_mono _ _ this
        have : (F32.RoundHalfEven (x / F32.Pow2 (F32.Exponent x)) : ℚ)
            ≤ (F32.RoundHalfEven (y / F32.Pow2 (F32.Exponent x)) : ℚ) := by exact_mod_cast this
        exact mul_le_mul_of_nonneg_right this (le_of_lt hp)
  · -- 0 < x ≤ y
    have hy : 0 < y := lt_of_lt_of_le hx h
    have hx0 : x ≠ 0 := ne_of_gt hx
    have hy0 : y ≠ 0 := ne_of_gt hy
    have hab : |x| ≤ |y| := by rw [abs_of_pos hx, abs_of_pos hy]; exact h
    have hE := F32.Exponent_mono x y hx0 hab
    rcases lt_or_eq_of_le hE with hlt | heq
    · have g1 := F32.abs_ge_grid y hy0 (lt_of_le_of_lt (F32.Exponent_ge x) hlt)
      have g2 := F32.abs_lt_grid x hx0
      rw [abs_of_pos hy, F32.Pow2_23] at g1
      rw [abs_of_pos hx, F32.Pow2_24] at g2
      have r1 := F32.Round_ge_grid y hy0 8388608 g1
      have r2 := F32.Round_le_grid x hx0 16777216 (le_of_lt g2)
      have hp : F32.Pow2 (F32.Exponent x) * 2 ≤ F32.Pow2 (F32.Exponent y) := by
        have : F32.Pow2 (F32.Exponent x + 1) ≤ F32.Pow2 (F32.Exponent y) :=
          (F32.Pow2_le_iff _ _).2 (by omega)
        rw [F32.Pow2_add] at this
        have p1 : F32.Pow2 1 = 2 := by unfold F32.Pow2; norm_num
        rwa [p1] at this
      push_cast at r1 r2
      linarith
    · rw [F32.Round_eq x hx0, F32.Round_eq y hy0, heq]
      have hp := F32.Pow2_pos (F32.Exponent y)
      have : x / F32.Pow2 (F32.Exponent y) ≤ y / F32.Pow2 (F32.Exponent y) :=
        div_le_div_of_nonneg_right h (le_of_lt hp)
      have := F32.RoundHalfEven_mono _ _ this
      have : (F32.RoundHalfEven (x / F32.Pow2 (F32.Exponent y)) : ℚ)
          ≤ (F32.RoundHalfEven (y / F32.Pow2 (F32.Exponent y)) : ℚ) := by exact_mod_cast this
      exact mul_le_mul_of_nonneg_right this (le_of_lt hp)

/-- A number `m * 2 ^ k` with `|m| < 2 ^ 24` and `k ≥ -149` is a binary32 number: rounding
leaves it as it is. -/
theorem F32.Round_dyadic (m k : Int) (hm : |m| < 16777216) (hk : -149 ≤ k) :
    F32.Round ((m : ℚ) * F32.Pow2 k) = (m : ℚ) * F32.Pow2 k := by
  by_cases h0 : (m : ℚ) * F32.Pow2 k = 0
  · rw [h0, F32.Round_zero]
  · have hpk := F32.Pow2_pos k
    have habs : |(m : ℚ) * F32.Pow2 k| < F32.Pow2 (k + 24) := by
      rw [abs_mul, abs_of_pos hpk, F32.Pow2_add, F32.Pow2_24, mul_comm]
      have : |(m : ℚ)| < ((16777216 : Int) : ℚ) := by
        rw [← Int.cast_abs]; exact_mod_cast hm
      exact mul_lt_mul_of_pos_left this hpk
    have hL := F32.Log2_lt_of_lt _ (abs_pos.2 h0) _ habs
    have hE : F32.Exponent ((m : ℚ) * F32.Pow2 k) ≤ k := by
      unfold F32.Exponent
      exact max_le (by omega) hk
    rw [F32.Round_eq _ h0]
    generalize F32.Exponent ((m : ℚ) * F32.Pow2 k) = e at hE
    obtain ⟨n, hn⟩ := Int.eq_ofNat_of_zero_le (by omega : 0 ≤ k - e)
    have hk2 : F32.Pow2 k = F32.Pow2 (n : Int) * F32.Pow2 e := by
      rw [← F32.Pow2_add, ← hn]; congr 1; ring
    have hpe := F32.Pow2_pos e
    have hq : (m : ℚ) * F32.Pow2 k / F32.Pow2 e = ((m * (2 ^ n : Nat) : Int) : ℚ) := by
      rw [hk2, F32.Pow2_natCast]
      push_cast
      field_simp
      ring
    rw [hq, F32.RoundHalfEven_intCast, hk2, F32.Pow2_natCast]
    push_cast
    ring

theorem F32.Round_intCast (n : Int) (h : |n| ≤ 16777216) : F32.Round (n : ℚ) = (n : ℚ) := by
  have p0 : F32.Pow2 0 = 1 := by unfold F32.Pow2; norm_num
  have p1 : F32.Pow2 1 = 2 := by unfold F32.Pow2; norm_num
  by_cases hlt : |n| < 16777216
  · have := F32.Round_dyadic n 0 hlt (by norm_num)
    rwa [p0, mul_one] at this
  · have he : |n| = 16777216 := by omega
    rcases abs_eq (by norm_num : (0 : Int) ≤ 16777216) |>.1 he with e | e
    · have := F32.Round_dyadic 8388608 1 (by norm_num) (by norm_num)
      rw [p1] at this
      rw [e]; push_cast at this ⊢
      norm_num at this ⊢
      exact this
    · have := F32.Round_dyadic (-8388608) 1 (by norm_num) (by norm_num)
      rw [p1] at this
      rw [e]; push_cast at this ⊢
      norm_num at this ⊢
      exact this

/-- The rounding error is at most half a unit in the last place. -/
theorem F32.Round_err (q : ℚ) : |F32.Round q - q| ≤ F32.Pow2 (F32.Exponent q) / 2 := by
  by_cases h0 : q = 0
  · rw [h0, F32.Round_zero]; simp; exact le_of_lt (div_pos (F32.Pow2_pos _) (by norm_num))
  · rw [F32.Round_eq q h0]
    have hp := F32.Pow2_pos (F32.Exponent q)
    obtain ⟨e1, e2⟩ := F32.RoundHalfEven_err (q / F32.Pow2 (F32.Exponent q))
    have hq : q = q / F32.Pow2 (F32.Exponent q) * F32.Pow2 (F32.Exponent q) := by
      field_simp
    rw [abs_le]
    constructor
    · nlinarith
    · nlinarith

/-- The rounding error is at most `2 ^ -24` of the value, or `2 ^ -150` for subnormal
values. -/
theorem F32.Round_rel (q : ℚ) : |F32.Round q - q| ≤ |q| / 16777216 + 1 / 2 ^ 150 := by
  have h := F32.Round_err q
  by_cases h0 : q = 0
  · rw [h0, F32.Round_zero]; norm_num
  · by_cases he : -149 < F32.Exponent q
    · have g := F32.abs_ge_grid q h0 he
      rw [F32.Pow2_23] at g
      push_cast at g
      have : (0 : ℚ) ≤ 1 / 2 ^ 150 := by positivity
      linarith
    · have e : F32.Exponent q = -149 := le_antisymm (not_lt.1 he) (F32.Exponent_ge q)
      rw [e] at h
      have p : F32.Pow2 (-149) / 2 = 1 / 2 ^ 150 := by
        unfold F32.Pow2; norm_num
      rw [p] at h
      have : 0 ≤ |q| / 16777216 := by positivity
      linarith

/-! ### Coordinate round trips -/
/-- Flooring an integer quotient `(c * n + p) / n` with `0 ≤ p < n` gives `c`. -/
theorem floor_chunk_of_local (c p n : Int) (hp0 : 0 ≤ p) (hpn : p < n) :
    Int.floor (((c * n + p : Int) : ℚ) / (n : ℚ)) = c := by
  have hn : (0 : ℚ) < (n : ℚ) := by exact_mod_cast (lt_of_le_of_lt hp0 hpn)
  rw [Int.floor_eq_iff]
  constructor
  · rw [le_div_iff₀ hn]
    have : ((c * n : Int) : ℚ) ≤ ((c * n + p : Int) : ℚ) := by exact_mod_cast (by linarith)
    push_cast at this ⊢
    linarith
  · rw [div_lt_iff₀ hn]
    have : ((c * n + p : Int) : ℚ) < (((c + 1) * n : Int) : ℚ) := by
      exact_mod_cast (by nlinarith)
    push_cast at this ⊢
    linarith

/-- Euclidean division through floors: with `q = ⌊a / n⌋` the remainder `a - q * n`
lies in `[0, n)`. -/
theorem floor_div_remainder (a n : Int) (hn : 1 ≤ n) :
    0 ≤ a - Int.floor ((a : ℚ) / (n : ℚ)) * n ∧ a - Int.floor ((a : ℚ) / (n : ℚ)) * n < n := by
  have hn0 : (0 : ℚ) < (n : ℚ) := by exact_mod_cast (by linarith : (0 : Int) < n)
  have h1 : ((Int.floor ((a : ℚ) / (n : ℚ)) : Int) : ℚ) ≤ (a : ℚ) / (n : ℚ) := Int.floor_le _
  have h2 : (a : ℚ) / (n : ℚ) < ((Int.floor ((a : ℚ) / (n : ℚ)) : Int) : ℚ) + 1 :=
    Int.lt_floor_add_one _
  rw [le_div_iff₀ hn0] at h1
  rw [div_lt_iff₀ hn0] at h2
  have h1i : Int.floor ((a : ℚ) / (n : ℚ)) * n ≤ a := by exact_mod_cast h1
  have h2i : a < (Int.floor ((a : ℚ) / (n : ℚ)) + 1) * n := by exact_mod_cast h2
  constructor
  · linarith
  · linarith

/-! ### Association-list maps -/

theorem TMap.Find_Add_self {K V : Type} [DecidableEq K] (m : List (K × V)) (k : K) (v : V) :
    TMap.Find (TMap.Add m k v) k = some v := by
  induction m with
  | nil => simp [TMap.Add, TMap.Find]
  | cons hd tl ih =>
    obtain ⟨k1, v1⟩ := hd
    by_cases h : k1 = k
    · simp [TMap.Add, TMap.Find, h]
    · simp [TMap.Add, TMap.Find, h, ih]

theorem TMap.Find_Add_of_ne {K V : Type} [DecidableEq K] (m : List (K × V)) (k k2 : K) (v : V)
    (hne : k2 ≠ k) : TMap.Find (TMap.Add m k v) k2 = TMap.Find m k2 := by
  induction m with
  | nil => simp [TMap.Add, TMap.Find, Ne.symm hne]
  | cons hd tl ih =>
    obtain ⟨k1, v1⟩ := hd
    by_cases h : k1 = k
    · subst h
      simp [TMap.Add, TMap.Find, Ne.symm hne]
    · by_cases h2 : k1 = k2
      · subst h2
        simp [TMap.Add, TMap.Find, h]
      · simp [TMap.Add, TMap.Find, h, h2, ih]

theorem TMap.Find_Remove_self {K V : Type} [DecidableEq K] (m : List (K × V)) (k : K) :
    TMap.Find (TMap.Remove m k) k = none := by
  induction m with
  | nil => simp [TMap.Remove, TMap.Find]
  | cons hd tl ih =>
    obtain ⟨k1, v1⟩ := hd
    by_cases h : k1 = k
    · simpa [TMap.Remove, h] using ih
    · simpa [TMap.Remove, TMap.Find, h] using ih

theorem TMap.Find_Remove_of_ne {K V : Type} [DecidableEq K] (m : List (K × V)) (k k2 : K)
    (hne : k2 ≠ k) : TMap.Find (TMap.Remove m k) k2 = TMap.Find m k2 := by
  induction m with
  | nil => simp [TMap.Remove, TMap.Find]
  | cons hd tl ih =>
    obtain ⟨k1, v1⟩ := hd
    by_cases h : k1 = k
    · subst h
      have h2 : ¬ k1 = k2 := fun e => hne e.symm
      simpa [TMap.Remove, TMap.Find, h2] using ih
    · by_cases h2 : k1 = k2
      · subst h2
        simp [TMap.Remove, TMap.Find, h]
      · simpa [TMap.Remove, TMap.Find, h, h2] using ih

/-- A value found in the map belongs to one of its pairs. -/
theorem TMap.mem_of_Find {K V : Type} [DecidableEq K] (m : List (K × V)) (k : K) (v : V)
    (h : TMap.Find m k = some v) : (k, v) ∈ m := by
  induction m with
  | nil => simp [TMap.Find] at h
  | cons hd tl ih =>
    obtain ⟨k1, v1⟩ := hd
    by_cases h1 : k1 = k
    · subst h1
      simp only [TMap.Find, if_true] at h
      cases h
      exact List.mem_cons_self _ _
    · simp only [TMap.Find, h1, if_false] at h
      exact List.mem_cons_of_mem _ (ih h)

/-! ### Block store -/

/-- Frame and read-back of one store write. -/
theorem GetBlockInternal_Set_self (g : ARandomMapGenerator) (c : FChunkCoord)
    (p : FBlockPosition) (t : EBlockType) :
    (g.SetBlockInternalWithoutReplication c p t).GetBlockInternal c p = t := by
  by_cases ht : t = EBlockType.Air
  · simp [SetBlockInternalWithoutReplication, GetBlockInternal, ht, TMap.Find_Remove_self]
  · simp [SetBlockInternalWithoutReplication, GetBlockInternal, ht, TMap.Find_Add_self]

theorem Find_BlocksData_Set_of_ne (g : ARandomMapGenerator) (c : FChunkCoord)
    (p : FBlockPosition) (t : EBlockType) (k : FWorldBlockKey) (hne : k ≠ ⟨c, p⟩) :
    TMap.Find (g.SetBlockInternalWithoutReplication c p t).BlocksData k
      = TMap.Find g.BlocksData k := by
  by_cases ht : t = EBlockType.Air
  · simp [SetBlockInternalWithoutReplication, ht, TMap.Find_Remove_of_ne _ _ _ hne]
  · simp [SetBlockInternalWithoutReplication, ht, TMap.Find_Add_of_ne _ _ _ _ hne]

theorem GetBlockInternal_Set_of_ne (g : ARandomMapGenerator) (c c2 : FChunkCoord)
    (p p2 : FBlockPosition) (t : EBlockType) (hne : (⟨c2, p2⟩ : FWorldBlockKey) ≠ ⟨c, p⟩) :
    (g.SetBlockInternalWithoutReplication c p t).GetBlockInternal c2 p2
      = g.GetBlockInternal c2 p2 := by
  simp only [GetBlockInternal, Find_BlocksData_Set_of_ne g c p t _ hne]

/-- After any run of store writes from the empty store, a key that was never written is
absent. -/
theorem Find_SetBlocks_of_not_written (g : ARandomMapGenerator)
    (ws : List (FWorldBlockKey × EBlockType)) (k : FWorldBlockKey)
    (hk : ∀ w ∈ ws, w.1 ≠ k) :
    TMap.Find (g.SetBlocks ws).BlocksData k = TMap.Find g.BlocksData k := by
  induction ws generalizing g with
  | nil => rfl
  | cons w tl ih =>
    have hw : k ≠ ⟨w.1.ChunkCoord, w.1.BlockPos⟩ := fun e => hk w (List.mem_cons_self _ _) e.symm
    rw [SetBlocks, ih _ (fun w2 h2 => hk w2 (List.mem_cons_of_mem _ h2)),
      Find_BlocksData_Set_of_ne g _ _ _ k hw]

/-- C8: after setWithoutReplication(k,t), get(k) returns t; for t = Air the key is absent
afterwards; a store without Air values stays without Air values; get(k2) is unchanged for
every other key k2; and a key never written since the store was empty reads Air. -/
theorem C8_block_store_set_then_get (g : ARandomMapGenerator) (c : FChunkCoord)
    (p : FBlockPosition) (t : EBlockType) :
    (g.SetBlockInternalWithoutReplication c p t).GetBlockInternal c p = t ∧
    (t = EBlockType.Air →
      TMap.Find (g.SetBlockInternalWithoutReplication c p t).BlocksData ⟨c, p⟩ = none) ∧
    ((∀ k, TMap.Find g.BlocksData k ≠ some EBlockType.Air) →
      ∀ k, TMap.Find (g.SetBlockInternalWithoutReplication c p t).BlocksData k
        ≠ some EBlockType.Air) ∧
    (∀ c2 p2, (⟨c2, p2⟩ : FWorldBlockKey) ≠ ⟨c, p⟩ →
      (g.SetBlockInternalWithoutReplication c p t).GetBlockInternal c2 p2
        = g.GetBlockInternal c2 p2) ∧
    (∀ ws : List (FWorldBlockKey × EBlockType), g.BlocksData = [] →
      (∀ w ∈ ws, w.1 ≠ ⟨c, p⟩) → (g.SetBlocks ws).GetBlockInternal c p = EBlockType.Air) := by
  refine ⟨GetBlockInternal_Set_self g c p t, ?_, ?_, ?_, ?_⟩
  · intro ht
    simp [SetBlockInternalWithoutReplication, ht, TMap.Find_Remove_self]
  · intro hno k
    by_cases hk : k = ⟨c, p⟩
    · subst hk
      by_cases ht : t = EBlockType.Air
      · simp [SetBlockInternalWithoutReplication, ht, TMap.Find_Remove_self]
      · simp [SetBlockInternalWithoutReplication, ht, TMap.Find_Add_self]
    · rw [Find_BlocksData_Set_of_ne g c p t k hk]
      exact hno k
  · intro c2 p2 hne
    exact GetBlockInternal_Set_of_ne g c c2 p p2 t hne
  · intro ws hempty hws
    have h := Find_SetBlocks_of_not_written g ws ⟨c, p⟩ hws
    simp only [GetBlockInternal, h, hempty, TMap.Find]

/-! ### Swap-remove on a dense single-type mapping -/

/-- With unique keys, a pair of the map is what `Find` returns for its key. -/
theorem TMap.Find_of_mem {K V : Type} [DecidableEq K] (m : List (K × V)) (k : K) (v : V)
    (hnd : (m.map Prod.fst).Nodup) (h : (k, v) ∈ m) : TMap.Find m k = some v := by
  induction m with
  | nil => cases h
  | cons hd tl ih =>
    obtain ⟨k1, v1⟩ := hd
    rw [List.map_cons, List.nodup_cons] at hnd
    rcases List.mem_cons.1 h with heq | hmem
    · cases heq
      simp [TMap.Find]
    · have hne : k1 ≠ k := by
        intro e
        subst e
        exact hnd.1 (List.mem_map.2 ⟨(k1, v), hmem, rfl⟩)
      simp only [TMap.Find, hne, if_false]
      exact ih hnd.2 hmem

/-- With unique keys, `Add` on a present key rewrites that key's pair in place. -/
theorem TMap.Add_eq_map {K V : Type} [DecidableEq K] (m : List (K × V)) (k : K) (v : V)
    (hk : k ∈ m.map Prod.fst) (hnd : (m.map Prod.fst).Nodup) :
    TMap.Add m k v = m.map (fun q => if q.1 = k then (k, v) else q) := by
  induction m with
  | nil => cases hk
  | cons hd tl ih =>
    obtain ⟨k1, v1⟩ := hd
    rw [List.map_cons, List.nodup_cons] at hnd
    by_cases h1 : k1 = k
    · subst h1
      have hid : tl.map (fun q => if q.1 = k1 then (k1, v) else q) = tl := by
        conv_rhs => rw [← List.map_id tl]
        apply List.map_congr_left
        intro q hq
        have : q.1 ≠ k1 := fun e => hnd.1 (e ▸ List.mem_map.2 ⟨q, hq, rfl⟩)
        simp [this]
      simp [TMap.Add, hid]
    · have hk2 : k ∈ tl.map Prod.fst := by
        rcases List.mem_cons.1 (by simpa using hk : k ∈ k1 :: tl.map Prod.fst) with e | e
        · exact absurd e.symm h1
        · exact e
      simp [TMap.Add, h1, ih hk2 hnd.2]

/-- The scan for the last index returns the key of the pair that holds it. -/
theorem FindLastKey_mem (m : List (FBlockTypePositionKey × Int)) (Last : Int)
    (h : Last ∈ m.map Prod.snd) : (FindLastKey m Last, Last) ∈ m := by
  unfold FindLastKey
  cases hf : m.find? (fun Pair => decide (Pair.2 = Last)) with
  | none =>
    rw [List.find?_eq_none] at hf
    obtain ⟨q, hq, hq2⟩ := List.mem_map.1 h
    exact absurd (by simpa using hq2) (by simpa using hf q hq)
  | some q =>
    have hq := List.mem_of_find?_eq_some hf
    have hq2 : q.2 = Last := by simpa using List.find?_some hf
    obtain ⟨qk, qv⟩ := q
    simp only at hq2
    subst hq2
    exact hq

section SwapMapping

variable {K : Type} [DecidableEq K]

/-- Pairs of the mapping after the last key `kl` was repointed to `r` and the key `kr`
was removed. -/
theorem mem_swap_mapping (m : List (K × Int)) (kl kr : K) (r l : Int)
    (hkeys : (m.map Prod.fst).Nodup) (hkr : (kr, r) ∈ m) (hkl : (kl, l) ∈ m) (hrl : r ≠ l)
    (q : K × Int) :
    q ∈ TMap.Remove (m.map (fun x => if x.1 = kl then (kl, r) else x)) kr
      ↔ q = (kl, r) ∨ (q ∈ m ∧ q.1 ≠ kl ∧ q.1 ≠ kr) := by
  have hne : kl ≠ kr := by
    intro e
    subst e
    have h1 := TMap.Find_of_mem m kl r hkeys hkr
    have h2 := TMap.Find_of_mem m kl l hkeys hkl
    rw [h1] at h2
    exact hrl (Option.some.inj h2)
  simp only [TMap.Remove, List.mem_filter, List.mem_map, decide_eq_true_eq]
  constructor
  · rintro ⟨⟨x, hx, hfx⟩, hq⟩
    by_cases hxl : x.1 = kl
    · left
      simpa [hxl] using hfx.symm
    · right
      have : x = q := by simpa [hxl] using hfx
      subst this
      exact ⟨hx, hxl, hq⟩
  · rintro (rfl | ⟨hq, hql, hqr⟩)
    · exact ⟨⟨(kl, l), hkl, by simp⟩, hne⟩
    · exact ⟨⟨q, hq, by simp [hql]⟩, hqr⟩

/-- The keys after swap-remove are the old keys without the removed one, in order. -/
theorem keys_swap_mapping (m : List (K × Int)) (kl kr : K) (r : Int) :
    (TMap.Remove (m.map (fun x => if x.1 = kl then (kl, r) else x)) kr).map Prod.fst
      = (m.map Prod.fst).filter (fun k => decide (k ≠ kr)) := by
  have hfst : ∀ x : K × Int, (if x.1 = kl then (kl, r) else x).1 = x.1 := by
    intro x
    by_cases h : x.1 = kl
    · simp [h]
    · simp [h]
  have hpred : ((fun p : K × Int => decide (p.1 ≠ kr)) ∘
      (fun x : K × Int => if x.1 = kl then (kl, r) else x))
      = ((fun k : K => decide (k ≠ kr)) ∘ Prod.fst) := by
    funext x
    simp only [Function.comp, hfst]
  have hkey : (Prod.fst ∘ (fun x : K × Int => if x.1 = kl then (kl, r) else x))
      = (Prod.fst : K × Int → K) := by
    funext x
    simp only [Function.comp, hfst]
  unfold TMap.Remove
  rw [List.filter_map, List.filter_map, List.map_map, hpred, hkey]

/-- The indices after swap-remove are pairwise distinct. -/
theorem nodup_values_swap_mapping (m : List (K × Int)) (kl kr : K) (r l : Int)
    (hkeys : (m.map Prod.fst).Nodup) (hvals : (m.map Prod.snd).Nodup)
    (hkr : (kr, r) ∈ m) (hkl : (kl, l) ∈ m) (hrl : r ≠ l) :
    ((TMap.Remove (m.map (fun x => if x.1 = kl then (kl, r) else x)) kr).map Prod.snd).Nodup := by
  have hL : (TMap.Remove (m.map (fun x => if x.1 = kl then (kl, r) else x)) kr).Nodup := by
    apply List.Nodup.of_map Prod.fst
    rw [keys_swap_mapping]
    exact hkeys.filter _
  have hinj := List.inj_on_of_nodup_map hvals
  refine List.Nodup.map_on ?_ hL
  intro x hx y hy hxy
  rw [mem_swap_mapping m kl kr r l hkeys hkr hkl hrl] at hx hy
  rcases hx with rfl | ⟨hxm, hxl, hxr⟩ <;> rcases hy with rfl | ⟨hym, hyl, hyr⟩
  · rfl
  · have := hinj hkr hym (by simpa using hxy)
    exact absurd (by rw [← this]) hyr
  · have := hinj hkr hxm (by simpa using hxy.symm)
    exact absurd (by rw [← this]) hxr
  · exact hinj hxm hym hxy

/-- The indices after swap-remove are the old indices without the last one. -/
theorem mem_values_swap_mapping (m : List (K × Int)) (kl kr : K) (r l : Int)
    (hkeys : (m.map Prod.fst).Nodup) (hvals : (m.map Prod.snd).Nodup)
    (hkr : (kr, r) ∈ m) (hkl : (kl, l) ∈ m) (hrl : r ≠ l) (v : Int) :
    v ∈ (TMap.Remove (m.map (fun x => if x.1 = kl then (kl, r) else x)) kr).map Prod.snd
      ↔ v ∈ m.map Prod.snd ∧ v ≠ l := by
  have hinj := List.inj_on_of_nodup_map hvals
  constructor
  · intro hv
    obtain ⟨q, hq, rfl⟩ := List.mem_map.1 hv
    rw [mem_swap_mapping m kl kr r l hkeys hkr hkl hrl] at hq
    rcases hq with rfl | ⟨hqm, hql, _⟩
    · exact ⟨List.mem_map.2 ⟨(kr, r), hkr, rfl⟩, hrl⟩
    · refine ⟨List.mem_map.2 ⟨q, hqm, rfl⟩, ?_⟩
      intro e
      have := hinj hqm hkl (by simpa using e)
      exact hql (by rw [this])
  · rintro ⟨hv, hvl⟩
    obtain ⟨q, hq, rfl⟩ := List.mem_map.1 hv
    by_cases hqr : q.2 = r
    · exact List.mem_map.2 ⟨(kl, r),
        (mem_swap_mapping m kl kr r l hkeys hkr hkl hrl _).2 (Or.inl rfl), hqr.symm⟩
    · refine List.mem_map.2 ⟨q, (mem_swap_mapping m kl kr r l hkeys hkr hkl hrl _).2
        (Or.inr ⟨hq, ?_, ?_⟩), rfl⟩
      · intro e
        have h1 := TMap.Find_of_mem m q.1 q.2 hkeys hq
        have h2 := TMap.Find_of_mem m kl l hkeys hkl
        rw [e, h2] at h1
        exact hvl (Option.some.inj h1).symm
      · intro e
        have h1 := TMap.Find_of_mem m q.1 q.2 hkeys hq
        have h2 := TMap.Find_of_mem m kr r hkeys hkr
        rw [e, h2] at h1
        exact hqr (Option.some.inj h1).symm

end SwapMapping

/-- Indices that are exactly `0..N-1` are the integers of that range. -/
theorem mem_values_of_perm_range {K : Type} (m : List (K × Int)) (N : Nat)
    (hidx : (m.map Prod.snd).Perm ((List.range N).map Int.ofNat)) (v : Int) :
    v ∈ m.map Prod.snd ↔ 0 ≤ v ∧ v < (N : Int) := by
  rw [hidx.mem_iff, List.mem_map]
  constructor
  · rintro ⟨i, hi, rfl⟩
    rw [List.mem_range] at hi
    exact ⟨Int.ofNat_nonneg i, by simpa using hi⟩
  · rintro ⟨h0, h1⟩
    refine ⟨v.toNat, List.mem_range.2 ?_, ?_⟩
    · omega
    · simp [Int.toNat_of_nonneg h0]

/-- The batch after the last slot was copied into slot `r` and the last slot removed. -/
theorem swap_batch (b : List FVector) (N : Nat) (r : Int) (T : FVector) (hlen : b.length = N)
    (hr0 : 0 ≤ r) (hrN : r < (N : Int) - 1) :
    ((b.set r.toNat T).eraseIdx (N - 1)).length = N - 1 ∧
    ((b.set r.toNat T).eraseIdx (N - 1))[r.toNat]? = some T ∧
    ∀ i : Int, 0 ≤ i → i < (N : Int) - 1 → i ≠ r →
      ((b.set r.toNat T).eraseIdx (N - 1))[i.toNat]? = b[i.toNat]? := by
  have hrt : r.toNat < N - 1 := by omega
  refine ⟨?_, ?_, ?_⟩
  · rw [List.length_eraseIdx, List.length_set, hlen]
    have : N - 1 < N := by omega
    simp [this]
  · rw [List.getElem?_eraseIdx_of_lt _ _ _ hrt]
    exact List.getElem?_set_self (by omega)
  · intro i hi0 hiN hir
    have hit : i.toNat < N - 1 := by omega
    have hne : r.toNat ≠ i.toNat := by omega
    rw [List.getElem?_eraseIdx_of_lt _ _ _ hit, List.getElem?_set_ne hne]

/-- Swap-remove on a mapping whose indices are exactly `0..N-1`, for a key that does not
hold the last index: the result in closed form. -/
theorem SwapRemoveInstance_of_dense (b : List FVector) (m : List (FBlockTypePositionKey × Int))
    (kr : FBlockTypePositionKey) (r : Int) (N : Nat) (hlen : b.length = N)
    (hkeys : (m.map Prod.fst).Nodup)
    (hidx : (m.map Prod.snd).Perm ((List.range N).map Int.ofNat))
    (hkr : (kr, r) ∈ m) (hr : r ≠ (N : Int) - 1) :
    SwapRemoveInstance b m kr
      = some ((b.set r.toNat (b.getD (N - 1) FVector.Zero)).eraseIdx (N - 1),
          TMap.Remove (m.map (fun x => if x.1 = FindLastKey m ((N : Int) - 1)
            then (FindLastKey m ((N : Int) - 1), r) else x)) kr, true) := by
  have hrange := (mem_values_of_perm_range m N hidx r).1 (List.mem_map.2 ⟨(kr, r), hkr, rfl⟩)
  have hN : 1 ≤ N := by omega
  have hlast : ((N : Int) - 1) ∈ m.map Prod.snd :=
    (mem_values_of_perm_range m N hidx _).2 ⟨by omega, by omega⟩
  have hkl := FindLastKey_mem m _ hlast
  have hfind := TMap.Find_of_mem m kr r hkeys hkr
  have hcont : TMap.Contains m (FindLastKey m ((N : Int) - 1)) = true := by
    simp [TMap.Contains, TMap.Find_of_mem m _ _ hkeys hkl]
  have hklk : FindLastKey m ((N : Int) - 1) ∈ m.map Prod.fst := List.mem_map.2 ⟨_, hkl, rfl⟩
  have hv1 : ISM.IsValidIndex b ((N : Int) - 1) = true := by
    simp only [ISM.IsValidIndex, hlen, Bool.and_eq_true, decide_eq_true_eq]; omega
  have hv2 : ISM.IsValidIndex b r = true := by
    simp only [ISM.IsValidIndex, hlen, Bool.and_eq_true, decide_eq_true_eq]; omega
  have hv3 : ISM.IsValidIndex (b.set r.toNat (b.getD (N - 1) FVector.Zero)) ((N : Int) - 1)
      = true := by
    simp only [ISM.IsValidIndex, List.length_set, hlen, Bool.and_eq_true, decide_eq_true_eq]; omega
  have htn : ((N : Int) - 1).toNat = N - 1 := by omega
  simp only [SwapRemoveInstance, hfind, ISM.GetInstanceCount, hlen, ne_eq, hr, not_false_eq_true,
    if_true, hcont, ISM.GetInstanceTransform, hv1, ISM.UpdateInstanceTransform, hv2,
    ISM.RemoveInstance, htn, hv3, TMap.Add_eq_map m _ r hklk hkeys]

/-- C2: in a chunk registry whose mapping holds N >= 2 entries of one block type with
pairwise distinct keys and indices exactly 0..N-1, whose batch holds N instances each
equal to the world position of its key and whose per-type count is N, removeInstance of
an entry whose index is not N-1 returns, leaves exactly the other N-1 keys, their
indices are exactly 0..N-2, each remaining entry's instance still equals the world
position of its key, and the batch length and the per-type count are both N-1. -/
theorem C2_swap_remove_keeps_batch_dense (g : ARandomMapGenerator) (c : FChunkCoord)
    (d : FChunkISMData) (b : List FVector) (t : EBlockType) (p : FBlockPosition) (r : Int)
    (N : Nat) (ht : t ≠ EBlockType.Air) (_hN : 2 ≤ N)
    (hd : TMap.Find g.ChunkISMSystem c = some d)
    (hb : TMap.Find d.ChunkISMs t = some b)
    (hlen : b.length = N)
    (hcount : TMap.Find d.InstanceCounts t = some (N : Int))
    (_hsingle : ∀ Pair ∈ d.InstanceIndexMapping, Pair.1.BlockType = t)
    (hkeys : (d.InstanceIndexMapping.map Prod.fst).Nodup)
    (hidx : (d.InstanceIndexMapping.map Prod.snd).Perm ((List.range N).map Int.ofNat))
    (htr : ∀ Pair ∈ d.InstanceIndexMapping,
      b[Pair.2.toNat]? = some (g.BlockToWorldPosition c Pair.1.BlockPos))
    (hmem : ((⟨t, p⟩ : FBlockTypePositionKey), r) ∈ d.InstanceIndexMapping)
    (hr : r ≠ (N : Int) - 1) :
    ∃ g1 d1 b1, g.RemoveBlockInstance c p t = some g1 ∧
      TMap.Find g1.ChunkISMSystem c = some d1 ∧
      TMap.Find d1.ChunkISMs t = some b1 ∧
      d1.InstanceIndexMapping.map Prod.fst
        = (d.InstanceIndexMapping.map Prod.fst).filter (fun k => decide (k ≠ ⟨t, p⟩)) ∧
      (d1.InstanceIndexMapping.map Prod.snd).Perm ((List.range (N - 1)).map Int.ofNat) ∧
      (∀ Pair ∈ d1.InstanceIndexMapping,
        b1[Pair.2.toNat]? = some (g1.BlockToWorldPosition c Pair.1.BlockPos)) ∧
      b1.length = N - 1 ∧
      TMap.Find d1.InstanceCounts t = some ((N : Int) - 1) := by
  have hvals : (d.InstanceIndexMapping.map Prod.snd).Nodup :=
    hidx.nodup_iff.2 ((List.nodup_range N).map (fun a b h => by simpa using h))
  have hrange := (mem_values_of_perm_range _ N hidx r).1 (List.mem_map.2 ⟨_, hmem, rfl⟩)
  have hlast : ((N : Int) - 1) ∈ d.InstanceIndexMapping.map Prod.snd :=
    (mem_values_of_perm_range _ N hidx _).2 ⟨by omega, by omega⟩
  have hkl := FindLastKey_mem _ _ hlast
  have hfind := TMap.Find_of_mem _ _ r hkeys hmem
  have hswap := SwapRemoveInstance_of_dense b _ _ r N hlen hkeys hidx hmem hr
  have hrl : r < (N : Int) - 1 := by omega
  have hbatch := swap_batch b N r (b.getD (N - 1) FVector.Zero) hlen hrange.1 hrl
  have hTlast : b.getD (N - 1) FVector.Zero
      = g.BlockToWorldPosition c (FindLastKey d.InstanceIndexMapping ((N : Int) - 1)).BlockPos := by
    have h := htr _ hkl
    have htn : ((N : Int) - 1).toNat = N - 1 := by omega
    simp only [htn] at h
    simp [List.getD, h]
  refine ⟨{ g with ChunkISMSystem := TMap.Add g.ChunkISMSystem c (FChunkISMData.mk
      (TMap.Add d.ChunkISMs t ((b.set r.toNat (b.getD (N - 1) FVector.Zero)).eraseIdx (N - 1)))
      (TMap.Remove (d.InstanceIndexMapping.map
          (fun x => if x.1 = FindLastKey d.InstanceIndexMapping ((N : Int) - 1)
            then (FindLastKey d.InstanceIndexMapping ((N : Int) - 1), r) else x)) ⟨t, p⟩)
      (TMap.Add d.InstanceCounts t ((N : Int) - 1))) },
    { ChunkISMs := TMap.Add d.ChunkISMs t
        ((b.set r.toNat (b.getD (N - 1) FVector.Zero)).eraseIdx (N - 1))
      InstanceIndexMapping := TMap.Remove (d.InstanceIndexMapping.map
        (fun x => if x.1 = FindLastKey d.InstanceIndexMapping ((N : Int) - 1)
          then (FindLastKey d.InstanceIndexMapping ((N : Int) - 1), r) else x)) ⟨t, p⟩
      InstanceCounts := TMap.Add d.InstanceCounts t ((N : Int) - 1) },
    (b.set r.toNat (b.getD (N - 1) FVector.Zero)).eraseIdx (N - 1),
    ?_, TMap.Find_Add_self _ _ _, TMap.Find_Add_self _ _ _, ?_, ?_, ?_, ?_, ?_⟩
  · simp only [RemoveBlockInstance, ht, if_false, hd, hb, hfind, hswap, if_true, hcount]
  · exact keys_swap_mapping _ _ _ _
  · refine (List.perm_ext_iff_of_nodup
      (nodup_values_swap_mapping _ _ _ r _ hkeys hvals hmem hkl hr)
      ((List.nodup_range (N - 1)).map (fun a b h => by simpa using h))).2 ?_
    intro v
    rw [mem_values_swap_mapping _ _ _ r _ hkeys hvals hmem hkl hr,
      mem_values_of_perm_range _ N hidx, List.mem_map]
    constructor
    · rintro ⟨⟨h0, h1⟩, h2⟩
      refine ⟨v.toNat, List.mem_range.2 (by omega), ?_⟩
      simp [Int.toNat_of_nonneg h0]
    · rintro ⟨i, hi, rfl⟩
      rw [List.mem_range] at hi
      have : ((Int.ofNat i : Int)) = (i : Int) := rfl
      refine ⟨⟨Int.ofNat_nonneg i, ?_⟩, ?_⟩
      · rw [this]; omega
      · rw [this]; omega
  · intro Pair hPair
    rw [mem_swap_mapping _ _ _ r _ hkeys hmem hkl hr] at hPair
    rcases hPair with rfl | ⟨hPm, hPl, hPr⟩
    · exact hbatch.2.1.trans (congrArg some hTlast)
    · have hPrange := (mem_values_of_perm_range _ N hidx Pair.2).1
        (List.mem_map.2 ⟨_, hPm, rfl⟩)
      have hinj := List.inj_on_of_nodup_map hvals
      have hne1 : Pair.2 ≠ (N : Int) - 1 := by
        intro e
        have := hinj hPm hkl (by simpa using e)
        exact hPl (by rw [this])
      have hne2 : Pair.2 ≠ r := by
        intro e
        have := hinj hPm hmem (by simpa using e)
        exact hPr (by rw [this])
      rw [hbatch.2.2 Pair.2 hPrange.1 (by omega) hne2]
      exact htr Pair hPm
  · exact hbatch.1
  · exact TMap.Find_Add_self _ _ _

/-- C2 on three Stone instances of chunk (0,0): removing the first one (index 0, not the
last index 2) leaves the keys (1,0,0) and (2,0,0) on the indices 0 and 1. -/
theorem C2_swap_remove_keeps_batch_dense_witness :
    ∃ g1 d1 b1, ThreeStones.RemoveBlockInstance ⟨0, 0⟩ ⟨0, 0, 0⟩ Stone = some g1 ∧
      TMap.Find g1.ChunkISMSystem ⟨0, 0⟩ = some d1 ∧
      TMap.Find d1.ChunkISMs Stone = some b1 ∧
      d1.InstanceIndexMapping.map Prod.fst
        = (ThreeStonesData.InstanceIndexMapping.map Prod.fst).filter
            (fun k => decide (k ≠ ⟨Stone, ⟨0, 0, 0⟩⟩)) ∧
      (d1.InstanceIndexMapping.map Prod.snd).Perm ((List.range (3 - 1)).map Int.ofNat) ∧
      (∀ Pair ∈ d1.InstanceIndexMapping,
        b1[Pair.2.toNat]? = some (g1.BlockToWorldPosition ⟨0, 0⟩ Pair.1.BlockPos)) ∧
      b1.length = 3 - 1 ∧
      TMap.Find d1.InstanceCounts Stone = some (((3 : Nat) : Int) - 1) :=
  C2_swap_remove_keeps_batch_dense ThreeStones ⟨0, 0⟩ ThreeStonesData
    [⟨50, 50, 50⟩, ⟨150, 50, 50⟩, ⟨250, 50, 50⟩] Stone ⟨0, 0, 0⟩ 0 3
    (by decide) (by decide) (by decide!) (by decide!) (by decide) (by decide!) (by decide!)
    (by decide!) (by decide!) (by decide!) (by decide!) (by decide)

/-- C1 (violated): on chunk (0,0) of the constructed actor the calls add Grass (0,0,0),
add Stone (1,0,0), add Stone (2,0,0), add Grass (3,0,0), remove Grass (0,0,0) all return;
afterwards the key (Grass,(3,0,0)) maps to index 1 of a Grass batch that holds one
instance, and the key (Stone,(2,0,0)) maps to index 0 of the Stone batch, which stores
the position of (1,0,0): the scan for the last index repointed a Stone key. -/
theorem C1_swap_remove_repoints_key_of_other_type :
    ∃ g d, RunRegistryCalls Constructed ⟨0, 0⟩
        [RegistryCall.addInstance ⟨0, 0, 0⟩ Grass, RegistryCall.addInstance ⟨1, 0, 0⟩ Stone,
         RegistryCall.addInstance ⟨2, 0, 0⟩ Stone, RegistryCall.addInstance ⟨3, 0, 0⟩ Grass,
         RegistryCall.removeInstance ⟨0, 0, 0⟩ Grass] = some g ∧
      TMap.Find g.ChunkISMSystem ⟨0, 0⟩ = some d ∧
      d.InstanceIndexMapping
        = [(⟨Stone, ⟨1, 0, 0⟩⟩, 0), (⟨Stone, ⟨2, 0, 0⟩⟩, 0), (⟨Grass, ⟨3, 0, 0⟩⟩, 1)] ∧
      TMap.Find d.ChunkISMs Grass = some [g.BlockToWorldPosition ⟨0, 0⟩ ⟨3, 0, 0⟩] ∧
      TMap.Find d.ChunkISMs Stone
        = some [g.BlockToWorldPosition ⟨0, 0⟩ ⟨1, 0, 0⟩, g.BlockToWorldPosition ⟨0, 0⟩ ⟨2, 0, 0⟩] ∧
      InstanceAt d Grass 1 = none ∧
      InstanceAt d Stone 0 ≠ some (g.BlockToWorldPosition ⟨0, 0⟩ ⟨2, 0, 0⟩) ∧
      ¬ MappingSound g ⟨0, 0⟩ :=
  ⟨(RunRegistryCalls Constructed ⟨0, 0⟩
        [RegistryCall.addInstance ⟨0, 0, 0⟩ Grass, RegistryCall.addInstance ⟨1, 0, 0⟩ Stone,
         RegistryCall.addInstance ⟨2, 0, 0⟩ Stone, RegistryCall.addInstance ⟨3, 0, 0⟩ Grass,
         RegistryCall.removeInstance ⟨0, 0, 0⟩ Grass]).getD Constructed,
    (TMap.Find ((RunRegistryCalls Constructed ⟨0, 0⟩
        [RegistryCall.addInstance ⟨0, 0, 0⟩ Grass, RegistryCall.addInstance ⟨1, 0, 0⟩ Stone,
         RegistryCall.addInstance ⟨2, 0, 0⟩ Stone, RegistryCall.addInstance ⟨3, 0, 0⟩ Grass,
         RegistryCall.removeInstance ⟨0, 0, 0⟩ Grass]).getD Constructed).ChunkISMSystem
      ⟨0, 0⟩).getD NewChunkData,
    by decide!⟩



/-! ### Damage pipeline -/

/-- `RemoveBlockInstance` changes nothing but the instance registry. -/
theorem RemoveBlockInstance_frame (g r : ARandomMapGenerator) (c : FChunkCoord)
    (p : FBlockPosition) (t : EBlockType) (h : g.RemoveBlockInstance c p t = some r) :
    r = { g with ChunkISMSystem := r.ChunkISMSystem } := by
  unfold RemoveBlockInstance at h
  by_cases ht : t = Air
  · simp only [ht, if_true, Option.some.injEq] at h
    subst h; rfl
  · simp only [ht, if_false] at h
    cases hd : TMap.Find g.ChunkISMSystem c with
    | none => simp only [hd, Option.some.injEq] at h; subst h; rfl
    | some d =>
      simp only [hd] at h
      cases hb : TMap.Find d.ChunkISMs t with
      | none => simp only [hb, Option.some.injEq] at h; subst h; rfl
      | some b =>
        simp only [hb] at h
        cases hk : TMap.Find d.InstanceIndexMapping ⟨t, p⟩ with
        | none => simp only [hk, Option.some.injEq] at h; subst h; rfl
        | some i =>
          simp only [hk] at h
          cases hs : SwapRemoveInstance b d.InstanceIndexMapping ⟨t, p⟩ with
          | none => simp [hs] at h
          | some res =>
            obtain ⟨b1, m1, flag⟩ := res
            simp only [hs] at h
            cases flag with
            | false => simp only [Bool.false_eq_true, if_false, Option.some.injEq] at h; subst h; rfl
            | true =>
              simp only [if_true] at h
              cases hc : TMap.Find d.InstanceCounts t with
              | none => simp [hc] at h
              | some n => simp only [hc, Option.some.injEq] at h; subst h; rfl

/-- Whether `RemoveBlockInstance` returns, and the registry it returns, depend on the
registry only. -/
theorem RemoveBlockInstance_registry_congr (g g2 : ARandomMapGenerator) (c : FChunkCoord)
    (p : FBlockPosition) (t : EBlockType) (h : g2.ChunkISMSystem = g.ChunkISMSystem) :
    (g2.RemoveBlockInstance c p t).map (fun r => r.ChunkISMSystem)
      = (g.RemoveBlockInstance c p t).map (fun r => r.ChunkISMSystem) := by
  unfold RemoveBlockInstance
  rw [h]
  by_cases ht : t = Air
  · simp [ht, h]
  · simp only [ht, if_false]
    cases hd : TMap.Find g.ChunkISMSystem c with
    | none => simp [h]
    | some d =>
      simp only []
      cases hb : TMap.Find d.ChunkISMs t with
      | none => simp [h]
      | some b =>
        simp only []
        cases hk : TMap.Find d.InstanceIndexMapping ⟨t, p⟩ with
        | none => simp [h]
        | some i =>
          simp only []
          cases hs : SwapRemoveInstance b d.InstanceIndexMapping ⟨t, p⟩ with
          | none => rfl
          | some res =>
            obtain ⟨b1, m1, flag⟩ := res
            simp only []
            cases flag with
            | false => simp
            | true =>
              simp only [if_true]
              cases hc : TMap.Find d.InstanceCounts t with
              | none => rfl
              | some n => simp



/-- C10: for every generator state, damage amount and world position whose cell holds
InvisibleWall, or whose chunk coordinate lies outside [0,WorldSizeInChunks)²,
applyDamageToBlock returns false and leaves the whole generator state (block store,
damage table, instance registry) unchanged. -/
theorem C10_apply_damage_rejects_wall_and_border (g : ARandomMapGenerator) (w : FVector)
    (Damage : ℚ)
    (h : g.GetBlockInternal (g.WorldToChunkCoord w) (g.WorldToBlockPosition w)
          = EBlockType.InvisibleWall ∨
        (g.WorldToChunkCoord w).X < 0 ∨ (g.WorldToChunkCoord w).Y < 0 ∨
        (g.WorldToChunkCoord w).X ≥ g.WorldSizeInChunks ∨
        (g.WorldToChunkCoord w).Y ≥ g.WorldSizeInChunks) :
    g.ApplyDamageToBlock w Damage = some (false, g) := by
  unfold ApplyDamageToBlock
  by_cases hauth : g.Authority = true
  · simp only [hauth, Bool.not_true, Bool.false_eq_true, if_false]
    by_cases hout : (g.WorldToChunkCoord w).X < 0 ∨ (g.WorldToChunkCoord w).Y < 0 ∨
        (g.WorldToChunkCoord w).X ≥ g.WorldSizeInChunks ∨
        (g.WorldToChunkCoord w).Y ≥ g.WorldSizeInChunks
    · simp only [hout, if_true]
    · simp only [hout, if_false]
      have hw : g.GetBlockInternal (g.WorldToChunkCoord w) (g.WorldToBlockPosition w)
          = EBlockType.InvisibleWall := by
        rcases h with h | h
        · exact h
        · exact absurd h hout
      by_cases hpos : g.IsOutsideChunk (g.WorldToBlockPosition w) = true
      · simp only [hpos, if_true]
      · simp only [hpos, hw, if_false, if_true]
        simp
  · simp [hauth]



/-- C10 on the constructed actor with an invisible wall placed at chunk (0,0), local
position (1,1,1): damaging its centre returns false and changes nothing. -/
theorem C10_apply_damage_rejects_wall_and_border_witness :
    ((Constructed.PlaceInvisibleWall ⟨0, 0⟩ ⟨1, 1, 1⟩).getD Constructed).GetBlockInternal
        ⟨0, 0⟩ ⟨1, 1, 1⟩ = InvisibleWall ∧
    ((Constructed.PlaceInvisibleWall ⟨0, 0⟩ ⟨1, 1, 1⟩).getD Constructed).ApplyDamageToBlock
        ⟨150, 150, 150⟩ 1000
      = some (false, (Constructed.PlaceInvisibleWall ⟨0, 0⟩ ⟨1, 1, 1⟩).getD Constructed) :=
  ⟨by decide!, C10_apply_damage_rejects_wall_and_border _ ⟨150, 150, 150⟩ 1000
    (Or.inl (by decide!))⟩

/-- On the authority, the local run of the damage multicast only rewrites the damage
record of a non-Air block. -/
theorem MulticastBlockDamaged_authority (g : ARandomMapGenerator) (c : FChunkCoord)
    (p : FBlockPosition) (NewHealth : ℚ) (hauth : g.Authority = true)
    (hAir : g.GetBlockInternal c p ≠ EBlockType.Air) :
    g.MulticastBlockDamaged_Implementation c p NewHealth
      = { g with BlockDamageData := (TMap.Add g.BlockDamageData ⟨c, p⟩
            (FBlockDamageData.mk NewHealth
              (match TMap.Find g.BlockDamageData ⟨c, p⟩ with
                | some Data => Data
                | none => FBlockDamageData.ofMax
                    (g.LookupMaxHealth (g.GetBlockInternal c p))).MaxHealth)) } := by
  unfold MulticastBlockDamaged_Implementation
  simp [hAir, hauth]

/-- On the authority, the local run of the block-update multicast only repeats the store
write. -/
theorem MulticastUpdateBlock_authority (g : ARandomMapGenerator) (c : FChunkCoord)
    (p : FBlockPosition) (t : EBlockType) (hauth : g.Authority = true) :
    g.MulticastUpdateBlock_Implementation c p t
      = some (g.SetBlockInternalWithoutReplication c p t) := by
  have h1 : (g.SetBlockInternalWithoutReplication c p t).Authority = true := by
    unfold SetBlockInternalWithoutReplication
    split <;> exact hauth
  unfold MulticastUpdateBlock_Implementation
  simp [h1]

set_option maxRecDepth 100000 in
/-- C3: the store/registry correspondence does not survive entrance sealing. On the cleared
constructed actor, setBlockTypeAtPosition puts a Stone block at the world location
(6350,-50,1050), the cell (15,15,10) of chunk (3,-1), and the sealing pass of the cave
entrance at column (63,-1) then runs. Both calls return; afterwards the cell reads
InvisibleWall in the block store while the chunk's instance-index mapping still holds one
entry (Stone,(15,15,10)), so a mapping entry has no block store entry of its type. -/
theorem C3_sealing_keeps_instance_entry_of_overwritten_block :
    ((Constructed.ClearGeneratorState.SetBlockTypeAtPosition ⟨6350, -50, 1050⟩ Stone).bind
        (fun g => g.SealCaveEntrance 63 (-1) 0 (-1) 10)).map
      (fun g => (g.GetBlockInternal ⟨3, -1⟩ ⟨15, 15, 10⟩,
        g.MappingEntryCount ⟨3, -1⟩ Stone ⟨15, 15, 10⟩,
        g.MappingEntryCount ⟨3, -1⟩ InvisibleWall ⟨15, 15, 10⟩,
        decide (StoreRegistryBijection g)))
      = some (InvisibleWall, 1, 1, false) := by
  decide!

set_option maxRecDepth 100000 in
/-- C4: the two pipelines do not finish with the same block store. For the one-chunk world
`SmallWorld` (seed 999, a base core blueprint set) with the zero-noise engine, both
pipelines return; the authoritative run ends with Air at cell (1,1,12) of chunk (0,0),
because its base core step clears the centre column from the height it computes with chunk
modifier 0, and the mirror run, which has no such step, ends with Grass there. -/
theorem C4_server_and_client_block_stores_differ :
    ((ServerGenerateWorld_Implementation SampleEngine SmallWorld).map
        (fun g => g.GetBlockInternal ⟨0, 0⟩ ⟨1, 1, 12⟩),
     (ClientGenerateWorld SampleEngine { SmallWorld with Authority := false }).map
        (fun g => g.GetBlockInternal ⟨0, 0⟩ ⟨1, 1, 12⟩))
      = (some Air, some Grass) := by
  decide!



/-- `FMath::Clamp` lands between its bounds when they are ordered. -/
theorem FMath.Clamp_mem {α : Type} [LinearOrder α] (X Min Max : α) (h : Min ≤ Max) :
    Min ≤ FMath.Clamp X Min Max ∧ FMath.Clamp X Min Max ≤ Max := by
  unfold FMath.Clamp
  split
  · exact ⟨le_refl _, h⟩
  · split
    · rename_i h1 h2
      exact ⟨not_lt.mp h1, le_of_lt h2⟩
    · exact ⟨h, le_refl _⟩

/-- C18: for every world coordinate, chunk seed modifier, seed and noise function, with
ChunkHeight >= 2, terrainHeight returns an integer h with 1 <= h <= ChunkHeight-1. -/
theorem C18_terrain_height_within_chunk (E : FEngine) (g : ARandomMapGenerator)
    (WorldX WorldY ChunkSeedModifier : Int) (h : 2 ≤ g.ChunkHeight) :
    1 ≤ GetTerrainHeight E g WorldX WorldY ChunkSeedModifier ∧
    GetTerrainHeight E g WorldX WorldY ChunkSeedModifier ≤ g.ChunkHeight - 1 := by
  unfold GetTerrainHeight
  exact FMath.Clamp_mem _ _ _ (by omega)



/-! ### Loops and frames -/

/-- A property kept by every step of a loop holds after the loop. -/
theorem ForEach_invariant {σ α : Type} (Body : σ → α → Option σ) (P : σ → Prop) :
    ∀ (Items : List α) (s r : σ), P s →
      (∀ s1 a s2, a ∈ Items → P s1 → Body s1 a = some s2 → P s2) →
      ForEach Body Items s = some r → P r := by
  intro Items
  induction Items with
  | nil =>
    intro s r hs _ h
    simp only [ForEach, Option.some.injEq] at h
    exact h ▸ hs
  | cons a tl ih =>
    intro s r hs hstep h
    simp only [ForEach] at h
    cases hb : Body s a with
    | none => rw [hb] at h; cases h
    | some s1 =>
      rw [hb] at h
      exact ih s1 r (hstep s a s1 (List.mem_cons_self _ _) hs hb)
        (fun s2 b s3 hbm => hstep s2 b s3 (List.mem_cons_of_mem _ hbm)) h

/-- A loop whose every step returns and keeps a property returns and keeps it. -/
theorem ForEach_returns {σ α : Type} (Body : σ → α → Option σ) (P : σ → Prop) :
    ∀ (Items : List α) (s : σ), P s →
      (∀ s1 a, a ∈ Items → P s1 → ∃ s2, Body s1 a = some s2 ∧ P s2) →
      ∃ r, ForEach Body Items s = some r ∧ P r := by
  intro Items
  induction Items with
  | nil => intro s hs _; exact ⟨s, rfl, hs⟩
  | cons a tl ih =>
    intro s hs hstep
    obtain ⟨s1, hb, hs1⟩ := hstep s a (List.mem_cons_self _ _) hs
    obtain ⟨r, hr, hPr⟩ := ih s1 hs1 (fun s2 b hbm => hstep s2 b (List.mem_cons_of_mem _ hbm))
    exact ⟨r, by simp only [ForEach, hb, hr], hPr⟩

theorem StoreFrame_refl (g : ARandomMapGenerator) : StoreFrame g g := rfl

theorem StoreFrame_trans {a b c : ARandomMapGenerator} (h1 : StoreFrame a b)
    (h2 : StoreFrame b c) : StoreFrame a c := Eq.trans h2 h1

theorem StoreFrame_ChunkHeight {g r : ARandomMapGenerator} (h : StoreFrame g r) :
    r.ChunkHeight = g.ChunkHeight := by
  have e := congrArg (fun (s : ARandomMapGenerator) => s.ChunkHeight) h
  exact e

theorem StoreFrame_Set (g : ARandomMapGenerator) (c : FChunkCoord) (p : FBlockPosition)
    (t : EBlockType) : StoreFrame g (g.SetBlockInternalWithoutReplication c p t) := by
  unfold SetBlockInternalWithoutReplication StoreFrame
  split <;> rfl

theorem StoreFrame_Remove (g r : ARandomMapGenerator) (c : FChunkCoord) (p : FBlockPosition)
    (t : EBlockType) (h : g.RemoveBlockInstance c p t = some r) : StoreFrame g r := by
  have hf := RemoveBlockInstance_frame g r c p t h
  unfold StoreFrame
  rw [hf]

theorem BlocksData_Remove (g r : ARandomMapGenerator) (c : FChunkCoord) (p : FBlockPosition)
    (t : EBlockType) (h : g.RemoveBlockInstance c p t = some r) :
    r.BlocksData = g.BlocksData := by
  have hf := RemoveBlockInstance_frame g r c p t h
  rw [hf]


/-! ### Registry entries with counts for every batch -/

theorem TMap.Contains_iff {K V : Type} [DecidableEq K] (m : List (K × V)) (k : K) :
    TMap.Contains m k = (TMap.Find m k).isSome := rfl

theorem TMap.isSome_Find_Add {K V : Type} [DecidableEq K] (m : List (K × V)) (k k2 : K)
    (v : V) : (TMap.Find (TMap.Add m k v) k2).isSome = (decide (k2 = k) || (TMap.Find m k2).isSome) := by
  by_cases h : k2 = k
  · subst h
    simp [TMap.Find_Add_self]
  · simp [TMap.Find_Add_of_ne _ _ _ _ h, h]

theorem NewChunkData_counts (t : EBlockType) :
    (TMap.Find NewChunkData.ChunkISMs t).isSome →
      (TMap.Find NewChunkData.InstanceCounts t).isSome := by
  cases t <;> decide

/-- What `UpdateBlockInstance` does on a chunk whose registry entry has a count for every
batch: it returns, keeps that property, and changes nothing but the registry. -/
theorem UpdateBlockInstance_returns (g : ARandomMapGenerator) (c : FChunkCoord)
    (p : FBlockPosition) (t : EBlockType) (hcnt : CountsCoverBatches g c) :
    ∃ r, g.UpdateBlockInstance c p t = some r ∧ CountsCoverBatches r c ∧
      r = { g with ChunkISMSystem := r.ChunkISMSystem } := by
  unfold UpdateBlockInstance
  by_cases ht : t = Air
  · exact ⟨g, by simp [ht], hcnt, rfl⟩
  · rw [if_neg ht]
    simp only []
    cases hd : TMap.Find g.ChunkISMSystem c with
    | some d =>
      have hc : TMap.Contains g.ChunkISMSystem c = true := by
        rw [TMap.Contains_iff, hd]; rfl
      rw [if_pos hc, hd]
      simp only []
      cases hb : TMap.Find d.ChunkISMs t with
      | none => exact ⟨g, rfl, hcnt, rfl⟩
      | some b =>
        simp only []
        have hn := hcnt d hd t (by rw [hb]; rfl)
        cases hcn : TMap.Find d.InstanceCounts t with
        | none => rw [hcn] at hn; cases hn
        | some n =>
          simp only []
          refine ⟨_, rfl, ?_, rfl⟩
          intro d2 hd2 t2 h2
          simp only [TMap.Find_Add_self, Option.some.injEq] at hd2
          subst hd2
          simp only [TMap.isSome_Find_Add] at h2 ⊢
          by_cases e : t2 = t
          · simp [e]
          · simp only [e, decide_False, Bool.false_or] at h2 ⊢
            exact hcnt d hd t2 h2
    | none =>
      have hc : ¬ (TMap.Contains g.ChunkISMSystem c = true) := by
        rw [TMap.Contains_iff, hd]; simp
      rw [if_neg hc]
      have hi : (g.InitializeChunkISMs c).ChunkISMSystem
          = TMap.Add g.ChunkISMSystem c NewChunkData := by
        unfold InitializeChunkISMs
        rw [if_neg hc]
      have hf : g.InitializeChunkISMs c
          = { g with ChunkISMSystem := TMap.Add g.ChunkISMSystem c NewChunkData } := by
        unfold InitializeChunkISMs
        rw [if_neg hc]
      rw [hi, TMap.Find_Add_self]
      simp only []
      cases hb : TMap.Find NewChunkData.ChunkISMs t with
      | none =>
        refine ⟨_, rfl, ?_, by rw [hf]⟩
        intro d2 hd2 t2 h2
        rw [hi, TMap.Find_Add_self] at hd2
        simp only [Option.some.injEq] at hd2
        subst hd2
        exact NewChunkData_counts t2 h2
      | some b =>
        simp only []
        have hn := NewChunkData_counts t (by rw [hb]; rfl)
        cases hcn : TMap.Find NewChunkData.InstanceCounts t with
        | none => rw [hcn] at hn; cases hn
        | some n =>
          simp only []
          refine ⟨_, rfl, ?_, by rw [hf]⟩
          intro d2 hd2 t2 h2
          simp only [TMap.Find_Add_self, Option.some.injEq] at hd2
          subst hd2
          simp only [TMap.isSome_Find_Add] at h2 ⊢
          by_cases e : t2 = t
          · simp [e]
          · simp only [e, decide_False, Bool.false_or] at h2 ⊢
            exact NewChunkData_counts t2 h2

/-! ### Loop ranges and generation writes -/

theorem ForRange_eq (Lo Hi : Int) :
    ForRange Lo Hi = (List.range (Hi - Lo).toNat).map (fun (i : Nat) => Lo + (i : Int)) := by
  unfold ForRange
  simp only [bind_pure_comp, List.map_eq_map, List.map_map]
  rfl

theorem mem_ForRange (Lo Hi Z : Int) : Z ∈ ForRange Lo Hi ↔ Lo ≤ Z ∧ Z < Hi := by
  rw [ForRange_eq]
  simp only [List.mem_map, List.mem_range]
  constructor
  · rintro ⟨i, hi, rfl⟩
    have h1 : (i : Int) < ((Hi - Lo).toNat : Int) := by exact_mod_cast hi
    have h2 : ((Hi - Lo).toNat : Int) = Hi - Lo := Int.toNat_of_nonneg (by
      by_contra hneg
      have : (Hi - Lo).toNat = 0 := Int.toNat_eq_zero.2 (by omega)
      rw [this] at hi
      exact Nat.not_lt_zero _ hi)
    have h3 : (0 : Int) ≤ (i : Int) := Int.ofNat_nonneg i
    constructor <;> linarith
  · rintro ⟨h1, h2⟩
    have h3 : ((Z - Lo).toNat : Int) = Z - Lo := Int.toNat_of_nonneg (by linarith)
    have h4 : ((Hi - Lo).toNat : Int) = Hi - Lo := Int.toNat_of_nonneg (by linarith)
    refine ⟨(Z - Lo).toNat, ?_, by rw [h3]; ring⟩
    have : ((Z - Lo).toNat : Int) < ((Hi - Lo).toNat : Int) := by rw [h3, h4]; linarith
    exact_mod_cast this

theorem nodup_ForRange (Lo Hi : Int) : (ForRange Lo Hi).Nodup := by
  rw [ForRange_eq]
  have hinj : Function.Injective (fun (i : Nat) => Lo + (i : Int)) := by
    intro a b hab
    have : (a : Int) = (b : Int) := by simpa using hab
    exact_mod_cast this
  exact (List.nodup_range _).map hinj

theorem ChunkISMSystem_Set (g : ARandomMapGenerator) (c : FChunkCoord) (p : FBlockPosition)
    (t : EBlockType) :
    (g.SetBlockInternalWithoutReplication c p t).ChunkISMSystem = g.ChunkISMSystem := by
  unfold SetBlockInternalWithoutReplication
  split <;> rfl

theorem CountsCoverBatches_congr (g g2 : ARandomMapGenerator) (c : FChunkCoord)
    (h : g2.ChunkISMSystem = g.ChunkISMSystem) (hcnt : CountsCoverBatches g c) :
    CountsCoverBatches g2 c := by
  unfold CountsCoverBatches at hcnt ⊢
  rw [h]
  exact hcnt

theorem GetBlockInternal_congr (g g2 : ARandomMapGenerator) (c : FChunkCoord)
    (p : FBlockPosition) (h : g2.BlocksData = g.BlocksData) :
    g2.GetBlockInternal c p = g.GetBlockInternal c p := by
  unfold GetBlockInternal
  rw [h]

/-- The generation write on a chunk whose registry entry has a count for every batch: it
returns, the written cell reads the written type and every other cell is unchanged. -/
theorem WriteBlock_spec (g : ARandomMapGenerator) (c : FChunkCoord) (p : FBlockPosition)
    (t : EBlockType) (hcnt : CountsCoverBatches g c) :
    ∃ r, g.WriteBlock c p t = some r ∧ CountsCoverBatches r c ∧ StoreFrame g r ∧
      r.GetBlockInternal c p = t ∧
      ∀ c2 p2, (⟨c2, p2⟩ : FWorldBlockKey) ≠ ⟨c, p⟩ →
        r.GetBlockInternal c2 p2 = g.GetBlockInternal c2 p2 := by
  obtain ⟨r, hr, hc, hf⟩ := UpdateBlockInstance_returns
    (g.SetBlockInternalWithoutReplication c p t) c p t
    (CountsCoverBatches_congr g _ c (ChunkISMSystem_Set g c p t) hcnt)
  have hb : r.BlocksData = (g.SetBlockInternalWithoutReplication c p t).BlocksData := by
    rw [hf]
  refine ⟨r, hr, hc, ?_, ?_, ?_⟩
  · refine StoreFrame_trans (StoreFrame_Set g c p t) ?_
    unfold StoreFrame
    rw [hf]
  · rw [GetBlockInternal_congr _ _ c p hb]
    exact GetBlockInternal_Set_self g c p t
  · intro c2 p2 hne
    rw [GetBlockInternal_congr _ _ c2 p2 hb]
    exact GetBlockInternal_Set_of_ne g c c2 p p2 t hne

/-- A loop of generation writes into one column, one write per listed height. -/
theorem write_column_loop (c : FChunkCoord) (X Y : Int) (T : Int → EBlockType) :
    ∀ (L : List Int) (g : ARandomMapGenerator), L.Nodup → CountsCoverBatches g c →
      ∃ r, ForEach (fun (s : ARandomMapGenerator) (Z : Int) => s.WriteBlock c ⟨X, Y, Z⟩ (T Z))
          L g = some r ∧ CountsCoverBatches r c ∧ StoreFrame g r ∧
        (∀ Z ∈ L, r.GetBlockInternal c ⟨X, Y, Z⟩ = T Z) ∧
        (∀ c2 p2, (∀ Z ∈ L, (⟨c2, p2⟩ : FWorldBlockKey) ≠ ⟨c, ⟨X, Y, Z⟩⟩) →
          r.GetBlockInternal c2 p2 = g.GetBlockInternal c2 p2) := by
  intro L
  induction L with
  | nil => intro g _ hcnt; exact ⟨g, rfl, hcnt, StoreFrame_refl g, by simp, fun _ _ _ => rfl⟩
  | cons Z0 tl ih =>
    intro g hnd hcnt
    rw [List.nodup_cons] at hnd
    obtain ⟨s1, hs1, hc1, hf1, hget1, hoth1⟩ := WriteBlock_spec g c ⟨X, Y, Z0⟩ (T Z0) hcnt
    obtain ⟨r, hr, hcr, hfr, hgetr, hothr⟩ := ih s1 hnd.2 hc1
    refine ⟨r, by simp only [ForEach, hs1, hr], hcr, StoreFrame_trans hf1 hfr, ?_, ?_⟩
    · intro Z hZ
      rcases List.mem_cons.1 hZ with rfl | hZ
      · rw [hothr c ⟨X, Y, Z⟩ (fun Z2 hZ2 e => by
          simp only [FWorldBlockKey.mk.injEq, FBlockPosition.mk.injEq, true_and] at e
          exact hnd.1 (e ▸ hZ2))]
        exact hget1
      · exact hgetr Z hZ
    · intro c2 p2 hne
      rw [hothr c2 p2 (fun Z hZ => hne Z (List.mem_cons_of_mem _ hZ))]
      exact hoth1 c2 p2 (hne Z0 (List.mem_cons_self _ _))

/-- The column fill is the first step of the column body of `GenerateChunk`. -/
theorem GenerateColumn_eq (E : FEngine) (c : FChunkCoord) (M X : Int)
    (g : ARandomMapGenerator) (Y : Int) :
    GenerateColumn E c M X g Y
      = match g.FillColumn c X Y (GetTerrainHeight E g (c.X * g.ChunkSize + X)
          (c.Y * g.ChunkSize + Y) M) with
        | none => none
        | some g1 =>
          if (DrawFraction E g1).1 < FMath.Clamp (g1.TreeDensity * (1 / 20) *
              (1 + E.Sin (((c.X * g.ChunkSize + X : Int) : ℚ) * (1 / 50)
                + ((c.Y * g.ChunkSize + Y : Int) : ℚ) * (1 / 25) + (g1.Seed : ℚ) * (1 / 100))))
              0 (1 / 10)
          then GenerateTree E (DrawFraction E g1).2 (c.X * g.ChunkSize + X)
              (c.Y * g.ChunkSize + Y)
              (GetTerrainHeight E g (c.X * g.ChunkSize + X) (c.Y * g.ChunkSize + Y) M)
          else some (DrawFraction E g1).2 := rfl

/-! ### Placement -/

theorem MutationFrame_refl (g : ARandomMapGenerator) : MutationFrame g g := rfl

theorem MutationFrame_trans {a b c : ARandomMapGenerator} (h1 : MutationFrame a b)
    (h2 : MutationFrame b c) : MutationFrame a c := Eq.trans h2 h1

theorem MutationFrame_of_StoreFrame {a b : ARandomMapGenerator} (h : StoreFrame a b) :
    MutationFrame a b := by
  unfold StoreFrame at h
  unfold MutationFrame
  exact congrArg (fun (s : ARandomMapGenerator) =>
    ({ s with ChunksInfo := [], BlockDamageData := [] } : ARandomMapGenerator)) h

/-- The position query of a state that shares the grid settings of `g`. -/
theorem GetBlockTypeAtPosition_of_frame (g r : ARandomMapGenerator) (P : FVector)
    (h : MutationFrame g r) :
    r.GetBlockTypeAtPosition P
      = if g.IsOutsideChunk (g.WorldToBlockPosition P) then Air
        else r.GetBlockInternal (g.WorldToChunkCoord P) (g.WorldToBlockPosition P) := by
  have hB : r.BlockSize = g.BlockSize := congrArg (fun s => s.BlockSize) h
  have hS : r.BlockSpacing = g.BlockSpacing := congrArg (fun s => s.BlockSpacing) h
  have hC : r.ChunkSize = g.ChunkSize := congrArg (fun s => s.ChunkSize) h
  have hH : r.ChunkHeight = g.ChunkHeight := congrArg (fun s => s.ChunkHeight) h
  unfold GetBlockTypeAtPosition IsOutsideChunk WorldToBlockPosition WorldToChunkCoord AbsBlockOf
  simp only [hB, hS, hC, hH]

/-- `RemoveBlockInstance` keeps a count for every batch of the chunk's registry entry. -/
theorem RemoveBlockInstance_counts (g r : ARandomMapGenerator) (c : FChunkCoord)
    (p : FBlockPosition) (t : EBlockType) (h : g.RemoveBlockInstance c p t = some r)
    (hcnt : CountsCoverBatches g c) : CountsCoverBatches r c := by
  unfold RemoveBlockInstance at h
  by_cases ht : t = Air
  · simp only [ht, if_true, Option.some.injEq] at h
    subst h; exact hcnt
  · simp only [ht, if_false] at h
    cases hd : TMap.Find g.ChunkISMSystem c with
    | none => simp only [hd, Option.some.injEq] at h; subst h; exact hcnt
    | some d =>
      simp only [hd] at h
      cases hb : TMap.Find d.ChunkISMs t with
      | none => simp only [hb, Option.some.injEq] at h; subst h; exact hcnt
      | some b =>
        simp only [hb] at h
        cases hk : TMap.Find d.InstanceIndexMapping ⟨t, p⟩ with
        | none => simp only [hk, Option.some.injEq] at h; subst h; exact hcnt
        | some i =>
          simp only [hk] at h
          cases hs : SwapRemoveInstance b d.InstanceIndexMapping ⟨t, p⟩ with
          | none => simp [hs] at h
          | some res =>
            obtain ⟨b1, m1, flag⟩ := res
            simp only [hs] at h
            cases flag with
            | false =>
              simp only [Bool.false_eq_true, if_false, Option.some.injEq] at h
              subst h
              intro d2 hd2 t2 h2
              simp only [TMap.Find_Add_self, Option.some.injEq] at hd2
              subst hd2
              simp only [TMap.isSome_Find_Add] at h2
              by_cases e : t2 = t
              · subst e
                exact hcnt d hd t2 (by rw [hb]; rfl)
              · simp only [e, decide_False, Bool.false_or] at h2
                exact hcnt d hd t2 h2
            | true =>
              simp only [if_true] at h
              cases hc : TMap.Find d.InstanceCounts t with
              | none => simp [hc] at h
              | some n =>
                simp only [hc, Option.some.injEq] at h
                subst h
                intro d2 hd2 t2 h2
                simp only [TMap.Find_Add_self, Option.some.injEq] at hd2
                subst hd2
                simp only [TMap.isSome_Find_Add] at h2 ⊢
                by_cases e : t2 = t
                · simp [e]
                · simp only [e, decide_False, Bool.false_or] at h2 ⊢
                  exact hcnt d hd t2 h2

/-- C13: when the chunk has no registry entry, or its mapping has no entry for
(type,pos), removeInstance returns and leaves the whole generator state, so the mapping,
the batches and the per-type counts, unchanged; addInstance and removeInstance with type
Air return the state unchanged. -/
theorem C13_remove_absent_instance_is_noop (g : ARandomMapGenerator) (c : FChunkCoord)
    (p : FBlockPosition) (t : EBlockType)
    (h : ∀ d, TMap.Find g.ChunkISMSystem c = some d →
      TMap.Find d.InstanceIndexMapping ⟨t, p⟩ = none) :
    g.RemoveBlockInstance c p t = some g ∧
    g.UpdateBlockInstance c p Air = some g ∧
    g.RemoveBlockInstance c p Air = some g := by
  refine ⟨?_, by simp [UpdateBlockInstance], by simp [RemoveBlockInstance]⟩
  unfold RemoveBlockInstance
  by_cases ht : t = Air
  · simp [ht]
  · rw [if_neg ht]
    cases hd : TMap.Find g.ChunkISMSystem c with
    | none => rfl
    | some d =>
      simp only []
      cases hb : TMap.Find d.ChunkISMs t with
      | none => rfl
      | some b =>
        simp only []
        rw [h d hd]

/-- The chunk-tracking step of `SetBlockTypeAtPosition` changes the tracking map only. -/
theorem track_chunk_facts (g : ARandomMapGenerator) (c : FChunkCoord) :
    ∃ g1, (if (!TMap.Contains g.ChunksInfo c) = true then
          ({ g with ChunksInfo := TMap.Add g.ChunksInfo c ⟨true⟩ } : ARandomMapGenerator)
        else g) = g1 ∧
      MutationFrame g g1 ∧ g1.Authority = g.Authority ∧ g1.BlocksData = g.BlocksData ∧
      g1.ChunkISMSystem = g.ChunkISMSystem ∧ g1.BlockDamageData = g.BlockDamageData := by
  by_cases h : (!TMap.Contains g.ChunksInfo c) = true
  · exact ⟨_, if_pos h, rfl, rfl, rfl, rfl, rfl⟩
  · exact ⟨_, if_neg h, rfl, rfl, rfl, rfl, rfl⟩

/-- C12: for every generator state and position P, setBlockTypeAtPosition(P,T) with T the
type the position query reports at P returns and leaves the block store, the instance
registry (mapping, batches, per-type counts) and the damage table unchanged. -/
theorem C12_set_same_type_is_noop (g : ARandomMapGenerator) (P : FVector) (T : EBlockType)
    (h : g.GetBlockTypeAtPosition P = T) :
    ∃ r, g.SetBlockTypeAtPosition P T = some r ∧ r.BlocksData = g.BlocksData ∧
      r.ChunkISMSystem = g.ChunkISMSystem ∧ r.BlockDamageData = g.BlockDamageData := by
  unfold SetBlockTypeAtPosition
  by_cases hauth : (!g.Authority) = true
  · exact ⟨g, if_pos hauth, rfl, rfl, rfl⟩
  · rw [if_neg hauth]
    simp only []
    by_cases hout : g.IsOutsideChunk (g.WorldToBlockPosition P) = true
    · exact ⟨g, if_pos hout, rfl, rfl, rfl⟩
    · rw [if_neg hout]
      obtain ⟨g1, hg1, _, _, hB, hS, hD⟩ := track_chunk_facts g (g.WorldToChunkCoord P)
      rw [hg1]
      have hT : g1.GetBlockInternal (g.WorldToChunkCoord P) (g.WorldToBlockPosition P) = T := by
        rw [GetBlockInternal_congr g g1 _ _ hB]
        unfold GetBlockTypeAtPosition at h
        simp only [] at h
        rw [if_neg hout] at h
        exact h
      rw [if_pos hT]
      exact ⟨g1, rfl, hB, hS, hD⟩

/-- The last three steps of `SetBlockTypeAtPosition`: remove the old instance, add the new
one, run the update multicast locally. -/
theorem place_tail (g3 : ARandomMapGenerator) (c : FChunkCoord) (p : FBlockPosition)
    (old T : EBlockType) (hauth : g3.Authority = true) (hcnt : CountsCoverBatches g3 c)
    (hrem : (g3.RemoveBlockInstance c p old).isSome) :
    ∃ r, (match (if old ≠ Air then g3.RemoveBlockInstance c p old else some g3) with
        | none => none
        | some g4 =>
          match (if T ≠ Air then g4.UpdateBlockInstance c p T else some g4) with
          | none => none
          | some g5 => g5.MulticastUpdateBlock_Implementation c p T) = some r ∧
      StoreFrame g3 r ∧ r.GetBlockInternal c p = T := by
  have h4 : ∃ g4, (if old ≠ Air then g3.RemoveBlockInstance c p old else some g3) = some g4 ∧
      StoreFrame g3 g4 ∧ CountsCoverBatches g4 c := by
    by_cases ho : old ≠ Air
    · rw [if_pos ho]
      cases hx : g3.RemoveBlockInstance c p old with
      | none => rw [hx] at hrem; cases hrem
      | some g4 =>
        exact ⟨g4, rfl, StoreFrame_Remove g3 g4 c p old hx,
          RemoveBlockInstance_counts g3 g4 c p old hx hcnt⟩
    · rw [if_neg ho]
      exact ⟨g3, rfl, StoreFrame_refl g3, hcnt⟩
  obtain ⟨g4, hg4, hF4, hC4⟩ := h4
  have h5 : ∃ g5, (if T ≠ Air then g4.UpdateBlockInstance c p T else some g4) = some g5 ∧
      StoreFrame g4 g5 := by
    by_cases hT : T ≠ Air
    · rw [if_pos hT]
      obtain ⟨g5, hg5, _, hf5⟩ := UpdateBlockInstance_returns g4 c p T hC4
      refine ⟨g5, hg5, ?_⟩
      unfold StoreFrame
      rw [hf5]
    · rw [if_neg hT]
      exact ⟨g4, rfl, StoreFrame_refl g4⟩
  obtain ⟨g5, hg5, hF5⟩ := h5
  have hF : StoreFrame g3 g5 := StoreFrame_trans hF4 hF5
  have hauth5 : g5.Authority = true :=
    (congrArg (fun (s : ARandomMapGenerator) => s.Authority) hF).trans hauth
  rw [hg4]
  simp only []
  rw [hg5]
  simp only []
  rw [MulticastUpdateBlock_authority g5 c p T hauth5]
  exact ⟨_, rfl, StoreFrame_trans hF (StoreFrame_Set g5 c p T), GetBlockInternal_Set_self g5 c p T⟩

/-! ### Tunnel carving -/

/-- `UpdateBlockInstance`, when it returns, changes nothing but the registry. -/
theorem UpdateBlockInstance_frame (g r : ARandomMapGenerator) (c : FChunkCoord)
    (p : FBlockPosition) (t : EBlockType) (h : g.UpdateBlockInstance c p t = some r) :
    r = { g with ChunkISMSystem := r.ChunkISMSystem } := by
  unfold UpdateBlockInstance at h
  by_cases ht : t = Air
  · simp only [ht, if_true, Option.some.injEq] at h
    subst h; rfl
  · rw [if_neg ht] at h
    simp only [] at h
    have hf1 : (if TMap.Contains g.ChunkISMSystem c = true then g else g.InitializeChunkISMs c)
        = { g with ChunkISMSystem :=
            (if TMap.Contains g.ChunkISMSystem c = true then g
              else g.InitializeChunkISMs c).ChunkISMSystem } := by
      by_cases hc : TMap.Contains g.ChunkISMSystem c = true
      · rw [if_pos hc]
      · rw [if_neg hc]
        unfold InitializeChunkISMs
        rw [if_neg hc]
    generalize (if TMap.Contains g.ChunkISMSystem c = true then g
      else g.InitializeChunkISMs c) = g1 at h hf1
    cases hd : TMap.Find g1.ChunkISMSystem c with
    | none => rw [hd] at h; cases h
    | some d =>
      rw [hd] at h
      simp only [] at h
      cases hb : TMap.Find d.ChunkISMs t with
      | none =>
        rw [hb] at h
        simp only [Option.some.injEq] at h
        subst h; exact hf1
      | some b =>
        rw [hb] at h
        simp only [] at h
        cases hcn : TMap.Find d.InstanceCounts t with
        | none => rw [hcn] at h; cases h
        | some n =>
          rw [hcn] at h
          simp only [Option.some.injEq] at h
          subst h
          rw [hf1]

/-- The generation write, when it returns, sets the written cell and no other. -/
theorem WriteBlock_store (g r : ARandomMapGenerator) (c : FChunkCoord) (p : FBlockPosition)
    (t : EBlockType) (h : g.WriteBlock c p t = some r) :
    StoreFrame g r ∧ r.GetBlockInternal c p = t ∧
      ∀ c2 p2, (⟨c2, p2⟩ : FWorldBlockKey) ≠ ⟨c, p⟩ →
        r.GetBlockInternal c2 p2 = g.GetBlockInternal c2 p2 := by
  have hf := UpdateBlockInstance_frame _ r c p t h
  have hb : r.BlocksData = (g.SetBlockInternalWithoutReplication c p t).BlocksData := by
    rw [hf]
  refine ⟨?_, ?_, ?_⟩
  · refine StoreFrame_trans (StoreFrame_Set g c p t) ?_
    unfold StoreFrame
    rw [hf]
  · rw [GetBlockInternal_congr _ _ c p hb]
    exact GetBlockInternal_Set_self g c p t
  · intro c2 p2 hne
    rw [GetBlockInternal_congr _ _ c2 p2 hb]
    exact GetBlockInternal_Set_of_ne g c c2 p p2 t hne

/-- A loop over the heights of one column whose step at height `Z` touches the cell at
`Z` only: afterwards every listed cell is related to its value before the loop as the
step relates them, and every other cell is unchanged. -/
theorem column_loop (c : FChunkCoord) (X Y : Int)
    (B : ARandomMapGenerator → Int → Option ARandomMapGenerator)
    (Q : Int → EBlockType → EBlockType → Prop)
    (hstep : ∀ s Z s1, B s Z = some s1 →
      StoreFrame s s1 ∧
      Q Z (s.GetBlockInternal c ⟨X, Y, Z⟩) (s1.GetBlockInternal c ⟨X, Y, Z⟩) ∧
      ∀ c2 p2, (⟨c2, p2⟩ : FWorldBlockKey) ≠ ⟨c, ⟨X, Y, Z⟩⟩ →
        s1.GetBlockInternal c2 p2 = s.GetBlockInternal c2 p2) :
    ∀ (L : List Int) (g r : ARandomMapGenerator), L.Nodup → ForEach B L g = some r →
      StoreFrame g r ∧
      (∀ Z ∈ L, Q Z (g.GetBlockInternal c ⟨X, Y, Z⟩) (r.GetBlockInternal c ⟨X, Y, Z⟩)) ∧
      (∀ c2 p2, (∀ Z ∈ L, (⟨c2, p2⟩ : FWorldBlockKey) ≠ ⟨c, ⟨X, Y, Z⟩⟩) →
        r.GetBlockInternal c2 p2 = g.GetBlockInternal c2 p2) := by
  intro L
  induction L with
  | nil =>
    intro g r _ h
    simp only [ForEach, Option.some.injEq] at h
    subst h
    exact ⟨StoreFrame_refl g, by simp, fun _ _ _ => rfl⟩
  | cons Z0 tl ih =>
    intro g r hnd h
    rw [List.nodup_cons] at hnd
    simp only [ForEach] at h
    cases hb : B g Z0 with
    | none => rw [hb] at h; cases h
    | some s1 =>
      rw [hb] at h
      obtain ⟨hf1, hq1, hoth1⟩ := hstep g Z0 s1 hb
      obtain ⟨hfr, hqr, hothr⟩ := ih s1 r hnd.2 h
      have hne0 : ∀ Z ∈ tl, (⟨c, ⟨X, Y, Z0⟩⟩ : FWorldBlockKey) ≠ ⟨c, ⟨X, Y, Z⟩⟩ := by
        intro Z hZ e
        simp only [FWorldBlockKey.mk.injEq, FBlockPosition.mk.injEq, true_and] at e
        exact hnd.1 (e ▸ hZ)
      refine ⟨StoreFrame_trans hf1 hfr, ?_, ?_⟩
      · intro Z hZ
        rcases List.mem_cons.1 hZ with rfl | hZ
        · rw [hothr c ⟨X, Y, Z⟩ hne0]
          exact hq1
        · have hne : (⟨c, ⟨X, Y, Z⟩⟩ : FWorldBlockKey) ≠ ⟨c, ⟨X, Y, Z0⟩⟩ :=
            fun e => hne0 Z hZ e.symm
          rw [← hoth1 c ⟨X, Y, Z⟩ hne]
          exact hqr Z hZ
      · intro c2 p2 hne
        rw [hothr c2 p2 (fun Z hZ => hne Z (List.mem_cons_of_mem _ hZ))]
        exact hoth1 c2 p2 (hne Z0 (List.mem_cons_self _ _))

theorem FloorBlockTypeAt_ne_Air (TunnelFloor FloorZ : Int) :
    FloorBlockTypeAt TunnelFloor FloorZ ≠ Air := by
  unfold FloorBlockTypeAt
  split
  · decide
  · split <;> decide

/-- The tunnel floor lies between one below the cave base height and the floor variation
above it. -/
theorem TunnelFloorOf_bounds (E : FEngine) (g : ARandomMapGenerator) (X Y Base : Int)
    (hV : 0 ≤ g.CaveFloorVariation) :
    Base - 1 ≤ TunnelFloorOf E g X Y Base ∧
    TunnelFloorOf E g X Y Base ≤ Base + g.CaveFloorVariation := by
  unfold TunnelFloorOf
  simp only []
  split
  · rename_i hc
    have hcl := FMath.Clamp_mem
      (FMath.RoundToInt (E.PerlinNoise2D ((X : ℚ) * (3 / 20)) ((Y : ℚ) * (3 / 20))
        * (g.CaveFloorVariation : ℚ))) (-1) g.CaveFloorVariation (by omega)
    unfold FMath.Max
    split <;> omega
  · unfold FMath.Max
    split <;> omega

/-! ### Cave registry -/

/-- A loop whose steps change the store and the registry only changes them only. -/
theorem ForEach_StoreFrame {α : Type} (Body : ARandomMapGenerator → α → Option ARandomMapGenerator)
    (hstep : ∀ s a s1, Body s a = some s1 → StoreFrame s s1)
    (Items : List α) (g r : ARandomMapGenerator) (h : ForEach Body Items g = some r) :
    StoreFrame g r :=
  ForEach_invariant Body (fun s => StoreFrame g s) Items g r (StoreFrame_refl g)
    (fun s1 a s2 _ hs hb => StoreFrame_trans hs (hstep s1 a s2 hb)) h

theorem StoreFrame_WriteBlock (g r : ARandomMapGenerator) (c : FChunkCoord)
    (p : FBlockPosition) (t : EBlockType) (h : g.WriteBlock c p t = some r) : StoreFrame g r :=
  (WriteBlock_store g r c p t h).1

theorem StoreFrame_GenerateRockColumn (E : FEngine) (CaveX CaveY Base OffsetX : Int)
    (g : ARandomMapGenerator) (OffsetY : Int) (r : ARandomMapGenerator)
    (h : GenerateRockColumn E CaveX CaveY Base OffsetX g OffsetY = some r) : StoreFrame g r := by
  unfold GenerateRockColumn at h
  simp only [] at h
  split at h
  · simp only [Option.some.injEq] at h
    subst h; exact StoreFrame_refl _
  · split at h
    · simp only [Option.some.injEq] at h
      subst h; exact StoreFrame_refl _
    · exact ForEach_StoreFrame _ (fun s a s1 hb => StoreFrame_WriteBlock s s1 _ _ _ hb) _ g r h

theorem StoreFrame_GenerateCaveRockyFormations (E : FEngine) (g r : ARandomMapGenerator)
    (CaveX CaveY DirX DirY Base : Int)
    (h : GenerateCaveRockyFormations E g CaveX CaveY DirX DirY Base = some r) :
    StoreFrame g r := by
  unfold GenerateCaveRockyFormations at h
  split at h
  · simp only [Option.some.injEq] at h
    subst h; exact StoreFrame_refl _
  · exact ForEach_StoreFrame _
      (fun s a s1 hb => ForEach_StoreFrame _
        (fun s2 b s3 hb2 => StoreFrame_GenerateRockColumn E CaveX CaveY Base a s2 b s3 hb2)
        _ s s1 hb) _ g r h

theorem StoreFrame_CarveTunnelColumn (E : FEngine) (g r : ARandomMapGenerator)
    (TunnelX TunnelY Base : Int) (h : CarveTunnelColumn E g TunnelX TunnelY Base = some r) :
    StoreFrame g r := by
  unfold CarveTunnelColumn at h
  simp only [] at h
  split at h
  · cases h
  · rename_i g1 hF
    refine StoreFrame_trans (ForEach_StoreFrame _ ?_ _ g g1 hF) (ForEach_StoreFrame _ ?_ _ g1 r h)
    · intro s Z s1 hb
      split at hb
      · exact StoreFrame_WriteBlock s s1 _ _ _ hb
      · simp only [Option.some.injEq] at hb
        subst hb; exact StoreFrame_refl _
    · intro s Z s1 hb
      split at hb
      · split at hb
        · cases hb
        · rename_i s2 hrm
          simp only [Option.some.injEq] at hb
          subst hb
          exact StoreFrame_trans (StoreFrame_Remove s s2 _ _ _ hrm) (StoreFrame_Set _ _ _ _)
      · simp only [Option.some.injEq] at hb
        subst hb; exact StoreFrame_refl _

theorem StoreFrame_GenerateNaturalCaveTunnel (E : FEngine) (g r : ARandomMapGenerator)
    (StartX StartY DirX DirY Base : Int)
    (h : GenerateNaturalCaveTunnel E g StartX StartY DirX DirY Base = some r) :
    StoreFrame g r := by
  unfold GenerateNaturalCaveTunnel at h
  refine ForEach_StoreFrame _ ?_ _ g r h
  intro s Depth s1 hb
  unfold CarveTunnelSection at hb
  exact ForEach_StoreFrame _
    (fun s2 W s3 hb2 => StoreFrame_CarveTunnelColumn E s2 s3 _ _ _ hb2) _ s s1 hb

theorem StoreFrame_SealCaveEntrance (g r : ARandomMapGenerator)
    (CaveX CaveY DirX DirY Base : Int)
    (h : g.SealCaveEntrance CaveX CaveY DirX DirY Base = some r) : StoreFrame g r := by
  unfold SealCaveEntrance at h
  refine ForEach_StoreFrame _ ?_ _ g r h
  intro s W s1 hb
  exact ForEach_StoreFrame _
    (fun s2 Z s3 hb2 => StoreFrame_WriteBlock s2 s3 _ _ _ hb2) _ s s1 hb

theorem StoreFrame_CaveLocations {g r : ARandomMapGenerator} (h : StoreFrame g r) :
    r.CaveLocations = g.CaveLocations := by
  have e := congrArg (fun (s : ARandomMapGenerator) => s.CaveLocations) h
  exact e

theorem StoreFrame_CavesPerEdge {g r : ARandomMapGenerator} (h : StoreFrame g r) :
    r.CavesPerEdge = g.CavesPerEdge := by
  have e := congrArg (fun (s : ARandomMapGenerator) => s.CavesPerEdge) h
  exact e

theorem length_ForRange (Lo Hi : Int) : (ForRange Lo Hi).length = (Hi - Lo).toNat := by
  rw [ForRange_eq]
  simp

theorem getElem_ForRange (Lo Hi : Int) (k : Nat) (hk : k < (Hi - Lo).toNat) :
    (ForRange Lo Hi)[k]? = some (Lo + (k : Int)) := by
  rw [ForRange_eq, List.getElem?_map, List.getElem?_range hk]
  rfl

/-- C18 on the constructed actor with the zero-noise engine, column (3,4), chunk modifier
999. -/
theorem C18_terrain_height_within_chunk_witness :
    1 ≤ GetTerrainHeight SampleEngine Constructed 3 4 999 ∧
    GetTerrainHeight SampleEngine Constructed 3 4 999 ≤ Constructed.ChunkHeight - 1 :=
  C18_terrain_height_within_chunk SampleEngine Constructed 3 4 999 (by decide)

/-- C13 on three Stone instances of chunk (0,0): removing the instance of a Stone block at
(5,5,5), which has no mapping entry, returns the state unchanged. -/
theorem C13_remove_absent_instance_is_noop_witness :
    ThreeStones.RemoveBlockInstance ⟨0, 0⟩ ⟨5, 5, 5⟩ Stone = some ThreeStones ∧
    ThreeStones.UpdateBlockInstance ⟨0, 0⟩ ⟨5, 5, 5⟩ Air = some ThreeStones ∧
    ThreeStones.RemoveBlockInstance ⟨0, 0⟩ ⟨5, 5, 5⟩ Air = some ThreeStones :=
  C13_remove_absent_instance_is_noop ThreeStones ⟨0, 0⟩ ⟨5, 5, 5⟩ Stone (by decide!)

/-- C12 on the sample Stone block: placing Stone again at (150,150,150) returns and leaves
the store, the registry and the damage table unchanged. -/
theorem C12_set_same_type_is_noop_witness :
    ∃ r, StoneBlockWorld.SetBlockTypeAtPosition ⟨150, 150, 150⟩ Stone = some r ∧
      r.BlocksData = StoneBlockWorld.BlocksData ∧
      r.ChunkISMSystem = StoneBlockWorld.ChunkISMSystem ∧
      r.BlockDamageData = StoneBlockWorld.BlockDamageData :=
  C12_set_same_type_is_noop StoneBlockWorld ⟨150, 150, 150⟩ Stone (by decide!)

/-- C14: from a state whose eventAlreadyBroadcast flag is false, the server-path
completion followed by the client-path completion, and the two in the other order,
broadcast OnWorldGenerationComplete exactly once in total: the first of the two steps
broadcasts it and the second does not. -/
theorem C14_completion_event_broadcast_once (g : ARandomMapGenerator)
    (h : g.bEventAlreadyBroadcast = false) :
    g.ServerCompletion.ClientCompletion.OnWorldGenerationCompleteCount
      = g.OnWorldGenerationCompleteCount + 1 ∧
    g.ClientCompletion.ServerCompletion.OnWorldGenerationCompleteCount
      = g.OnWorldGenerationCompleteCount + 1 ∧
    g.ServerCompletion.OnWorldGenerationCompleteCount = g.OnWorldGenerationCompleteCount + 1 ∧
    g.ClientCompletion.OnWorldGenerationCompleteCount = g.OnWorldGenerationCompleteCount + 1 := by
  simp [ServerCompletion, ClientCompletion, BroadcastWorldGenerationComplete, h]

/-- C14 on the constructed actor: either order leaves the broadcast count at one. -/
theorem C14_completion_event_broadcast_once_witness :
    Constructed.ServerCompletion.ClientCompletion.OnWorldGenerationCompleteCount
      = Constructed.OnWorldGenerationCompleteCount + 1 ∧
    Constructed.ClientCompletion.ServerCompletion.OnWorldGenerationCompleteCount
      = Constructed.OnWorldGenerationCompleteCount + 1 ∧
    Constructed.ServerCompletion.OnWorldGenerationCompleteCount
      = Constructed.OnWorldGenerationCompleteCount + 1 ∧
    Constructed.ClientCompletion.OnWorldGenerationCompleteCount
      = Constructed.OnWorldGenerationCompleteCount + 1 :=
  C14_completion_event_broadcast_once Constructed (by decide)

set_option maxRecDepth 100000 in
/-- C15: generateWorld() does not reset the eventAlreadyBroadcast flag. On the one-chunk
world `SmallWorld` with the zero-noise engine, a first generateWorld() run completes and
broadcasts OnWorldGenerationComplete once; a second generateWorld() run completes too,
and the broadcast count is still one. When the second run is started by setNewSeed(5)
instead, which resets the flag, the count is two. -/
theorem C15_second_generate_world_run_does_not_broadcast :
    ((GenerateWorld SampleEngine SmallWorld).map
        (fun g => (g.bHasGeneratedWorld, g.bEventAlreadyBroadcast,
          g.OnWorldGenerationCompleteCount)),
     ((GenerateWorld SampleEngine SmallWorld).bind (GenerateWorld SampleEngine)).map
        (fun g => (g.bHasGeneratedWorld, g.bEventAlreadyBroadcast,
          g.OnWorldGenerationCompleteCount)),
     ((GenerateWorld SampleEngine SmallWorld).bind (fun g => SetNewSeed SampleEngine g 5 0)).map
        (fun g => (g.bHasGeneratedWorld, g.bEventAlreadyBroadcast,
          g.OnWorldGenerationCompleteCount)))
      = (some (true, true, 1), some (true, true, 1), some (true, true, 2)) := by
  decide!

/-- C16: setNewSeed is not ignored while a generation is in progress. On the authority
state `MidGeneration` (generating flag set, seed 0, random stream at 7), setNewSeed(5)
returns with seed 5 and the random stream re-seeded; the generating flag is still set and
no generation ran. -/
theorem C16_set_new_seed_during_generation_changes_seed :
    (SetNewSeed SampleEngine MidGeneration 5 0).map
        (fun g => (g.Seed, g.RandomStream, g.bIsGeneratingWorld, g.BlocksData.length))
      = some (5, 5, true, 0) ∧
    (MidGeneration.Seed, MidGeneration.RandomStream, MidGeneration.bIsGeneratingWorld)
      = (0, 7, true) := by
  decide!

/-! ### Behaviour claims settled by evaluation -/

/-- C22 (violated): on chunk (0,0) of the constructed actor the calls add Stone (0,0,0),
add Stone (1,0,0), add Stone (1,0,0) again, remove Stone (1,0,0) all return and leave the
key (Stone,(0,0,0)) on index 0 of a Stone batch of two instances, with no mapping entry
whose value is the last index 1; the next call, remove Stone (0,0,0), addresses a key
missing from the mapping and does not return. -/
theorem C22_remove_after_duplicate_add_aborts :
    ((RunRegistryCalls Constructed ⟨0, 0⟩
        [RegistryCall.addInstance ⟨0, 0, 0⟩ Stone, RegistryCall.addInstance ⟨1, 0, 0⟩ Stone,
         RegistryCall.addInstance ⟨1, 0, 0⟩ Stone,
         RegistryCall.removeInstance ⟨1, 0, 0⟩ Stone]).map
        (fun g => (TMap.Find g.ChunkISMSystem ⟨0, 0⟩).map
          (fun d => (d.InstanceIndexMapping, (TMap.Find d.ChunkISMs Stone).map List.length))),
     RunRegistryCalls Constructed ⟨0, 0⟩
        [RegistryCall.addInstance ⟨0, 0, 0⟩ Stone, RegistryCall.addInstance ⟨1, 0, 0⟩ Stone,
         RegistryCall.addInstance ⟨1, 0, 0⟩ Stone,
         RegistryCall.removeInstance ⟨1, 0, 0⟩ Stone,
         RegistryCall.removeInstance ⟨0, 0, 0⟩ Stone])
      = (some (some ([(⟨Stone, ⟨0, 0, 0⟩⟩, 0)], some 2)), none) := by
  decide!

/-- C23 (violated): a replica that handles the block update (chunk (0,0), cell (1,1,1),
Stone) once holds one Stone instance for the cell; handling the same update a second time
returns with the same block store but two Stone instances, the key remapped to index 1
and a per-type count of 2. -/
theorem C23_replica_update_twice_duplicates_instance :
    (ReplicaWorld.MulticastUpdateBlock_Implementation ⟨0, 0⟩ ⟨1, 1, 1⟩ Stone).map
        (fun g => (TMap.Find g.BlocksData ⟨⟨0, 0⟩, ⟨1, 1, 1⟩⟩,
          (TMap.Find g.ChunkISMSystem ⟨0, 0⟩).map
            (fun d => (TMap.Find d.InstanceIndexMapping ⟨Stone, ⟨1, 1, 1⟩⟩,
              (TMap.Find d.ChunkISMs Stone).map List.length,
              TMap.Find d.InstanceCounts Stone))))
      = some (some Stone, some (some 0, some 1, some 1)) ∧
    ((ReplicaWorld.MulticastUpdateBlock_Implementation ⟨0, 0⟩ ⟨1, 1, 1⟩ Stone).bind
        (fun g => g.MulticastUpdateBlock_Implementation ⟨0, 0⟩ ⟨1, 1, 1⟩ Stone)).map
        (fun g => (TMap.Find g.BlocksData ⟨⟨0, 0⟩, ⟨1, 1, 1⟩⟩,
          (TMap.Find g.ChunkISMSystem ⟨0, 0⟩).map
            (fun d => (TMap.Find d.InstanceIndexMapping ⟨Stone, ⟨1, 1, 1⟩⟩,
              (TMap.Find d.ChunkISMs Stone).map List.length,
              TMap.Find d.InstanceCounts Stone))))
      = some (some Stone, some (some 1, some 2, some 2)) := by
  constructor <;> decide!

/-- C25 (violated): on the replica `DamagedReplica`, whose Stone block at cell (1,1,1) of
chunk (0,0) has a damage record of health 40, handling the authoritative block update
that sets the cell to Air returns with the cell reading Air and the damage record still
in the damage table. -/
theorem C25_replica_update_keeps_damage_record :
    (DamagedReplica.GetBlockInternal ⟨0, 0⟩ ⟨1, 1, 1⟩,
     TMap.Find DamagedReplica.BlockDamageData ⟨⟨0, 0⟩, ⟨1, 1, 1⟩⟩,
     (DamagedReplica.MulticastUpdateBlock_Implementation ⟨0, 0⟩ ⟨1, 1, 1⟩ Air).map
        (fun g => (g.GetBlockInternal ⟨0, 0⟩ ⟨1, 1, 1⟩,
          TMap.Find g.BlockDamageData ⟨⟨0, 0⟩, ⟨1, 1, 1⟩⟩)))
      = (Stone, some ⟨40, 100⟩, some (Air, some ⟨40, 100⟩)) := by
  decide!

/-- The trunk height and its offset are the ones `GenerateTree` computes. -/
theorem GenerateTree_eq (E : FEngine) (g : ARandomMapGenerator) (WorldX WorldY WorldZ : Int) :
    GenerateTree E g WorldX WorldY WorldZ
      = match ForEach (fun (s : ARandomMapGenerator) (Z : Int) =>
            if WorldZ + Z < s.ChunkHeight then
              s.WriteBlock ⟨g.ChunkIndexOf WorldX, g.ChunkIndexOf WorldY⟩
                ⟨Int.tmod WorldX g.ChunkSize, Int.tmod WorldY g.ChunkSize, WorldZ + Z⟩ Wood
            else some s)
          (ForRange 0 (TreeHeightOf g WorldX WorldY (DrawRange E g 3 6).1))
          (DrawRange E g 3 6).2 with
        | none => none
        | some g1 =>
          ForEach (fun (s : ARandomMapGenerator) (LX : Int) =>
            ForEach (fun (s1 : ARandomMapGenerator) (LY : Int) =>
              ForEach (GenerateLeaf E ⟨g.ChunkIndexOf WorldX, g.ChunkIndexOf WorldY⟩
                  (Int.tmod WorldX g.ChunkSize) (Int.tmod WorldY g.ChunkSize) WorldZ
                  (TreeHeightOf g WorldX WorldY (DrawRange E g 3 6).1)
                  (DrawRange E g1 2 3).1 LX LY (DrawRange E s1 2 3).1)
                (ForRange 0 ((DrawRange E s1 2 3).1 + 1)) (DrawRange E s1 2 3).2)
              (ForRange (-(DrawRange E g1 2 3).1) ((DrawRange E g1 2 3).1 + 1)) s)
            (ForRange (-(DrawRange E g1 2 3).1) ((DrawRange E g1 2 3).1 + 1))
            (DrawRange E g1 2 3).2 := rfl

/-- The trunk height lies in [3,8] for every seed, position and drawn base height. -/
theorem TreeHeightOf_bounds (g : ARandomMapGenerator) (WorldX WorldY BaseTreeHeight : Int) :
    3 ≤ TreeHeightOf g WorldX WorldY BaseTreeHeight ∧
    TreeHeightOf g WorldX WorldY BaseTreeHeight ≤ 8 :=
  FMath.Clamp_mem _ _ _ (by decide)

/-- C27 (violated): with seed -1 at world position (0,0) the trunk-height offset of tree
generation is -2, not one of -1, 0, 1, and a drawn base height of 6 gives trunk height 4;
with seed -2 the offset is -3. -/
theorem C27_tree_height_offset_of_negative_seed :
    (TreeHeightOffsetOf { Constructed with Seed := -1 } 0 0,
     TreeHeightOf { Constructed with Seed := -1 } 0 0 6,
     TreeHeightOffsetOf { Constructed with Seed := -2 } 0 0)
      = (-2, 4, -3) := by
  decide

set_option maxRecDepth 100000 in
/-- C28 (violated): the authoritative generation of `TallBorderWorld` (chunk height 8,
terrain height 7, mountain border of height 4) with the zero-noise engine returns with a
block store that holds Stone under the key (chunk (0,-1), cell (0,1,10)), whose local Z
is above the chunk height. -/
theorem C28_mountain_block_above_chunk_height :
    (ServerGenerateWorld_Implementation SampleEngine TallBorderWorld).map
        (fun g => (g.ChunkHeight, TMap.Find g.BlocksData ⟨⟨0, -1⟩, ⟨0, 1, 10⟩⟩))
      = some (8, some Stone) := by
  decide!

/-! ### Rocky formations -/

/-- The column body of `GenerateCaveRockyFormations` is the write loop over the heights of
`RockColumnHeights`, with the extra height of `RockExtraHeightOf` as the divisor. -/
theorem GenerateRockColumn_eq (E : FEngine) (CaveX CaveY Base OffsetX : Int)
    (g : ARandomMapGenerator) (OffsetY : Int) :
    GenerateRockColumn E CaveX CaveY Base OffsetX g OffsetY
      = ForEach (fun (s : ARandomMapGenerator) (Z : Int) =>
          s.WriteBlock ⟨g.ChunkIndexOf (CaveX + OffsetX), g.ChunkIndexOf (CaveY + OffsetY)⟩
            ⟨g.LocalIndexOf (CaveX + OffsetX), g.LocalIndexOf (CaveY + OffsetY), Z⟩
            (RockBlockType (RockCombinedNoiseOf E g (CaveX + OffsetX) (CaveY + OffsetY)) Base
              (RockExtraHeightOf E g CaveX CaveY OffsetX OffsetY) Z))
        (RockColumnHeights E g CaveX CaveY Base OffsetX OffsetY) g := by
  unfold GenerateRockColumn RockColumnHeights
  simp only []
  split
  · rfl
  · split
    · rename_i h
      have h2 : RockFormationChanceOf E g CaveX CaveY OffsetX OffsetY < 1 / 5 := h
      rw [if_pos h2]
      rfl
    · rename_i h
      have h2 : ¬ RockFormationChanceOf E g CaveX CaveY OffsetX OffsetY < 1 / 5 := h
      rw [if_neg h2]
      rfl

/-- A height at which the block loop runs forces an extra height of at least one. -/
theorem RockExtraHeightOf_pos_of_mem (E : FEngine) (g : ARandomMapGenerator)
    (CaveX CaveY Base OffsetX OffsetY Z : Int)
    (hZ : Z ∈ RockColumnHeights E g CaveX CaveY Base OffsetX OffsetY) :
    1 ≤ RockExtraHeightOf E g CaveX CaveY OffsetX OffsetY := by
  unfold RockColumnHeights at hZ
  split at hZ
  · cases hZ
  · split at hZ
    · cases hZ
    · have h := (mem_ForRange _ _ Z).1 hZ
      have h1 := h.1
      have h2 := lt_of_lt_of_le h.2 (min_le_left _ _)
      omega

/-- C26 (violated): there is no column of rocky-formation generation that passes the
minimum-threshold test, has extraHeight 0 and evaluates heightPercent at some Z: with
extraHeight 0 the block loop runs for no Z. -/
theorem C26_no_height_percent_with_zero_extra_height :
    ¬ ∃ (E : FEngine) (g : ARandomMapGenerator) (CaveX CaveY Base OffsetX OffsetY Z : Int),
      ¬ (RockFormationChanceOf E g CaveX CaveY OffsetX OffsetY < 1 / 5) ∧
      RockExtraHeightOf E g CaveX CaveY OffsetX OffsetY = 0 ∧
      Z ∈ RockColumnHeights E g CaveX CaveY Base OffsetX OffsetY := by
  rintro ⟨E, g, CaveX, CaveY, Base, OffsetX, OffsetY, Z, _, h0, hZ⟩
  have := RockExtraHeightOf_pos_of_mem E g CaveX CaveY Base OffsetX OffsetY Z hZ
  omega

/-- C26, as it holds: in rocky-formation generation, whenever heightPercent =
(Z - base)/extraHeight is evaluated for a column, its divisor extraHeight =
round(chance * MaxExtraRockHeight) is at least 1; a column with extraHeight <= 0 runs the
block loop for no Z. -/
theorem C26_height_percent_divisor_positive (E : FEngine) (g : ARandomMapGenerator)
    (CaveX CaveY Base OffsetX OffsetY : Int) :
    (∀ Z ∈ RockColumnHeights E g CaveX CaveY Base OffsetX OffsetY,
      1 ≤ RockExtraHeightOf E g CaveX CaveY OffsetX OffsetY) ∧
    (RockExtraHeightOf E g CaveX CaveY OffsetX OffsetY ≤ 0 →
      RockColumnHeights E g CaveX CaveY Base OffsetX OffsetY = []) := by
  refine ⟨fun Z hZ => RockExtraHeightOf_pos_of_mem E g CaveX CaveY Base OffsetX OffsetY Z hZ, ?_⟩
  intro h0
  rw [List.eq_nil_iff_forall_not_mem]
  intro Z hZ
  have := RockExtraHeightOf_pos_of_mem E g CaveX CaveY Base OffsetX OffsetY Z hZ
  omega

/-- C26 on `RockyWorld` with the zero-noise engine: the column at offset (3,0)
of the cave at (63,-1) passes the threshold, its loop runs at Z = 10 and 11, and its
extra height is at least 1. -/
theorem C26_height_percent_divisor_positive_witness :
    RockColumnHeights SampleEngine RockyWorld 63 (-1) 10 3 0 = [10, 11] ∧
    1 ≤ RockExtraHeightOf SampleEngine RockyWorld 63 (-1) 3 0 :=
  ⟨by decide!, (C26_height_percent_divisor_positive SampleEngine RockyWorld 63 (-1) 10 3 0).1 10
    (by decide!)⟩

/-! ### Damage records -/

theorem TMap.mem_Add {K V : Type} [DecidableEq K] (m : List (K × V)) (k : K) (v : V)
    (q : K × V) (h : q ∈ TMap.Add m k v) : q = (k, v) ∨ q ∈ m := by
  induction m with
  | nil =>
    simp only [TMap.Add, List.mem_singleton] at h
    exact Or.inl h
  | cons hd tl ih =>
    obtain ⟨k1, v1⟩ := hd
    by_cases e : k1 = k
    · simp only [TMap.Add, e, if_true, List.mem_cons] at h
      rcases h with h | h
      · exact Or.inl h
      · exact Or.inr (List.mem_cons_of_mem _ h)
    · simp only [TMap.Add, e, if_false, List.mem_cons] at h
      rcases h with h | h
      · exact Or.inr (h ▸ List.mem_cons_self _ _)
      · rcases ih h with h2 | h2
        · exact Or.inl h2
        · exact Or.inr (List.mem_cons_of_mem _ h2)

theorem TMap.mem_Remove {K V : Type} [DecidableEq K] (m : List (K × V)) (k : K)
    (q : K × V) (h : q ∈ TMap.Remove m k) : q ∈ m ∧ q.1 ≠ k := by
  unfold TMap.Remove at h
  rw [List.mem_filter] at h
  exact ⟨h.1, by simpa using h.2⟩

theorem BlockDamageData_Set (g : ARandomMapGenerator) (c : FChunkCoord) (p : FBlockPosition)
    (t : EBlockType) :
    (g.SetBlockInternalWithoutReplication c p t).BlockDamageData = g.BlockDamageData := by
  unfold SetBlockInternalWithoutReplication
  split <;> rfl

/-- On the authority, the destroy branch leaves the damage table without the records of
the destroyed block. -/
theorem DestroyBlock_table (g r : ARandomMapGenerator) (c : FChunkCoord) (p : FBlockPosition)
    (t : EBlockType) (b : Bool) (hauth : g.Authority = true)
    (h : g.DestroyBlock c p t = some (b, r)) :
    r.BlockDamageData = TMap.Remove g.BlockDamageData ⟨c, p⟩ := by
  unfold DestroyBlock at h
  split at h
  · cases h
  · rename_i g1 h1
    have hf := RemoveBlockInstance_frame g g1 c p t h1
    have hA1 : g1.Authority = true := by rw [hf]; exact hauth
    have hD1 : g1.BlockDamageData = g.BlockDamageData := by rw [hf]
    simp only [] at h
    have hA3 : ({ g1.SetBlockInternalWithoutReplication c p Air with
        BlockDamageData := TMap.Remove
          (g1.SetBlockInternalWithoutReplication c p Air).BlockDamageData ⟨c, p⟩ } :
        ARandomMapGenerator).Authority = true := by
      have e := congrArg (fun (s : ARandomMapGenerator) => s.Authority)
        (StoreFrame_Set g1 c p Air)
      exact e.trans hA1
    rw [MulticastUpdateBlock_authority _ c p Air hA3] at h
    simp only [Option.some.injEq, Prod.mk.injEq] at h
    rw [← h.2, BlockDamageData_Set]
    simp only []
    rw [BlockDamageData_Set, hD1]

/-! ### Tunnel carving stays outside the playable area -/

/-- The depth body of `GenerateNaturalCaveTunnel` carves the columns of `TunnelColumnAt`. -/
theorem CarveTunnelSection_eq (E : FEngine) (StartX StartY DirX DirY Base : Int)
    (g : ARandomMapGenerator) (Depth : Int) :
    CarveTunnelSection E StartX StartY DirX DirY Base g Depth
      = ForEach (fun (s : ARandomMapGenerator) (WidthOffset : Int) =>
          CarveTunnelColumn E s
            (TunnelColumnAt StartX StartY DirX DirY Depth (TunnelDeviationOf E g Depth)
              WidthOffset).1
            (TunnelColumnAt StartX StartY DirX DirY Depth (TunnelDeviationOf E g Depth)
              WidthOffset).2 Base)
        (ForRange (Int.tdiv (-(TunnelWidthOf E g Depth)) 2)
          (Int.tdiv (TunnelWidthOf E g Depth) 2 + 1)) g := rfl

/-- The cave start of `CaveStartOf` is the one `GenerateEnhancedCave` tunnels from. -/
theorem GenerateEnhancedCave_eq (E : FEngine) (g : ARandomMapGenerator) (EdgeIndex : Int)
    (EdgePosition : ℚ) :
    GenerateEnhancedCave E g EdgeIndex EdgePosition
      = match CaveStartOf g EdgeIndex EdgePosition with
        | none => some g
        | some (X, Y, DX, DY) =>
          match GenerateCaveRockyFormations E g X Y DX DY
              (GetTerrainHeight E g (FMath.Clamp X 0 (g.WorldSizeInChunks * g.ChunkSize - 1))
                (FMath.Clamp Y 0 (g.WorldSizeInChunks * g.ChunkSize - 1)) 0) with
          | none => none
          | some g1 =>
            match GenerateNaturalCaveTunnel E g1 X Y DX DY
                (GetTerrainHeight E g (FMath.Clamp X 0 (g.WorldSizeInChunks * g.ChunkSize - 1))
                  (FMath.Clamp Y 0 (g.WorldSizeInChunks * g.ChunkSize - 1)) 0) with
            | none => none
            | some g2 =>
              match (if g2.bSealCaves then
                  g2.SealCaveEntrance X Y DX DY
                    (GetTerrainHeight E g
                      (FMath.Clamp X 0 (g.WorldSizeInChunks * g.ChunkSize - 1))
                      (FMath.Clamp Y 0 (g.WorldSizeInChunks * g.ChunkSize - 1)) 0)
                else some g2) with
              | none => none
              | some g3 =>
                some (g3.RegisterCaveLocation
                  ⟨(X : ℚ) * (g3.BlockSize + g3.BlockSpacing) + g3.BlockSize / 2,
                   (Y : ℚ) * (g3.BlockSize + g3.BlockSpacing) + g3.BlockSize / 2,
                   ((GetTerrainHeight E g
                      (FMath.Clamp X 0 (g.WorldSizeInChunks * g.ChunkSize - 1))
                      (FMath.Clamp Y 0 (g.WorldSizeInChunks * g.ChunkSize - 1)) 0 : Int) : ℚ)
                     * (g3.BlockSize + g3.BlockSpacing) + g3.BlockSize / 2⟩
                  ⟨((X + DX * FMath.RoundToInt ((g3.CaveDepth : ℚ) * g3.CaveSpawnDepthRatio)
                      : Int) : ℚ) * (g3.BlockSize + g3.BlockSpacing) + g3.BlockSize / 2,
                   ((Y + DY * FMath.RoundToInt ((g3.CaveDepth : ℚ) * g3.CaveSpawnDepthRatio)
                      : Int) : ℚ) * (g3.BlockSize + g3.BlockSpacing) + g3.BlockSize / 2,
                   ((GetTerrainHeight E g
                      (FMath.Clamp X 0 (g.WorldSizeInChunks * g.ChunkSize - 1))
                      (FMath.Clamp Y 0 (g.WorldSizeInChunks * g.ChunkSize - 1)) 0 + 1 : Int) : ℚ)
                     * (g3.BlockSize + g3.BlockSpacing) + g3.BlockSize / 2⟩
                  EdgeIndex EdgePosition) := rfl

theorem key_ne_of_chunk_ne {c c2 : FChunkCoord} (p p2 : FBlockPosition) (h : c2 ≠ c) :
    (⟨c2, p2⟩ : FWorldBlockKey) ≠ ⟨c, p⟩ := by
  intro e
  exact h (congrArg (fun (k : FWorldBlockKey) => k.ChunkCoord) e)

/-- Carving one tunnel column changes no cell of another chunk than the column's. -/
theorem CarveTunnelColumn_other_chunks (E : FEngine) (g r : ARandomMapGenerator)
    (TunnelX TunnelY Base : Int) (h : CarveTunnelColumn E g TunnelX TunnelY Base = some r) :
    ∀ c2 p2, c2 ≠ (⟨g.ChunkIndexOf TunnelX, g.ChunkIndexOf TunnelY⟩ : FChunkCoord) →
      r.GetBlockInternal c2 p2 = g.GetBlockInternal c2 p2 := by
  intro c2 p2 hne
  unfold CarveTunnelColumn at h
  simp only [] at h
  split at h
  · cases h
  · rename_i g1 hF
    have h1 : g1.GetBlockInternal c2 p2 = g.GetBlockInternal c2 p2 := by
      refine ForEach_invariant _
        (fun (s : ARandomMapGenerator) => s.GetBlockInternal c2 p2 = g.GetBlockInternal c2 p2)
        _ g g1 rfl ?_ hF
      intro s Z s1 _ hs hb
      split at hb
      · rw [(WriteBlock_store s s1 _ _ _ hb).2.2 c2 p2 (key_ne_of_chunk_ne _ _ hne)]
        exact hs
      · simp only [Option.some.injEq] at hb
        subst hb; exact hs
    refine ForEach_invariant _
      (fun (s : ARandomMapGenerator) => s.GetBlockInternal c2 p2 = g.GetBlockInternal c2 p2)
      _ g1 r h1 ?_ h
    intro s Z s1 _ hs hb
    split at hb
    · split at hb
      · cases hb
      · rename_i s2 hrem
        simp only [Option.some.injEq] at hb
        subst hb
        rw [GetBlockInternal_Set_of_ne s2 _ c2 _ p2 _ (key_ne_of_chunk_ne _ _ hne),
          GetBlockInternal_congr s s2 c2 p2 (BlocksData_Remove s s2 _ _ _ hrem)]
        exact hs
    · simp only [Option.some.injEq] at hb
      subst hb; exact hs

theorem StoreFrame_ChunkSize {g r : ARandomMapGenerator} (h : StoreFrame g r) :
    r.ChunkSize = g.ChunkSize := by
  have e := congrArg (fun (s : ARandomMapGenerator) => s.ChunkSize) h
  exact e

theorem StoreFrame_WorldSizeInChunks {g r : ARandomMapGenerator} (h : StoreFrame g r) :
    r.WorldSizeInChunks = g.WorldSizeInChunks := by
  have e := congrArg (fun (s : ARandomMapGenerator) => s.WorldSizeInChunks) h
  exact e

theorem ChunkIndexOf_neg (g : ARandomMapGenerator) (hCS : 1 ≤ g.ChunkSize) (v : Int)
    (hv : v ≤ -1) : g.ChunkIndexOf v < 0 := by
  unfold ChunkIndexOf
  rw [Int.floor_lt]
  have hc : (0 : ℚ) < (g.ChunkSize : ℚ) := by exact_mod_cast (by omega : 0 < g.ChunkSize)
  have hv2 : (v : ℚ) < 0 := by exact_mod_cast (by omega : v < 0)
  simpa using div_neg_of_neg_of_pos hv2 hc

theorem ChunkIndexOf_ge (g : ARandomMapGenerator) (hCS : 1 ≤ g.ChunkSize) (v : Int)
    (hv : g.WorldSizeInChunks * g.ChunkSize ≤ v) : g.WorldSizeInChunks ≤ g.ChunkIndexOf v := by
  unfold ChunkIndexOf
  rw [Int.le_floor]
  have hc : (0 : ℚ) < (g.ChunkSize : ℚ) := by exact_mod_cast (by omega : 0 < g.ChunkSize)
  rw [le_div_iff₀ hc]
  exact_mod_cast hv

/-- Every tunnel column of a cave started at an edge lies in a chunk outside the playable
area, whatever the depth, deviation and width offset. -/
theorem TunnelColumnAt_outside (g : ARandomMapGenerator) (EdgeIndex : Int) (EdgePosition : ℚ)
    (X Y DX DY : Int) (hCS : 1 ≤ g.ChunkSize)
    (hstart : CaveStartOf g EdgeIndex EdgePosition = some (X, Y, DX, DY))
    (Depth Deviation WidthOffset : Int) (hD : 0 ≤ Depth) :
    ¬ IsPlayableChunk g
      ⟨g.ChunkIndexOf (TunnelColumnAt X Y DX DY Depth Deviation WidthOffset).1,
       g.ChunkIndexOf (TunnelColumnAt X Y DX DY Depth Deviation WidthOffset).2⟩ := by
  unfold CaveStartOf at hstart
  simp only [] at hstart
  unfold IsPlayableChunk TunnelColumnAt
  simp only []
  split_ifs at hstart <;>
    simp only [Option.some.injEq, Prod.mk.injEq] at hstart
  · obtain ⟨_, hY, hDX, hDY⟩ := hstart
    subst hY hDX hDY
    have := ChunkIndexOf_neg g hCS (0 - 1 + -1 * Depth + 0) (by omega)
    simp only [ne_eq, not_true_eq_false, if_false]
    omega
  · obtain ⟨_, hY, hDX, hDY⟩ := hstart
    subst hY hDX hDY
    have := ChunkIndexOf_ge g hCS
      (g.WorldSizeInChunks * g.ChunkSize - 1 + 1 + 1 * Depth + 0) (by omega)
    simp only [ne_eq, not_true_eq_false, if_false]
    omega
  · obtain ⟨hX, _, hDX, hDY⟩ := hstart
    subst hX hDX hDY
    have := ChunkIndexOf_neg g hCS (0 - 1 + -1 * Depth + 0) (by omega)
    simp only [ne_eq, show (-1 : Int) ≠ 0 by decide, not_false_eq_true, if_true]
    omega
  · obtain ⟨hX, _, hDX, hDY⟩ := hstart
    subst hX hDX hDY
    have := ChunkIndexOf_ge g hCS
      (g.WorldSizeInChunks * g.ChunkSize - 1 + 1 + 1 * Depth + 0) (by omega)
    simp only [ne_eq, show (1 : Int) ≠ 0 by decide, not_false_eq_true, if_true]
    omega

theorem ChunkIndexOf_of_frame {g s : ARandomMapGenerator} (h : StoreFrame g s) (v : Int) :
    s.ChunkIndexOf v = g.ChunkIndexOf v := by
  unfold ChunkIndexOf
  rw [StoreFrame_ChunkSize h]

/-- The cave start depends on the world size and the chunk size only, so it is the same
in the state the tunnel is carved in (after the rocky formations) as at the start of
`GenerateEnhancedCave`. -/
theorem CaveStartOf_of_frame {g s : ARandomMapGenerator} (h : StoreFrame g s) (EdgeIndex : Int)
    (EdgePosition : ℚ) : CaveStartOf s EdgeIndex EdgePosition = CaveStartOf g EdgeIndex EdgePosition := by
  unfold CaveStartOf
  rw [StoreFrame_ChunkSize h, StoreFrame_WorldSizeInChunks h]

theorem MappingKeysOfType_cons (q : FBlockTypePositionKey × Int)
    (m : List (FBlockTypePositionKey × Int)) (t : EBlockType) :
    MappingKeysOfType (q :: m) t
      = (if q.1.BlockType = t then 1 else 0) + MappingKeysOfType m t := by
  unfold MappingKeysOfType
  by_cases e : q.1.BlockType = t
  · simp [List.filter_cons, e]; omega
  · simp [List.filter_cons, e]

theorem TMap.Remove_cons {K V : Type} [DecidableEq K] (q : K × V) (m : List (K × V)) (k : K) :
    TMap.Remove (q :: m) k = if q.1 = k then TMap.Remove m k else q :: TMap.Remove m k := by
  unfold TMap.Remove
  by_cases e : q.1 = k
  · simp [List.filter_cons, e]
  · simp [List.filter_cons, e]

theorem MappingKeysOfType_Add_present (m : List (FBlockTypePositionKey × Int))
    (k : FBlockTypePositionKey) (v : Int) (t : EBlockType) (h : (TMap.Find m k).isSome) :
    MappingKeysOfType (TMap.Add m k v) t = MappingKeysOfType m t := by
  induction m with
  | nil => simp [TMap.Find] at h
  | cons hd tl ih =>
    obtain ⟨k1, v1⟩ := hd
    by_cases e : k1 = k
    · subst e
      simp only [TMap.Add, if_true, MappingKeysOfType_cons]
    · simp only [TMap.Find, e, if_false] at h
      simp only [TMap.Add, e, if_false, MappingKeysOfType_cons, ih h]

theorem MappingKeysOfType_Add_le (m : List (FBlockTypePositionKey × Int))
    (k : FBlockTypePositionKey) (v : Int) (t : EBlockType) :
    MappingKeysOfType (TMap.Add m k v) t ≤ MappingKeysOfType m t + 1 := by
  induction m with
  | nil =>
    simp only [TMap.Add, MappingKeysOfType_cons]
    split <;> simp [MappingKeysOfType]
  | cons hd tl ih =>
    obtain ⟨k1, v1⟩ := hd
    by_cases e : k1 = k
    · subst e
      simp only [TMap.Add, if_true, MappingKeysOfType_cons]
      omega
    · simp only [TMap.Add, e, if_false, MappingKeysOfType_cons]
      omega

theorem MappingKeysOfType_Add_of_ne (m : List (FBlockTypePositionKey × Int))
    (k : FBlockTypePositionKey) (v : Int) (t : EBlockType) (h : k.BlockType ≠ t) :
    MappingKeysOfType (TMap.Add m k v) t = MappingKeysOfType m t := by
  induction m with
  | nil => simp [TMap.Add, MappingKeysOfType_cons, h]
  | cons hd tl ih =>
    obtain ⟨k1, v1⟩ := hd
    by_cases e : k1 = k
    · subst e
      simp only [TMap.Add, if_true, MappingKeysOfType_cons]
    · simp only [TMap.Add, e, if_false, MappingKeysOfType_cons, ih]

theorem MappingKeysOfType_Remove_le (m : List (FBlockTypePositionKey × Int))
    (k : FBlockTypePositionKey) (t : EBlockType) :
    MappingKeysOfType (TMap.Remove m k) t ≤ MappingKeysOfType m t := by
  induction m with
  | nil => simp [TMap.Remove, MappingKeysOfType]
  | cons hd tl ih =>
    rw [TMap.Remove_cons]
    split
    · rw [MappingKeysOfType_cons]; omega
    · rw [MappingKeysOfType_cons, MappingKeysOfType_cons]; omega

theorem MappingKeysOfType_Remove_of_ne (m : List (FBlockTypePositionKey × Int))
    (k : FBlockTypePositionKey) (t : EBlockType) (h : k.BlockType ≠ t) :
    MappingKeysOfType (TMap.Remove m k) t = MappingKeysOfType m t := by
  induction m with
  | nil => simp [TMap.Remove, MappingKeysOfType]
  | cons hd tl ih =>
    rw [TMap.Remove_cons]
    split
    · rename_i e
      have hne : hd.1.BlockType ≠ t := e ▸ h
      rw [MappingKeysOfType_cons, if_neg hne, ih]; omega
    · rw [MappingKeysOfType_cons, MappingKeysOfType_cons, ih]

theorem MappingKeysOfType_Remove_present (m : List (FBlockTypePositionKey × Int))
    (k : FBlockTypePositionKey) (h : (TMap.Find m k).isSome) :
    MappingKeysOfType (TMap.Remove m k) k.BlockType + 1 ≤ MappingKeysOfType m k.BlockType := by
  induction m with
  | nil => simp [TMap.Find] at h
  | cons hd tl ih =>
    obtain ⟨k1, v1⟩ := hd
    rw [TMap.Remove_cons]
    by_cases e : k1 = k
    · subst e
      have hle := MappingKeysOfType_Remove_le tl k1 k1.BlockType
      rw [if_pos rfl, MappingKeysOfType_cons, if_pos rfl]
      omega
    · simp only [TMap.Find, e, if_false] at h
      have := ih h
      rw [if_neg e, MappingKeysOfType_cons, MappingKeysOfType_cons]
      omega

theorem MappingKeysOfType_pos_of_Find (m : List (FBlockTypePositionKey × Int))
    (k : FBlockTypePositionKey) (h : (TMap.Find m k).isSome) :
    1 ≤ MappingKeysOfType m k.BlockType := by
  have := MappingKeysOfType_Remove_present m k h
  omega


theorem BatchesCounted_NewChunkData : BatchesCounted NewChunkData := by
  refine ⟨by decide, ?_, ?_⟩
  · intro t b h
    cases t <;> first
      | (cases h; exact ⟨rfl, by decide⟩)
      | cases h
  · intro q hq
    cases hq

/-- The entry written by `UpdateBlockInstance` keeps the counting invariant. -/
theorem BatchesCounted_add (d : FChunkISMData) (t : EBlockType) (p : FBlockPosition)
    (b : List FVector) (n : Int) (w : FVector) (hJ : BatchesCounted d)
    (hb : TMap.Find d.ChunkISMs t = some b) (hn : TMap.Find d.InstanceCounts t = some n) :
    BatchesCounted
      { ChunkISMs := TMap.Add d.ChunkISMs t (ISM.AddInstance b w).1
        InstanceIndexMapping := TMap.Add d.InstanceIndexMapping ⟨t, p⟩ (ISM.AddInstance b w).2
        InstanceCounts := TMap.Add d.InstanceCounts t (n + 1) } := by
  obtain ⟨h1, h2, h3⟩ := hJ
  have hnb := (h2 t b hb).1
  rw [hn, Option.some.injEq] at hnb
  refine ⟨?_, ?_, ?_⟩
  · intro t2 ht2
    simp only [TMap.isSome_Find_Add, h1 t2 ht2, Bool.or_true]
  · intro t2 b2 hb2
    simp only [] at hb2 ⊢
    by_cases e : t2 = t
    · subst e
      rw [TMap.Find_Add_self, Option.some.injEq] at hb2
      subst hb2
      rw [TMap.Find_Add_self]
      have hk := MappingKeysOfType_Add_le d.InstanceIndexMapping ⟨t2, p⟩ (b.length : Int) t2
      have hle := (h2 t2 b hb).2
      simp only [ISM.AddInstance, ISM.GetInstanceCount, List.length_append, List.length_singleton,
        Nat.cast_add, Nat.cast_one] at hnb hle ⊢
      refine ⟨by rw [hnb], ?_⟩
      omega
    · rw [TMap.Find_Add_of_ne _ _ _ _ e] at hb2 ⊢
      rw [MappingKeysOfType_Add_of_ne _ _ _ _ (by exact fun e2 => e e2.symm)]
      exact h2 t2 b2 hb2
  · intro q hq
    simp only [] at hq ⊢
    rw [TMap.isSome_Find_Add]
    rcases TMap.mem_Add _ _ _ _ hq with hq | hq
    · subst hq
      simp
    · rw [h3 q hq, Bool.or_true]

theorem length_UpdateInstanceTransform (b : List FVector) (i : Int) (T : FVector) :
    (ISM.UpdateInstanceTransform b i T).length = b.length := by
  unfold ISM.UpdateInstanceTransform
  split <;> simp

theorem GetInstanceCount_RemoveInstance_last (b : List FVector)
    (h : 1 ≤ ISM.GetInstanceCount b) :
    ISM.GetInstanceCount (ISM.RemoveInstance b (ISM.GetInstanceCount b - 1))
      = ISM.GetInstanceCount b - 1 := by
  unfold ISM.GetInstanceCount at h ⊢
  unfold ISM.RemoveInstance ISM.IsValidIndex
  have h1 : decide (0 ≤ (b.length : Int) - 1) = true := by simp; omega
  have h2 : decide ((b.length : Int) - 1 < (b.length : Int)) = true := by simp
  rw [h1, h2]
  simp only [Bool.and_self, if_true]
  rw [List.length_eraseIdx]
  have h3 : ((b.length : Int) - 1).toNat < b.length := by omega
  rw [if_pos h3]
  omega

/-- What `SwapRemoveInstance` does for a key of the mapping on a non-empty batch, when it
returns: the flag is true, the batch loses one instance, the mapping loses at least one
key of the key's type and none of any other type, and gains no key. -/
theorem SwapRemoveInstance_counts (b : List FVector)
    (m : List (FBlockTypePositionKey × Int)) (k : FBlockTypePositionKey)
    (hk : (TMap.Find m k).isSome) (hb : 1 ≤ ISM.GetInstanceCount b)
    (b1 : List FVector) (m1 : List (FBlockTypePositionKey × Int)) (R : Bool)
    (h : SwapRemoveInstance b m k = some (b1, m1, R)) :
    R = true ∧ ISM.GetInstanceCount b1 = ISM.GetInstanceCount b - 1 ∧
    MappingKeysOfType m1 k.BlockType + 1 ≤ MappingKeysOfType m k.BlockType ∧
    (∀ t2, k.BlockType ≠ t2 → MappingKeysOfType m1 t2 = MappingKeysOfType m t2) ∧
    (∀ q ∈ m1, ∃ q2 ∈ m, q2.1 = q.1) := by
  unfold SwapRemoveInstance at h
  obtain ⟨i, hi⟩ := Option.isSome_iff_exists.1 hk
  rw [hi] at h
  simp only [] at h
  split at h
  · split at h
    · rename_i hc
      rw [TMap.Contains_iff] at hc
      simp only [Option.some.injEq, Prod.mk.injEq] at h
      obtain ⟨hb1, hm1, hR⟩ := h
      subst hb1 hm1
      have hk2 : (TMap.Find (TMap.Add m (FindLastKey m (ISM.GetInstanceCount b - 1)) i) k).isSome := by
        rw [TMap.isSome_Find_Add, hk, Bool.or_true]
      refine ⟨hR.symm, ?_, ?_, ?_, ?_⟩
      · have e : ISM.GetInstanceCount (ISM.UpdateInstanceTransform b i
            (ISM.GetInstanceTransform b (ISM.GetInstanceCount b - 1) FVector.Zero))
            = ISM.GetInstanceCount b := by
          unfold ISM.GetInstanceCount
          rw [length_UpdateInstanceTransform]
        have := GetInstanceCount_RemoveInstance_last (ISM.UpdateInstanceTransform b i
            (ISM.GetInstanceTransform b (ISM.GetInstanceCount b - 1) FVector.Zero))
          (by rw [e]; exact hb)
        rw [e] at this
        exact this
      · have := MappingKeysOfType_Remove_present _ k hk2
        rw [MappingKeysOfType_Add_present m _ i k.BlockType hc] at this
        exact this
      · intro t2 ht2
        rw [MappingKeysOfType_Remove_of_ne _ _ _ ht2, MappingKeysOfType_Add_present m _ i t2 hc]
      · intro q hq
        rcases TMap.mem_Add _ _ _ _ (TMap.mem_Remove _ _ _ hq).1 with hq2 | hq2
        · obtain ⟨v, hv⟩ := Option.isSome_iff_exists.1 hc
          exact ⟨_, TMap.mem_of_Find _ _ _ hv, by rw [hq2]⟩
        · exact ⟨q, hq2, rfl⟩
    · cases h
  · simp only [Option.some.injEq, Prod.mk.injEq] at h
    obtain ⟨hb1, hm1, hR⟩ := h
    subst hb1 hm1
    refine ⟨hR.symm, GetInstanceCount_RemoveInstance_last b hb,
      MappingKeysOfType_Remove_present m k hk,
      fun t2 ht2 => MappingKeysOfType_Remove_of_ne _ _ _ ht2,
      fun q hq => ⟨q, (TMap.mem_Remove _ _ _ hq).1, rfl⟩⟩


theorem RegistryCounted_ensure (g : ARandomMapGenerator) (c : FChunkCoord)
    (hJ : RegistryCounted g c) :
    RegistryCounted (if TMap.Contains g.ChunkISMSystem c then g else g.InitializeChunkISMs c) c := by
  by_cases hc : TMap.Contains g.ChunkISMSystem c = true
  · rw [if_pos hc]; exact hJ
  · rw [if_neg hc]
    unfold InitializeChunkISMs
    rw [if_neg hc]
    intro d hd
    simp only [TMap.Find_Add_self, Option.some.injEq] at hd
    subst hd
    exact BatchesCounted_NewChunkData

/-- `UpdateBlockInstance` keeps the counting invariant of the chunk's registry entry. -/
theorem UpdateBlockInstance_counted (g r : ARandomMapGenerator) (c : FChunkCoord)
    (p : FBlockPosition) (t : EBlockType) (h : g.UpdateBlockInstance c p t = some r)
    (hJ : RegistryCounted g c) : RegistryCounted r c := by
  unfold UpdateBlockInstance at h
  by_cases ht : t = Air
  · simp only [ht, if_true, Option.some.injEq] at h
    subst h; exact hJ
  · rw [if_neg ht] at h
    simp only [] at h
    have hg1 := RegistryCounted_ensure g c hJ
    generalize (if TMap.Contains g.ChunkISMSystem c then g else g.InitializeChunkISMs c) = g1
      at h hg1
    cases hd : TMap.Find g1.ChunkISMSystem c with
    | none => rw [hd] at h; cases h
    | some d =>
      rw [hd] at h
      simp only [] at h
      cases hb : TMap.Find d.ChunkISMs t with
      | none =>
        rw [hb] at h
        simp only [Option.some.injEq] at h
        subst h; exact hg1
      | some b =>
        rw [hb] at h
        simp only [] at h
        cases hn : TMap.Find d.InstanceCounts t with
        | none => rw [hn] at h; cases h
        | some n =>
          rw [hn] at h
          simp only [Option.some.injEq] at h
          subst h
          intro d2 hd2
          simp only [TMap.Find_Add_self, Option.some.injEq] at hd2
          subst hd2
          exact BatchesCounted_add d t p b n _ (hg1 d hd) hb hn

/-- `RemoveBlockInstance`, when it returns, keeps the counting invariant of the chunk's
registry entry. -/
theorem RemoveBlockInstance_counted (g r : ARandomMapGenerator) (c : FChunkCoord)
    (p : FBlockPosition) (t : EBlockType) (h : g.RemoveBlockInstance c p t = some r)
    (hJ : RegistryCounted g c) : RegistryCounted r c := by
  unfold RemoveBlockInstance at h
  by_cases ht : t = Air
  · simp only [ht, if_true, Option.some.injEq] at h
    subst h; exact hJ
  · rw [if_neg ht] at h
    cases hd : TMap.Find g.ChunkISMSystem c with
    | none =>
      rw [hd] at h
      simp only [Option.some.injEq] at h
      subst h; exact hJ
    | some d =>
      rw [hd] at h
      simp only [] at h
      cases hb : TMap.Find d.ChunkISMs t with
      | none =>
        rw [hb] at h
        simp only [Option.some.injEq] at h
        subst h; exact hJ
      | some b =>
        rw [hb] at h
        simp only [] at h
        cases hi : TMap.Find d.InstanceIndexMapping ⟨t, p⟩ with
        | none =>
          rw [hi] at h
          simp only [Option.some.injEq] at h
          subst h; exact hJ
        | some i =>
          rw [hi] at h
          simp only [] at h
          obtain ⟨h1, h2, h3⟩ := hJ d hd
          have hk : (TMap.Find d.InstanceIndexMapping ⟨t, p⟩).isSome := by rw [hi]; rfl
          have hpos := MappingKeysOfType_pos_of_Find d.InstanceIndexMapping ⟨t, p⟩ hk
          have hcb := h2 t b hb
          have hb1 : 1 ≤ ISM.GetInstanceCount b := by
            have := hcb.2
            simp only [] at hpos
            omega
          cases hs : SwapRemoveInstance b d.InstanceIndexMapping ⟨t, p⟩ with
          | none => rw [hs] at h; cases h
          | some out =>
            obtain ⟨b1, m1, R⟩ := out
            rw [hs] at h
            obtain ⟨hR, hlen, hkeys, hoth, hmem⟩ :=
              SwapRemoveInstance_counts b d.InstanceIndexMapping ⟨t, p⟩ hk hb1 b1 m1 R hs
            subst hR
            simp only [if_true, hcb.1, Option.some.injEq] at h
            subst h
            intro d2 hd2
            simp only [TMap.Find_Add_self, Option.some.injEq] at hd2
            subst hd2
            refine ⟨?_, ?_, ?_⟩
            · intro t2 ht2
              simp only [TMap.isSome_Find_Add, h1 t2 ht2, Bool.or_true]
            · intro t2 b2 hb2
              simp only [] at hb2 ⊢
              by_cases e : t2 = t
              · subst e
                rw [TMap.Find_Add_self, Option.some.injEq] at hb2
                subst hb2
                rw [TMap.Find_Add_self, hlen]
                refine ⟨rfl, ?_⟩
                have := hcb.2
                simp only [] at hkeys
                omega
              · rw [TMap.Find_Add_of_ne _ _ _ _ e] at hb2 ⊢
                rw [hoth t2 (fun e2 => e e2.symm)]
                exact h2 t2 b2 hb2
            · intro q hq
              simp only [] at hq ⊢
              obtain ⟨q2, hq2, he⟩ := hmem q hq
              rw [TMap.isSome_Find_Add, ← he, h3 q2 hq2, Bool.or_true]

theorem RunRegistryCalls_counted (c : FChunkCoord) :
    ∀ (Calls : List RegistryCall) (g r : ARandomMapGenerator), RegistryCounted g c →
      RunRegistryCalls g c Calls = some r → RegistryCounted r c := by
  intro Calls
  induction Calls with
  | nil =>
    intro g r hJ h
    simp only [RunRegistryCalls, Option.some.injEq] at h
    subst h; exact hJ
  | cons hd tl ih =>
    intro g r hJ h
    cases hd with
    | addInstance p t =>
      simp only [RunRegistryCalls] at h
      cases hu : g.UpdateBlockInstance c p t with
      | none => rw [hu] at h; cases h
      | some g1 =>
        rw [hu] at h
        exact ih g1 r (UpdateBlockInstance_counted g g1 c p t hu hJ) h
    | removeInstance p t =>
      simp only [RunRegistryCalls] at h
      cases hu : g.RemoveBlockInstance c p t with
      | none => rw [hu] at h; cases h
      | some g1 =>
        rw [hu] at h
        exact ih g1 r (RemoveBlockInstance_counted g g1 c p t hu hJ) h

/-- C29: from a chunk with no registry entry, or one satisfying the counting invariant
(as the freshly initialised entry does), after any sequence of addInstance/removeInstance
calls on the chunk that returns, every block type from Grass to InvisibleWall has a batch,
its per-type count equals the number of instances of the batch, is at least the number of
mapping keys of the type and is not negative, and every key present in the mapping is of
a type whose batch is non-empty (last index >= 0). -/
theorem C29_counts_equal_batch_sizes (g : ARandomMapGenerator) (c : FChunkCoord)
    (Calls : List RegistryCall) (hinv : RegistryCounted g c)
    (hret : (RunRegistryCalls g c Calls).isSome) :
    ∃ r, RunRegistryCalls g c Calls = some r ∧
      ∀ ChunkData, TMap.Find r.ChunkISMSystem c = some ChunkData →
        (∀ BlockType ∈ InstancedBlockTypes, ∃ ChunkISM,
          TMap.Find ChunkData.ChunkISMs BlockType = some ChunkISM ∧
          TMap.Find ChunkData.InstanceCounts BlockType = some (ISM.GetInstanceCount ChunkISM) ∧
          (MappingKeysOfType ChunkData.InstanceIndexMapping BlockType : Int)
            ≤ ISM.GetInstanceCount ChunkISM ∧
          0 ≤ ISM.GetInstanceCount ChunkISM) ∧
        (∀ Key, (TMap.Find ChunkData.InstanceIndexMapping Key).isSome → ∃ ChunkISM,
          TMap.Find ChunkData.ChunkISMs Key.BlockType = some ChunkISM ∧
          0 ≤ ISM.GetInstanceCount ChunkISM - 1) := by
  obtain ⟨r, hr⟩ := Option.isSome_iff_exists.1 hret
  refine ⟨r, hr, ?_⟩
  intro d hd
  obtain ⟨h1, h2, h3⟩ := RunRegistryCalls_counted c Calls g r hinv hr d hd
  refine ⟨?_, ?_⟩
  · intro t ht
    obtain ⟨b, hb⟩ := Option.isSome_iff_exists.1 (h1 t ht)
    exact ⟨b, hb, (h2 t b hb).1, (h2 t b hb).2, by unfold ISM.GetInstanceCount; omega⟩
  · intro k hk
    obtain ⟨v, hv⟩ := Option.isSome_iff_exists.1 hk
    obtain ⟨b, hb⟩ := Option.isSome_iff_exists.1 (h3 (k, v) (TMap.mem_of_Find _ _ _ hv))
    have hpos := MappingKeysOfType_pos_of_Find d.InstanceIndexMapping k hk
    have := (h2 k.BlockType b hb).2
    exact ⟨b, hb, by omega⟩

set_option maxRecDepth 100000 in
/-- C29 on the constructed actor, chunk (0,0): Stone is added at (0,0,0), twice at
(1,0,0), and removed at (1,0,0). The run returns and the registry entry of the chunk
has the counting facts. -/
theorem C29_counts_equal_batch_sizes_witness :
    RegistryCounted Constructed ⟨0, 0⟩ ∧
    ∃ r, RunRegistryCalls Constructed ⟨0, 0⟩
        [RegistryCall.addInstance ⟨0, 0, 0⟩ Stone, RegistryCall.addInstance ⟨1, 0, 0⟩ Stone,
         RegistryCall.addInstance ⟨1, 0, 0⟩ Stone, RegistryCall.removeInstance ⟨1, 0, 0⟩ Stone]
        = some r ∧
      ∀ ChunkData, TMap.Find r.ChunkISMSystem ⟨0, 0⟩ = some ChunkData →
        (∀ BlockType ∈ InstancedBlockTypes, ∃ ChunkISM,
          TMap.Find ChunkData.ChunkISMs BlockType = some ChunkISM ∧
          TMap.Find ChunkData.InstanceCounts BlockType = some (ISM.GetInstanceCount ChunkISM) ∧
          (MappingKeysOfType ChunkData.InstanceIndexMapping BlockType : Int)
            ≤ ISM.GetInstanceCount ChunkISM ∧
          0 ≤ ISM.GetInstanceCount ChunkISM) ∧
        (∀ Key, (TMap.Find ChunkData.InstanceIndexMapping Key).isSome → ∃ ChunkISM,
          TMap.Find ChunkData.ChunkISMs Key.BlockType = some ChunkISM ∧
          0 ≤ ISM.GetInstanceCount ChunkISM - 1) :=
  ⟨(by intro _ hd; cases hd),
   C29_counts_equal_batch_sizes Constructed ⟨0, 0⟩
    [RegistryCall.addInstance ⟨0, 0, 0⟩ Stone, RegistryCall.addInstance ⟨1, 0, 0⟩ Stone,
     RegistryCall.addInstance ⟨1, 0, 0⟩ Stone, RegistryCall.removeInstance ⟨1, 0, 0⟩ Stone]
    (by intro _ hd; cases hd) (by decide!)⟩

/-! ### Nearest-block search -/

/-- The running minimum of `FindNearestBlock` over any list of cells: it is a lower bound
of the distances of the matching cells and of the start value, and either nothing was
taken and no matching cell is below the start value, or the result is a matching cell
of the list below the start value. -/
theorem FindNearestStep_foldl (g : ARandomMapGenerator) (Start : FVector) (Q : EBlockQuery) :
    ∀ (L : List (FChunkCoord × FBlockPosition)) (M : ℚ) (O : FVector) (F : Bool),
      (∀ b ∈ L, QueryMatches Q (g.GetBlockInternal b.1 b.2) = true →
        (L.foldl (g.FindNearestStep Start Q) (M, O, F)).1
          ≤ FVector.DistSquared Start (g.BlockToWorldPosition b.1 b.2)) ∧
      (L.foldl (g.FindNearestStep Start Q) (M, O, F)).1 ≤ M ∧
      ((L.foldl (g.FindNearestStep Start Q) (M, O, F) = (M, O, F) ∧
          ∀ b ∈ L, QueryMatches Q (g.GetBlockInternal b.1 b.2) = true →
            M ≤ FVector.DistSquared Start (g.BlockToWorldPosition b.1 b.2)) ∨
        ∃ a ∈ L, QueryMatches Q (g.GetBlockInternal a.1 a.2) = true ∧
          L.foldl (g.FindNearestStep Start Q) (M, O, F)
            = (FVector.DistSquared Start (g.BlockToWorldPosition a.1 a.2),
               g.BlockToWorldPosition a.1 a.2, true) ∧
          FVector.DistSquared Start (g.BlockToWorldPosition a.1 a.2) < M) := by
  intro L
  induction L with
  | nil =>
    intro M O F
    simp
  | cons a tl ih =>
    intro M O F
    rw [List.foldl_cons]
    by_cases hm : QueryMatches Q (g.GetBlockInternal a.1 a.2) = true
    · by_cases hd : FVector.DistSquared Start (g.BlockToWorldPosition a.1 a.2) < M
      · have e : g.FindNearestStep Start Q (M, O, F) a
            = (FVector.DistSquared Start (g.BlockToWorldPosition a.1 a.2),
               g.BlockToWorldPosition a.1 a.2, true) := by
          simp only [FindNearestStep, hm, if_true, hd]
        rw [e]
        obtain ⟨h1, h2, h3⟩ := ih (FVector.DistSquared Start (g.BlockToWorldPosition a.1 a.2))
          (g.BlockToWorldPosition a.1 a.2) true
        refine ⟨?_, le_of_lt (lt_of_le_of_lt h2 hd), Or.inr ?_⟩
        · intro b hb hmb
          rcases List.mem_cons.1 hb with hb | hb
          · rw [hb]; exact h2
          · exact h1 b hb hmb
        · rcases h3 with ⟨h3, _⟩ | ⟨a2, ha2, hm2, hr2, hlt2⟩
          · exact ⟨a, List.mem_cons_self _ _, hm, h3, hd⟩
          · exact ⟨a2, List.mem_cons_of_mem _ ha2, hm2, hr2, lt_trans hlt2 hd⟩
      · have e : g.FindNearestStep Start Q (M, O, F) a = (M, O, F) := by
          simp only [FindNearestStep, hm, if_true, hd, if_false]
        rw [e]
        obtain ⟨h1, h2, h3⟩ := ih M O F
        refine ⟨?_, h2, ?_⟩
        · intro b hb hmb
          rcases List.mem_cons.1 hb with hb | hb
          · rw [hb]; exact le_trans h2 (not_lt.1 hd)
          · exact h1 b hb hmb
        · rcases h3 with ⟨h3, hall⟩ | ⟨a2, ha2, hm2, hr2, hlt2⟩
          · refine Or.inl ⟨h3, ?_⟩
            intro b hb hmb
            rcases List.mem_cons.1 hb with hb | hb
            · rw [hb]; exact not_lt.1 hd
            · exact hall b hb hmb
          · exact Or.inr ⟨a2, List.mem_cons_of_mem _ ha2, hm2, hr2, hlt2⟩
    · have e : g.FindNearestStep Start Q (M, O, F) a = (M, O, F) := by
        simp only [FindNearestStep, hm, Bool.false_eq_true, if_false]
      rw [e]
      obtain ⟨h1, h2, h3⟩ := ih M O F
      refine ⟨?_, h2, ?_⟩
      · intro b hb hmb
        rcases List.mem_cons.1 hb with hb | hb
        · rw [hb] at hmb; exact absurd hmb hm
        · exact h1 b hb hmb
      · rcases h3 with ⟨h3, hall⟩ | ⟨a2, ha2, hm2, hr2, hlt2⟩
        · refine Or.inl ⟨h3, ?_⟩
          intro b hb hmb
          rcases List.mem_cons.1 hb with hb | hb
          · rw [hb] at hmb; exact absurd hmb hm
          · exact hall b hb hmb
        · exact Or.inr ⟨a2, List.mem_cons_of_mem _ ha2, hm2, hr2, hlt2⟩

/-- The cells visited by `FindNearestBlock`. -/
theorem mem_FindNearestCells (g : ARandomMapGenerator) (Start : FVector) (D : ℚ)
    (c : FChunkCoord) (p : FBlockPosition) :
    (c, p) ∈ g.FindNearestCells Start D ↔
      ((g.WorldToChunkCoord Start).X - g.ChunkSearchRadius D ≤ c.X ∧
        c.X ≤ (g.WorldToChunkCoord Start).X + g.ChunkSearchRadius D) ∧
      ((g.WorldToChunkCoord Start).Y - g.ChunkSearchRadius D ≤ c.Y ∧
        c.Y ≤ (g.WorldToChunkCoord Start).Y + g.ChunkSearchRadius D) ∧
      g.IsChunkGenerated c = true ∧
      0 ≤ p.X ∧ p.X < g.ChunkSize ∧ 0 ≤ p.Y ∧ p.Y < g.ChunkSize ∧
      0 ≤ p.Z ∧ p.Z < g.ChunkHeight := by
  obtain ⟨cx, cy⟩ := c
  obtain ⟨px, py, pz⟩ := p
  unfold FindNearestCells
  simp only [List.mem_flatMap, mem_ForRange]
  constructor
  · rintro ⟨X, hX, Y, hY, h⟩
    split at h
    · rename_i hgen
      simp only [List.mem_flatMap, mem_ForRange, List.mem_map, Prod.mk.injEq,
        FChunkCoord.mk.injEq, FBlockPosition.mk.injEq] at h
      obtain ⟨x, hx, y, hy, z, hz, ⟨e1, e2⟩, e3, e4, e5⟩ := h
      subst e1 e2 e3 e4 e5
      exact ⟨⟨hX.1, by omega⟩, ⟨hY.1, by omega⟩, hgen, hx.1, hx.2, hy.1, hy.2, hz.1, hz.2⟩
    · cases h
  · rintro ⟨hX, hY, hgen, hx0, hx1, hy0, hy1, hz0, hz1⟩
    refine ⟨cx, ⟨hX.1, by omega⟩, cy, ⟨hY.1, by omega⟩, ?_⟩
    rw [if_pos hgen]
    simp only [List.mem_flatMap, mem_ForRange, List.mem_map]
    exact ⟨px, ⟨hx0, hx1⟩, py, ⟨hy0, hy1⟩, pz, ⟨hz0, hz1⟩, rfl⟩

theorem QueryMatches_iff (Q : EBlockQuery) (t : EBlockType) :
    QueryMatches Q t = true ↔ t ≠ EBlockType.Air ∧ (Q = EBlockQuery.ALL ∨ Q = EBlockQuery.Is t) := by
  unfold QueryMatches
  simp only [Bool.and_eq_true, Bool.or_eq_true, decide_eq_true_eq]
  constructor
  · rintro ⟨h1, h2⟩
    exact ⟨h2, h1.imp id Eq.symm⟩
  · rintro ⟨h1, h2⟩
    exact ⟨h2.imp id Eq.symm, h1⟩

/-! ### Coordinate conversions in single precision -/

/-- The rounding error of a value of magnitude at most `M`. -/
theorem F32.Round_within (q M : ℚ) (h : |q| ≤ M) :
    q - (M / 16777216 + 1 / 2 ^ 150) ≤ F32.Round q ∧
    F32.Round q ≤ q + (M / 16777216 + 1 / 2 ^ 150) := by
  have h1 := F32.Round_rel q
  have h2 : |q| / 16777216 ≤ M / 16777216 := by
    apply div_le_div_of_nonneg_right h (by norm_num)
  rw [abs_le] at h1
  constructor <;> linarith [h1.1, h1.2]

/-- The single-precision quotient of an absolute block index below `2 ^ 24` by the chunk
size floors to the exact floor quotient. -/
theorem floor_Round_div (A CS : Int) (hCS : 1 ≤ CS) (hCS2 : CS ≤ 16777216)
    (hA : |A| < 16777216) :
    Int.floor (F32.Round (F32.Round (A : ℚ) / F32.Round (CS : ℚ)))
      = Int.floor ((A : ℚ) / (CS : ℚ)) := by
  have hCSabs : |CS| ≤ 16777216 := by rw [abs_le]; constructor <;> omega
  rw [F32.Round_intCast A (le_of_lt hA), F32.Round_intCast CS hCSabs]
  have hn0 : (0 : ℚ) < (CS : ℚ) := by exact_mod_cast (by omega : (0 : Int) < CS)
  have hn1 : (1 : ℚ) ≤ (CS : ℚ) := by exact_mod_cast hCS
  have hn2 : (CS : ℚ) ≤ 16777216 := by exact_mod_cast hCS2
  have hAq : |(A : ℚ)| ≤ 16777215 := by
    have : |A| ≤ 16777215 := by omega
    exact_mod_cast this
  obtain ⟨hA1, hA2⟩ := abs_le.1 hAq
  set c := Int.floor ((A : ℚ) / (CS : ℚ)) with hc
  have h1 : (c : ℚ) ≤ (A : ℚ) / (CS : ℚ) := Int.floor_le _
  have h2 : (A : ℚ) / (CS : ℚ) < (c : ℚ) + 1 := Int.lt_floor_add_one _
  have h1m : (c : ℚ) * (CS : ℚ) ≤ (A : ℚ) := by rwa [le_div_iff₀ hn0] at h1
  have h2m : (A : ℚ) < ((c : ℚ) + 1) * (CS : ℚ) := by rwa [div_lt_iff₀ hn0] at h2
  have h2i : A < (c + 1) * CS := by exact_mod_cast h2m
  have h3 : (A : ℚ) + 1 ≤ ((c : ℚ) + 1) * (CS : ℚ) := by
    have : A + 1 ≤ (c + 1) * CS := h2i
    exact_mod_cast this
  -- the floor quotient is an integer of magnitude below 2 ^ 24
  have hcabs : |c| ≤ 16777216 := by
    rw [abs_le]
    constructor
    · have : ((-16777216 : Int) : ℚ) ≤ (A : ℚ) / (CS : ℚ) := by
        rw [le_div_iff₀ hn0]
        push_cast
        nlinarith
      exact Int.le_floor.2 this
    · have h : (A : ℚ) / (CS : ℚ) < ((16777217 : Int) : ℚ) := by
        rw [div_lt_iff₀ hn0]
        push_cast
        nlinarith
      have := Int.floor_lt.2 h
      omega
  rw [Int.floor_eq_iff]
  constructor
  · have := F32.Round_mono _ _ h1
    rwa [F32.Round_intCast c hcabs] at this
  · have hy : |(A : ℚ) / (CS : ℚ)| ≤ 16777215 / (CS : ℚ) := by
      rw [abs_div, abs_of_pos hn0]
      exact div_le_div_of_nonneg_right hAq (le_of_lt hn0)
    have hr := (F32.Round_within _ _ hy).2
    have hq : (A : ℚ) / (CS : ℚ) ≤ (c : ℚ) + 1 - 1 / (CS : ℚ) := by
      rw [div_le_iff₀ hn0, sub_mul, one_div, inv_mul_cancel₀ (ne_of_gt hn0)]
      linarith
    have hinv : 1 / (16777216 * 16777216 : ℚ) ≤ 1 / ((CS : ℚ) * 16777216) := by
      apply one_div_le_one_div_of_le (by positivity)
      nlinarith
    have e : 16777215 / (CS : ℚ) / 16777216 = 1 / (CS : ℚ) - 1 / ((CS : ℚ) * 16777216) := by
      field_simp
      ring
    rw [e] at hr
    have hsmall : (1 : ℚ) / 2 ^ 150 < 1 / (16777216 * 16777216 : ℚ) := by norm_num
    linarith

set_option maxRecDepth 100000 in
/-- The single-precision value of the literal `0.001f`. -/
theorem F32.Round_epsilon : F32.Round (1 / 1000) = 8589935 / 8589934592 := by decide!

/-- Consequences of the margin condition of the round trips: the effective block size is
positive and rounds with a relative error of at most `2 ^ -23`, the indices are below
`2 ^ 19`, and sixteen units of error fit into the margin. -/
theorem margin_facts (A n : Int) (B S : ℚ) (hB : 1 / 500 < B) (hS : 0 ≤ S) (hn : 1 ≤ n)
    (hM : ((|A| + n + 2 : Int) : ℚ) * (B + S)
      ≤ 1048576 * (B / 2 - F32.Round (1 / 1000))) :
    0 < B + S ∧
    (B + S) * (1 - 1 / 8388608) ≤ F32.Round (B + S) ∧
    F32.Round (B + S) ≤ (B + S) * (1 + 1 / 8388608) ∧
    ((|A| : Int) : ℚ) + (n : ℚ) + 2 ≤ 524288 ∧
    16 * (((|A| + n + 2 : Int) : ℚ) * (B + S) / 16777216)
      ≤ B / 2 - F32.Round (1 / 1000) := by
  have hE0 : 0 < B + S := by linarith
  have hα0 : (0 : ℚ) ≤ ((|A| : Int) : ℚ) := by exact_mod_cast abs_nonneg A
  have hn1 : (1 : ℚ) ≤ (n : ℚ) := by exact_mod_cast hn
  have hcast : ((|A| + n + 2 : Int) : ℚ) = ((|A| : Int) : ℚ) + (n : ℚ) + 2 := by push_cast; ring
  rw [hcast] at hM ⊢
  rw [F32.Round_epsilon] at hM ⊢
  have hr := F32.Round_within (B + S) (B + S) (by rw [abs_of_pos hE0])
  have hsmall : (1 : ℚ) / 2 ^ 150 ≤ (B + S) / 16777216 := by
    have : (1 : ℚ) / 2 ^ 150 ≤ (1 / 500) / 16777216 := by norm_num
    have h2 : (1 / 500 : ℚ) / 16777216 ≤ (B + S) / 16777216 :=
      div_le_div_of_nonneg_right (by linarith) (by norm_num)
    linarith
  refine ⟨hE0, by linarith [hr.1], by linarith [hr.2], ?_, by linarith⟩
  by_contra hbig
  push_neg at hbig
  have h1 : 524288 * (B + S) ≤ (((|A| : Int) : ℚ) + (n : ℚ) + 2) * (B + S) :=
    mul_le_mul_of_nonneg_right (le_of_lt hbig) (le_of_lt hE0)
  linarith

/-- The error unit of the round trips dominates the rounding error of every value of
magnitude at most `(|A| + 1)` effective block sizes. -/
theorem margin_unit (A n : Int) (B S : ℚ) (hB : 1 / 500 < B) (hS : 0 ≤ S) (hn : 1 ≤ n)
    (hM : ((|A| + n + 2 : Int) : ℚ) * (B + S)
      ≤ 1048576 * (B / 2 - F32.Round (1 / 1000))) :
    0 < F32.Round (B + S) ∧
    (((|A| : Int) : ℚ) + 1) * F32.Round (B + S) / 16777216 + 1 / 2 ^ 150
      ≤ ((|A| + n + 2 : Int) : ℚ) * (B + S) / 16777216 ∧
    (((|A| : Int) : ℚ) + (n : ℚ) + 2) * F32.Round (B + S) / 16777216 + 1048576 / 2 ^ 150
      ≤ 3 / 2 * (((|A| + n + 2 : Int) : ℚ) * (B + S) / 16777216) := by
  obtain ⟨hE0, hElo, hEhi, hN, _⟩ := margin_facts A n B S hB hS hn hM
  have hα0 : (0 : ℚ) ≤ ((|A| : Int) : ℚ) := by exact_mod_cast abs_nonneg A
  have hn1 : (1 : ℚ) ≤ (n : ℚ) := by exact_mod_cast hn
  have hcast : ((|A| + n + 2 : Int) : ℚ) = ((|A| : Int) : ℚ) + (n : ℚ) + 2 := by push_cast; ring
  rw [hcast]
  have hEpos : 0 < F32.Round (B + S) := by
    have : 0 < (B + S) * (1 - 1 / 8388608) := mul_pos hE0 (by norm_num)
    linarith
  have hsmall : (1048576 : ℚ) / 2 ^ 150 ≤ (B + S) / 16777216 / 16 := by
    have : (1048576 : ℚ) / 2 ^ 150 ≤ (1 / 500) / 16777216 / 16 := by norm_num
    have h2 : (1 / 500 : ℚ) / 16777216 / 16 ≤ (B + S) / 16777216 / 16 := by
      apply div_le_div_of_nonneg_right _ (by norm_num)
      exact div_le_div_of_nonneg_right (by linarith) (by norm_num)
    linarith
  have hP1 : (((|A| : Int) : ℚ) + 1) * F32.Round (B + S)
      ≤ (((|A| : Int) : ℚ) + 1) * ((B + S) * (1 + 1 / 8388608)) :=
    mul_le_mul_of_nonneg_left hEhi (by linarith)
  have hP2 : (((|A| : Int) : ℚ) + (n : ℚ) + 2) * F32.Round (B + S)
      ≤ (((|A| : Int) : ℚ) + (n : ℚ) + 2) * ((B + S) * (1 + 1 / 8388608)) :=
    mul_le_mul_of_nonneg_left hEhi (by linarith)
  have hP3 : (((|A| : Int) : ℚ) + (n : ℚ) + 2) * (B + S) ≤ 524288 * (B + S) :=
    mul_le_mul_of_nonneg_right hN (le_of_lt hE0)
  have hP4 : 0 ≤ ((|A| : Int) : ℚ) * (B + S) := mul_nonneg hα0 (le_of_lt hE0)
  have hP5 : (B + S) ≤ (n : ℚ) * (B + S) := by nlinarith
  refine ⟨hEpos, ?_, ?_⟩
  · rw [div_add' _ _ _ (by norm_num : (16777216 : ℚ) ≠ 0), div_le_div_iff₀ (by norm_num) (by norm_num)]
    nlinarith
  · rw [div_add' _ _ _ (by norm_num : (16777216 : ℚ) ≠ 0)]
    rw [show 3 / 2 * ((((|A| : Int) : ℚ) + (n : ℚ) + 2) * (B + S) / 16777216)
      = (3 / 2 * ((((|A| : Int) : ℚ) + (n : ℚ) + 2) * (B + S))) / 16777216 by ring]
    rw [div_le_div_iff₀ (by norm_num) (by norm_num)]
    nlinarith

/-- Four roundings of error at most `U` each keep the shifted block centre inside the
block, ten units of error away from both faces. -/
theorem centre_window_core (R : ℚ → ℚ) (a α E U B2 ε : ℚ)
    (hR : ∀ q M : ℚ, |q| ≤ M →
      q - (M / 16777216 + 1 / 2 ^ 150) ≤ R q ∧ R q ≤ q + (M / 16777216 + 1 / 2 ^ 150))
    (ha1 : -α ≤ a) (ha2 : a ≤ α) (hE : 0 < E)
    (hω : (α + 1) * E / 16777216 + 1 / 2 ^ 150 ≤ U)
    (hB2 : 0 ≤ B2) (hε : 0 ≤ ε) (hlo : 14 * U ≤ B2 + ε) (hhi : 14 * U ≤ E - B2 - ε) :
    a * E + 10 * U ≤ R (R (R (a * E) + R B2) + ε) ∧
    R (R (R (a * E) + R B2) + ε) ≤ (a + 1) * E - 10 * U := by
  have hα : 0 ≤ α := by linarith
  have hU0 : 0 ≤ U := by
    have h1 : 0 ≤ (α + 1) * E / 16777216 := by positivity
    have h2 : (0 : ℚ) ≤ 1 / 2 ^ 150 := by positivity
    linarith
  have hP2a : a * E ≤ α * E := mul_le_mul_of_nonneg_right ha2 (le_of_lt hE)
  have hP2b : -(α * E) ≤ a * E := by
    have := mul_le_mul_of_nonneg_right ha1 (le_of_lt hE)
    linarith
  have hmag : ∀ q : ℚ, -(α * E) - E ≤ q → q ≤ α * E + E → q - U ≤ R q ∧ R q ≤ q + U := by
    intro q h1 h2
    have hq : |q| ≤ (α + 1) * E := by
      rw [abs_le]
      constructor <;> linarith
    have hr := hR q _ hq
    constructor <;> linarith [hr.1, hr.2]
  have ht1 := hmag (a * E) (by linarith) (by linarith)
  have ht2 := hmag B2 (by linarith) (by linarith)
  have hx := hmag (R (a * E) + R B2)
    (by linarith [ht1.1, ht2.1]) (by linarith [ht1.2, ht2.2])
  have ha1 := hmag (R (R (a * E) + R B2) + ε)
    (by linarith [ht1.1, ht2.1, hx.1]) (by linarith [ht1.2, ht2.2, hx.2])
  constructor
  · linarith [ht1.1, ht2.1, hx.1, ha1.1]
  · linarith [ht1.2, ht2.2, hx.2, ha1.2]

/-- The single-precision centre of the block of index `A`, shifted by the epsilon and
rounded, lies inside the block with ten units of error to spare on both sides. -/
theorem centre_window (g : ARandomMapGenerator) (A : Int) (hB : 1 / 500 < g.BlockSize)
    (hS : 0 ≤ g.BlockSpacing) (hn : 1 ≤ g.ChunkSize)
    (hM : ((|A| + g.ChunkSize + 2 : Int) : ℚ) * (g.BlockSize + g.BlockSpacing)
      ≤ 1048576 * (g.BlockSize / 2 - F32.Round (1 / 1000))) :
    (A : ℚ) * F32.Round (g.BlockSize + g.BlockSpacing)
        + 10 * (((|A| + g.ChunkSize + 2 : Int) : ℚ) * (g.BlockSize + g.BlockSpacing) / 16777216)
      ≤ F32.Round (g.BlockCentreOf A + F32.Round (1 / 1000)) ∧
    F32.Round (g.BlockCentreOf A + F32.Round (1 / 1000))
      ≤ ((A : ℚ) + 1) * F32.Round (g.BlockSize + g.BlockSpacing)
        - 10 * (((|A| + g.ChunkSize + 2 : Int) : ℚ) * (g.BlockSize + g.BlockSpacing)
          / 16777216) := by
  obtain ⟨hE0, hElo, hEhi, hN, h16⟩ :=
    margin_facts A g.ChunkSize g.BlockSize g.BlockSpacing hB hS hn hM
  obtain ⟨hEpos, hω, _⟩ := margin_unit A g.ChunkSize g.BlockSize g.BlockSpacing hB hS hn hM
  have hα0 : (0 : ℚ) ≤ ((|A| : Int) : ℚ) := by exact_mod_cast abs_nonneg A
  have hn1 : (1 : ℚ) ≤ (g.ChunkSize : ℚ) := by exact_mod_cast hn
  have hAabs : |A| ≤ 16777216 := by
    have : ((|A| : Int) : ℚ) ≤ 16777216 := by linarith
    exact_mod_cast this
  have ha : |(A : ℚ)| = ((|A| : Int) : ℚ) := (Int.cast_abs).symm
  obtain ⟨ha1, ha2⟩ := abs_le.1 (le_of_eq ha)
  have hcast : ((|A| + g.ChunkSize + 2 : Int) : ℚ)
      = ((|A| : Int) : ℚ) + (g.ChunkSize : ℚ) + 2 := by push_cast; ring
  have hUE : (g.BlockSize + g.BlockSpacing) * (1 / 8388608)
      ≤ ((|A| + g.ChunkSize + 2 : Int) : ℚ) * (g.BlockSize + g.BlockSpacing) / 16777216 := by
    rw [hcast]
    have : 2 * (g.BlockSize + g.BlockSpacing)
        ≤ (((|A| : Int) : ℚ) + (g.ChunkSize : ℚ) + 2) * (g.BlockSize + g.BlockSpacing) := by
      nlinarith
    linarith
  have hεv := F32.Round_epsilon
  have hcore := centre_window_core F32.Round (A : ℚ) ((|A| : Int) : ℚ)
    (F32.Round (g.BlockSize + g.BlockSpacing))
    (((|A| + g.ChunkSize + 2 : Int) : ℚ) * (g.BlockSize + g.BlockSpacing) / 16777216)
    (g.BlockSize / 2) (F32.Round (1 / 1000)) F32.Round_within ha1 ha2 hEpos hω
    (by linarith) (by rw [hεv]; norm_num) (by rw [hεv] at h16 ⊢; linarith)
    (by rw [hεv] at h16 ⊢; linarith)
  have hint : F32.Round ((A : Int) : ℚ) = (A : ℚ) := F32.Round_intCast A hAabs
  have hdef : g.BlockCentreOf A
      = F32.Round (F32.Round (F32.Round (A : ℚ) * F32.Round (g.BlockSize + g.BlockSpacing))
        + F32.Round (g.BlockSize / 2)) := rfl
  rw [hdef, hint]
  exact hcore

/-- A value inside the block of index `A`, some units of error away from its upper face,
divided by the effective block size in single precision, floors to `A`. -/
theorem block_floor_core (R : ℚ → ℚ) (A : Int) (α E U a1 : ℚ)
    (hmono : ∀ x y : ℚ, x ≤ y → R x ≤ R y)
    (hR : ∀ q M : ℚ, |q| ≤ M →
      q - (M / 16777216 + 1 / 2 ^ 150) ≤ R q ∧ R q ≤ q + (M / 16777216 + 1 / 2 ^ 150))
    (hint : R (A : ℚ) = (A : ℚ))
    (ha1 : -α ≤ (A : ℚ)) (ha2 : (A : ℚ) ≤ α) (hE : 0 < E) (hU : 0 < U)
    (hω : (α + 1) * E / 16777216 + 1 / 2 ^ 150 ≤ U)
    (hη : E * (1 / 2 ^ 150) ≤ U)
    (hlo : (A : ℚ) * E ≤ a1) (hhi : a1 ≤ ((A : ℚ) + 1) * E - 8 * U) :
    Int.floor (R (a1 / E)) = A := by
  have hq1 : (A : ℚ) ≤ a1 / E := by rwa [le_div_iff₀ hE]
  have hq2 : a1 / E ≤ (A : ℚ) + 1 - 8 * U / E := by
    rw [div_le_iff₀ hE, sub_mul, div_mul_cancel₀ _ (ne_of_gt hE)]
    exact hhi
  have hUE : 0 < U / E := div_pos hU hE
  have habs : |a1 / E| ≤ α + 1 := by
    rw [abs_le]
    constructor
    · linarith
    · have : 8 * U / E = 8 * (U / E) := by ring
      linarith
  have hr := (hR _ _ habs).2
  have hsm : (α + 1) / 16777216 + 1 / 2 ^ 150 ≤ 2 * (U / E) := by
    rw [show 2 * (U / E) = (2 * U) / E by ring, le_div_iff₀ hE]
    have e : ((α + 1) / 16777216 + 1 / 2 ^ 150) * E
        = (α + 1) * E / 16777216 + E * (1 / 2 ^ 150) := by ring
    rw [e]
    have h0 : (0 : ℚ) ≤ 1 / 2 ^ 150 := by positivity
    linarith
  rw [Int.floor_eq_iff]
  constructor
  · have := hmono _ _ hq1
    rwa [hint] at this
  · have : 8 * U / E = 8 * (U / E) := by ring
    linarith

/-- The absolute block index computed at the single-precision centre of a block within
the margin is the index of the block. -/
theorem AbsBlockOf_BlockCentreOf (g : ARandomMapGenerator) (A : Int)
    (hB : 1 / 500 < g.BlockSize) (hS : 0 ≤ g.BlockSpacing) (hn : 1 ≤ g.ChunkSize)
    (hM : ((|A| + g.ChunkSize + 2 : Int) : ℚ) * (g.BlockSize + g.BlockSpacing)
      ≤ 1048576 * (g.BlockSize / 2 - F32.Round (1 / 1000))) :
    g.AbsBlockOf (g.BlockCentreOf A) = A := by
  obtain ⟨hE0, hElo, hEhi, hN, h16⟩ :=
    margin_facts A g.ChunkSize g.BlockSize g.BlockSpacing hB hS hn hM
  obtain ⟨hEpos, hω, _⟩ := margin_unit A g.ChunkSize g.BlockSize g.BlockSpacing hB hS hn hM
  obtain ⟨hw1, hw2⟩ := centre_window g A hB hS hn hM
  have hα0 : (0 : ℚ) ≤ ((|A| : Int) : ℚ) := by exact_mod_cast abs_nonneg A
  have hn1 : (1 : ℚ) ≤ (g.ChunkSize : ℚ) := by exact_mod_cast hn
  have hAabs : |A| ≤ 16777216 := by
    have : ((|A| : Int) : ℚ) ≤ 16777216 := by linarith
    exact_mod_cast this
  have ha : |(A : ℚ)| = ((|A| : Int) : ℚ) := (Int.cast_abs).symm
  obtain ⟨ha1, ha2⟩ := abs_le.1 (le_of_eq ha)
  have hcast : ((|A| + g.ChunkSize + 2 : Int) : ℚ)
      = ((|A| : Int) : ℚ) + (g.ChunkSize : ℚ) + 2 := by push_cast; ring
  have hUE : 2 * ((g.BlockSize + g.BlockSpacing) / 16777216)
      ≤ ((|A| + g.ChunkSize + 2 : Int) : ℚ) * (g.BlockSize + g.BlockSpacing) / 16777216 := by
    rw [hcast]
    have : 2 * (g.BlockSize + g.BlockSpacing)
        ≤ (((|A| : Int) : ℚ) + (g.ChunkSize : ℚ) + 2) * (g.BlockSize + g.BlockSpacing) := by
      nlinarith
    linarith
  have hU0 : 0 < ((|A| + g.ChunkSize + 2 : Int) : ℚ) * (g.BlockSize + g.BlockSpacing)
      / 16777216 := by
    have : 0 < (g.BlockSize + g.BlockSpacing) / 16777216 := div_pos hE0 (by norm_num)
    linarith
  have hη : F32.Round (g.BlockSize + g.BlockSpacing) * (1 / 2 ^ 150)
      ≤ ((|A| + g.ChunkSize + 2 : Int) : ℚ) * (g.BlockSize + g.BlockSpacing) / 16777216 := by
    have h1 : F32.Round (g.BlockSize + g.BlockSpacing) * (1 / 2 ^ 150)
        ≤ ((g.BlockSize + g.BlockSpacing) * (1 + 1 / 8388608)) * (1 / 2 ^ 150) :=
      mul_le_mul_of_nonneg_right hEhi (by positivity)
    have h2 : ((g.BlockSize + g.BlockSpacing) * (1 + 1 / 8388608)) * (1 / 2 ^ 150)
        ≤ 2 * ((g.BlockSize + g.BlockSpacing) / 16777216) := by
      have e : ((g.BlockSize + g.BlockSpacing) * (1 + 1 / 8388608)) * (1 / 2 ^ 150 : ℚ)
          = (g.BlockSize + g.BlockSpacing) * ((1 + 1 / 8388608) * (1 / 2 ^ 150)) := by ring
      have e2 : 2 * ((g.BlockSize + g.BlockSpacing) / 16777216)
          = (g.BlockSize + g.BlockSpacing) * (2 / 16777216) := by ring
      rw [e, e2]
      exact mul_le_mul_of_nonneg_left (by norm_num) (le_of_lt hE0)
    linarith
  exact block_floor_core F32.Round A ((|A| : Int) : ℚ) _ _ _ F32.Round_mono F32.Round_within
    (F32.Round_intCast A hAabs) ha1 ha2 hEpos hU0 hω hη (by linarith) (by linarith)

/-- A value inside the chunk of index `c`, ten units of error away from its faces, divided
by the single-precision chunk extent `W` in single precision, floors to `c`. -/
theorem chunk_floor_core (R : ℚ → ℚ) (c : Int) (γ C W Uw U a1 : ℚ)
    (hmono : ∀ x y : ℚ, x ≤ y → R x ≤ R y)
    (hR : ∀ q M : ℚ, |q| ≤ M →
      q - (M / 16777216 + 1 / 2 ^ 150) ≤ R q ∧ R q ≤ q + (M / 16777216 + 1 / 2 ^ 150))
    (hint : R (c : ℚ) = (c : ℚ))
    (hc1 : -γ ≤ (c : ℚ)) (hc2 : (c : ℚ) ≤ γ) (hW : 0 < W) (hU : 0 < U)
    (hW1 : C - Uw ≤ W) (hW2 : W ≤ C + Uw)
    (hb1 : (γ + 1) * Uw ≤ 4 * U)
    (hb2 : ((γ + 1) / 16777216 + 1 / 2 ^ 150) * W ≤ 4 * U)
    (hlo : (c : ℚ) * C + 10 * U ≤ a1) (hhi : a1 ≤ ((c : ℚ) + 1) * C - 10 * U) :
    Int.floor (R (a1 / W)) = c := by
  have hγ : 0 ≤ γ := by linarith
  -- the chunk faces in units of `W`
  have hd1 : (c : ℚ) * W ≤ (c : ℚ) * C + γ * Uw := by
    have h1 : |(c : ℚ) * (W - C)| ≤ γ * Uw := by
      rw [abs_mul]
      exact mul_le_mul (abs_le.2 ⟨hc1, hc2⟩) (abs_le.2 ⟨by linarith, by linarith⟩)
        (abs_nonneg _) hγ
    have h2 := (abs_le.1 h1).2
    linarith
  have hd2 : ((c : ℚ) + 1) * C - (γ + 1) * Uw ≤ ((c : ℚ) + 1) * W := by
    have h1 : |((c : ℚ) + 1) * (W - C)| ≤ (γ + 1) * Uw := by
      rw [abs_mul]
      exact mul_le_mul (abs_le.2 ⟨by linarith, by linarith⟩)
        (abs_le.2 ⟨by linarith, by linarith⟩) (abs_nonneg _) (by linarith)
    have h2 := (abs_le.1 h1).1
    linarith
  have hγU : γ * Uw ≤ (γ + 1) * Uw := by nlinarith
  have hq1 : (c : ℚ) ≤ a1 / W := by
    rw [le_div_iff₀ hW]
    linarith
  have hq2 : a1 / W ≤ (c : ℚ) + 1 - 6 * (U / W) := by
    rw [div_le_iff₀ hW, sub_mul]
    have e : 6 * (U / W) * W = 6 * U := by
      rw [mul_assoc, div_mul_cancel₀ _ (ne_of_gt hW)]
    rw [e]
    linarith
  have hUW : 0 < U / W := div_pos hU hW
  have habs : |a1 / W| ≤ γ + 1 := by
    rw [abs_le]
    constructor <;> linarith
  have hr := (hR _ _ habs).2
  have hsm : (γ + 1) / 16777216 + 1 / 2 ^ 150 ≤ 4 * (U / W) := by
    rw [show 4 * (U / W) = (4 * U) / W by ring, le_div_iff₀ hW]
    exact hb2
  rw [Int.floor_eq_iff]
  constructor
  · have := hmono _ _ hq1
    rwa [hint] at this
  · linarith

set_option maxHeartbeats 1000000 in
/-- The chunk floor of a value inside the block of index `c * n + p`, ten units of error
away from its faces, for a chunk extent `W` that is the rounding of `n * E`. -/
theorem chunk_floor_of_window (R : ℚ → ℚ) (c p n : Int) (E E0 W a1 : ℚ)
    (hmono : ∀ x y : ℚ, x ≤ y → R x ≤ R y)
    (hR : ∀ q M : ℚ, |q| ≤ M →
      q - (M / 16777216 + 1 / 2 ^ 150) ≤ R q ∧ R q ≤ q + (M / 16777216 + 1 / 2 ^ 150))
    (hint : R (c : ℚ) = (c : ℚ))
    (hn : 1 ≤ n) (hp0 : 0 ≤ p) (hp1 : p < n) (hE0 : 0 < E0) (hE1 : 1 / 1000 ≤ E)
    (hN : ((|c * n + p| : Int) : ℚ) + (n : ℚ) + 2 ≤ 524288)
    (hω2 : (((|c * n + p| : Int) : ℚ) + (n : ℚ) + 2) * E / 16777216 + 1048576 / 2 ^ 150
      ≤ 3 / 2 * (((|c * n + p| + n + 2 : Int) : ℚ) * E0 / 16777216))
    (hW1 : (n : ℚ) * E - ((n : ℚ) * E / 16777216 + 1 / 2 ^ 150) ≤ W)
    (hW2 : W ≤ (n : ℚ) * E + ((n : ℚ) * E / 16777216 + 1 / 2 ^ 150))
    (hw1 : ((c * n + p : Int) : ℚ) * E
        + 10 * (((|c * n + p| + n + 2 : Int) : ℚ) * E0 / 16777216) ≤ a1)
    (hw2 : a1 ≤ (((c * n + p : Int) : ℚ) + 1) * E
        - 10 * (((|c * n + p| + n + 2 : Int) : ℚ) * E0 / 16777216)) :
    Int.floor (R (a1 / W)) = c := by
  have hEpos : 0 < E := by linarith
  have hα0 : (0 : ℚ) ≤ ((|c * n + p| : Int) : ℚ) := by exact_mod_cast abs_nonneg _
  have hn1 : (1 : ℚ) ≤ (n : ℚ) := by exact_mod_cast hn
  have hp0q : (0 : ℚ) ≤ (p : ℚ) := by exact_mod_cast hp0
  have hp1q : (p : ℚ) + 1 ≤ (n : ℚ) := by
    have : p + 1 ≤ n := hp1
    exact_mod_cast this
  have hcast : ((|c * n + p| + n + 2 : Int) : ℚ)
      = ((|c * n + p| : Int) : ℚ) + (n : ℚ) + 2 := by push_cast; ring
  have hci : |c| * n ≤ |c * n + p| + n := by
    have h1 : |c| * n = |c * n| := by
      rw [abs_mul, abs_of_pos (by omega : (0 : Int) < n)]
    have h2 : |c * n| ≤ |c * n + p| + |p| := by
      have := abs_sub (c * n + p) p
      simpa using this
    rw [abs_of_nonneg hp0] at h2
    omega
  have hcq : ((|c| : Int) : ℚ) * (n : ℚ) ≤ ((|c * n + p| : Int) : ℚ) + (n : ℚ) := by
    exact_mod_cast hci
  have hγ0 : (0 : ℚ) ≤ ((|c| : Int) : ℚ) := by exact_mod_cast abs_nonneg c
  have hγN : ((|c| : Int) : ℚ) ≤ 524288 := by nlinarith
  have hc : |(c : ℚ)| = ((|c| : Int) : ℚ) := (Int.cast_abs).symm
  obtain ⟨hc1, hc2⟩ := abs_le.1 (le_of_eq hc)
  rw [hcast] at hω2 hw1 hw2
  generalize hUdef : (((|c * n + p| : Int) : ℚ) + (n : ℚ) + 2) * E0 / 16777216 = U
    at hω2 hw1 hw2
  have hU0 : 0 < U := by
    rw [← hUdef]
    have : 0 < (((|c * n + p| : Int) : ℚ) + (n : ℚ) + 2) * E0 := mul_pos (by linarith) hE0
    positivity
  have hC0 : 0 < (n : ℚ) * E := mul_pos (by linarith) hEpos
  have hgn : (((|c| : Int) : ℚ) + 1) * ((n : ℚ) * E)
      ≤ 2 * ((((|c * n + p| : Int) : ℚ) + (n : ℚ) + 2) * E) := by
    have h1 : (((|c| : Int) : ℚ) + 1) * (n : ℚ)
        ≤ 2 * (((|c * n + p| : Int) : ℚ) + (n : ℚ) + 2) := by linarith
    have := mul_le_mul_of_nonneg_right h1 (le_of_lt hEpos)
    linarith
  have hγη : (((|c| : Int) : ℚ) + 1) * (1 / 2 ^ 150) ≤ 1048576 / 2 ^ 150 := by
    have : (((|c| : Int) : ℚ) + 1) * (1 / 2 ^ 150) ≤ 1048576 * (1 / 2 ^ 150) :=
      mul_le_mul_of_nonneg_right (by linarith) (by positivity)
    linarith
  have hη0 : (0 : ℚ) ≤ 1048576 / 2 ^ 150 := by positivity
  have hb1 : (((|c| : Int) : ℚ) + 1) * ((n : ℚ) * E / 16777216 + 1 / 2 ^ 150) ≤ 3 * U := by
    have e : (((|c| : Int) : ℚ) + 1) * ((n : ℚ) * E / 16777216 + 1 / 2 ^ 150)
        = (((|c| : Int) : ℚ) + 1) * ((n : ℚ) * E) / 16777216
          + (((|c| : Int) : ℚ) + 1) * (1 / 2 ^ 150) := by ring
    rw [e]
    have h2 : (((|c| : Int) : ℚ) + 1) * ((n : ℚ) * E) / 16777216
        ≤ 2 * ((((|c * n + p| : Int) : ℚ) + (n : ℚ) + 2) * E) / 16777216 :=
      div_le_div_of_nonneg_right hgn (by norm_num)
    linarith
  have hWpos : 0 < W := by
    have h1 : (1 : ℚ) / 2 ^ 150 < (n : ℚ) * E / 2 := by
      have h2 : (1 : ℚ) / 2 ^ 150 < (1 / 1000) / 2 := by norm_num
      have h4 : E ≤ (n : ℚ) * E := by nlinarith
      linarith
    linarith
  have hb2 : ((((|c| : Int) : ℚ) + 1) / 16777216 + 1 / 2 ^ 150) * W ≤ 4 * U := by
    have h1 : (((|c| : Int) : ℚ) + 1) * W
        ≤ (((|c| : Int) : ℚ) + 1)
          * ((n : ℚ) * E + ((n : ℚ) * E / 16777216 + 1 / 2 ^ 150)) :=
      mul_le_mul_of_nonneg_left hW2 (by linarith)
    have h5 : (1 : ℚ) / 2 ^ 150 * W
        ≤ 1 / 2 ^ 150 * ((n : ℚ) * E + ((n : ℚ) * E / 16777216 + 1 / 2 ^ 150)) :=
      mul_le_mul_of_nonneg_left hW2 (by positivity)
    have h6 : (n : ℚ) * E ≤ (((|c * n + p| : Int) : ℚ) + (n : ℚ) + 2) * E :=
      mul_le_mul_of_nonneg_right (by linarith) (le_of_lt hEpos)
    have e : ((((|c| : Int) : ℚ) + 1) / 16777216 + 1 / 2 ^ 150) * W
        = (((|c| : Int) : ℚ) + 1) * W / 16777216 + 1 / 2 ^ 150 * W := by ring
    rw [e]
    have h7 : (((|c| : Int) : ℚ) + 1) * W / 16777216
        ≤ ((((|c| : Int) : ℚ) + 1)
          * ((n : ℚ) * E + ((n : ℚ) * E / 16777216 + 1 / 2 ^ 150))) / 16777216 :=
      div_le_div_of_nonneg_right h1 (by norm_num)
    have e2 : ((((|c| : Int) : ℚ) + 1)
          * ((n : ℚ) * E + ((n : ℚ) * E / 16777216 + 1 / 2 ^ 150))) / 16777216
        = (((|c| : Int) : ℚ) + 1) * ((n : ℚ) * E) / 16777216
          + ((((|c| : Int) : ℚ) + 1) * ((n : ℚ) * E / 16777216 + 1 / 2 ^ 150)) / 16777216 := by
      ring
    rw [e2] at h7
    have h8 : (((|c| : Int) : ℚ) + 1) * ((n : ℚ) * E) / 16777216
        ≤ 2 * ((((|c * n + p| : Int) : ℚ) + (n : ℚ) + 2) * E) / 16777216 :=
      div_le_div_of_nonneg_right hgn (by norm_num)
    have h9 : ((((|c| : Int) : ℚ) + 1) * ((n : ℚ) * E / 16777216 + 1 / 2 ^ 150)) / 16777216
        ≤ 3 * U / 16777216 := div_le_div_of_nonneg_right hb1 (by norm_num)
    have h10 : (1 : ℚ) / 2 ^ 150 * ((n : ℚ) * E + ((n : ℚ) * E / 16777216 + 1 / 2 ^ 150))
        ≤ U / 2 := by
      have h11 : (n : ℚ) * E / 16777216 ≤ 3 / 2 * U := by
        have := div_le_div_of_nonneg_right h6 (by norm_num : (0 : ℚ) ≤ 16777216)
        linarith
      have h12 : (n : ℚ) * E + ((n : ℚ) * E / 16777216 + 1 / 2 ^ 150) ≤ 33554432 * U := by
        have : (1 : ℚ) / 2 ^ 150 ≤ 1048576 / 2 ^ 150 := by norm_num
        linarith
      have h13 : (1 : ℚ) / 2 ^ 150 * ((n : ℚ) * E + ((n : ℚ) * E / 16777216 + 1 / 2 ^ 150))
          ≤ 1 / 2 ^ 150 * (33554432 * U) := mul_le_mul_of_nonneg_left h12 (by positivity)
      have h14 : (1 : ℚ) / 2 ^ 150 * (33554432 * U) ≤ U / 2 := by
        have : (1 : ℚ) / 2 ^ 150 * (33554432 * U) = (33554432 / 2 ^ 150) * U := by ring
        rw [this]
        have h15 : (33554432 : ℚ) / 2 ^ 150 ≤ 1 / 2 := by norm_num
        have := mul_le_mul_of_nonneg_right h15 (le_of_lt hU0)
        linarith
      linarith
    linarith
  have hAcast : (((c * n + p : Int)) : ℚ) = (c : ℚ) * (n : ℚ) + (p : ℚ) := by
    push_cast; ring
  rw [hAcast] at hw1 hw2
  have hpE1 : 0 ≤ (p : ℚ) * E := mul_nonneg hp0q (le_of_lt hEpos)
  have hpE2 : ((p : ℚ) + 1) * E ≤ (n : ℚ) * E :=
    mul_le_mul_of_nonneg_right hp1q (le_of_lt hEpos)
  refine chunk_floor_core R c ((|c| : Int) : ℚ) ((n : ℚ) * E) W
    ((n : ℚ) * E / 16777216 + 1 / 2 ^ 150) U a1 hmono hR hint hc1 hc2 hWpos hU0
    hW1 hW2 (by linarith) hb2 ?_ ?_
  · linarith
  · linarith

/-- The chunk index computed from the single-precision centre of a block within the margin
is the chunk of the block. -/
theorem ChunkOf_BlockCentreOf (g : ARandomMapGenerator) (c p : Int)
    (hB : 1 / 500 < g.BlockSize) (hS : 0 ≤ g.BlockSpacing) (hn : 1 ≤ g.ChunkSize)
    (hp0 : 0 ≤ p) (hp1 : p < g.ChunkSize)
    (hM : ((|c * g.ChunkSize + p| + g.ChunkSize + 2 : Int) : ℚ)
        * (g.BlockSize + g.BlockSpacing)
      ≤ 1048576 * (g.BlockSize / 2 - F32.Round (1 / 1000))) :
    Int.floor (F32.Round
        (F32.Round (g.BlockCentreOf (c * g.ChunkSize + p) + F32.Round (1 / 1000))
          / F32.Round (F32.Round (g.ChunkSize : ℚ)
              * F32.Round (g.BlockSize + g.BlockSpacing)))) = c := by
  obtain ⟨hE0, hElo, hEhi, hN, h16⟩ :=
    margin_facts (c * g.ChunkSize + p) g.ChunkSize g.BlockSize g.BlockSpacing hB hS hn hM
  obtain ⟨hEpos, hω, hω2⟩ :=
    margin_unit (c * g.ChunkSize + p) g.ChunkSize g.BlockSize g.BlockSpacing hB hS hn hM
  obtain ⟨hw1, hw2⟩ := centre_window g (c * g.ChunkSize + p) hB hS hn hM
  have hE1 : 1 / 1000 ≤ F32.Round (g.BlockSize + g.BlockSpacing) := by
    have h3 : (1 / 500 : ℚ) * (1 - 1 / 8388608)
        ≤ (g.BlockSize + g.BlockSpacing) * (1 - 1 / 8388608) :=
      mul_le_mul_of_nonneg_right (by linarith) (by norm_num)
    have h4 : (1 / 1000 : ℚ) ≤ 1 / 500 * (1 - 1 / 8388608) := by norm_num
    linarith
  have hn1 : (1 : ℚ) ≤ (g.ChunkSize : ℚ) := by exact_mod_cast hn
  have hα0 : (0 : ℚ) ≤ ((|c * g.ChunkSize + p| : Int) : ℚ) := by exact_mod_cast abs_nonneg _
  have hnabs : |g.ChunkSize| ≤ 16777216 := by
    rw [abs_of_pos (by omega : (0 : Int) < g.ChunkSize)]
    have : (g.ChunkSize : ℚ) ≤ 16777216 := by linarith
    exact_mod_cast this
  have hcabs : |c| ≤ 16777216 := by
    have hci : |c| * g.ChunkSize ≤ |c * g.ChunkSize + p| + g.ChunkSize := by
      have h1 : |c| * g.ChunkSize = |c * g.ChunkSize| := by
        rw [abs_mul, abs_of_pos (by omega : (0 : Int) < g.ChunkSize)]
      have h2 : |c * g.ChunkSize| ≤ |c * g.ChunkSize + p| + |p| := by
        have := abs_sub (c * g.ChunkSize + p) p
        simpa using this
      rw [abs_of_nonneg hp0] at h2
      omega
    have hcq : ((|c| : Int) : ℚ) * (g.ChunkSize : ℚ)
        ≤ ((|c * g.ChunkSize + p| : Int) : ℚ) + (g.ChunkSize : ℚ) := by exact_mod_cast hci
    have hγ0 : (0 : ℚ) ≤ ((|c| : Int) : ℚ) := by exact_mod_cast abs_nonneg c
    have : ((|c| : Int) : ℚ) ≤ 16777216 := by nlinarith
    exact_mod_cast this
  have hC0 : 0 < (g.ChunkSize : ℚ) * F32.Round (g.BlockSize + g.BlockSpacing) :=
    mul_pos (by linarith) hEpos
  have hWr := F32.Round_within
    ((g.ChunkSize : ℚ) * F32.Round (g.BlockSize + g.BlockSpacing)) _
    (le_of_eq (abs_of_pos hC0))
  have hint : F32.Round ((g.ChunkSize : Int) : ℚ) = (g.ChunkSize : ℚ) :=
    F32.Round_intCast _ hnabs
  rw [hint]
  exact chunk_floor_of_window F32.Round c p g.ChunkSize _ (g.BlockSize + g.BlockSpacing) _ _
    F32.Round_mono F32.Round_within (F32.Round_intCast c hcabs) hn hp0 hp1 hE0 hE1 hN hω2
    hWr.1 hWr.2 hw1 hw2

/-- The chunk and local index that `WorldToBlockPosition` derives from an absolute block
index `c * ChunkSize + p` within the margin are `c` and `p`. -/
theorem local_of_block_index (g : ARandomMapGenerator) (c p : Int)
    (hB : 1 / 500 < g.BlockSize) (hS : 0 ≤ g.BlockSpacing) (hn : 1 ≤ g.ChunkSize)
    (hp0 : 0 ≤ p) (hp1 : p < g.ChunkSize)
    (hM : WithinCentreMargin g (c * g.ChunkSize + p)) :
    (c * g.ChunkSize + p)
      - Int.floor (F32.Round (F32.Round ((c * g.ChunkSize + p : Int) : ℚ)
          / F32.Round (g.ChunkSize : ℚ))) * g.ChunkSize = p := by
  obtain ⟨hE0, _, _, hN, _⟩ :=
    margin_facts (c * g.ChunkSize + p) g.ChunkSize g.BlockSize g.BlockSpacing hB hS hn hM
  have hα0 : (0 : ℚ) ≤ ((|c * g.ChunkSize + p| : Int) : ℚ) := by exact_mod_cast abs_nonneg _
  have hn1 : (1 : ℚ) ≤ (g.ChunkSize : ℚ) := by exact_mod_cast hn
  have hA : |c * g.ChunkSize + p| < 16777216 := by
    have : ((|c * g.ChunkSize + p| : Int) : ℚ) < 16777216 := by linarith
    exact_mod_cast this
  have hn2 : g.ChunkSize ≤ 16777216 := by
    have : (g.ChunkSize : ℚ) ≤ 16777216 := by linarith
    exact_mod_cast this
  rw [floor_Round_div _ _ hn hn2 hA, floor_chunk_of_local c p g.ChunkSize hp0 hp1]
  ring

/-- The local index that `WorldToBlockPosition` derives from an absolute block index below
`2 ^ 24` is its Euclidean remainder by the chunk size. -/
theorem local_is_emod (A n : Int) (hn : 1 ≤ n) (hn2 : n ≤ 16777216) (hA : |A| < 16777216) :
    A - Int.floor (F32.Round (F32.Round (A : ℚ) / F32.Round (n : ℚ))) * n = Int.emod A n ∧
    0 ≤ Int.emod A n ∧ Int.emod A n < n := by
  rw [floor_Round_div A n hn hn2 hA]
  obtain ⟨h0, h1⟩ := floor_div_remainder A n hn
  have e : Int.emod A n
      = A - Int.floor ((A : ℚ) / (n : ℚ)) * n := by
    have h2 : (A - Int.floor ((A : ℚ) / (n : ℚ)) * n) % n = A % n := by
      have h4 : (A - Int.floor ((A : ℚ) / (n : ℚ)) * n + Int.floor ((A : ℚ) / (n : ℚ)) * n) % n
          = (A - Int.floor ((A : ℚ) / (n : ℚ)) * n) % n := Int.add_mul_emod_self
      rw [sub_add_cancel] at h4
      exact h4.symm
    have h3 : (A - Int.floor ((A : ℚ) / (n : ℚ)) * n) % n
        = A - Int.floor ((A : ℚ) / (n : ℚ)) * n := Int.emod_eq_of_lt h0 h1
    show A % n = _
    rw [← h2, h3]
  rw [e]
  exact ⟨rfl, h0, h1⟩

/-- The absolute block index computed at a world coordinate well inside a block within the
margin is the index of the block. -/
theorem AbsBlockOf_of_window (g : ARandomMapGenerator) (A : Int) (w : ℚ)
    (hB : 1 / 500 < g.BlockSize) (hS : 0 ≤ g.BlockSpacing) (hn : 1 ≤ g.ChunkSize)
    (hM : WithinCentreMargin g A) (hw : WellInsideBlock g w A) :
    g.AbsBlockOf w = A := by
  obtain ⟨hE0, hElo, hEhi, hN, h16⟩ :=
    margin_facts A g.ChunkSize g.BlockSize g.BlockSpacing hB hS hn hM
  obtain ⟨hEpos, hω, _⟩ := margin_unit A g.ChunkSize g.BlockSize g.BlockSpacing hB hS hn hM
  obtain ⟨hw1, hw2⟩ := hw
  have hα0 : (0 : ℚ) ≤ ((|A| : Int) : ℚ) := by exact_mod_cast abs_nonneg A
  have hn1 : (1 : ℚ) ≤ (g.ChunkSize : ℚ) := by exact_mod_cast hn
  have hAabs : |A| ≤ 16777216 := by
    have : ((|A| : Int) : ℚ) ≤ 16777216 := by linarith
    exact_mod_cast this
  have ha : |(A : ℚ)| = ((|A| : Int) : ℚ) := (Int.cast_abs).symm
  obtain ⟨ha1, ha2⟩ := abs_le.1 (le_of_eq ha)
  have hcast : ((|A| + g.ChunkSize + 2 : Int) : ℚ)
      = ((|A| : Int) : ℚ) + (g.ChunkSize : ℚ) + 2 := by push_cast; ring
  have hUE : 2 * ((g.BlockSize + g.BlockSpacing) / 16777216)
      ≤ ((|A| + g.ChunkSize + 2 : Int) : ℚ) * (g.BlockSize + g.BlockSpacing) / 16777216 := by
    rw [hcast]
    have : 2 * (g.BlockSize + g.BlockSpacing)
        ≤ (((|A| : Int) : ℚ) + (g.ChunkSize : ℚ) + 2) * (g.BlockSize + g.BlockSpacing) := by
      nlinarith
    linarith
  have hU0 : 0 < ((|A| + g.ChunkSize + 2 : Int) : ℚ) * (g.BlockSize + g.BlockSpacing)
      / 16777216 := by
    have : 0 < (g.BlockSize + g.BlockSpacing) / 16777216 := div_pos hE0 (by norm_num)
    linarith
  have hη : F32.Round (g.BlockSize + g.BlockSpacing) * (1 / 2 ^ 150)
      ≤ ((|A| + g.ChunkSize + 2 : Int) : ℚ) * (g.BlockSize + g.BlockSpacing) / 16777216 := by
    have h1 : F32.Round (g.BlockSize + g.BlockSpacing) * (1 / 2 ^ 150)
        ≤ ((g.BlockSize + g.BlockSpacing) * (1 + 1 / 8388608)) * (1 / 2 ^ 150) :=
      mul_le_mul_of_nonneg_right hEhi (by positivity)
    have h2 : ((g.BlockSize + g.BlockSpacing) * (1 + 1 / 8388608)) * (1 / 2 ^ 150)
        ≤ 2 * ((g.BlockSize + g.BlockSpacing) / 16777216) := by
      have e : ((g.BlockSize + g.BlockSpacing) * (1 + 1 / 8388608)) * (1 / 2 ^ 150 : ℚ)
          = (g.BlockSize + g.BlockSpacing) * ((1 + 1 / 8388608) * (1 / 2 ^ 150)) := by ring
      have e2 : 2 * ((g.BlockSize + g.BlockSpacing) / 16777216)
          = (g.BlockSize + g.BlockSpacing) * (2 / 16777216) := by ring
      rw [e, e2]
      exact mul_le_mul_of_nonneg_left (by norm_num) (le_of_lt hE0)
    linarith
  exact block_floor_core F32.Round A ((|A| : Int) : ℚ) _ _ _ F32.Round_mono F32.Round_within
    (F32.Round_intCast A hAabs) ha1 ha2 hEpos hU0 hω hη (by linarith) (by linarith)


/-- The chunk index computed at a world coordinate well inside a block within the margin
is the chunk of the block. -/
theorem ChunkOf_of_window (g : ARandomMapGenerator) (c p : Int) (w : ℚ)
    (hB : 1 / 500 < g.BlockSize) (hS : 0 ≤ g.BlockSpacing) (hn : 1 ≤ g.ChunkSize)
    (hp0 : 0 ≤ p) (hp1 : p < g.ChunkSize)
    (hM : WithinCentreMargin g (c * g.ChunkSize + p))
    (hw : WellInsideBlock g w (c * g.ChunkSize + p)) :
    Int.floor (F32.Round
        (F32.Round (w + F32.Round (1 / 1000))
          / F32.Round (F32.Round (g.ChunkSize : ℚ)
              * F32.Round (g.BlockSize + g.BlockSpacing)))) = c := by
  obtain ⟨hE0, hElo, hEhi, hN, h16⟩ :=
    margin_facts (c * g.ChunkSize + p) g.ChunkSize g.BlockSize g.BlockSpacing hB hS hn hM
  obtain ⟨hEpos, hω, hω2⟩ :=
    margin_unit (c * g.ChunkSize + p) g.ChunkSize g.BlockSize g.BlockSpacing hB hS hn hM
  obtain ⟨hw1, hw2⟩ := hw
  have hE1 : 1 / 1000 ≤ F32.Round (g.BlockSize + g.BlockSpacing) := by
    have h3 : (1 / 500 : ℚ) * (1 - 1 / 8388608)
        ≤ (g.BlockSize + g.BlockSpacing) * (1 - 1 / 8388608) :=
      mul_le_mul_of_nonneg_right (by linarith) (by norm_num)
    have h4 : (1 / 1000 : ℚ) ≤ 1 / 500 * (1 - 1 / 8388608) := by norm_num
    linarith
  have hn1 : (1 : ℚ) ≤ (g.ChunkSize : ℚ) := by exact_mod_cast hn
  have hα0 : (0 : ℚ) ≤ ((|c * g.ChunkSize + p| : Int) : ℚ) := by exact_mod_cast abs_nonneg _
  have hnabs : |g.ChunkSize| ≤ 16777216 := by
    rw [abs_of_pos (by omega : (0 : Int) < g.ChunkSize)]
    have : (g.ChunkSize : ℚ) ≤ 16777216 := by linarith
    exact_mod_cast this
  have hcabs : |c| ≤ 16777216 := by
    have hci : |c| * g.ChunkSize ≤ |c * g.ChunkSize + p| + g.ChunkSize := by
      have h1 : |c| * g.ChunkSize = |c * g.ChunkSize| := by
        rw [abs_mul, abs_of_pos (by omega : (0 : Int) < g.ChunkSize)]
      have h2 : |c * g.ChunkSize| ≤ |c * g.ChunkSize + p| + |p| := by
        have := abs_sub (c * g.ChunkSize + p) p
        simpa using this
      rw [abs_of_nonneg hp0] at h2
      omega
    have hcq : ((|c| : Int) : ℚ) * (g.ChunkSize : ℚ)
        ≤ ((|c * g.ChunkSize + p| : Int) : ℚ) + (g.ChunkSize : ℚ) := by exact_mod_cast hci
    have hγ0 : (0 : ℚ) ≤ ((|c| : Int) : ℚ) := by exact_mod_cast abs_nonneg c
    have : ((|c| : Int) : ℚ) ≤ 16777216 := by nlinarith
    exact_mod_cast this
  have hC0 : 0 < (g.ChunkSize : ℚ) * F32.Round (g.BlockSize + g.BlockSpacing) :=
    mul_pos (by linarith) hEpos
  have hWr := F32.Round_within
    ((g.ChunkSize : ℚ) * F32.Round (g.BlockSize + g.BlockSpacing)) _
    (le_of_eq (abs_of_pos hC0))
  have hint : F32.Round ((g.ChunkSize : Int) : ℚ) = (g.ChunkSize : ℚ) :=
    F32.Round_intCast _ hnabs
  rw [hint]
  exact chunk_floor_of_window F32.Round c p g.ChunkSize _ (g.BlockSize + g.BlockSpacing) _ _
    F32.Round_mono F32.Round_within (F32.Round_intCast c hcabs) hn hp0 hp1 hE0 hE1 hN hω2
    hWr.1 hWr.2 hw1 hw2

/-- A coordinate whose rounded shifted value lies ten error units inside the block of
index `A`, between `A` and `A + 1` rounded block sizes `Ef`, lies in the block in exact
arithmetic, between `A` and `A + 1` exact block sizes `E`, also when shifted by the exact
epsilon. -/
theorem exact_floor_core (A : Int) (α E Ef U q x ε0 : ℚ)
    (ha1 : -α ≤ (A : ℚ)) (ha2 : (A : ℚ) ≤ α) (hE : 0 < E)
    (hEf1 : E * (1 - 1 / 8388608) ≤ Ef) (hEf2 : Ef ≤ E * (1 + 1 / 8388608))
    (hω : (α + 1) * Ef / 16777216 + 1 / 2 ^ 150 ≤ U)
    (hUE : (α + 2) * E / 16777216 ≤ U) (hU : 1 / 2 ^ 32 ≤ U)
    (hx : |x - q| ≤ |q| / 16777216 + 1 / 2 ^ 150)
    (hε1 : 0 ≤ ε0) (hε2 : ε0 ≤ 1 / 2 ^ 32)
    (hw1 : (A : ℚ) * Ef + 10 * U ≤ x) (hw2 : x ≤ ((A : ℚ) + 1) * Ef - 10 * U) :
    Int.floor ((q - ε0) / E) = A := by
  have hα0 : 0 ≤ α := by linarith
  have hEf0 : 0 < Ef := lt_of_lt_of_le (mul_pos hE (by norm_num)) hEf1
  have hU0 : 0 < U := by linarith [show (0 : ℚ) < 1 / 2 ^ 32 by norm_num]
  have hd : |Ef - E| ≤ E / 8388608 := by
    rw [abs_le]
    constructor <;> linarith
  have hA : |(A : ℚ)| ≤ α := abs_le.2 ⟨ha1, ha2⟩
  have hAd : |(A : ℚ) * (Ef - E)| ≤ α * (E / 8388608) := by
    rw [abs_mul]
    exact mul_le_mul hA hd (abs_nonneg _) hα0
  obtain ⟨d1, d2⟩ := abs_le.1 hAd
  have hxa : |x| ≤ (α + 1) * Ef := by
    have m1 := mul_le_mul_of_nonneg_right ha1 (le_of_lt hEf0)
    have m2 := mul_le_mul_of_nonneg_right ha2 (le_of_lt hEf0)
    rw [abs_le]
    constructor <;> linarith
  have hq : |q| ≤ |x| + |x - q| := by
    have := abs_sub_abs_le_abs_sub q x
    rw [abs_sub_comm q x] at this
    linarith
  have hq0 : 0 ≤ |q| := abs_nonneg _
  have herr : |x - q| ≤ 2 * U := by
    have h1 : |q| ≤ 2 * (α + 1) * Ef + 1 := by linarith
    have h2 : |q| / 16777216 ≤ ((α + 1) * Ef + |q| / 16777216 + 1 / 2 ^ 150) / 16777216 :=
      div_le_div_of_nonneg_right (by linarith) (by norm_num)
    have h3 : |q| / 16777216 / 16777216 ≤ 1 / 2 ^ 40 + (α + 1) * Ef / 16777216 := by
      have : |q| / 16777216 / 16777216 ≤ (2 * (α + 1) * Ef + 1) / 16777216 / 16777216 :=
        div_le_div_of_nonneg_right (div_le_div_of_nonneg_right h1 (by norm_num)) (by norm_num)
      have hp : 0 ≤ (α + 1) * Ef := mul_nonneg (by linarith) (le_of_lt hEf0)
      have e : (2 * (α + 1) * Ef + 1) / 16777216 / 16777216
          = (α + 1) * Ef / 16777216 * (2 / 16777216) + 1 / 2 ^ 48 := by ring
      have : (α + 1) * Ef / 16777216 * (2 / 16777216) ≤ (α + 1) * Ef / 16777216 := by
        have hp2 : 0 ≤ (α + 1) * Ef / 16777216 := div_nonneg hp (by norm_num)
        exact mul_le_of_le_one_right hp2 (by norm_num)
      have : (1 : ℚ) / 2 ^ 48 ≤ 1 / 2 ^ 40 := by norm_num
      linarith
    have h4 : (1 : ℚ) / 2 ^ 150 ≤ 1 / 2 ^ 40 := by norm_num
    have h5 : (1 : ℚ) / 2 ^ 40 * 4 ≤ 1 / 2 ^ 32 := by norm_num
    have h6 : (1 : ℚ) / 2 ^ 150 / 16777216 ≤ 1 / 2 ^ 40 := by norm_num
    linarith
  obtain ⟨e1, e2⟩ := abs_le.1 herr
  have hαE : α * (E / 8388608) ≤ 2 * U := by
    have : α * (E / 8388608) = 2 * (α * E / 16777216) := by ring
    have h2 : α * E / 16777216 ≤ (α + 2) * E / 16777216 :=
      div_le_div_of_nonneg_right
        (mul_le_mul_of_nonneg_right (by linarith) (le_of_lt hE)) (by norm_num)
    linarith
  have hE8 : E / 8388608 ≤ 2 * U := by
    have : E / 8388608 = 2 * E / 16777216 := by ring
    have h2 : 2 * E / 16777216 ≤ (α + 2) * E / 16777216 :=
      div_le_div_of_nonneg_right
        (mul_le_mul_of_nonneg_right (by linarith) (le_of_lt hE)) (by norm_num)
    linarith
  rw [Int.floor_eq_iff]
  constructor
  · rw [le_div_iff₀ hE]
    have : (A : ℚ) * Ef = (A : ℚ) * E + (A : ℚ) * (Ef - E) := by ring
    linarith
  · rw [div_lt_iff₀ hE]
    have : ((A : ℚ) + 1) * Ef = ((A : ℚ) + 1) * E + (A : ℚ) * (Ef - E) + (Ef - E) := by ring
    have hd2 := (abs_le.1 hd).2
    linarith

/-- The exact floor quotient at a world coordinate well inside a block within the margin
is the index of the block. -/
theorem ExactFloor_of_window (g : ARandomMapGenerator) (A : Int) (w : ℚ)
    (hB : 1 / 500 < g.BlockSize) (hS : 0 ≤ g.BlockSpacing) (hn : 1 ≤ g.ChunkSize)
    (hM : WithinCentreMargin g A) (hw : WellInsideBlock g w A) :
    Int.floor ((w + 1 / 1000) / (g.BlockSize + g.BlockSpacing)) = A := by
  obtain ⟨hE0, hElo, hEhi, hN, _⟩ :=
    margin_facts A g.ChunkSize g.BlockSize g.BlockSpacing hB hS hn hM
  obtain ⟨_, hω, _⟩ := margin_unit A g.ChunkSize g.BlockSize g.BlockSpacing hB hS hn hM
  obtain ⟨hw1, hw2⟩ := hw
  have hα0 : (0 : ℚ) ≤ ((|A| : Int) : ℚ) := by exact_mod_cast abs_nonneg A
  have hn1 : (1 : ℚ) ≤ (g.ChunkSize : ℚ) := by exact_mod_cast hn
  have ha : |(A : ℚ)| = ((|A| : Int) : ℚ) := (Int.cast_abs).symm
  obtain ⟨ha1, ha2⟩ := abs_le.1 (le_of_eq ha)
  have hcast : ((|A| + g.ChunkSize + 2 : Int) : ℚ)
      = ((|A| : Int) : ℚ) + (g.ChunkSize : ℚ) + 2 := by push_cast; ring
  have hUE : (((|A| : Int) : ℚ) + 2) * (g.BlockSize + g.BlockSpacing) / 16777216
      ≤ ((|A| + g.ChunkSize + 2 : Int) : ℚ) * (g.BlockSize + g.BlockSpacing) / 16777216 := by
    rw [hcast]
    exact div_le_div_of_nonneg_right
      (mul_le_mul_of_nonneg_right (by linarith) (le_of_lt hE0)) (by norm_num)
  have hU : (1 : ℚ) / 2 ^ 32
      ≤ ((|A| + g.ChunkSize + 2 : Int) : ℚ) * (g.BlockSize + g.BlockSpacing) / 16777216 := by
    have h1 : (2 : ℚ) * (1 / 500) / 16777216
        ≤ (((|A| : Int) : ℚ) + 2) * (g.BlockSize + g.BlockSpacing) / 16777216 :=
      div_le_div_of_nonneg_right
        (mul_le_mul (by linarith) (by linarith) (by norm_num) (by linarith)) (by norm_num)
    have h2 : (1 : ℚ) / 2 ^ 32 ≤ 2 * (1 / 500) / 16777216 := by norm_num
    linarith
  have hε := F32.Round_epsilon
  have core := exact_floor_core A ((|A| : Int) : ℚ) (g.BlockSize + g.BlockSpacing)
    (F32.Round (g.BlockSize + g.BlockSpacing)) _ (w + F32.Round (1 / 1000))
    (F32.Round (w + F32.Round (1 / 1000))) (F32.Round (1 / 1000) - 1 / 1000)
    ha1 ha2 hE0 hElo hEhi hω hUE hU (F32.Round_rel _)
    (by rw [hε]; norm_num) (by rw [hε]; norm_num) hw1 hw2
  have e : w + F32.Round (1 / 1000) - (F32.Round (1 / 1000) - 1 / 1000) = w + 1 / 1000 := by
    ring
  rw [e] at core
  exact core

/-- The health of the record after a hit is the single-precision difference of the health
before it and the damage. -/
theorem DamagedRecord_health (g : ARandomMapGenerator) (k : FWorldBlockKey) (t : EBlockType)
    (Damage : ℚ) : (g.DamagedRecord k t Damage).CurrentHealth = F32.Round (g.CurrentHealthOf k t - Damage) := by
  unfold DamagedRecord CurrentHealthOf
  cases TMap.Find g.BlockDamageData k <;> rfl

/-- The destroy branch on the authority: when the instance removal returns, the branch
returns true, the cell reads Air and its damage record is gone. -/
theorem DestroyBlock_spec (g : ARandomMapGenerator) (c : FChunkCoord) (p : FBlockPosition)
    (t : EBlockType) (hauth : g.Authority = true)
    (hreg : (g.RemoveBlockInstance c p t).isSome) :
    ∃ g1, g.DestroyBlock c p t = some (true, g1) ∧
      g1.GetBlockInternal c p = EBlockType.Air ∧
      TMap.Find g1.BlockDamageData ⟨c, p⟩ = none := by
  obtain ⟨r, hr⟩ := Option.isSome_iff_exists.1 hreg
  have hframe := RemoveBlockInstance_frame g r c p t hr
  have hrauth : r.Authority = true := by
    have := congrArg ARandomMapGenerator.Authority hframe
    exact this.trans hauth
  have h3auth : ({ r.SetBlockInternalWithoutReplication c p EBlockType.Air with
      BlockDamageData := TMap.Remove
        (r.SetBlockInternalWithoutReplication c p EBlockType.Air).BlockDamageData ⟨c, p⟩ } :
      ARandomMapGenerator).Authority = true := by
    simp only [SetBlockInternalWithoutReplication, if_true]
    exact hrauth
  unfold DestroyBlock
  simp only [hr]
  rw [MulticastUpdateBlock_authority _ c p EBlockType.Air h3auth]
  refine ⟨_, rfl, GetBlockInternal_Set_self _ c p EBlockType.Air, ?_⟩
  simp only [SetBlockInternalWithoutReplication, if_true]
  exact TMap.Find_Remove_self _ _

/-- What the local run of the damage multicast leaves on the authority. -/
theorem MulticastBlockDamaged_authority_facts (g : ARandomMapGenerator) (c : FChunkCoord)
    (p : FBlockPosition) (NewHealth : ℚ) (hauth : g.Authority = true)
    (hAir : g.GetBlockInternal c p ≠ EBlockType.Air) :
    (g.MulticastBlockDamaged_Implementation c p NewHealth).Authority = true ∧
    (g.MulticastBlockDamaged_Implementation c p NewHealth).ChunkISMSystem = g.ChunkISMSystem ∧
    (g.MulticastBlockDamaged_Implementation c p NewHealth).GetBlockInternal c p
      = g.GetBlockInternal c p ∧
    ∃ Data, TMap.Find (g.MulticastBlockDamaged_Implementation c p NewHealth).BlockDamageData ⟨c, p⟩
        = some Data ∧ Data.CurrentHealth = NewHealth := by
  rw [MulticastBlockDamaged_authority g c p NewHealth hauth hAir]
  exact ⟨hauth, rfl, rfl, _, TMap.Find_Add_self _ _ _, rfl⟩

/-- The accepted part of `ApplyDamageToBlock` on the authority. -/
theorem DamageBlock_spec (g : ARandomMapGenerator) (c : FChunkCoord) (p : FBlockPosition)
    (t : EBlockType) (Damage : ℚ) (hauth : g.Authority = true)
    (ht : g.GetBlockInternal c p = t) (hAir : t ≠ EBlockType.Air)
    (hreg : F32.Round (g.CurrentHealthOf ⟨c, p⟩ t - Damage) ≤ 0 → (g.RemoveBlockInstance c p t).isSome) :
    ∃ g1, g.DamageBlock c p t Damage
        = some (decide (F32.Round (g.CurrentHealthOf ⟨c, p⟩ t - Damage) ≤ 0), g1) ∧
      (F32.Round (g.CurrentHealthOf ⟨c, p⟩ t - Damage) ≤ 0 →
        g1.GetBlockInternal c p = EBlockType.Air ∧
        TMap.Find g1.BlockDamageData ⟨c, p⟩ = none) ∧
      (¬ F32.Round (g.CurrentHealthOf ⟨c, p⟩ t - Damage) ≤ 0 →
        g1.GetBlockInternal c p = t ∧
        ∃ Data, TMap.Find g1.BlockDamageData ⟨c, p⟩ = some Data ∧
          Data.CurrentHealth = F32.Round (g.CurrentHealthOf ⟨c, p⟩ t - Damage)) := by
  have hH := DamagedRecord_health g ⟨c, p⟩ t Damage
  have hg1Air : (g.RecordHit ⟨c, p⟩ t Damage).GetBlockInternal c p ≠ EBlockType.Air := by
    show g.GetBlockInternal c p ≠ EBlockType.Air
    rw [ht]; exact hAir
  have hg1auth : (g.RecordHit ⟨c, p⟩ t Damage).Authority = true := hauth
  obtain ⟨h2auth, h2sys, h2get, Data, h2find, h2health⟩ :=
    MulticastBlockDamaged_authority_facts (g.RecordHit ⟨c, p⟩ t Damage) c p
      (g.DamagedRecord ⟨c, p⟩ t Damage).CurrentHealth hg1auth hg1Air
  unfold DamageBlock
  simp only []
  by_cases hd : F32.Round (g.CurrentHealthOf ⟨c, p⟩ t - Damage) ≤ 0
  · have hd2 : (g.DamagedRecord ⟨c, p⟩ t Damage).CurrentHealth ≤ 0 := by rw [hH]; exact hd
    rw [if_pos hd2]
    have hreg2 : (((g.RecordHit ⟨c, p⟩ t Damage).MulticastBlockDamaged_Implementation c p
        (g.DamagedRecord ⟨c, p⟩ t Damage).CurrentHealth).RemoveBlockInstance c p t).isSome := by
      have h1 := RemoveBlockInstance_registry_congr g _ c p t h2sys
      have h2 := hreg hd
      cases hgr : g.RemoveBlockInstance c p t with
      | none => rw [hgr] at h2; cases h2
      | some r =>
        rw [hgr] at h1
        cases hgr2 : ((g.RecordHit ⟨c, p⟩ t Damage).MulticastBlockDamaged_Implementation c p
            (g.DamagedRecord ⟨c, p⟩ t Damage).CurrentHealth).RemoveBlockInstance c p t with
        | none => rw [hgr2] at h1; cases h1
        | some r2 => rfl
    obtain ⟨g1, h1, h2, h3⟩ := DestroyBlock_spec _ c p t h2auth hreg2
    exact ⟨g1, by rw [h1]; simp [hd], fun _ => ⟨h2, h3⟩, fun h => absurd hd h⟩
  · have hd2 : ¬ (g.DamagedRecord ⟨c, p⟩ t Damage).CurrentHealth ≤ 0 := by rw [hH]; exact hd
    rw [if_neg hd2]
    refine ⟨(g.RecordHit ⟨c, p⟩ t Damage).MulticastBlockDamaged_Implementation c p
        (g.DamagedRecord ⟨c, p⟩ t Damage).CurrentHealth, by simp [hd],
      fun h => absurd h hd, fun _ => ⟨?_, ?_⟩⟩
    · rw [h2get]; exact ht
    · exact ⟨Data, h2find, h2health.trans hH⟩

/-- On the authority, for a destructible block (non-Air, not InvisibleWall) in a chunk
inside the world with valid local position and current health H, where the removal of
its instance returns: `ApplyDamageToBlock` with damage d returns true iff the
single-precision difference H - d is at most 0; when it returns true the cell reads Air
and no damage record remains; when it returns false the cell's type is unchanged and its
damage record holds that difference. -/
theorem ApplyDamageToBlock_spec (g : ARandomMapGenerator) (w : FVector)
    (Damage : ℚ) (t : EBlockType)
    (hauth : g.Authority = true)
    (hX : 0 ≤ (g.WorldToChunkCoord w).X ∧ (g.WorldToChunkCoord w).X < g.WorldSizeInChunks)
    (hY : 0 ≤ (g.WorldToChunkCoord w).Y ∧ (g.WorldToChunkCoord w).Y < g.WorldSizeInChunks)
    (hpos : g.IsOutsideChunk (g.WorldToBlockPosition w) = false)
    (ht : g.GetBlockInternal (g.WorldToChunkCoord w) (g.WorldToBlockPosition w) = t)
    (hAir : t ≠ EBlockType.Air) (hWall : t ≠ EBlockType.InvisibleWall)
    (hreg : F32.Round (g.CurrentHealthOf ⟨g.WorldToChunkCoord w, g.WorldToBlockPosition w⟩ t - Damage) ≤ 0 →
      (g.RemoveBlockInstance (g.WorldToChunkCoord w) (g.WorldToBlockPosition w) t).isSome) :
    ∃ g1, g.ApplyDamageToBlock w Damage
        = some (decide (F32.Round (g.CurrentHealthOf ⟨g.WorldToChunkCoord w, g.WorldToBlockPosition w⟩ t - Damage) ≤ 0), g1) ∧
      (F32.Round (g.CurrentHealthOf ⟨g.WorldToChunkCoord w, g.WorldToBlockPosition w⟩ t - Damage) ≤ 0 →
        g1.GetBlockInternal (g.WorldToChunkCoord w) (g.WorldToBlockPosition w) = EBlockType.Air ∧
        TMap.Find g1.BlockDamageData ⟨g.WorldToChunkCoord w, g.WorldToBlockPosition w⟩ = none) ∧
      (¬ F32.Round (g.CurrentHealthOf ⟨g.WorldToChunkCoord w, g.WorldToBlockPosition w⟩ t - Damage) ≤ 0 →
        g1.GetBlockInternal (g.WorldToChunkCoord w) (g.WorldToBlockPosition w) = t ∧
        ∃ Data, TMap.Find g1.BlockDamageData ⟨g.WorldToChunkCoord w, g.WorldToBlockPosition w⟩
            = some Data ∧
          Data.CurrentHealth
            = F32.Round (g.CurrentHealthOf ⟨g.WorldToChunkCoord w, g.WorldToBlockPosition w⟩ t - Damage)) := by
  have hrange : ¬ ((g.WorldToChunkCoord w).X < 0 ∨ (g.WorldToChunkCoord w).Y < 0 ∨
      (g.WorldToChunkCoord w).X ≥ g.WorldSizeInChunks ∨
      (g.WorldToChunkCoord w).Y ≥ g.WorldSizeInChunks) := by
    rintro (h | h | h | h) <;> omega
  have ht2 : ¬ g.GetBlockInternal (g.WorldToChunkCoord w) (g.WorldToBlockPosition w)
      = EBlockType.Air := by rw [ht]; exact hAir
  have ht3 : ¬ g.GetBlockInternal (g.WorldToChunkCoord w) (g.WorldToBlockPosition w)
      = EBlockType.InvisibleWall := by rw [ht]; exact hWall
  have hnauth : ¬ ((!g.Authority) = true) := by simp [hauth]
  have hnpos : ¬ (g.IsOutsideChunk (g.WorldToBlockPosition w) = true) := by simp [hpos]
  unfold ApplyDamageToBlock
  simp only []
  rw [if_neg hnauth, if_neg hrange, if_neg hnpos, if_neg ht2, if_neg ht3, ht]
  exact DamageBlock_spec g _ _ t Damage hauth ht hAir hreg

set_option maxRecDepth 100000 in
/-- C9: the world of four overlapping trees is generated by the authority
(`ServerGenerateWorld_Implementation` returns). Six hits of damage 100 on six of its Leaves
blocks return true. The cell (0,0,3) of chunk (0,0) then holds a Leaves block without a
damage record, so of health 100, in a chunk inside the world and at a valid local
position; applyDamageToBlock with damage 100 on it does not return: the Leaves batch of
the chunk has 23 instances and no key of the mapping holds its last index 22. -/
theorem C9_destroying_hit_aborts_after_overlapping_trees :
    ((ServerGenerateWorld_Implementation TreeEngine TreeWorld).bind
        (fun g => ApplyDamageToBlocks g 100 TreeLeafHits)).map (fun Hit =>
      ((Hit.1, Hit.2.Authority),
        (Hit.2.WorldToChunkCoord ⟨50, 50, 350⟩, Hit.2.WorldToBlockPosition ⟨50, 50, 350⟩),
        (Hit.2.GetBlockInternal ⟨0, 0⟩ ⟨0, 0, 3⟩,
          Hit.2.CurrentHealthOf ⟨⟨0, 0⟩, ⟨0, 0, 3⟩⟩ Leaves,
          (Hit.2.ApplyDamageToBlock ⟨50, 50, 350⟩ 100).isSome)))
      = some (([true, true, true, true, true, true], true), (⟨0, 0⟩, ⟨0, 0, 3⟩),
          (Leaves, 100, false)) := by
  decide!

/-- On the authority, for a world position P whose block position lies within the chunk
bounds and any block type T: when the chunk's registry entry has a count for every batch
and the removal of the old block's instance returns, `SetBlockTypeAtPosition` returns
and `GetBlockTypeAtPosition` then returns T at P. -/
theorem SetBlockTypeAtPosition_spec (g : ARandomMapGenerator) (P : FVector) (T : EBlockType)
    (hauth : g.Authority = true)
    (hout : g.IsOutsideChunk (g.WorldToBlockPosition P) = false)
    (hcnt : CountsCoverBatches g (g.WorldToChunkCoord P))
    (hrem : (g.RemoveBlockInstance (g.WorldToChunkCoord P) (g.WorldToBlockPosition P)
      (g.GetBlockInternal (g.WorldToChunkCoord P) (g.WorldToBlockPosition P))).isSome) :
    ∃ r, g.SetBlockTypeAtPosition P T = some r ∧ r.GetBlockTypeAtPosition P = T := by
  have hnauth : ¬ ((!g.Authority) = true) := by simp [hauth]
  have hnout : ¬ (g.IsOutsideChunk (g.WorldToBlockPosition P) = true) := by simp [hout]
  unfold SetBlockTypeAtPosition
  rw [if_neg hnauth]
  simp only []
  rw [if_neg hnout]
  obtain ⟨g1, hg1, hF1, hA1, hB1, hS1, _⟩ := track_chunk_facts g (g.WorldToChunkCoord P)
  rw [hg1]
  have hold : g1.GetBlockInternal (g.WorldToChunkCoord P) (g.WorldToBlockPosition P)
      = g.GetBlockInternal (g.WorldToChunkCoord P) (g.WorldToBlockPosition P) :=
    GetBlockInternal_congr g g1 _ _ hB1
  rw [hold]
  by_cases hsame : g.GetBlockInternal (g.WorldToChunkCoord P) (g.WorldToBlockPosition P) = T
  · rw [if_pos hsame]
    refine ⟨g1, rfl, ?_⟩
    rw [GetBlockTypeAtPosition_of_frame g g1 P hF1, hout]
    simp only [Bool.false_eq_true, if_false]
    rw [hold]
    exact hsame
  · rw [if_neg hsame]
    have hcond : T = Air ∨
        g.GetBlockInternal (g.WorldToChunkCoord P) (g.WorldToBlockPosition P) ≠ T :=
      Or.inr hsame
    rw [if_pos hcond]
    have hF2 := StoreFrame_Set g1 (g.WorldToChunkCoord P) (g.WorldToBlockPosition P) T
    have hS2 := ChunkISMSystem_Set g1 (g.WorldToChunkCoord P) (g.WorldToBlockPosition P) T
    have hsys : ({ g1.SetBlockInternalWithoutReplication (g.WorldToChunkCoord P)
          (g.WorldToBlockPosition P) T with
        BlockDamageData := TMap.Remove (g1.SetBlockInternalWithoutReplication
          (g.WorldToChunkCoord P) (g.WorldToBlockPosition P) T).BlockDamageData
          ⟨g.WorldToChunkCoord P, g.WorldToBlockPosition P⟩ } : ARandomMapGenerator).ChunkISMSystem
        = g.ChunkISMSystem := hS2.trans hS1
    have hA3 : ({ g1.SetBlockInternalWithoutReplication (g.WorldToChunkCoord P)
          (g.WorldToBlockPosition P) T with
        BlockDamageData := TMap.Remove (g1.SetBlockInternalWithoutReplication
          (g.WorldToChunkCoord P) (g.WorldToBlockPosition P) T).BlockDamageData
          ⟨g.WorldToChunkCoord P, g.WorldToBlockPosition P⟩ } : ARandomMapGenerator).Authority
        = true :=
      ((congrArg (fun (s : ARandomMapGenerator) => s.Authority) hF2).trans hA1).trans hauth
    have hrem3 := RemoveBlockInstance_registry_congr g _ (g.WorldToChunkCoord P)
      (g.WorldToBlockPosition P)
      (g.GetBlockInternal (g.WorldToChunkCoord P) (g.WorldToBlockPosition P)) hsys
    have hrem4 : (ARandomMapGenerator.RemoveBlockInstance
        ({ g1.SetBlockInternalWithoutReplication (g.WorldToChunkCoord P)
            (g.WorldToBlockPosition P) T with
          BlockDamageData := TMap.Remove (g1.SetBlockInternalWithoutReplication
            (g.WorldToChunkCoord P) (g.WorldToBlockPosition P) T).BlockDamageData
            ⟨g.WorldToChunkCoord P, g.WorldToBlockPosition P⟩ } : ARandomMapGenerator)
        (g.WorldToChunkCoord P) (g.WorldToBlockPosition P)
        (g.GetBlockInternal (g.WorldToChunkCoord P) (g.WorldToBlockPosition P))).isSome := by
      cases hx : g.RemoveBlockInstance (g.WorldToChunkCoord P) (g.WorldToBlockPosition P)
          (g.GetBlockInternal (g.WorldToChunkCoord P) (g.WorldToBlockPosition P)) with
      | none => rw [hx] at hrem; cases hrem
      | some r0 =>
        rw [hx] at hrem3
        cases hy : ARandomMapGenerator.RemoveBlockInstance
            ({ g1.SetBlockInternalWithoutReplication (g.WorldToChunkCoord P)
                (g.WorldToBlockPosition P) T with
              BlockDamageData := TMap.Remove (g1.SetBlockInternalWithoutReplication
                (g.WorldToChunkCoord P) (g.WorldToBlockPosition P) T).BlockDamageData
                ⟨g.WorldToChunkCoord P, g.WorldToBlockPosition P⟩ } : ARandomMapGenerator)
            (g.WorldToChunkCoord P) (g.WorldToBlockPosition P)
            (g.GetBlockInternal (g.WorldToChunkCoord P) (g.WorldToBlockPosition P)) with
        | none => rw [hy] at hrem3; cases hrem3
        | some r1 => rfl
    obtain ⟨r, hr, hFr, hget⟩ := place_tail _ (g.WorldToChunkCoord P)
      (g.WorldToBlockPosition P)
      (g.GetBlockInternal (g.WorldToChunkCoord P) (g.WorldToBlockPosition P)) T hA3
      (CountsCoverBatches_congr g _ _ hsys hcnt) hrem4
    refine ⟨r, hr, ?_⟩
    have hFall : MutationFrame g r :=
      MutationFrame_trans hF1 (MutationFrame_trans
        (MutationFrame_trans (MutationFrame_of_StoreFrame hF2) (by rfl)) (MutationFrame_of_StoreFrame hFr))
    rw [GetBlockTypeAtPosition_of_frame g r P hFall, hout]
    simp only [Bool.false_eq_true, if_false]
    exact hget

set_option maxRecDepth 100000 in
/-- C11: the world of four overlapping trees is generated by the authority
(`ServerGenerateWorld_Implementation` returns) and six of its Leaves blocks are set to Air
by setBlockTypeAtPosition. The position (50,50,350) then has the block indices (0,0,3),
with Z inside [0,ChunkHeight) = [0,6), and reads Leaves; setBlockTypeAtPosition of Stone at
that position does not return, so no later query reads Stone there: the Leaves batch of the
chunk has 23 instances and no key of the mapping holds its last index 22. -/
theorem C11_set_block_aborts_after_overlapping_trees :
    ((ServerGenerateWorld_Implementation TreeEngine TreeWorld).bind
        (ForEach (fun (s : ARandomMapGenerator) (P : FVector) => s.SetBlockTypeAtPosition P Air)
          TreeLeafHits)).map (fun g =>
      ((g.Authority, g.ChunkHeight),
        (g.WorldToChunkCoord ⟨50, 50, 350⟩, g.WorldToBlockPosition ⟨50, 50, 350⟩),
        (g.GetBlockTypeAtPosition ⟨50, 50, 350⟩,
          (g.SetBlockTypeAtPosition ⟨50, 50, 350⟩ Stone).isSome)))
      = some ((true, 6), (⟨0, 0⟩, ⟨0, 0, 3⟩), (Leaves, false)) := by
  decide!

/-! ### Damage records within their max health -/

/-- The max health looked up for a block type is a binary32 value when the durabilities of
the table are. -/
theorem LookupMaxHealth_single (g : ARandomMapGenerator) (t : EBlockType)
    (htab : DurabilitiesSingle g) : F32.Round (g.LookupMaxHealth t) = g.LookupMaxHealth t := by
  have h100 : F32.Round (100 : ℚ) = 100 := by
    have := F32.Round_intCast 100 (by decide)
    simpa using this
  unfold LookupMaxHealth
  cases hT : g.BlockDataTable with
  | none => exact h100
  | some Table =>
    simp only []
    cases hf : TMap.Find Table t with
    | none => exact h100
    | some d => exact htab Table hT (t, d) (TMap.mem_of_Find _ _ _ hf)

/-- The record of a hit with a non-negative damage has a health of at most its max health,
a binary32 value, when the records of the table have. -/
theorem DamagedRecord_le_max (g : ARandomMapGenerator) (k : FWorldBlockKey) (t : EBlockType)
    (Damage : ℚ) (hd : 0 ≤ Damage) (htab : DurabilitiesSingle g)
    (hinv : DamageRecordsWithinMax g) :
    (g.DamagedRecord k t Damage).CurrentHealth ≤ (g.DamagedRecord k t Damage).MaxHealth ∧
    F32.Round (g.DamagedRecord k t Damage).MaxHealth = (g.DamagedRecord k t Damage).MaxHealth := by
  unfold DamagedRecord
  cases hf : TMap.Find g.BlockDamageData k with
  | none =>
    have hs := LookupMaxHealth_single g t htab
    simp only [FBlockDamageData.ofMax]
    refine ⟨?_, hs⟩
    calc F32.Round (g.LookupMaxHealth t - Damage)
        ≤ F32.Round (g.LookupMaxHealth t) := F32.Round_mono _ _ (by linarith)
      _ = g.LookupMaxHealth t := hs
  | some Data =>
    obtain ⟨_, hle, hs⟩ := hinv (k, Data) (TMap.mem_of_Find _ _ _ hf)
    simp only [] at hle hs ⊢
    refine ⟨?_, hs⟩
    calc F32.Round (Data.CurrentHealth - Damage)
        ≤ F32.Round Data.MaxHealth := F32.Round_mono _ _ (by linarith)
      _ = Data.MaxHealth := hs

/-- The accepted part of `ApplyDamageToBlock` with a non-negative damage keeps every damage
record above 0 and at most its max health. -/
theorem DamageBlock_records (g r : ARandomMapGenerator) (c : FChunkCoord) (p : FBlockPosition)
    (t : EBlockType) (Damage : ℚ) (b : Bool) (hauth : g.Authority = true)
    (ht : g.GetBlockInternal c p = t) (hAir : t ≠ Air) (hd : 0 ≤ Damage)
    (htab : DurabilitiesSingle g) (hinv : DamageRecordsWithinMax g)
    (h : g.DamageBlock c p t Damage = some (b, r)) :
    DamageRecordsWithinMax r := by
  have hle := DamagedRecord_le_max g ⟨c, p⟩ t Damage hd htab hinv
  have hg1Air : (g.RecordHit ⟨c, p⟩ t Damage).GetBlockInternal c p ≠ Air := by
    show g.GetBlockInternal c p ≠ Air
    rw [ht]; exact hAir
  have hg1auth : (g.RecordHit ⟨c, p⟩ t Damage).Authority = true := hauth
  have h2 := MulticastBlockDamaged_authority (g.RecordHit ⟨c, p⟩ t Damage) c p
    (g.DamagedRecord ⟨c, p⟩ t Damage).CurrentHealth hg1auth hg1Air
  have hfind : TMap.Find (g.RecordHit ⟨c, p⟩ t Damage).BlockDamageData ⟨c, p⟩
      = some (g.DamagedRecord ⟨c, p⟩ t Damage) := TMap.Find_Add_self _ _ _
  rw [hfind] at h2
  simp only [] at h2
  have htable : ∀ q ∈ ((g.RecordHit ⟨c, p⟩ t Damage).MulticastBlockDamaged_Implementation c p
      (g.DamagedRecord ⟨c, p⟩ t Damage).CurrentHealth).BlockDamageData,
      q = (⟨c, p⟩, g.DamagedRecord ⟨c, p⟩ t Damage) ∨ q ∈ g.BlockDamageData := by
    intro q hq
    rw [h2] at hq
    rcases TMap.mem_Add _ _ _ q hq with e | hq1
    · exact Or.inl e
    · exact TMap.mem_Add _ _ _ q hq1
  have hauth2 : ((g.RecordHit ⟨c, p⟩ t Damage).MulticastBlockDamaged_Implementation c p
      (g.DamagedRecord ⟨c, p⟩ t Damage).CurrentHealth).Authority = true := by
    rw [h2]; exact hauth
  unfold DamageBlock at h
  simp only [] at h
  split at h
  · have htab2 := DestroyBlock_table _ r c p t b hauth2 h
    intro q hq
    rw [htab2] at hq
    obtain ⟨hq1, hne⟩ := TMap.mem_Remove _ _ q hq
    rcases htable q hq1 with e | hq2
    · exact absurd (by rw [e]) hne
    · exact hinv q hq2
  · rename_i hpos
    simp only [Option.some.injEq, Prod.mk.injEq] at h
    rw [← h.2]
    intro q hq
    rcases htable q hq with e | hq2
    · rw [e]
      exact ⟨not_le.1 hpos, hle.1, hle.2⟩
    · exact hinv q hq2

/-- `UpdateBlockInstance` leaves the registry entries of the other chunks as they are. -/
theorem UpdateBlockInstance_other (g r : ARandomMapGenerator) (c c2 : FChunkCoord)
    (p : FBlockPosition) (t : EBlockType) (h : g.UpdateBlockInstance c p t = some r)
    (hne : c2 ≠ c) :
    TMap.Find r.ChunkISMSystem c2 = TMap.Find g.ChunkISMSystem c2 := by
  unfold UpdateBlockInstance at h
  by_cases ht : t = Air
  · simp only [ht, if_true, Option.some.injEq] at h
    subst h; rfl
  · rw [if_neg ht] at h
    simp only [] at h
    have hf1 : TMap.Find (if TMap.Contains g.ChunkISMSystem c = true then g
        else g.InitializeChunkISMs c).ChunkISMSystem c2 = TMap.Find g.ChunkISMSystem c2 := by
      by_cases hc : TMap.Contains g.ChunkISMSystem c = true
      · rw [if_pos hc]
      · rw [if_neg hc]
        unfold InitializeChunkISMs
        rw [if_neg hc]
        exact TMap.Find_Add_of_ne _ _ _ _ hne
    generalize (if TMap.Contains g.ChunkISMSystem c = true then g
      else g.InitializeChunkISMs c) = g1 at h hf1
    cases hd : TMap.Find g1.ChunkISMSystem c with
    | none => rw [hd] at h; cases h
    | some d =>
      rw [hd] at h
      simp only [] at h
      cases hb : TMap.Find d.ChunkISMs t with
      | none =>
        rw [hb] at h
        simp only [Option.some.injEq] at h
        subst h; exact hf1
      | some b =>
        rw [hb] at h
        simp only [] at h
        cases hcn : TMap.Find d.InstanceCounts t with
        | none => rw [hcn] at h; cases h
        | some n =>
          rw [hcn] at h
          simp only [Option.some.injEq] at h
          subst h
          simp only []
          rw [TMap.Find_Add_of_ne _ _ _ _ hne]
          exact hf1

/-- The generation write in a state whose registry entries all have a count for every
batch: it returns and keeps that property, the chunk size and the seed. -/
theorem WriteBlock_keeps (CS SD : Int) (g : ARandomMapGenerator) (c : FChunkCoord)
    (p : FBlockPosition) (t : EBlockType)
    (hP : (∀ c2, CountsCoverBatches g c2) ∧ g.ChunkSize = CS ∧ g.Seed = SD) :
    ∃ r, g.WriteBlock c p t = some r ∧
      (∀ c2, CountsCoverBatches r c2) ∧ r.ChunkSize = CS ∧ r.Seed = SD := by
  obtain ⟨r, hr, hc, hf, _, _⟩ := WriteBlock_spec g c p t (hP.1 c)
  refine ⟨r, hr, ?_, ?_, ?_⟩
  · intro c2
    by_cases e : c2 = c
    · rw [e]; exact hc
    · have h1 := UpdateBlockInstance_other _ r c c2 p t hr e
      rw [ChunkISMSystem_Set] at h1
      intro d hd
      rw [h1] at hd
      exact hP.1 c2 d hd
  · have e := congrArg (fun (s : ARandomMapGenerator) => s.ChunkSize) hf
    exact e.trans hP.2.1
  · have e := congrArg (fun (s : ARandomMapGenerator) => s.Seed) hf
    exact e.trans hP.2.2

/-- The tree of one column, in a state whose registry entries all have a count for every
batch: `GenerateTree` returns and keeps that property, the chunk size and the seed. -/
theorem GenerateTree_keeps (E : FEngine) (CS SD : Int) (g : ARandomMapGenerator)
    (WorldX WorldY WorldZ : Int)
    (hP : (∀ c2, CountsCoverBatches g c2) ∧ g.ChunkSize = CS ∧ g.Seed = SD) :
    ∃ r, GenerateTree E g WorldX WorldY WorldZ = some r ∧
      (∀ c2, CountsCoverBatches r c2) ∧ r.ChunkSize = CS ∧ r.Seed = SD := by
  have hdraw : ∀ (s : ARandomMapGenerator) (a b : Int),
      ((∀ c2, CountsCoverBatches s c2) ∧ s.ChunkSize = CS ∧ s.Seed = SD) →
      ((∀ c2, CountsCoverBatches (DrawRange E s a b).2 c2) ∧
        (DrawRange E s a b).2.ChunkSize = CS ∧ (DrawRange E s a b).2.Seed = SD) := fun s a b h => h
  have hfrac : ∀ (s : ARandomMapGenerator),
      ((∀ c2, CountsCoverBatches s c2) ∧ s.ChunkSize = CS ∧ s.Seed = SD) →
      ((∀ c2, CountsCoverBatches (DrawFraction E s).2 c2) ∧
        (DrawFraction E s).2.ChunkSize = CS ∧ (DrawFraction E s).2.Seed = SD) := fun s h => h
  rw [GenerateTree_eq]
  obtain ⟨g1, hg1, hP1⟩ := ForEach_returns
    (fun (s : ARandomMapGenerator) (Z : Int) =>
      if WorldZ + Z < s.ChunkHeight then
        s.WriteBlock ⟨g.ChunkIndexOf WorldX, g.ChunkIndexOf WorldY⟩
          ⟨Int.tmod WorldX g.ChunkSize, Int.tmod WorldY g.ChunkSize, WorldZ + Z⟩ Wood
      else some s)
    (fun s => (∀ c2, CountsCoverBatches s c2) ∧ s.ChunkSize = CS ∧ s.Seed = SD)
    (ForRange 0 (TreeHeightOf g WorldX WorldY (DrawRange E g 3 6).1))
    (DrawRange E g 3 6).2 (hdraw g 3 6 hP)
    (by
      intro s Z _ hs
      simp only []
      by_cases hz : WorldZ + Z < s.ChunkHeight
      · rw [if_pos hz]
        exact WriteBlock_keeps CS SD s _ _ _ hs
      · rw [if_neg hz]
        exact ⟨s, rfl, hs⟩)
  rw [hg1]
  simp only []
  refine ForEach_returns _ (fun s => (∀ c2, CountsCoverBatches s c2) ∧ s.ChunkSize = CS ∧ s.Seed = SD)
    _ _ (hdraw g1 2 3 hP1) ?_
  intro s LX _ hs
  refine ForEach_returns _ (fun s => (∀ c2, CountsCoverBatches s c2) ∧ s.ChunkSize = CS ∧ s.Seed = SD)
    _ _ hs ?_
  intro s1 LY _ hs1
  refine ForEach_returns _ (fun s => (∀ c2, CountsCoverBatches s c2) ∧ s.ChunkSize = CS ∧ s.Seed = SD)
    _ _ (hdraw s1 2 3 hs1) ?_
  intro s2 LZ _ hs2
  unfold GenerateLeaf
  by_cases h0 : LX = 0 ∧ LY = 0 ∧ LZ < (DrawRange E s1 2 3).1
  · rw [if_pos h0]
    exact ⟨s2, rfl, hs2⟩
  · rw [if_neg h0]
    simp only []
    by_cases hE : decide (|LX| = (DrawRange E g1 2 3).1 ∨ |LY| = (DrawRange E g1 2 3).1) = true
    · simp only [hE, if_true, true_and]
      by_cases hgt : (DrawFraction E s2).1 > 2 / 5
      · rw [if_pos hgt]
        exact ⟨_, rfl, hfrac s2 hs2⟩
      · rw [if_neg hgt]
        split
        · exact WriteBlock_keeps CS SD _ _ _ _ (hfrac s2 hs2)
        · exact ⟨_, rfl, hfrac s2 hs2⟩
    · simp only [hE, Bool.false_eq_true, if_false, false_and]
      split
      · exact WriteBlock_keeps CS SD _ _ _ _ hs2
      · exact ⟨_, rfl, hs2⟩

/-- The column body of `GenerateChunk` is the column fill followed by the tree roll. -/
theorem GenerateColumn_fill_roll (E : FEngine) (c : FChunkCoord) (g : ARandomMapGenerator)
    (X Y : Int) (f : ARandomMapGenerator)
    (hf : g.FillColumn c X Y (ColumnHeightOf E g c X Y) = some f)
    (hCS : f.ChunkSize = g.ChunkSize) :
    GenerateColumn E c (g.ChunkSeedModifierOf c) X g Y
      = RollTree E c (ColumnHeightOf E g c X Y) X Y f := by
  rw [GenerateColumn_eq]
  unfold ColumnHeightOf at hf
  rw [hf]
  unfold RollTree ColumnHeightOf
  simp only [hCS]

/-- The column body of `GenerateChunk` in a state whose registry entries all have a count
for every batch: the fill returns a state with the layers of the column, and the body
returns and keeps the property, the chunk size and the seed. -/
theorem GenerateColumn_keeps (E : FEngine) (c : FChunkCoord) (g : ARandomMapGenerator)
    (X Y : Int) (hP : ∀ c2, CountsCoverBatches g c2) :
    ∃ f r, g.FillColumn c X Y (ColumnHeightOf E g c X Y) = some f ∧
      f.ChunkSize = g.ChunkSize ∧
      (∀ Z, 0 ≤ Z → Z < ColumnHeightOf E g c X Y →
        f.GetBlockInternal c ⟨X, Y, Z⟩ = ColumnBlockType (ColumnHeightOf E g c X Y) Z) ∧
      GenerateColumn E c (g.ChunkSeedModifierOf c) X g Y = some r ∧
      (∀ c2, CountsCoverBatches r c2) ∧ r.ChunkSize = g.ChunkSize ∧ r.Seed = g.Seed := by
  obtain ⟨f, hf, _, hfr, hget, _⟩ := write_column_loop c X Y
    (ColumnBlockType (ColumnHeightOf E g c X Y)) (ForRange 0 (ColumnHeightOf E g c X Y)) g
    (nodup_ForRange 0 _) (hP c)
  have hf2 : g.FillColumn c X Y (ColumnHeightOf E g c X Y) = some f := hf
  have hPf : (∀ c2, CountsCoverBatches f c2) ∧ f.ChunkSize = g.ChunkSize ∧ f.Seed = g.Seed := by
    refine ForEach_invariant _
      (fun s => (∀ c2, CountsCoverBatches s c2) ∧ s.ChunkSize = g.ChunkSize ∧ s.Seed = g.Seed)
      _ g f ⟨hP, rfl, rfl⟩ ?_ hf
    intro s Z s1 _ hs hb
    obtain ⟨r, hr, hr1, hr2⟩ := WriteBlock_keeps g.ChunkSize g.Seed s c ⟨X, Y, Z⟩
      (ColumnBlockType (ColumnHeightOf E g c X Y) Z) hs
    rw [hr] at hb
    simp only [Option.some.injEq] at hb
    subst hb
    exact ⟨hr1, hr2⟩
  have hroll : ∃ r, RollTree E c (ColumnHeightOf E g c X Y) X Y f = some r ∧
      (∀ c2, CountsCoverBatches r c2) ∧ r.ChunkSize = g.ChunkSize ∧ r.Seed = g.Seed := by
    unfold RollTree
    simp only []
    split
    · exact GenerateTree_keeps E g.ChunkSize g.Seed _ _ _ _ hPf
    · exact ⟨_, rfl, hPf⟩
  obtain ⟨r, hr, hPr⟩ := hroll
  refine ⟨f, r, hf2, hPf.2.1, ?_, ?_, hPr⟩
  · intro Z h0 h1
    exact hget Z ((mem_ForRange 0 _ Z).2 ⟨h0, h1⟩)
  · rw [GenerateColumn_fill_roll E c g X Y f hf2 hPf.2.1]
    exact hr

/-- A loop over two lists in a row is the loop over the first followed by the loop over
the second. -/
theorem ForEach_append {σ α : Type} (Body : σ → α → Option σ) (L1 L2 : List α) :
    ∀ s, ForEach Body (L1 ++ L2) s = (ForEach Body L1 s).bind (ForEach Body L2) := by
  induction L1 with
  | nil => intro s; rfl
  | cons a tl ih =>
    intro s
    simp only [List.cons_append, ForEach]
    cases Body s a with
    | none => rfl
    | some s1 => exact ih s1

theorem ForRange_append (Lo K Hi : Int) (h1 : Lo ≤ K) (h2 : K ≤ Hi) :
    ForRange Lo Hi = ForRange Lo K ++ ForRange K Hi := by
  rw [ForRange_eq, ForRange_eq, ForRange_eq]
  have hn : (Hi - Lo).toNat = (K - Lo).toNat + (Hi - K).toNat := by omega
  rw [hn, List.range_add, List.map_append, List.map_map]
  congr 1
  apply List.map_congr_left
  intro i _
  simp only [Function.comp]
  have : ((K - Lo).toNat : Int) = K - Lo := Int.toNat_of_nonneg (by omega)
  push_cast
  rw [this]
  ring

theorem ForRange_cons (K Hi : Int) (h : K < Hi) :
    ForRange K Hi = K :: ForRange (K + 1) Hi := by
  rw [ForRange_eq, ForRange_eq]
  have hn : (Hi - K).toNat = (Hi - (K + 1)).toNat + 1 := by omega
  rw [hn, List.range_succ_eq_map, List.map_cons, List.map_map]
  congr 1
  · simp
  · apply List.map_congr_left
    intro i _
    simp only [Function.comp]
    push_cast
    ring

/-- The loop range split at one of its values. -/
theorem ForRange_split (Lo K Hi : Int) (h1 : Lo ≤ K) (h2 : K < Hi) :
    ForRange Lo Hi = ForRange Lo K ++ K :: ForRange (K + 1) Hi := by
  rw [ForRange_append Lo K Hi h1 (le_of_lt h2), ForRange_cons K Hi h2]

/-- The loop over the columns `(X, Y2)` of one `X`, in a state whose registry entries all
have a count for every batch: it returns and keeps the property, the chunk size and the
seed. -/
theorem ColumnRow_keeps (E : FEngine) (c : FChunkCoord) (g : ARandomMapGenerator) (X : Int)
    (L : List Int) (s : ARandomMapGenerator)
    (hP : (∀ c2, CountsCoverBatches s c2) ∧ s.ChunkSize = g.ChunkSize ∧ s.Seed = g.Seed) :
    ∃ r, ForEach (GenerateColumn E c (g.ChunkSeedModifierOf c) X) L s = some r ∧
      (∀ c2, CountsCoverBatches r c2) ∧ r.ChunkSize = g.ChunkSize ∧ r.Seed = g.Seed := by
  refine ForEach_returns _
    (fun s => (∀ c2, CountsCoverBatches s c2) ∧ s.ChunkSize = g.ChunkSize ∧ s.Seed = g.Seed)
    L s hP ?_
  intro s1 Y _ hs1
  obtain ⟨_, r, _, _, _, hr, hc, hcs, hsd⟩ := GenerateColumn_keeps E c s1 X Y hs1.1
  have hM : s1.ChunkSeedModifierOf c = g.ChunkSeedModifierOf c := by
    unfold ChunkSeedModifierOf
    rw [hs1.2.2]
  rw [hM] at hr
  exact ⟨r, hr, hc, hcs.trans hs1.2.1, hsd.trans hs1.2.2⟩

/-- The initialisation of a chunk keeps a count for every batch in every registry
entry. -/
theorem InitializeChunkISMs_keeps (g : ARandomMapGenerator) (c : FChunkCoord)
    (hP : ∀ c2, CountsCoverBatches g c2) :
    (∀ c2, CountsCoverBatches (g.InitializeChunkISMs c) c2) ∧
      (g.InitializeChunkISMs c).ChunkSize = g.ChunkSize ∧
      (g.InitializeChunkISMs c).Seed = g.Seed := by
  unfold InitializeChunkISMs
  split
  · exact ⟨hP, rfl, rfl⟩
  · refine ⟨?_, rfl, rfl⟩
    intro c2 d hd
    simp only [] at hd
    by_cases e : c2 = c
    · rw [e, TMap.Find_Add_self] at hd
      simp only [Option.some.injEq] at hd
      subst hd
      exact NewChunkData_counts
    · rw [TMap.Find_Add_of_ne _ _ _ _ e] at hd
      exact hP c2 d hd

/-- The columns of `GenerateChunk` in a state whose registry entries all have a count for
every batch: `GenerateChunk` returns and keeps the property, and for every column (X, Y)
of the chunk, with s the state in which its loops reach the column and h the terrain
height computed there, the column fill returns a state f in which the block store holds,
for every 0 <= Z < h, Grass when Z = h-1, Stone when Z < h-4 and Dirt otherwise; the loop
body of the column is the fill followed by the tree roll on f, and `GenerateChunk` is that
body followed by the remaining columns. -/
theorem GenerateChunk_column_fill (E : FEngine) (g : ARandomMapGenerator) (c : FChunkCoord)
    (X Y : Int) (hcnt : ∀ c2, CountsCoverBatches g c2)
    (hX : 0 ≤ X ∧ X < g.ChunkSize) (hY : 0 ≤ Y ∧ Y < g.ChunkSize) :
    ∃ s f r,
      ColumnsBefore E g c X Y = some s ∧
      s.FillColumn c X Y (ColumnHeightOf E s c X Y) = some f ∧
      (∀ Z, 0 ≤ Z → Z < ColumnHeightOf E s c X Y →
        f.GetBlockInternal c ⟨X, Y, Z⟩
          = if Z = ColumnHeightOf E s c X Y - 1 then Grass
            else if Z < ColumnHeightOf E s c X Y - 4 then Stone else Dirt) ∧
      (1 ≤ ColumnHeightOf E s c X Y →
        f.GetBlockInternal c ⟨X, Y, ColumnHeightOf E s c X Y - 1⟩ = Grass) ∧
      (2 ≤ ColumnHeightOf E s c X Y →
        f.GetBlockInternal c ⟨X, Y, ColumnHeightOf E s c X Y - 2⟩ = Dirt) ∧
      GenerateColumn E c (s.ChunkSeedModifierOf c) X s Y
        = RollTree E c (ColumnHeightOf E s c X Y) X Y f ∧
      GenerateChunk E g c
        = (GenerateColumn E c (s.ChunkSeedModifierOf c) X s Y).bind
            (ColumnsAfter E c (s.ChunkSeedModifierOf c) X Y) ∧
      GenerateChunk E g c = some r ∧ ∀ c2, CountsCoverBatches r c2 := by
  obtain ⟨hI1, hI2, hI3⟩ := InitializeChunkISMs_keeps g c hcnt
  have hP2 : (∀ c2, CountsCoverBatches
        ({ g.InitializeChunkISMs c with
          ChunksInfo := TMap.Add (g.InitializeChunkISMs c).ChunksInfo c ⟨true⟩ } :
          ARandomMapGenerator) c2) ∧
      ({ g.InitializeChunkISMs c with
          ChunksInfo := TMap.Add (g.InitializeChunkISMs c).ChunksInfo c ⟨true⟩ } :
          ARandomMapGenerator).ChunkSize = g.ChunkSize ∧
      ({ g.InitializeChunkISMs c with
          ChunksInfo := TMap.Add (g.InitializeChunkISMs c).ChunksInfo c ⟨true⟩ } :
          ARandomMapGenerator).Seed = g.Seed := ⟨hI1, hI2, hI3⟩
  have hM0 : Int.tmod (c.X * 73 + c.Y * 31 + (g.InitializeChunkISMs c).Seed) 1000
      = g.ChunkSeedModifierOf c := by
    unfold ChunkSeedModifierOf
    rw [hI3]
  generalize hg2 : ({ g.InitializeChunkISMs c with
      ChunksInfo := TMap.Add (g.InitializeChunkISMs c).ChunksInfo c ⟨true⟩ } :
      ARandomMapGenerator) = g2 at hP2
  have hrows : ∀ (L : List Int) (s0 : ARandomMapGenerator),
      ((∀ c2, CountsCoverBatches s0 c2) ∧ s0.ChunkSize = g.ChunkSize ∧ s0.Seed = g.Seed) →
      ∃ r0, ForEach (fun (s : ARandomMapGenerator) (X2 : Int) =>
          ForEach (GenerateColumn E c (g.ChunkSeedModifierOf c) X2) (ForRange 0 s.ChunkSize) s)
          L s0 = some r0 ∧
        (∀ c2, CountsCoverBatches r0 c2) ∧ r0.ChunkSize = g.ChunkSize ∧ r0.Seed = g.Seed := by
    intro L s0 h0
    refine ForEach_returns _
      (fun s => (∀ c2, CountsCoverBatches s c2) ∧ s.ChunkSize = g.ChunkSize ∧ s.Seed = g.Seed)
      L s0 h0 ?_
    intro s1 X2 _ hs1
    exact ColumnRow_keeps E c g X2 _ s1 hs1
  obtain ⟨sX, hsX, hPX⟩ := hrows (ForRange 0 X) g2 hP2
  obtain ⟨s, hs, hPs⟩ := ColumnRow_keeps E c g X (ForRange 0 Y) sX hPX
  obtain ⟨f, r1, hf, hfcs, hlay, hcol, hPr1⟩ := GenerateColumn_keeps E c s X Y hPs.1
  have hPr1g : (∀ c2, CountsCoverBatches r1 c2) ∧ r1.ChunkSize = g.ChunkSize ∧
      r1.Seed = g.Seed := ⟨hPr1.1, hPr1.2.1.trans hPs.2.1, hPr1.2.2.trans hPs.2.2⟩
  obtain ⟨r2, hr2, hPr2⟩ := ColumnRow_keeps E c g X (ForRange (Y + 1) r1.ChunkSize) r1 hPr1g
  obtain ⟨r, hr, hPr⟩ := hrows (ForRange (X + 1) r2.ChunkSize) r2 hPr2
  have hMs : s.ChunkSeedModifierOf c = g.ChunkSeedModifierOf c := by
    unfold ChunkSeedModifierOf
    rw [hPs.2.2]
  have hcol2 : GenerateColumn E c (g.ChunkSeedModifierOf c) X s Y = some r1 := by
    rw [← hMs]; exact hcol
  have hBefore : ColumnsBefore E g c X Y = some s := by
    unfold ColumnsBefore
    simp only []
    rw [hM0, hg2, hsX]
    exact hs
  have hAfter : ColumnsAfter E c (g.ChunkSeedModifierOf c) X Y r1 = some r := by
    unfold ColumnsAfter
    rw [hr2]
    exact hr
  have hrow : ForEach (GenerateColumn E c (g.ChunkSeedModifierOf c) X)
      (ForRange 0 sX.ChunkSize) sX = some r2 := by
    rw [ForRange_split 0 Y sX.ChunkSize hY.1 (by rw [hPX.2.1]; exact hY.2), ForEach_append, hs]
    simp only [Option.bind, ForEach]
    rw [hcol2]
    simp only []
    rw [hPX.2.1, ← hPr1g.2.1]
    exact hr2
  have hChunk : GenerateChunk E g c = some r := by
    unfold GenerateChunk
    simp only []
    rw [hM0, hg2, hI2]
    rw [ForRange_split 0 X g.ChunkSize hX.1 hX.2, ForEach_append, hsX]
    simp only [Option.bind, ForEach]
    rw [hrow]
    simp only []
    rw [← hPr2.2.1]
    exact hr
  have hall : ∀ Z, 0 ≤ Z → Z < ColumnHeightOf E s c X Y →
      f.GetBlockInternal c ⟨X, Y, Z⟩
        = if Z = ColumnHeightOf E s c X Y - 1 then Grass
          else if Z < ColumnHeightOf E s c X Y - 4 then Stone else Dirt := by
    intro Z h0 h1
    rw [hlay Z h0 h1]
    rfl
  refine ⟨s, f, r, hBefore, hf, hall, ?_, ?_, ?_, ?_, hChunk, hPr.1⟩
  · intro h1
    rw [hall _ (by omega) (by omega)]
    simp
  · intro h2
    rw [hall _ (by omega) (by omega)]
    have e1 : ¬ (ColumnHeightOf E s c X Y - 2 = ColumnHeightOf E s c X Y - 1) := by omega
    have e2 : ¬ (ColumnHeightOf E s c X Y - 2 < ColumnHeightOf E s c X Y - 4) := by omega
    simp [e1, e2]
  · exact GenerateColumn_fill_roll E c s X Y f hf hfcs
  · rw [hChunk, hcol, hMs]
    exact hAfter.symm

/-! ### The chunk loops of the generation pipelines -/

/-- The generation write keeps the world size. -/
theorem WriteBlock_WorldSize (g r : ARandomMapGenerator) (c : FChunkCoord)
    (p : FBlockPosition) (t : EBlockType) (h : g.WriteBlock c p t = some r) :
    r.WorldSizeInChunks = g.WorldSizeInChunks :=
  StoreFrame_WorldSizeInChunks (StoreFrame_WriteBlock g r c p t h)

/-- The leaf step of `GenerateTree` keeps the world size. -/
theorem GenerateLeaf_WorldSize (E : FEngine) (c : FChunkCoord)
    (LocalX LocalY WorldZ TreeHeight LeafSize LX LY LeafHeight : Int)
    (g r : ARandomMapGenerator) (LZ : Int)
    (h : GenerateLeaf E c LocalX LocalY WorldZ TreeHeight LeafSize LX LY LeafHeight g LZ
      = some r) :
    r.WorldSizeInChunks = g.WorldSizeInChunks := by
  unfold GenerateLeaf at h
  by_cases h0 : LX = 0 ∧ LY = 0 ∧ LZ < LeafHeight
  · rw [if_pos h0] at h
    simp only [Option.some.injEq] at h
    rw [← h]
  · rw [if_neg h0] at h
    simp only [] at h
    by_cases hE : decide (|LX| = LeafSize ∨ |LY| = LeafSize) = true
    · simp only [hE, if_true, true_and] at h
      by_cases hgt : (DrawFraction E g).1 > 2 / 5
      · rw [if_pos hgt] at h
        simp only [Option.some.injEq] at h
        rw [← h]
        rfl
      · rw [if_neg hgt] at h
        split at h
        · have e := WriteBlock_WorldSize _ _ _ _ _ h
          exact e
        · simp only [Option.some.injEq] at h
          rw [← h]
          rfl
    · simp only [hE, Bool.false_eq_true, if_false, false_and] at h
      split at h
      · exact WriteBlock_WorldSize _ _ _ _ _ h
      · simp only [Option.some.injEq] at h
        rw [← h]

/-- The tree of one column keeps the world size. -/
theorem GenerateTree_WorldSize (E : FEngine) (WS : Int) (g r : ARandomMapGenerator)
    (WorldX WorldY WorldZ : Int) (hg : g.WorldSizeInChunks = WS)
    (h : GenerateTree E g WorldX WorldY WorldZ = some r) : r.WorldSizeInChunks = WS := by
  rw [GenerateTree_eq] at h
  split at h
  · cases h
  · rename_i g1 hg1
    have h1 : g1.WorldSizeInChunks = WS := by
      refine ForEach_invariant _ (fun s => s.WorldSizeInChunks = WS) _ _ g1 hg ?_ hg1
      intro s Z s2 _ hs hb
      simp only [] at hb
      by_cases hz : WorldZ + Z < s.ChunkHeight
      · rw [if_pos hz] at hb
        exact (WriteBlock_WorldSize _ _ _ _ _ hb).trans hs
      · rw [if_neg hz] at hb
        simp only [Option.some.injEq] at hb
        rw [← hb]
        exact hs
    refine ForEach_invariant _ (fun s => s.WorldSizeInChunks = WS) _ _ r h1 ?_ h
    intro s LX s2 _ hs hb
    refine ForEach_invariant _ (fun s => s.WorldSizeInChunks = WS) _ _ s2 hs ?_ hb
    intro s1 LY s3 _ hs1 hb1
    refine ForEach_invariant _ (fun s => s.WorldSizeInChunks = WS) _ _ s3 hs1 ?_ hb1
    intro s4 LZ s5 _ hs4 hb4
    exact (GenerateLeaf_WorldSize _ _ _ _ _ _ _ _ _ _ _ _ _ hb4).trans hs4

/-- The column body of `GenerateChunk` keeps the world size. -/
theorem GenerateColumn_WorldSize (E : FEngine) (WS : Int) (c : FChunkCoord) (M X : Int)
    (g r : ARandomMapGenerator) (Y : Int) (hg : g.WorldSizeInChunks = WS)
    (h : GenerateColumn E c M X g Y = some r) : r.WorldSizeInChunks = WS := by
  unfold GenerateColumn at h
  simp only [] at h
  split at h
  · cases h
  · rename_i g1 hg1
    have h1 : g1.WorldSizeInChunks = WS := by
      refine ForEach_invariant _ (fun s => s.WorldSizeInChunks = WS) _ _ g1 hg ?_ hg1
      intro s Z s2 _ hs hb
      exact (WriteBlock_WorldSize _ _ _ _ _ hb).trans hs
    split at h
    · exact GenerateTree_WorldSize E WS (DrawFraction E g1).2 r _ _ _ h1 h
    · simp only [Option.some.injEq] at h
      rw [← h]
      exact h1

/-- `GenerateChunk` keeps the world size. -/
theorem GenerateChunk_WorldSize (E : FEngine) (g r : ARandomMapGenerator) (c : FChunkCoord)
    (h : GenerateChunk E g c = some r) : r.WorldSizeInChunks = g.WorldSizeInChunks := by
  unfold GenerateChunk at h
  simp only [] at h
  have h0 : ({ g.InitializeChunkISMs c with
      ChunksInfo := TMap.Add (g.InitializeChunkISMs c).ChunksInfo c ⟨true⟩ } :
      ARandomMapGenerator).WorldSizeInChunks = g.WorldSizeInChunks := by
    unfold InitializeChunkISMs
    split <;> rfl
  refine ForEach_invariant _ (fun s => s.WorldSizeInChunks = g.WorldSizeInChunks) _ _ r h0 ?_ h
  intro s X s2 _ hs hb
  refine ForEach_invariant _ (fun s => s.WorldSizeInChunks = g.WorldSizeInChunks) _ _ s2 hs ?_ hb
  intro s1 Y s3 _ hs1 hb1
  exact GenerateColumn_WorldSize E _ c _ X s1 s3 Y hs1 hb1

/-- The chunk loops of `GenerateAllChunks`, written with the body `GenerateCountedChunk`. -/
theorem GenerateAllChunks_eq (E : FEngine) (g : ARandomMapGenerator) :
    GenerateAllChunks E g
      = ForEach (fun (s : ARandomMapGenerator) (X : Int) =>
          ForEach (GenerateCountedChunk E X) (ForRange 0 s.WorldSizeInChunks) s)
        (ForRange 0 g.WorldSizeInChunks) g := rfl

/-- `GenerateChunk` in a state whose registry entries all have a count for every batch: it
returns and keeps the property and the chunk size. -/
theorem GenerateChunk_returns (E : FEngine) (g : ARandomMapGenerator) (c : FChunkCoord)
    (hcnt : ∀ c2, CountsCoverBatches g c2) :
    ∃ r, GenerateChunk E g c = some r ∧ (∀ c2, CountsCoverBatches r c2) ∧
      r.ChunkSize = g.ChunkSize := by
  obtain ⟨hI1, hI2, hI3⟩ := InitializeChunkISMs_keeps g c hcnt
  have hP2 : (∀ c2, CountsCoverBatches
        ({ g.InitializeChunkISMs c with
          ChunksInfo := TMap.Add (g.InitializeChunkISMs c).ChunksInfo c ⟨true⟩ } :
          ARandomMapGenerator) c2) ∧
      ({ g.InitializeChunkISMs c with
          ChunksInfo := TMap.Add (g.InitializeChunkISMs c).ChunksInfo c ⟨true⟩ } :
          ARandomMapGenerator).ChunkSize = g.ChunkSize ∧
      ({ g.InitializeChunkISMs c with
          ChunksInfo := TMap.Add (g.InitializeChunkISMs c).ChunksInfo c ⟨true⟩ } :
          ARandomMapGenerator).Seed = g.Seed := ⟨hI1, hI2, hI3⟩
  have hM0 : Int.tmod (c.X * 73 + c.Y * 31 + (g.InitializeChunkISMs c).Seed) 1000
      = g.ChunkSeedModifierOf c := by
    unfold ChunkSeedModifierOf
    rw [hI3]
  generalize hg2 : ({ g.InitializeChunkISMs c with
      ChunksInfo := TMap.Add (g.InitializeChunkISMs c).ChunksInfo c ⟨true⟩ } :
      ARandomMapGenerator) = g2 at hP2
  obtain ⟨r, hr, hPr⟩ := ForEach_returns
    (fun (s : ARandomMapGenerator) (X2 : Int) =>
      ForEach (GenerateColumn E c (g.ChunkSeedModifierOf c) X2) (ForRange 0 s.ChunkSize) s)
    (fun s => (∀ c2, CountsCoverBatches s c2) ∧ s.ChunkSize = g.ChunkSize ∧ s.Seed = g.Seed)
    (ForRange 0 g.ChunkSize) g2 hP2
    (fun s1 X2 _ hs1 => ColumnRow_keeps E c g X2 _ s1 hs1)
  refine ⟨r, ?_, hPr.1, hPr.2.1⟩
  unfold GenerateChunk
  simp only []
  rw [hM0, hg2, hI2]
  exact hr

/-- The body of the chunk loops in a state whose registry entries all have a count for
every batch: it returns and keeps the property, the chunk size and the world size. -/
theorem GenerateCountedChunk_keeps (E : FEngine) (CS WS X : Int) (g : ARandomMapGenerator)
    (Y : Int)
    (hP : (∀ c2, CountsCoverBatches g c2) ∧ g.ChunkSize = CS ∧ g.WorldSizeInChunks = WS) :
    ∃ r, GenerateCountedChunk E X g Y = some r ∧
      (∀ c2, CountsCoverBatches r c2) ∧ r.ChunkSize = CS ∧ r.WorldSizeInChunks = WS := by
  obtain ⟨r, hr, hc, hcs⟩ := GenerateChunk_returns E g ⟨X, Y⟩ hP.1
  have hws := GenerateChunk_WorldSize E g r ⟨X, Y⟩ hr
  refine ⟨{ r with ChunksGenerated := r.ChunksGenerated + 1 }, ?_, ?_, hcs.trans hP.2.1,
    hws.trans hP.2.2⟩
  · unfold GenerateCountedChunk
    rw [hr]
  · intro c2 d hd
    exact hc c2 d hd

/-- A row of the chunk loops, and any number of rows, in a state whose registry entries
all have a count for every batch: they return and keep the property, the chunk size and
the world size. -/
theorem ChunkRows_keep (E : FEngine) (CS WS : Int) :
    (∀ (X : Int) (L : List Int) (s : ARandomMapGenerator),
      ((∀ c2, CountsCoverBatches s c2) ∧ s.ChunkSize = CS ∧ s.WorldSizeInChunks = WS) →
      ∃ r, ForEach (GenerateCountedChunk E X) L s = some r ∧
        (∀ c2, CountsCoverBatches r c2) ∧ r.ChunkSize = CS ∧ r.WorldSizeInChunks = WS) ∧
    (∀ (L : List Int) (s : ARandomMapGenerator),
      ((∀ c2, CountsCoverBatches s c2) ∧ s.ChunkSize = CS ∧ s.WorldSizeInChunks = WS) →
      ∃ r, ForEach (fun (s1 : ARandomMapGenerator) (X : Int) =>
          ForEach (GenerateCountedChunk E X) (ForRange 0 s1.WorldSizeInChunks) s1) L s
          = some r ∧
        (∀ c2, CountsCoverBatches r c2) ∧ r.ChunkSize = CS ∧ r.WorldSizeInChunks = WS) := by
  have hrow : ∀ (X : Int) (L : List Int) (s : ARandomMapGenerator),
      ((∀ c2, CountsCoverBatches s c2) ∧ s.ChunkSize = CS ∧ s.WorldSizeInChunks = WS) →
      ∃ r, ForEach (GenerateCountedChunk E X) L s = some r ∧
        (∀ c2, CountsCoverBatches r c2) ∧ r.ChunkSize = CS ∧ r.WorldSizeInChunks = WS := by
    intro X L s hs
    exact ForEach_returns _
      (fun s => (∀ c2, CountsCoverBatches s c2) ∧ s.ChunkSize = CS ∧ s.WorldSizeInChunks = WS)
      L s hs (fun s1 Y _ hs1 => GenerateCountedChunk_keeps E CS WS X s1 Y hs1)
  refine ⟨hrow, ?_⟩
  intro L s hs
  exact ForEach_returns _
    (fun s => (∀ c2, CountsCoverBatches s c2) ∧ s.ChunkSize = CS ∧ s.WorldSizeInChunks = WS)
    L s hs (fun s1 X _ hs1 => hrow X _ s1 hs1)

/-- C19: in a generation run, whose chunk loops start from the empty registry,
`GenerateAllChunks` returns, and for every chunk (CX, CY) of the world and every column
(X, Y) of the chunk, with g0 the state in which the chunk loops reach the chunk, s the
state in which the loops of `GenerateChunk` reach the column and h the terrain height
computed there: the column fill returns a state f in which the block store holds, for
every 0 <= Z < h, Grass when Z = h-1, Stone when Z < h-4 and Dirt otherwise (so the top
layer is Grass and, when h >= 2, the layer below it is Dirt); the loop body of the column
is the fill followed by the tree roll on f, `GenerateChunk` is that body followed by the
remaining columns, and `GenerateAllChunks` is `GenerateChunk` on g0 followed by the
remaining chunks. -/
theorem C19_column_fill_layers (E : FEngine) (g : ARandomMapGenerator)
    (CX CY X Y : Int) (hreg : g.ChunkISMSystem = [])
    (hCX : 0 ≤ CX ∧ CX < g.WorldSizeInChunks) (hCY : 0 ≤ CY ∧ CY < g.WorldSizeInChunks)
    (hX : 0 ≤ X ∧ X < g.ChunkSize) (hY : 0 ≤ Y ∧ Y < g.ChunkSize) :
    ∃ g0 s f,
      ChunksBefore E g CX CY = some g0 ∧
      GenerateAllChunks E g = (GenerateChunk E g0 ⟨CX, CY⟩).bind (ChunksAfter E CX CY) ∧
      (GenerateAllChunks E g).isSome = true ∧
      ColumnsBefore E g0 ⟨CX, CY⟩ X Y = some s ∧
      s.FillColumn ⟨CX, CY⟩ X Y (ColumnHeightOf E s ⟨CX, CY⟩ X Y) = some f ∧
      (∀ Z, 0 ≤ Z → Z < ColumnHeightOf E s ⟨CX, CY⟩ X Y →
        f.GetBlockInternal ⟨CX, CY⟩ ⟨X, Y, Z⟩
          = if Z = ColumnHeightOf E s ⟨CX, CY⟩ X Y - 1 then Grass
            else if Z < ColumnHeightOf E s ⟨CX, CY⟩ X Y - 4 then Stone else Dirt) ∧
      (1 ≤ ColumnHeightOf E s ⟨CX, CY⟩ X Y →
        f.GetBlockInternal ⟨CX, CY⟩ ⟨X, Y, ColumnHeightOf E s ⟨CX, CY⟩ X Y - 1⟩ = Grass) ∧
      (2 ≤ ColumnHeightOf E s ⟨CX, CY⟩ X Y →
        f.GetBlockInternal ⟨CX, CY⟩ ⟨X, Y, ColumnHeightOf E s ⟨CX, CY⟩ X Y - 2⟩ = Dirt) ∧
      GenerateColumn E ⟨CX, CY⟩ (s.ChunkSeedModifierOf ⟨CX, CY⟩) X s Y
        = RollTree E ⟨CX, CY⟩ (ColumnHeightOf E s ⟨CX, CY⟩ X Y) X Y f ∧
      GenerateChunk E g0 ⟨CX, CY⟩
        = (GenerateColumn E ⟨CX, CY⟩ (s.ChunkSeedModifierOf ⟨CX, CY⟩) X s Y).bind
            (ColumnsAfter E ⟨CX, CY⟩ (s.ChunkSeedModifierOf ⟨CX, CY⟩) X Y) ∧
      (GenerateChunk E g0 ⟨CX, CY⟩).isSome = true := by
  have hP0 : (∀ c2, CountsCoverBatches g c2) ∧ g.ChunkSize = g.ChunkSize ∧
      g.WorldSizeInChunks = g.WorldSizeInChunks := by
    refine ⟨?_, rfl, rfl⟩
    intro c2 d hd
    rw [hreg] at hd
    cases hd
  obtain ⟨hrow, hrows⟩ := ChunkRows_keep E g.ChunkSize g.WorldSizeInChunks
  obtain ⟨sX, hsX, hPX⟩ := hrows (ForRange 0 CX) g hP0
  obtain ⟨g0, hg0, hPg0⟩ := hrow CX (ForRange 0 CY) sX hPX
  obtain ⟨s, f, r, hB, hf, hall, htop, hbelow, hcol, hchunk, hret, _⟩ :=
    GenerateChunk_column_fill E g0 ⟨CX, CY⟩ X Y hPg0.1 (by rw [hPg0.2.1]; exact hX)
      (by rw [hPg0.2.1]; exact hY)
  obtain ⟨r1, hr1, hPr1⟩ :=
    GenerateCountedChunk_keeps E g.ChunkSize g.WorldSizeInChunks CX g0 CY hPg0
  have hr1e : r1 = { r with ChunksGenerated := r.ChunksGenerated + 1 } := by
    unfold GenerateCountedChunk at hr1
    rw [hret] at hr1
    simp only [Option.some.injEq] at hr1
    exact hr1.symm
  obtain ⟨r2, hr2, hPr2⟩ := hrow CX (ForRange (CY + 1) r1.WorldSizeInChunks) r1 hPr1
  obtain ⟨r3, hr3, _⟩ := hrows (ForRange (CX + 1) r2.WorldSizeInChunks) r2 hPr2
  have hBefore : ChunksBefore E g CX CY = some g0 := by
    unfold ChunksBefore
    rw [hsX]
    exact hg0
  have hAfter : ChunksAfter E CX CY r = some r3 := by
    rw [hr1e] at hr2
    unfold ChunksAfter
    simp only [] at hr2 ⊢
    rw [hr2]
    exact hr3
  have hrowX : ForEach (GenerateCountedChunk E CX) (ForRange 0 sX.WorldSizeInChunks) sX
      = some r2 := by
    rw [ForRange_split 0 CY sX.WorldSizeInChunks hCY.1 (by rw [hPX.2.2]; exact hCY.2),
      ForEach_append, hg0]
    simp only [Option.bind, ForEach]
    rw [hr1]
    simp only []
    rw [hPX.2.2, ← hPr1.2.2]
    exact hr2
  have hAll : GenerateAllChunks E g = some r3 := by
    rw [GenerateAllChunks_eq, ForRange_split 0 CX g.WorldSizeInChunks hCX.1 hCX.2,
      ForEach_append, hsX]
    simp only [Option.bind, ForEach]
    rw [hrowX]
    simp only []
    rw [← hPr2.2.2]
    exact hr3
  refine ⟨g0, s, f, hBefore, ?_, ?_, hB, hf, hall, htop, hbelow, hcol, hchunk, ?_⟩
  · rw [hAll, hret]
    exact hAfter.symm
  · rw [hAll]
    rfl
  · rw [hret]
    rfl

set_option maxRecDepth 100000 in
/-- C19 on the sample world of one chunk of 2 x 2 columns, whose registry is empty, for the
column (1,1) of chunk (0,0). -/
theorem C19_column_fill_layers_witness :
    (SmallWorld.ChunkISMSystem = [] ∧ (0 ≤ (0 : Int) ∧ 0 < SmallWorld.WorldSizeInChunks) ∧
      (0 ≤ (1 : Int) ∧ 1 < SmallWorld.ChunkSize)) ∧
    ∃ g0 s f,
      ChunksBefore SampleEngine SmallWorld 0 0 = some g0 ∧
      GenerateAllChunks SampleEngine SmallWorld
        = (GenerateChunk SampleEngine g0 ⟨0, 0⟩).bind (ChunksAfter SampleEngine 0 0) ∧
      (GenerateAllChunks SampleEngine SmallWorld).isSome = true ∧
      ColumnsBefore SampleEngine g0 ⟨0, 0⟩ 1 1 = some s ∧
      s.FillColumn ⟨0, 0⟩ 1 1 (ColumnHeightOf SampleEngine s ⟨0, 0⟩ 1 1) = some f ∧
      (∀ Z, 0 ≤ Z → Z < ColumnHeightOf SampleEngine s ⟨0, 0⟩ 1 1 →
        f.GetBlockInternal ⟨0, 0⟩ ⟨1, 1, Z⟩
          = if Z = ColumnHeightOf SampleEngine s ⟨0, 0⟩ 1 1 - 1 then Grass
            else if Z < ColumnHeightOf SampleEngine s ⟨0, 0⟩ 1 1 - 4 then Stone else Dirt) ∧
      (1 ≤ ColumnHeightOf SampleEngine s ⟨0, 0⟩ 1 1 →
        f.GetBlockInternal ⟨0, 0⟩ ⟨1, 1, ColumnHeightOf SampleEngine s ⟨0, 0⟩ 1 1 - 1⟩ = Grass) ∧
      (2 ≤ ColumnHeightOf SampleEngine s ⟨0, 0⟩ 1 1 →
        f.GetBlockInternal ⟨0, 0⟩ ⟨1, 1, ColumnHeightOf SampleEngine s ⟨0, 0⟩ 1 1 - 2⟩ = Dirt) ∧
      GenerateColumn SampleEngine ⟨0, 0⟩ (s.ChunkSeedModifierOf ⟨0, 0⟩) 1 s 1
        = RollTree SampleEngine ⟨0, 0⟩ (ColumnHeightOf SampleEngine s ⟨0, 0⟩ 1 1) 1 1 f ∧
      GenerateChunk SampleEngine g0 ⟨0, 0⟩
        = (GenerateColumn SampleEngine ⟨0, 0⟩ (s.ChunkSeedModifierOf ⟨0, 0⟩) 1 s 1).bind
            (ColumnsAfter SampleEngine ⟨0, 0⟩ (s.ChunkSeedModifierOf ⟨0, 0⟩) 1 1) ∧
      (GenerateChunk SampleEngine g0 ⟨0, 0⟩).isSome = true :=
  ⟨⟨rfl, by decide!, by decide!⟩,
    C19_column_fill_layers SampleEngine SmallWorld 0 0 1 1 rfl (by decide!) (by decide!)
      (by decide!) (by decide!)⟩

/-! ### Cave system on a generated border -/

set_option maxRecDepth 100000 in
/-- C20: the authority generates `BorderCaveWorld` (one cave per edge) with the
step noise. The run reaches `GenerateCaveSystem` after the four mountain ranges, and the
call does not return, so no registry of 4 entries is produced and the whole generation
aborts: rock columns of two caves are written over the same mountain column without
removal of the instances already there, and the tunnel of the east cave then removes an
instance from a batch whose last index has no key. -/
theorem C20_cave_system_aborts_on_generated_border :
    ((MountainRangesStage StepNoiseEngine BorderCaveWorld).map (fun s =>
      (s.Authority, s.CavesPerEdge, (GenerateCaveSystem StepNoiseEngine s).isSome)),
     (ServerGenerateWorld_Implementation StepNoiseEngine BorderCaveWorld).isSome)
      = (some (true, 1, false), false) := by
  decide!

/-! ### Nearest block within the search radius -/

/-- Rounding is idempotent: a rounded value is a binary32 number. -/
theorem F32.Round_idem (q : ℚ) : F32.Round (F32.Round q) = F32.Round q := by
  by_cases h0 : q = 0
  · rw [h0, F32.Round_zero, F32.Round_zero]
  · rw [F32.Round_eq q h0]
    have hp := F32.Pow2_pos (F32.Exponent q)
    have hlt := F32.abs_lt_grid q h0
    have he149 : -149 ≤ F32.Exponent q := F32.Exponent_ge q
    generalize F32.Exponent q = e at hp hlt he149
    have hq : |q / F32.Pow2 e| < ((16777216 : Int) : ℚ) := by
      rw [abs_div, abs_of_pos hp, div_lt_iff₀ hp, ← F32.Pow2_24]
      exact hlt
    have hm1 : F32.RoundHalfEven (q / F32.Pow2 e) ≤ 16777216 :=
      F32.RoundHalfEven_le _ _ (le_of_lt (lt_of_le_of_lt (le_abs_self _) hq))
    have hm2 : -16777216 ≤ F32.RoundHalfEven (q / F32.Pow2 e) := by
      apply F32.RoundHalfEven_ge
      have := neg_abs_le (q / F32.Pow2 e)
      push_cast at hq ⊢
      linarith
    generalize F32.RoundHalfEven (q / F32.Pow2 e) = m at hm1 hm2
    have p1 : F32.Pow2 (e + 1) = F32.Pow2 e * 2 := by
      rw [F32.Pow2_add]
      unfold F32.Pow2
      norm_num
    by_cases hlt2 : |m| < 16777216
    · exact F32.Round_dyadic m e hlt2 he149
    · have hm : m = 16777216 ∨ m = -16777216 := by
        rcases le_or_lt 0 m with h | h
        · left
          rw [abs_of_nonneg h] at hlt2
          omega
        · right
          rw [abs_of_neg h] at hlt2
          omega
      rcases hm with e1 | e1
      · have := F32.Round_dyadic 8388608 (e + 1) (by norm_num) (by omega)
        rw [p1] at this
        have e2 : ((16777216 : Int) : ℚ) * F32.Pow2 e
            = ((8388608 : Int) : ℚ) * (F32.Pow2 e * 2) := by
          push_cast
          ring
        rw [e1, e2]
        exact this
      · have := F32.Round_dyadic (-8388608) (e + 1) (by norm_num) (by omega)
        rw [p1] at this
        have e2 : ((-16777216 : Int) : ℚ) * F32.Pow2 e
            = ((-8388608 : Int) : ℚ) * (F32.Pow2 e * 2) := by
          push_cast
          ring
        rw [e1, e2]
        exact this

/-- A single-precision squared distance below the rounded square of `D` bounds the
single-precision coordinate differences in X and in Y by `D`. -/
theorem DistSquared_component (V1 V2 : FVector) (D : ℚ) (hD : 0 ≤ D)
    (h : FVector.DistSquared V1 V2 < F32.Round (D * D)) :
    |F32.Round (V2.X - V1.X)| < D ∧ |F32.Round (V2.Y - V1.Y)| < D := by
  unfold FVector.DistSquared at h
  have ia := F32.Round_idem (F32.Round (V2.X - V1.X) * F32.Round (V2.X - V1.X))
  have ib := F32.Round_idem (F32.Round (V2.Y - V1.Y) * F32.Round (V2.Y - V1.Y))
  have ha0 := F32.Round_nonneg _ (mul_self_nonneg (F32.Round (V2.X - V1.X)))
  have hb0 := F32.Round_nonneg _ (mul_self_nonneg (F32.Round (V2.Y - V1.Y)))
  have hc0 := F32.Round_nonneg _ (mul_self_nonneg (F32.Round (V2.Z - V1.Z)))
  generalize hae : F32.Round (F32.Round (V2.X - V1.X) * F32.Round (V2.X - V1.X)) = a
    at h ia ha0
  generalize hbe : F32.Round (F32.Round (V2.Y - V1.Y) * F32.Round (V2.Y - V1.Y)) = b
    at h ib hb0
  generalize F32.Round (F32.Round (V2.Z - V1.Z) * F32.Round (V2.Z - V1.Z)) = c at h hc0
  have is := F32.Round_idem (a + b)
  have hab : a ≤ F32.Round (a + b) := by
    have := F32.Round_mono a (a + b) (by linarith)
    rwa [ia] at this
  have hbb : b ≤ F32.Round (a + b) := by
    have := F32.Round_mono b (a + b) (by linarith)
    rwa [ib] at this
  have hs : F32.Round (a + b) ≤ F32.Round (F32.Round (a + b) + c) := by
    have := F32.Round_mono (F32.Round (a + b)) (F32.Round (a + b) + c) (by linarith)
    rwa [is] at this
  have key : ∀ d : ℚ, F32.Round (d * d) < F32.Round (D * D) → |d| < D := by
    intro d hd
    by_contra hn
    have hn2 : D ≤ |d| := not_lt.1 hn
    have h2 : D * D ≤ d * d := by
      have := mul_self_le_mul_self hD hn2
      rwa [abs_mul_abs_self] at this
    exact absurd (F32.Round_mono _ _ h2) (not_le.2 hd)
  refine ⟨key _ ?_, key _ ?_⟩
  · rw [hae]
    exact lt_of_le_of_lt (hab.trans hs) h
  · rw [hbe]
    exact lt_of_le_of_lt (hbb.trans hs) h

/-- A value whose rounding is below `D` in magnitude is below `D` up to the rounding
error. -/
theorem abs_le_of_Round_lt (q D : ℚ) (h : |F32.Round q| < D) :
    |q| ≤ (D + 1 / 2 ^ 150) * (1 + 1 / 8388608) := by
  have h1 := F32.Round_rel q
  have h2 : |q| ≤ |F32.Round q| + |F32.Round q - q| := by
    have := abs_sub_abs_le_abs_sub q (F32.Round q)
    rw [abs_sub_comm q] at this
    linarith
  have h3 : 0 ≤ |q| := abs_nonneg _
  linarith

/-- Two values at most `D2` apart, one of them of magnitude at most `Q`, have roundings
at most `D2` and two rounding errors apart. -/
theorem shifted_gap_core (R : ℚ → ℚ) (q0 q1 D2 Q : ℚ)
    (hmono : ∀ x y : ℚ, x ≤ y → R x ≤ R y)
    (hR : ∀ q M : ℚ, |q| ≤ M →
      q - (M / 16777216 + 1 / 2 ^ 150) ≤ R q ∧ R q ≤ q + (M / 16777216 + 1 / 2 ^ 150))
    (hD2 : 0 ≤ D2) (hQ : |q0| ≤ Q) (h : |q1 - q0| ≤ D2) :
    |R q1 - R q0| ≤ D2 + 2 * ((Q + D2) / 16777216 + 1 / 2 ^ 150) := by
  obtain ⟨h1, h2⟩ := abs_le.1 h
  obtain ⟨hq1, hq2⟩ := abs_le.1 hQ
  have hQD : Q ≤ Q + D2 := by linarith
  have b0 := hR q0 (Q + D2) (le_trans hQ hQD)
  have bu := hR (q0 + D2) (Q + D2) (by rw [abs_le]; constructor <;> linarith)
  have bl := hR (q0 - D2) (Q + D2) (by rw [abs_le]; constructor <;> linarith)
  have mu := hmono q1 (q0 + D2) (by linarith)
  have ml := hmono (q0 - D2) q1 (by linarith)
  rw [abs_le]
  constructor <;> linarith [b0.1, b0.2, bu.2, bl.1]

/-- The single-precision quotients by `W` of two values a gap `G` apart differ by at most
`T` when the gap and the rounding errors fit into `T` extents `W`. -/
theorem quotient_gap_core (R : ℚ → ℚ) (x0 x1 W G X0 X1 T : ℚ)
    (hR : ∀ q M : ℚ, |q| ≤ M →
      q - (M / 16777216 + 1 / 2 ^ 150) ≤ R q ∧ R q ≤ q + (M / 16777216 + 1 / 2 ^ 150))
    (hW : 0 < W) (hx0 : |x0| ≤ X0) (hx1 : |x1| ≤ X1) (hG : x1 - x0 ≤ G)
    (hT : G + (X0 + X1) / 16777216 + 2 * W / 2 ^ 150 ≤ T * W) :
    R (x1 / W) - R (x0 / W) ≤ T := by
  have a1 : |x1 / W| ≤ X1 / W := by
    rw [abs_div, abs_of_pos hW]
    exact div_le_div_of_nonneg_right hx1 (le_of_lt hW)
  have a0 : |x0 / W| ≤ X0 / W := by
    rw [abs_div, abs_of_pos hW]
    exact div_le_div_of_nonneg_right hx0 (le_of_lt hW)
  have b1 := (hR (x1 / W) (X1 / W) a1).2
  have b0 := (hR (x0 / W) (X0 / W) a0).1
  have key : (x1 - x0 + (X0 + X1) / 16777216 + 2 * W / 2 ^ 150) / W ≤ T := by
    rw [div_le_iff₀ hW]
    linarith
  have e : (x1 - x0 + (X0 + X1) / 16777216 + 2 * W / 2 ^ 150) / W
      = x1 / W - x0 / W + (X1 / W / 16777216 + 1 / 2 ^ 150)
        + (X0 / W / 16777216 + 1 / 2 ^ 150) := by
    field_simp
    ring
  rw [e] at key
  linarith

/-- Floors of two values at most the integer `t` apart are at most `t` apart. -/
theorem floor_gap (u v : ℚ) (t : Int) (h : u - v ≤ (t : ℚ)) :
    Int.floor u - Int.floor v ≤ t := by
  have h1 : ((Int.floor u : Int) : ℚ) ≤ u := Int.floor_le u
  have h2 : v < ((Int.floor v : Int) : ℚ) + 1 := Int.lt_floor_add_one v
  have h3 : ((Int.floor u - Int.floor v : Int) : ℚ) < ((t + 1 : Int) : ℚ) := by
    push_cast
    linarith
  have h4 : Int.floor u - Int.floor v < t + 1 := by exact_mod_cast h3
  omega

/-- The chunk indices computed for two shifted coordinates at most `D` apart (up to the
rounding error) differ by at most the search radius derived from `D`: `W` is the chunk
extent used by the chunk conversion, `WB` the one used for the radius. -/
theorem search_axis_core (R : ℚ → ℚ) (q0 q1 D W WB Q X1 : ℚ)
    (hmono : ∀ x y : ℚ, x ≤ y → R x ≤ R y)
    (hR : ∀ q M : ℚ, |q| ≤ M →
      q - (M / 16777216 + 1 / 2 ^ 150) ≤ R q ∧ R q ≤ q + (M / 16777216 + 1 / 2 ^ 150))
    (hint : R 1048576 = 1048576)
    (hD : 0 ≤ D) (hW : 1 / 1000 ≤ W) (hWB0 : 0 < WB)
    (hWB : WB ≤ W * (1 + 6 / 16777216))
    (hq : |q1 - q0| ≤ (D + 1 / 2 ^ 150) * (1 + 1 / 8388608))
    (hQ : |q0| ≤ Q) (hQW : Q ≤ 262145 * W)
    (hx1 : |R q1| ≤ X1) (hXW : X1 ≤ 524289 * W) :
    Int.floor (R (R q1 / W)) - Int.floor (R (R q0 / W)) ≤ Int.ceil (R (D / WB)) + 1 ∧
    Int.floor (R (R q0 / W)) - Int.floor (R (R q1 / W)) ≤ Int.ceil (R (D / WB)) + 1 := by
  have hW0 : 0 < W := by linarith
  have hQ0 : 0 ≤ Q := le_trans (abs_nonneg _) hQ
  have hX10 : 0 ≤ X1 := le_trans (abs_nonneg _) hx1
  have hD2 : 0 ≤ (D + 1 / 2 ^ 150) * (1 + 1 / 8388608) := le_trans (abs_nonneg _) hq
  have hx0 : |R q0| ≤ Q + (Q / 16777216 + 1 / 2 ^ 150) := by
    obtain ⟨b1, b2⟩ := hR q0 Q hQ
    obtain ⟨c1, c2⟩ := abs_le.1 hQ
    rw [abs_le]
    constructor <;> linarith
  have hgap := shifted_gap_core R q0 q1 _ Q hmono hR hD2 hQ hq
  obtain ⟨g1, g2⟩ := abs_le.1 hgap
  have hy0 : 0 ≤ D / WB := div_nonneg hD (le_of_lt hWB0)
  have hceil : R (D / WB) ≤ ((Int.ceil (R (D / WB)) : Int) : ℚ) := Int.le_ceil _
  by_cases hcase : D ≤ 1048576 * WB
  · have hy : D / WB * WB = D := div_mul_cancel₀ D (ne_of_gt hWB0)
    have hρ := (hR (D / WB) (D / WB) (le_of_eq (abs_of_nonneg hy0))).1
    have hρW := mul_le_mul_of_nonneg_right hρ (le_of_lt hW0)
    have hyW := mul_le_mul_of_nonneg_left hWB hy0
    rw [hy] at hyW
    have hT : (D + 1 / 2 ^ 150) * (1 + 1 / 8388608)
          + 2 * ((Q + (D + 1 / 2 ^ 150) * (1 + 1 / 8388608)) / 16777216 + 1 / 2 ^ 150)
          + ((Q + (Q / 16777216 + 1 / 2 ^ 150)) + X1) / 16777216 + 2 * W / 2 ^ 150
        ≤ (R (D / WB) + 1) * W := by
      linarith
    have hT2 : (D + 1 / 2 ^ 150) * (1 + 1 / 8388608)
          + 2 * ((Q + (D + 1 / 2 ^ 150) * (1 + 1 / 8388608)) / 16777216 + 1 / 2 ^ 150)
          + (X1 + (Q + (Q / 16777216 + 1 / 2 ^ 150))) / 16777216 + 2 * W / 2 ^ 150
        ≤ (R (D / WB) + 1) * W := by
      linarith
    have u1 := quotient_gap_core R (R q0) (R q1) W _ _ X1 (R (D / WB) + 1) hR hW0 hx0 hx1
      (by linarith) hT
    have u2 := quotient_gap_core R (R q1) (R q0) W _ X1 _ (R (D / WB) + 1) hR hW0 hx1 hx0
      (by linarith) hT2
    constructor
    · apply floor_gap
      push_cast
      linarith
    · apply floor_gap
      push_cast
      linarith
  · have hlt : 1048576 * WB < D := not_le.1 hcase
    have hy1 : (1048576 : ℚ) ≤ D / WB := by
      rw [le_div_iff₀ hWB0]
      exact le_of_lt hlt
    have hρ : (1048576 : ℚ) ≤ R (D / WB) := by
      have := hmono _ _ hy1
      rwa [hint] at this
    have hT : (Q + (Q / 16777216 + 1 / 2 ^ 150)) + X1
          + ((Q + (Q / 16777216 + 1 / 2 ^ 150)) + X1) / 16777216 + 2 * W / 2 ^ 150
        ≤ 1048577 * W := by
      linarith
    have hT2 : (Q + (Q / 16777216 + 1 / 2 ^ 150)) + X1
          + (X1 + (Q + (Q / 16777216 + 1 / 2 ^ 150))) / 16777216 + 2 * W / 2 ^ 150
        ≤ 1048577 * W := by
      linarith
    obtain ⟨a1, a2⟩ := abs_le.1 hx0
    obtain ⟨a3, a4⟩ := abs_le.1 hx1
    have u1 := quotient_gap_core R (R q0) (R q1) W _ _ X1 1048577 hR hW0 hx0 hx1
      (by linarith) hT
    have u2 := quotient_gap_core R (R q1) (R q0) W _ X1 _ 1048577 hR hW0 hx1 hx0
      (by linarith) hT2
    constructor
    · apply floor_gap
      push_cast
      linarith
    · apply floor_gap
      push_cast
      linarith

/-- The extents and magnitudes of the nearest-block search within the margin: the chunk
extent `Wf` of the chunk conversion is at least `0.001` and at least the extent `WB` of the
radius up to six rounding errors, the shifted origin lies within `2 ^ 18 + 1` extents and
a shifted block centre within `2 ^ 19 + 1`. -/
theorem search_extent_core (n α B S Ef Wf WB ε s : ℚ)
    (hB : 1 / 500 < B) (hS : 0 ≤ S) (hn : 1 ≤ n) (hN : α + n + 2 ≤ 524288)
    (hE1 : (B + S) * (1 - 1 / 8388608) ≤ Ef)
    (hW1 : n * Ef - (n * Ef / 16777216 + 1 / 2 ^ 150) ≤ Wf)
    (hB1 : n * B - (n * B / 16777216 + 1 / 2 ^ 150) ≤ WB)
    (hB2 : WB ≤ n * B + (n * B / 16777216 + 1 / 2 ^ 150))
    (hε : ε = 8589935 / 8589934592)
    (hs : |s| ≤ 262144 * (n * (B + S))) :
    1 / 1000 ≤ Wf ∧ 0 < WB ∧ WB ≤ Wf * (1 + 6 / 16777216) ∧
    |s| + ε ≤ 262145 * Wf ∧ (α + 1) * Ef ≤ 524289 * Wf := by
  have hnB : B ≤ n * B := by nlinarith
  have hnS : 0 ≤ n * S := mul_nonneg (by linarith) hS
  have hnE1 : n * ((B + S) * (1 - 1 / 8388608)) ≤ n * Ef :=
    mul_le_mul_of_nonneg_left hE1 (by linarith)
  have hEf0 : 0 ≤ Ef := by nlinarith
  have hnEf : Ef ≤ n * Ef := by nlinarith
  have hαE : (α + 1) * Ef ≤ 524286 * Ef := mul_le_mul_of_nonneg_right (by linarith) hEf0
  refine ⟨?_, ?_, ?_, ?_, ?_⟩
  · nlinarith
  · nlinarith
  · nlinarith
  · rw [hε]
    nlinarith
  · nlinarith

/-- Along one axis, the chunk of a block within the margin whose single-precision
coordinate difference to the origin is below `D` lies within the chunk search radius of
the chunk of the origin. -/
theorem chunk_within_search_radius (g : ARandomMapGenerator) (s : ℚ) (c p : Int) (D : ℚ)
    (hB : 1 / 500 < g.BlockSize) (hS : 0 ≤ g.BlockSpacing) (hn : 1 ≤ g.ChunkSize)
    (hp0 : 0 ≤ p) (hp1 : p < g.ChunkSize)
    (hM : WithinCentreMargin g (c * g.ChunkSize + p))
    (hD : 0 ≤ D) (hs : WithinSearchRange g s)
    (hd : |F32.Round (g.BlockCentreOf (c * g.ChunkSize + p) - s)| < D) :
    Int.floor (F32.Round (F32.Round (s + F32.Round (1 / 1000))
        / F32.Round (F32.Round (g.ChunkSize : ℚ)
            * F32.Round (g.BlockSize + g.BlockSpacing)))) - g.ChunkSearchRadius D ≤ c ∧
    c ≤ Int.floor (F32.Round (F32.Round (s + F32.Round (1 / 1000))
        / F32.Round (F32.Round (g.ChunkSize : ℚ)
            * F32.Round (g.BlockSize + g.BlockSpacing)))) + g.ChunkSearchRadius D := by
  obtain ⟨hE0, hElo, _, hN, _⟩ :=
    margin_facts (c * g.ChunkSize + p) g.ChunkSize g.BlockSize g.BlockSpacing hB hS hn hM
  obtain ⟨hEpos, _, _⟩ :=
    margin_unit (c * g.ChunkSize + p) g.ChunkSize g.BlockSize g.BlockSpacing hB hS hn hM
  obtain ⟨hw1, hw2⟩ := centre_window g (c * g.ChunkSize + p) hB hS hn hM
  have hco := ChunkOf_BlockCentreOf g c p hB hS hn hp0 hp1 hM
  have hn1 : (1 : ℚ) ≤ (g.ChunkSize : ℚ) := by exact_mod_cast hn
  have hα0 : (0 : ℚ) ≤ ((|c * g.ChunkSize + p| : Int) : ℚ) := by exact_mod_cast abs_nonneg _
  have hnabs : |g.ChunkSize| ≤ 16777216 := by
    rw [abs_of_pos (by omega : (0 : Int) < g.ChunkSize)]
    have : (g.ChunkSize : ℚ) ≤ 16777216 := by linarith
    exact_mod_cast this
  have hint : F32.Round ((g.ChunkSize : Int) : ℚ) = (g.ChunkSize : ℚ) :=
    F32.Round_intCast _ hnabs
  have hC0 : 0 < (g.ChunkSize : ℚ) * F32.Round (g.BlockSize + g.BlockSpacing) :=
    mul_pos (by linarith) hEpos
  have hB0 : 0 < (g.ChunkSize : ℚ) * g.BlockSize := mul_pos (by linarith) (by linarith)
  have hWr := F32.Round_within _ _ (le_of_eq (abs_of_pos hC0))
  have hBr := F32.Round_within _ _ (le_of_eq (abs_of_pos hB0))
  obtain ⟨e1, e2, e3, e4, e5⟩ := search_extent_core (g.ChunkSize : ℚ)
    ((|c * g.ChunkSize + p| : Int) : ℚ) g.BlockSize g.BlockSpacing
    (F32.Round (g.BlockSize + g.BlockSpacing)) _ _ (F32.Round (1 / 1000)) s
    hB hS hn1 hN hElo hWr.1 hBr.1 hBr.2 F32.Round_epsilon hs
  have ha : |((c * g.ChunkSize + p : Int) : ℚ)| = ((|c * g.ChunkSize + p| : Int) : ℚ) :=
    (Int.cast_abs).symm
  obtain ⟨ha1, ha2⟩ := abs_le.1 (le_of_eq ha)
  have hU0 : (0 : ℚ) ≤ ((|c * g.ChunkSize + p| + g.ChunkSize + 2 : Int) : ℚ)
      * (g.BlockSize + g.BlockSpacing) / 16777216 := by
    have h0i : (0 : Int) ≤ |c * g.ChunkSize + p| + g.ChunkSize + 2 := by
      have := abs_nonneg (c * g.ChunkSize + p)
      omega
    have h0 : (0 : ℚ) ≤ ((|c * g.ChunkSize + p| + g.ChunkSize + 2 : Int) : ℚ) := by
      exact_mod_cast h0i
    exact div_nonneg (mul_nonneg h0 (le_of_lt hE0)) (by norm_num)
  have hx1 : |F32.Round (g.BlockCentreOf (c * g.ChunkSize + p) + F32.Round (1 / 1000))|
      ≤ (((|c * g.ChunkSize + p| : Int) : ℚ) + 1)
        * F32.Round (g.BlockSize + g.BlockSpacing) := by
    have m1 := mul_le_mul_of_nonneg_right ha1 (le_of_lt hEpos)
    have m2 := mul_le_mul_of_nonneg_right ha2 (le_of_lt hEpos)
    rw [abs_le]
    constructor <;> linarith
  have hε0 : (0 : ℚ) ≤ F32.Round (1 / 1000) := by
    rw [F32.Round_epsilon]
    norm_num
  have hq : |(g.BlockCentreOf (c * g.ChunkSize + p) + F32.Round (1 / 1000))
        - (s + F32.Round (1 / 1000))|
      ≤ (D + 1 / 2 ^ 150) * (1 + 1 / 8388608) := by
    have e : (g.BlockCentreOf (c * g.ChunkSize + p) + F32.Round (1 / 1000))
        - (s + F32.Round (1 / 1000)) = g.BlockCentreOf (c * g.ChunkSize + p) - s := by ring
    rw [e]
    exact abs_le_of_Round_lt _ D hd
  have hQ : |s + F32.Round (1 / 1000)| ≤ |s| + F32.Round (1 / 1000) := by
    have := abs_add s (F32.Round (1 / 1000))
    rwa [abs_of_nonneg hε0] at this
  have hint20 : F32.Round 1048576 = 1048576 := by
    have := F32.Round_intCast 1048576 (by norm_num)
    push_cast at this
    exact this
  have core := search_axis_core F32.Round (s + F32.Round (1 / 1000))
    (g.BlockCentreOf (c * g.ChunkSize + p) + F32.Round (1 / 1000)) D _ _ _ _
    F32.Round_mono F32.Round_within hint20 hD e1 e2 e3 hq hQ e4 hx1 e5
  unfold ChunkSearchRadius FMath.CeilToInt
  rw [hint] at hco ⊢
  rw [hco] at core
  omega

/-- The search over the chunks it visits, in single-precision distances: findNearestBlock
returns true if and only if some generated chunk within the derived chunk search radius of
the chunk of the origin holds, at a local position within chunk bounds, a non-Air block
matching the type (any non-Air block for ALL) whose block-centre squared distance to the
origin, computed in single precision, is strictly less than the single-precision square of
maxDistance; when it returns true the output is the centre of such a block, of minimal
single-precision squared distance among all such blocks of the searched chunks. -/
theorem FindNearestBlock_among_searched_chunks (g : ARandomMapGenerator)
    (Start : FVector) (Q : EBlockQuery) (D : ℚ) (Out : FVector) :
    ((g.FindNearestBlock Start Q D Out).1 = true ↔
      ∃ c p, IsSearchedChunk g Start D c ∧ IsQueryCandidate g Q c p ∧
        FVector.DistSquared Start (g.BlockToWorldPosition c p) < F32.Round (D * D)) ∧
    ((g.FindNearestBlock Start Q D Out).1 = true →
      ∃ c p, IsSearchedChunk g Start D c ∧ IsQueryCandidate g Q c p ∧
        (g.FindNearestBlock Start Q D Out).2 = g.BlockToWorldPosition c p ∧
        FVector.DistSquared Start (g.BlockToWorldPosition c p) < F32.Round (D * D) ∧
        ∀ c2 p2, IsSearchedChunk g Start D c2 → IsQueryCandidate g Q c2 p2 →
          FVector.DistSquared Start (g.BlockToWorldPosition c p)
            ≤ FVector.DistSquared Start (g.BlockToWorldPosition c2 p2)) := by
  have hmem : ∀ c p, IsSearchedChunk g Start D c → IsQueryCandidate g Q c p →
      (c, p) ∈ g.FindNearestCells Start D := by
    intro c p hs hc
    exact (mem_FindNearestCells g Start D c p).2
      ⟨hs.1, hs.2, hc.1, hc.2.1, hc.2.2.1, hc.2.2.2.1, hc.2.2.2.2.1, hc.2.2.2.2.2.1,
        hc.2.2.2.2.2.2.1⟩
  have hmatch : ∀ c p, IsQueryCandidate g Q c p →
      QueryMatches Q (g.GetBlockInternal c p) = true := by
    intro c p hc
    rw [QueryMatches_iff]
    exact ⟨hc.2.2.2.2.2.2.2.1, hc.2.2.2.2.2.2.2.2⟩
  obtain ⟨h1, _, h3⟩ := FindNearestStep_foldl g Start Q (g.FindNearestCells Start D)
    (F32.Round (D * D)) Out false
  unfold FindNearestBlock
  simp only []
  rcases h3 with ⟨hr, hall⟩ | ⟨a, ha, hm, hr, hlt⟩
  · rw [hr]
    simp only [Bool.false_eq_true, false_iff, false_implies, and_true]
    rintro ⟨c, p, hs, hc, hd⟩
    exact absurd hd (not_lt.2 (hall (c, p) (hmem c p hs hc) (hmatch c p hc)))
  · obtain ⟨c, p⟩ := a
    obtain ⟨hsX, hsY, hgen, hb⟩ := (mem_FindNearestCells g Start D c p).1 ha
    have hsearch : IsSearchedChunk g Start D c := ⟨hsX, hsY⟩
    have hcand : IsQueryCandidate g Q c p := by
      obtain ⟨hq1, hq2⟩ := (QueryMatches_iff Q _).1 hm
      exact ⟨hgen, hb.1, hb.2.1, hb.2.2.1, hb.2.2.2.1, hb.2.2.2.2.1, hb.2.2.2.2.2, hq1, hq2⟩
    rw [hr]
    simp only [true_iff, true_implies]
    refine ⟨⟨c, p, hsearch, hcand, hlt⟩, c, p, hsearch, hcand, rfl, hlt, ?_⟩
    intro c2 p2 hs2 hc2
    have := h1 (c2, p2) (hmem c2 p2 hs2 hc2) (hmatch c2 p2 hc2)
    rw [hr] at this
    exact this


end BaseDefense
